import Mathlib

/-!
# Tiny BASIC interpreter (`basic.c`): shallow embedding and verified properties

C strings are lists of characters; the terminating NUL is the end of the list, so
`*s` is `peek s` (NUL on the empty list) and `s++` is `List.drop 1`.

The C type `double` and its operations are a parameter of the embedding
(`Arith V`): the interpreter is translated once, for every arithmetic.  General
theorems hold for every `Arith`; example runs on small integers use `exact`, the
exact arithmetic on the rationals, and `binary64` is the arithmetic of IEEE 754
double precision with its rounding.  Values of the C type `int` are integers kept
in range by `to_int`.

`stdout` and `stderr` are modelled as two logs inside the state.
-/

namespace TinyBasic

/-! ## Characters and C library functions -/

/-- The character under a C cursor: NUL at the end of the string. -/
def peek (s : List Char) : Char := s.headD (Char.ofNat 0)

/-- The character `s[i]` of a C string whose first `i` characters are not NUL. -/
def at_ (s : List Char) (i : Nat) : Char := peek (s.drop i)

/-- C `isspace` in the C locale: space, and the controls `\t \n \v \f \r`. -/
def isspace (c : Char) : Bool := c.toNat == 32 || (9 ≤ c.toNat && c.toNat ≤ 13)

/-- C `isdigit`. -/
def isdigit (c : Char) : Bool := 48 ≤ c.toNat && c.toNat ≤ 57

/-- C `isalpha` in the C locale. -/
def isalpha (c : Char) : Bool :=
  (65 ≤ c.toNat && c.toNat ≤ 90) || (97 ≤ c.toNat && c.toNat ≤ 122)

/-- C `isxdigit`. -/
def isxdigit (c : Char) : Bool :=
  isdigit c || (65 ≤ c.toNat && c.toNat ≤ 70) || (97 ≤ c.toNat && c.toNat ≤ 102)

/-- C `toupper` in the C locale. -/
def toupper (c : Char) : Char :=
  if 97 ≤ c.toNat && c.toNat ≤ 122 then Char.ofNat (c.toNat - 32) else c

/-- The test `strncasecmp(s, kw, strlen(kw)) == 0` for an upper-case keyword `kw`. -/
def strncasecmp_eq (s kw : List Char) : Bool := (s.take kw.length).map toupper == kw

/-- Source `skip_spaces`: advance the cursor over white space. -/
def skip_spaces (s : List Char) : List Char := s.dropWhile isspace

/-- Value of a decimal digit character. -/
def digitVal (c : Char) : Nat := c.toNat - 48

/-- Value of a string of decimal digits. -/
def decVal (ds : List Char) : Nat := ds.foldl (fun a c => 10 * a + digitVal c) 0

/-- Value of a hexadecimal digit character. -/
def hexDigitVal (c : Char) : Nat :=
  if isdigit c then c.toNat - 48 else if 97 ≤ c.toNat then c.toNat - 87 else c.toNat - 55

/-- Value of a string of hexadecimal digits. -/
def hexVal (ds : List Char) : Nat := ds.foldl (fun a c => 16 * a + hexDigitVal c) 0

/-- The rational `m * b ^ z` for a natural mantissa and an integer exponent. -/
def scale (b m : Nat) (z : Int) : ℚ :=
  if 0 ≤ z then ((m * b ^ z.toNat : Nat) : ℚ) else mkRat m (b ^ (-z).toNat)

/-- Optional exponent part of a floating literal: the marker (`e` or `p`, either
case), an optional sign and a non-empty run of decimal digits.  Without digits
nothing is consumed. -/
def strtod_exp (lo up : Char) (s : List Char) : Int × List Char :=
  if peek s = lo ∨ peek s = up then
    let r := s.drop 1
    let neg := decide (peek r = '-')
    let r1 := if peek r = '+' ∨ peek r = '-' then r.drop 1 else r
    let ds := r1.takeWhile isdigit
    if ds = [] then (0, s)
    else ((if neg then -(decVal ds : Int) else (decVal ds : Int)), r1.dropWhile isdigit)
  else (0, s)

/-- Decimal form of the subject sequence of `strtod`: a non-empty run of digits
optionally containing a radix point, then an optional exponent part. -/
def strtod_dec (s : List Char) : Option (ℚ × List Char) :=
  let ip := s.takeWhile isdigit
  let r1 := s.dropWhile isdigit
  let fp := if peek r1 = '.' then (r1.drop 1).takeWhile isdigit else []
  let r2 := if peek r1 = '.' then (r1.drop 1).dropWhile isdigit else r1
  if ip = [] ∧ fp = [] then none
  else
    let e := strtod_exp 'e' 'E' r2
    some (scale 10 (decVal (ip ++ fp)) (e.1 - fp.length), e.2)

/-- Hexadecimal form of the subject sequence of `strtod`, after the `0x`. -/
def strtod_hex (s : List Char) : Option (ℚ × List Char) :=
  let ip := s.takeWhile isxdigit
  let r1 := s.dropWhile isxdigit
  let fp := if peek r1 = '.' then (r1.drop 1).takeWhile isxdigit else []
  let r2 := if peek r1 = '.' then (r1.drop 1).dropWhile isxdigit else r1
  if ip = [] ∧ fp = [] then none
  else
    let e := strtod_exp 'p' 'P' r2
    some (scale 2 (hexVal (ip ++ fp)) (e.1 - 4 * fp.length), e.2)

/-- C99 `strtod` on a cursor that starts with neither white space, a sign nor a
letter (the only way `parse_factor` reaches it): the exact value of the longest
decimal or hexadecimal floating literal and the cursor after it; without a literal
the value is zero and the cursor does not move. -/
def strtod (s : List Char) : ℚ × List Char :=
  let dec := (strtod_dec s).getD (0, s)
  if peek s = '0' ∧ (at_ s 1 = 'x' ∨ at_ s 1 = 'X') then (strtod_hex (s.drop 2)).getD dec
  else dec

/-- Conversion of an integer to the C type `int` (32 bits, two's complement): the
representative of `z` modulo 2^32 in the range -2^31 .. 2^31 - 1. -/
def to_int (z : Int) : Int := (z + 2147483648) % 4294967296 - 2147483648

/-- The range of the C type `long` (64 bits): `strtol` returns `LONG_MIN` or
`LONG_MAX` for a value outside it. -/
def clamp_long (z : Int) : Int :=
  if z < -9223372036854775808 then -9223372036854775808
  else if 9223372036854775807 < z then 9223372036854775807
  else z

/-- C `atoi`: white space, an optional sign, then decimal digits; the result is an
`int`.  As in the C library the value is `(int) strtol(s, NULL, 10)`: the number
read is limited to the range of `long` and then converted to `int`, so a number
between -2^31 and 2^31 - 1 is returned as it is and a larger one modulo 2^32. -/
def atoi (s : List Char) : Int :=
  let r := skip_spaces s
  let neg := decide (peek r = '-')
  let r1 := if peek r = '+' ∨ peek r = '-' then r.drop 1 else r
  let v : Int := decVal (r1.takeWhile isdigit)
  to_int (clamp_long (if neg then -v else v))

/-! ## Arithmetic of `double` -/

/-- The operations of the C type `double` used by the interpreter, and the answer
of the C library to a request for a block of doubles. -/
structure Arith (V : Type) where
  /-- Conversion of an exact value: literals (`strtod`) and the constants 0, 1, -1. -/
  ofRat : ℚ → V
  add : V → V → V
  sub : V → V → V
  mul : V → V → V
  div : V → V → V
  /-- The C comparison `<`. -/
  lt : V → V → Bool
  /-- The C comparison `<=`. -/
  le : V → V → Bool
  /-- The C comparison `==`. -/
  eq : V → V → Bool
  /-- The C conversion `(int)`: truncation toward zero.  The result is an `int`;
  C leaves the conversion of a value outside the range of `int` undefined. -/
  toInt : V → Int
  /-- Whether `calloc` finds memory for a block of `n` cells of type `double`. -/
  alloc : Nat → Bool

/-- The C comparison `>`. -/
def Arith.gt {V : Type} (A : Arith V) (x y : V) : Bool := A.lt y x

/-- The C comparison `>=`. -/
def Arith.ge {V : Type} (A : Arith V) (x y : V) : Bool := A.le y x

/-- The C comparison `!=`. -/
def Arith.ne {V : Type} (A : Arith V) (x y : V) : Bool := !A.eq x y

/-- Exact arithmetic on the rationals: what `double` computes as long as no
operation rounds and no conversion leaves the range of `int`; every allocation
succeeds.  It is used for example runs on small integers; `binary64` below is
the arithmetic with rounding. -/
def exact : Arith ℚ where
  ofRat := id
  add := (· + ·)
  sub := (· - ·)
  mul := (· * ·)
  div := (· / ·)
  lt := fun a b => decide (a < b)
  le := fun a b => decide (a ≤ b)
  eq := fun a b => decide (a = b)
  toInt := fun q => q.num.tdiv q.den
  alloc := fun _ => true

/-! ## Interpreter state -/

/-- Source `MAX_LINES`. -/
def MAX_LINES : Nat := 1000

/-- Source `MAX_FOR_DEPTH`. -/
def MAX_FOR_DEPTH : Nat := 256

/-- Source `NUM_VARS`. -/
def NUM_VARS : Nat := 286

/-- Source `Line`. -/
structure Line where
  lineno : Int
  text : List Char
deriving DecidableEq, Repr

/-- Source `ForFrame`; the field `end` is spelled `end_`. -/
structure ForFrame (V : Type) where
  var : Nat
  end_ : V
  step : V
  for_pc : Nat
deriving DecidableEq, Repr

/-- Messages written to `stderr`. -/
inductive Diag where
  | arraysOnlyAZ
  | notDimd (id : Nat)
  | outOfBounds (id : Nat) (idx : Int)
  | syntaxDim
  | syntaxFor
  | missingTo
  | forWithoutNext
  | forStackOverflow
  | gotoNotFound (ln : Int)
  | thenNotFound (ln : Int)
  | nextWithoutFor
  | nextMismatch
  | unknownStatement (text : List Char)
deriving DecidableEq, Repr

/-- Lines written to `stdout` by PRINT: a number (`printf("%g\n", v)`) or the
characters of a quoted literal. -/
inductive Out (V : Type) where
  | num (v : V)
  | text (cs : List Char)
deriving DecidableEq, Repr

/-- The mutable globals of the interpreter besides the program store: `vars`,
`arrays` with `arrays_size` (an allocated array is the list of its cells, `none`
is `NULL`), the live part of `for_stack` (top first, `for_sp` is its length), and
the two output streams. -/
structure State (V : Type) where
  vars : Nat → V
  arrays : Nat → Option (List V)
  for_stack : List (ForFrame V)
  out : List (Out V)
  err : List Diag

/-- Source `for_sp`. -/
def State.for_sp {V : Type} (st : State V) : Nat := st.for_stack.length

/-- Source `parse_var_name`: `none` is the result -1 (cursor unchanged). -/
def parse_var_name (s : List Char) : Option (Nat × List Char) :=
  if !isalpha (peek s) then none
  else
    let letter := toupper (peek s)
    let s1 := s.drop 1
    let base := letter.toNat - 65
    if isdigit (peek s1) then
      let digit := (peek s1).toNat - 48
      some (26 + base * 10 + digit, s1.drop 1)
    else some (base, s1)

/-- Source `parse_number`. -/
def parse_number {V : Type} (A : Arith V) (s : List Char) : V × List Char :=
  let r := strtod (skip_spaces s)
  (A.ofRat r.1, r.2)

/-! ## Expression parser (recursive descent)

The five mutually recursive functions carry a recursion budget; `parse_expr` below
supplies a budget that is always sufficient (`parse_exprF_adequate`). -/

mutual

/-- Source `parse_factor`, with a recursion budget. -/
def parse_factorF {V : Type} (A : Arith V) (st : State V) :
    Nat → List Char → Option (V × List Char × List Diag)
  | 0, _ => none
  | n + 1, s0 =>
    let s := skip_spaces s0
    if peek s = '+' ∨ peek s = '-' then
      let sign : ℚ := if peek s = '-' then -1 else 1
      match parse_factorF A st n (s.drop 1) with
      | none => none
      | some (v, r, d) => some (A.mul (A.ofRat sign) v, r, d)
    else if peek s = '(' then
      match parse_exprF A st n (s.drop 1) with
      | none => none
      | some (v, r, d) =>
        let r1 := skip_spaces r
        some (v, if peek r1 = ')' then r1.drop 1 else r1, d)
    else if isalpha (peek s) then
      match parse_var_name s with
      | none => some (A.ofRat 0, s, [])
      | some (var_index, s1) =>
        let s2 := skip_spaces s1
        if peek s2 = '(' then
          if 26 ≤ var_index then some (A.ofRat 0, s2, [Diag.arraysOnlyAZ])
          else
            match parse_exprF A st n (s2.drop 1) with
            | none => none
            | some (iv, r, d) =>
              let idx := A.toInt iv
              let r1 := skip_spaces r
              let r2 := if peek r1 = ')' then r1.drop 1 else r1
              if idx < 0 then some (A.ofRat 0, r2, d)
              else
                match st.arrays var_index with
                | none => some (A.ofRat 0, r2, d ++ [Diag.notDimd var_index])
                | some arr =>
                  if (arr.length : Int) ≤ idx then
                    some (A.ofRat 0, r2, d ++ [Diag.outOfBounds var_index idx])
                  else some (arr.getD idx.toNat (A.ofRat 0), r2, d)
        else some (st.vars var_index, s2, [])
    else
      let r := parse_number A s
      some (r.1, r.2, [])

/-- The `while (1)` loop of source `parse_term`: `v` is the value so far. -/
def parse_term_loopF {V : Type} (A : Arith V) (st : State V) :
    Nat → V → List Char → List Diag → Option (V × List Char × List Diag)
  | 0, _, _, _ => none
  | n + 1, v, s0, d =>
    let s := skip_spaces s0
    if peek s = '*' then
      match parse_factorF A st n (s.drop 1) with
      | none => none
      | some (r, s1, d1) => parse_term_loopF A st n (A.mul v r) s1 (d ++ d1)
    else if peek s = '/' then
      match parse_factorF A st n (s.drop 1) with
      | none => none
      | some (r, s1, d1) =>
        let r1 := if A.eq r (A.ofRat 0) then A.ofRat 1 else r
        parse_term_loopF A st n (A.div v r1) s1 (d ++ d1)
    else some (v, s, d)

/-- Source `parse_term`, with a recursion budget. -/
def parse_termF {V : Type} (A : Arith V) (st : State V) :
    Nat → List Char → Option (V × List Char × List Diag)
  | 0, _ => none
  | n + 1, s =>
    match parse_factorF A st n s with
    | none => none
    | some (v, s1, d) => parse_term_loopF A st n v s1 d

/-- The `while (1)` loop of source `parse_expr`: `v` is the value so far. -/
def parse_expr_loopF {V : Type} (A : Arith V) (st : State V) :
    Nat → V → List Char → List Diag → Option (V × List Char × List Diag)
  | 0, _, _, _ => none
  | n + 1, v, s0, d =>
    let s := skip_spaces s0
    if peek s = '+' then
      match parse_termF A st n (s.drop 1) with
      | none => none
      | some (r, s1, d1) => parse_expr_loopF A st n (A.add v r) s1 (d ++ d1)
    else if peek s = '-' then
      match parse_termF A st n (s.drop 1) with
      | none => none
      | some (r, s1, d1) => parse_expr_loopF A st n (A.sub v r) s1 (d ++ d1)
    else some (v, s, d)

/-- Source `parse_expr`, with a recursion budget. -/
def parse_exprF {V : Type} (A : Arith V) (st : State V) :
    Nat → List Char → Option (V × List Char × List Diag)
  | 0, _ => none
  | n + 1, s =>
    match parse_termF A st n s with
    | none => none
    | some (v, s1, d) => parse_expr_loopF A st n v s1 d

end

/-- Recursion budget that suffices for a text of the given length. -/
def budget (s : List Char) : Nat := 4 * s.length + 4

/-- Source `parse_factor`: value, cursor after the factor, messages for `stderr`. -/
def parse_factor {V : Type} (A : Arith V) (st : State V) (s : List Char) :
    V × List Char × List Diag :=
  (parse_factorF A st (budget s) s).getD (A.ofRat 0, s, [])

/-- Source `parse_term`. -/
def parse_term {V : Type} (A : Arith V) (st : State V) (s : List Char) :
    V × List Char × List Diag :=
  (parse_termF A st (budget s) s).getD (A.ofRat 0, s, [])

/-- Source `parse_expr`: value, cursor after the expression, messages for `stderr`. -/
def parse_expr {V : Type} (A : Arith V) (st : State V) (s : List Char) :
    V × List Char × List Diag :=
  (parse_exprF A st (budget s) s).getD (A.ofRat 0, s, [])

/-- The test `strncmp(s, kw, strlen(kw)) == 0`. -/
def strncmp_eq (s kw : List Char) : Bool := s.take kw.length == kw

/-- Source `eval_condition`: truth value, cursor, messages for `stderr`. -/
def eval_condition {V : Type} (A : Arith V) (st : State V) (s0 : List Char) :
    Bool × List Char × List Diag :=
  let l := parse_expr A st (skip_spaces s0)
  let left := l.1
  let s := skip_spaces l.2.1
  if strncmp_eq s ['<', '='] then
    let r := parse_expr A st (s.drop 2)
    (A.le left r.1, r.2.1, l.2.2 ++ r.2.2)
  else if strncmp_eq s ['>', '='] then
    let r := parse_expr A st (s.drop 2)
    (A.ge left r.1, r.2.1, l.2.2 ++ r.2.2)
  else if strncmp_eq s ['<', '>'] then
    let r := parse_expr A st (s.drop 2)
    (A.ne left r.1, r.2.1, l.2.2 ++ r.2.2)
  else if peek s = '<' then
    let r := parse_expr A st (s.drop 1)
    (A.lt left r.1, r.2.1, l.2.2 ++ r.2.2)
  else if peek s = '>' then
    let r := parse_expr A st (s.drop 1)
    (A.gt left r.1, r.2.1, l.2.2 ++ r.2.2)
  else if peek s = '=' ∨ strncmp_eq s ['=', '='] then
    let s1 := if peek s = '=' then s.drop 1 else s.drop 2
    let r := parse_expr A st s1
    (A.eq left r.1, r.2.1, l.2.2 ++ r.2.2)
  else (A.ne left (A.ofRat 0), s, l.2.2)

/-! ## Program store lookups -/

/-- Loop of source `find_index_by_lineno`, from index `i`. -/
def find_index_from (ln : Int) : List Line → Nat → Option Nat
  | [], _ => none
  | l :: ls, i => if l.lineno = ln then some i else find_index_from ln ls (i + 1)

/-- Source `find_index_by_lineno`: `none` is the result -1. -/
def find_index_by_lineno (program : List Line) (ln : Int) : Option Nat :=
  find_index_from ln program 0

/-- The test of source `find_matching_next` and `run_statement` for a FOR line,
on a cursor after `skip_spaces`. -/
def isForText (s : List Char) : Bool :=
  strncasecmp_eq s ['F', 'O', 'R'] && isspace (at_ s 3)

/-- The test of source `find_matching_next` and `run_statement` for a NEXT line,
on a cursor after `skip_spaces`. -/
def isNextText (s : List Char) : Bool :=
  strncasecmp_eq s ['N', 'E', 'X', 'T'] && (at_ s 4 = ' ' || at_ s 4 = Char.ofNat 0)

/-- Loop of source `find_matching_next` over the lines from index `i` on. -/
def find_matching_next_from : List Line → Nat → Int → Option Nat
  | [], _, _ => none
  | l :: ls, i, count =>
    let s := skip_spaces l.text
    if isForText s then find_matching_next_from ls (i + 1) (count + 1)
    else if isNextText s then
      if count - 1 = 0 then some i else find_matching_next_from ls (i + 1) (count - 1)
    else find_matching_next_from ls (i + 1) count

/-- Source `find_matching_next`: `none` is the result -1. -/
def find_matching_next (program : List Line) (start_pc : Nat) : Option Nat :=
  find_matching_next_from (program.drop start_pc) start_pc 1

/-! ## Statement executor -/

/-- Result of `run_statement`: the return code (1 continue, 2 jump, 0 END,
-1 runtime error), the out-parameter `next_index`, and the globals. -/
structure Res (V : Type) where
  rc : Int
  next_index : Nat
  st : State V

/-- Write to `stderr`. -/
def State.log {V : Type} (st : State V) (d : List Diag) : State V :=
  { st with err := st.err ++ d }

/-- The assignment `vars[i] = v`. -/
def State.setVar {V : Type} (st : State V) (i : Nat) (v : V) : State V :=
  { st with vars := fun j => if j = i then v else st.vars j }

/-- The assignment of the array pointer and size of letter `id`. -/
def State.setArray {V : Type} (st : State V) (id : Nat) (a : List V) : State V :=
  { st with arrays := fun j => if j = id then some a else st.arrays j }

/-- The assignment of the array pointer of letter `id`; `none` is `NULL`. -/
def State.setArrayPtr {V : Type} (st : State V) (id : Nat) (p : Option (List V)) : State V :=
  { st with arrays := fun j => if j = id then p else st.arrays j }

/-- C `calloc((size_t)n, sizeof(double))` for an `int` count `n`: a negative count
converts to a `size_t` of at least 2^63 elements, whose size in bytes is not
representable, so the result is `NULL`; for a count from 0 to `INT_MAX` the
result is `NULL` when the library finds no memory, and otherwise `n` cells equal
to 0.0. -/
def calloc {V : Type} (A : Arith V) (n : Int) : Option (List V) :=
  if n < 0 then none
  else if A.alloc n.toNat then some (List.replicate n.toNat (A.ofRat 0))
  else none

/-- Drop the character `c` if it is under the cursor: `if (*s == c) s++`. -/
def eat (c : Char) (s : List Char) : List Char := if peek s = c then s.drop 1 else s

/-- The array assignment shared by LET and the bare assignment, after index and
value are evaluated: the checks, then `arrays[id][idx] = val`. -/
def array_store {V : Type} (st : State V) (next : Nat) (id : Nat) (idx : Int) (val : V) :
    Res V :=
  match st.arrays id with
  | none => ⟨-1, next, st.log [Diag.notDimd id]⟩
  | some arr =>
    if idx < 0 ∨ (arr.length : Int) ≤ idx then ⟨-1, next, st.log [Diag.outOfBounds id idx]⟩
    else ⟨1, next, st.setArray id (arr.set idx.toNat val)⟩

/-- The LET branch of source `run_statement`; `s0` is the cursor after the keyword. -/
def stmt_let {V : Type} (A : Arith V) (st : State V) (next : Nat) (s0 : List Char) : Res V :=
  let s := skip_spaces s0
  if isalpha (peek s) then
    match parse_var_name s with
    | none => ⟨-1, next, st⟩
    | some (var_index, s1) =>
      let s2 := skip_spaces s1
      if peek s2 = '(' then
        if 26 ≤ var_index then ⟨-1, next, st.log [Diag.arraysOnlyAZ]⟩
        else
          let i := parse_expr A st (s2.drop 1)
          let idx := A.toInt i.1
          let s3 := eat '=' (skip_spaces (eat ')' (skip_spaces i.2.1)))
          let v := parse_expr A st s3
          array_store (st.log (i.2.2 ++ v.2.2)) next var_index idx v.1
      else
        let v := parse_expr A st (eat '=' s2)
        ⟨1, next, (st.log v.2.2).setVar var_index v.1⟩
  else ⟨1, next, st⟩

/-- The `while (1)` loop of the DIM branch, with an iteration budget.  The sum
`size + 1` is an `int`: at `size = INT_MAX` it wraps to `INT_MIN`, the allocation
fails and the letter is left with the `NULL` pointer, as it is whenever `calloc`
returns `NULL`. -/
def dim_loopF {V : Type} (A : Arith V) (next : Nat) : Nat → List Char → State V → Option (Res V)
  | 0, _, _ => none
  | n + 1, s, st =>
    if !isalpha (peek s) then some ⟨1, next, st⟩
    else
      let name := toupper (peek s)
      let s1 := skip_spaces (s.drop 1)
      if peek s1 ≠ '(' then some ⟨-1, next, st.log [Diag.syntaxDim]⟩
      else
        let e := parse_expr A st (s1.drop 1)
        let size := A.toInt e.1
        let s2 := eat ')' e.2.1
        let size1 := if size < 0 then 0 else size
        let id := name.toNat - 65
        let st1 := (st.log e.2.2).setArrayPtr id (calloc A (to_int (size1 + 1)))
        let s3 := skip_spaces s2
        if peek s3 = ',' then dim_loopF A next n (skip_spaces (s3.drop 1)) st1
        else some ⟨1, next, st1⟩

/-- The DIM branch of source `run_statement`; `s0` is the cursor after the keyword.
Every iteration of the loop consumes a character, so the budget suffices. -/
def stmt_dim {V : Type} (A : Arith V) (st : State V) (next : Nat) (s0 : List Char) : Res V :=
  let s := skip_spaces s0
  (dim_loopF A next (s.length + 1) s st).getD ⟨1, next, st⟩

/-- What the FOR branch reads from the statement before it acts. -/
structure ForHead (V : Type) where
  var_index : Nat
  start : V
  end_ : V
  step : V
  diag : List Diag
deriving DecidableEq, Repr

/-- Result of reading the header of a FOR statement. -/
inductive ForParse (V : Type) where
  /-- Syntax error, with the messages written to `stderr`. -/
  | error (d : List Diag)
  /-- The header was read. -/
  | ok (h : ForHead V)
deriving DecidableEq, Repr

/-- The optional `STEP expr` of the FOR branch, at the cursor `s3` after the limit
expression: the step (1.0 without STEP, and a step equal to 0.0 replaced by 1.0)
and the messages of the expression. -/
def for_step {V : Type} (A : Arith V) (st : State V) (s3 : List Char) : V × List Diag :=
  if strncasecmp_eq s3 ['S', 'T', 'E', 'P'] &&
      (isspace (at_ s3 4) || at_ s3 4 = Char.ofNat 0) then
    let e3 := parse_expr A st (skip_spaces (s3.drop 4))
    (if A.eq e3.1 (A.ofRat 0) then A.ofRat 1 else e3.1, e3.2.2)
  else (A.ofRat 1, [])

/-- The `TO expr [STEP expr]` of the FOR branch, at the cursor `s2` after the start
expression, whose value and messages are `start` and `d1`. -/
def for_limit {V : Type} (A : Arith V) (st : State V) (var_index : Nat) (start : V)
    (d1 : List Diag) (s2 : List Char) : ForParse V :=
  if !strncasecmp_eq s2 ['T', 'O'] then .error (d1 ++ [Diag.missingTo])
  else
    let e2 := parse_expr A st (skip_spaces (s2.drop 2))
    let sp := for_step A st (skip_spaces e2.2.1)
    .ok ⟨var_index, start, e2.1, sp.1, d1 ++ e2.2.2 ++ sp.2⟩

/-- First half of the FOR branch of source `run_statement`: the variable, the
values of start, limit and step, and the messages of the expressions; or the
messages of a syntax error.  `s0` is the cursor after the keyword. -/
def for_header {V : Type} (A : Arith V) (st : State V) (s0 : List Char) : ForParse V :=
  let s := skip_spaces s0
  if !isalpha (peek s) then .error [Diag.syntaxFor]
  else
    match parse_var_name s with
    | none => .error [Diag.syntaxFor]
    | some (var_index, s1) =>
      let e1 := parse_expr A st (eat '=' (skip_spaces s1))
      for_limit A st var_index e1.1 e1.2.2 (skip_spaces e1.2.1)

/-- The FOR branch of source `run_statement`; `s0` is the cursor after the keyword. -/
def stmt_for {V : Type} (A : Arith V) (program : List Line) (current_pc : Nat)
    (st : State V) (next : Nat) (s0 : List Char) : Res V :=
  match for_header A st s0 with
  | .error d => ⟨-1, next, st.log d⟩
  | .ok h =>
    let st1 := (st.log h.diag).setVar h.var_index h.start
    if (A.gt h.step (A.ofRat 0) && A.gt h.start h.end_) ||
        (A.lt h.step (A.ofRat 0) && A.lt h.start h.end_) then
      match find_matching_next program (current_pc + 1) with
      | some next_line => ⟨2, next_line + 1, st1⟩
      | none => ⟨-1, next, st1.log [Diag.forWithoutNext]⟩
    else if MAX_FOR_DEPTH ≤ st1.for_sp then ⟨-1, next, st1.log [Diag.forStackOverflow]⟩
    else
      ⟨1, next, { st1 with
        for_stack := ⟨h.var_index, h.end_, h.step, current_pc⟩ :: st1.for_stack }⟩

/-- The PRINT branch of source `run_statement`; `s0` is the cursor after the keyword. -/
def stmt_print {V : Type} (A : Arith V) (st : State V) (next : Nat) (s0 : List Char) : Res V :=
  let s := skip_spaces s0
  if peek s = Char.ofNat 34 ∨ peek s = Char.ofNat 39 then
    let q := peek s
    ⟨1, next, { st with out := st.out ++ [Out.text ((s.drop 1).takeWhile (fun c => c != q))] }⟩
  else
    let v := parse_expr A st s
    ⟨1, next, { st.log v.2.2 with out := st.out ++ [Out.num v.1] }⟩

/-- The GOTO branch of source `run_statement`; `s0` is the cursor after the keyword. -/
def stmt_goto {V : Type} (program : List Line) (st : State V) (next : Nat) (s0 : List Char) :
    Res V :=
  let ln := atoi (skip_spaces s0)
  match find_index_by_lineno program ln with
  | none => ⟨-1, next, st.log [Diag.gotoNotFound ln]⟩
  | some idx => ⟨2, idx, st⟩

/-- The IF branch of source `run_statement`; `s0` is the cursor after the keyword. -/
def stmt_if {V : Type} (A : Arith V) (program : List Line) (st : State V) (next : Nat)
    (s0 : List Char) : Res V :=
  let c := eval_condition A st (skip_spaces s0)
  let s := skip_spaces c.2.1
  let st1 := st.log c.2.2
  if strncasecmp_eq s ['T', 'H', 'E', 'N'] then
    let ln := atoi (skip_spaces (s.drop 4))
    if c.1 then
      match find_index_by_lineno program ln with
      | none => ⟨-1, next, st1.log [Diag.thenNotFound ln]⟩
      | some idx => ⟨2, idx, st1⟩
    else ⟨1, next, st1⟩
  else ⟨1, next, st1⟩

/-- The optional variable of a NEXT statement: `none` is `var_index == -1`.
`s0` is the cursor after the keyword. -/
def next_name (s0 : List Char) : Option Nat :=
  let s := skip_spaces s0
  if isalpha (peek s) then (parse_var_name s).map Prod.fst else none

/-- The NEXT branch of source `run_statement`; `s0` is the cursor after the keyword. -/
def stmt_next {V : Type} (A : Arith V) (st : State V) (next : Nat) (s0 : List Char) : Res V :=
  let var_index := next_name s0
  match st.for_stack with
  | [] => ⟨-1, next, st.log [Diag.nextWithoutFor]⟩
  | f :: below =>
    if var_index ≠ none ∧ var_index ≠ some f.var then ⟨-1, next, st.log [Diag.nextMismatch]⟩
    else
      let x := A.add (st.vars f.var) f.step
      let st1 := st.setVar f.var x
      if (A.gt f.step (A.ofRat 0) && A.le x f.end_) ||
          (A.lt f.step (A.ofRat 0) && A.ge x f.end_) then
        ⟨2, f.for_pc + 1, st1⟩
      else ⟨1, next, { st1 with for_stack := below }⟩

/-- The bare-assignment branch of source `run_statement`, entered when the
statement starts with a letter, and the final `Unknown statement` error. -/
def stmt_assign {V : Type} (A : Arith V) (st : State V) (next : Nat) (text s : List Char) :
    Res V :=
  if isalpha (peek s) then
    match parse_var_name s with
    | none => ⟨-1, next, st⟩
    | some (var_index, s1) =>
      let s2 := skip_spaces s1
      if peek s2 = '(' then
        if 26 ≤ var_index then ⟨-1, next, st.log [Diag.arraysOnlyAZ]⟩
        else
          let i := parse_expr A st (s2.drop 1)
          let idx := A.toInt i.1
          let s3 := skip_spaces (eat ')' i.2.1)
          if peek s3 = '=' then
            let v := parse_expr A st (s3.drop 1)
            array_store (st.log (i.2.2 ++ v.2.2)) next var_index idx v.1
          else ⟨-1, next, st.log (i.2.2 ++ [Diag.unknownStatement text])⟩
      else if peek s2 = '=' then
        let v := parse_expr A st (s2.drop 1)
        ⟨1, next, (st.log v.2.2).setVar var_index v.1⟩
      else ⟨-1, next, st.log [Diag.unknownStatement text]⟩
  else ⟨-1, next, st.log [Diag.unknownStatement text]⟩

/-- The keyword tests of source `run_statement` other than FOR and NEXT, on the
cursor after `skip_spaces`. -/
def isLetText (s : List Char) : Bool :=
  strncasecmp_eq s ['L', 'E', 'T'] && isspace (at_ s 3)

/-- The test for a DIM statement. -/
def isDimText (s : List Char) : Bool :=
  strncasecmp_eq s ['D', 'I', 'M'] && isspace (at_ s 3)

/-- The test for a PRINT statement. -/
def isPrintText (s : List Char) : Bool :=
  strncasecmp_eq s ['P', 'R', 'I', 'N', 'T'] && (at_ s 5 = ' ' || at_ s 5 = Char.ofNat 0)

/-- The test for a GOTO statement. -/
def isGotoText (s : List Char) : Bool :=
  strncasecmp_eq s ['G', 'O', 'T', 'O'] && isspace (at_ s 4)

/-- The test for an IF statement. -/
def isIfText (s : List Char) : Bool :=
  strncasecmp_eq s ['I', 'F'] && isspace (at_ s 2)

/-- The test for an END statement. -/
def isEndText (s : List Char) : Bool := strncasecmp_eq s ['E', 'N', 'D']

/-- Source `run_statement`: `program` and `current_pc` are the globals it reads,
`next` the value of `*next_index` on entry. -/
def run_statement {V : Type} (A : Arith V) (program : List Line) (current_pc : Nat)
    (text : List Char) (next : Nat) (st : State V) : Res V :=
  let s := skip_spaces text
  if isLetText s then stmt_let A st next (s.drop 3)
  else if isDimText s then stmt_dim A st next (s.drop 3)
  else if isForText s then stmt_for A program current_pc st next (s.drop 3)
  else if isPrintText s then stmt_print A st next (s.drop 5)
  else if isGotoText s then stmt_goto program st next (s.drop 4)
  else if isIfText s then stmt_if A program st next (s.drop 2)
  else if isEndText s then ⟨0, next, st⟩
  else if isNextText s then stmt_next A st next (s.drop 4)
  else stmt_assign A st next text s

/-! ## Run loop -/

/-- How the loop of `run_program` was left. -/
inductive Halt where
  /-- A statement returned 0 (END). -/
  | ended
  /-- A statement returned -1 (runtime error). -/
  | failed
  /-- The program counter left the program. -/
  | ranOff
  /-- The statement budget of the model was used up (the C loop is still running). -/
  | running
deriving DecidableEq, Repr

/-- The `while` loop of source `run_program`, executing at most `fuel` statements. -/
def run_loop {V : Type} (A : Arith V) (program : List Line) :
    Nat → Nat → State V → Halt × State V
  | fuel, pc, st =>
    match program[pc]? with
    | none => (Halt.ranOff, st)
    | some line =>
      match fuel with
      | 0 => (Halt.running, st)
      | n + 1 =>
        let r := run_statement A program pc line.text (pc + 1) st
        if r.rc = 0 then (Halt.ended, r.st)
        else if r.rc = -1 then (Halt.failed, r.st)
        else run_loop A program n r.next_index r.st

/-- The reset at the start of source `run_program`. -/
def reset {V : Type} (A : Arith V) (st : State V) : State V :=
  { st with
    vars := fun i => if i < NUM_VARS then A.ofRat 0 else st.vars i
    arrays := fun i => if i < 26 then none else st.arrays i
    for_stack := [] }

/-- Source `run_program`, executing at most `fuel` statements. -/
def run_program {V : Type} (A : Arith V) (program : List Line) (fuel : Nat) (st : State V) :
    Halt × State V :=
  if program.length = 0 then (Halt.ranOff, reset A st)
  else run_loop A program fuel 0 (reset A st)


/-! ## The grammar of expression texts

Concrete syntax trees of the grammar of the specification
(`expr := term (('+' | '-') term)*`, `term := factor (('*' | '/') factor)*`,
`factor := sign factor | '(' expr ')' | variable | literal`) with the white space
in front of every token, their text, and their value by standard precedence. -/

/-- Exponent part of a decimal literal: the marker in either case, an optional
sign (`some true` is `-`) and the digits. -/
structure ExpPart where
  upper : Bool
  sign : Option Bool
  digits : List Char

/-- Decimal floating literal: integer digits, optional fraction, optional exponent. -/
structure NumLit where
  ip : List Char
  fp : Option (List Char)
  ex : Option ExpPart

/-- Text of an optional sign. -/
def signText : Option Bool → List Char
  | none => []
  | some true => ['-']
  | some false => ['+']

/-- Text of an exponent part. -/
def ExpPart.render (e : ExpPart) : List Char :=
  (if e.upper then 'E' else 'e') :: (signText e.sign ++ e.digits)

/-- Value of an exponent part. -/
def ExpPart.value (e : ExpPart) : Int :=
  if e.sign = some true then -(decVal e.digits : Int) else (decVal e.digits : Int)

/-- Text of an optional fraction. -/
def fracText : Option (List Char) → List Char
  | none => []
  | some f => '.' :: f

/-- Text of an optional exponent part. -/
def expText : Option ExpPart → List Char
  | none => []
  | some e => e.render

/-- Value of an optional exponent part. -/
def expValue : Option ExpPart → Int
  | none => 0
  | some e => e.value

/-- Text of a literal. -/
def NumLit.render (l : NumLit) : List Char :=
  l.ip ++ (fracText l.fp ++ expText l.ex)

/-- Exact value of a literal: the digits of integer part and fraction, scaled by
the exponent less the number of fraction digits. -/
def NumLit.value (l : NumLit) : ℚ :=
  scale 10 (decVal (l.ip ++ l.fp.getD [])) (expValue l.ex - ((l.fp.getD []).length : Int))

/-- A literal is well formed: digits only, at least one digit in integer part or
fraction, at least one digit in the exponent. -/
def NumLit.WF (l : NumLit) : Prop :=
  (∀ c ∈ l.ip, isdigit c = true) ∧ (∀ c ∈ l.fp.getD [], isdigit c = true) ∧
  l.ip ++ l.fp.getD [] ≠ [] ∧
  ∀ e, l.ex = some e → e.digits ≠ [] ∧ ∀ c ∈ e.digits, isdigit c = true

/-- Slot of the scalar variable spelled with `letter` and an optional `digit`
(address encoding of the specification). -/
def slot (letter : Char) (digit : Option Char) : Nat :=
  match digit with
  | none => (toupper letter).toNat - 65
  | some d => 26 + ((toupper letter).toNat - 65) * 10 + (d.toNat - 48)

/-- All characters of `ws` are white space. -/
def Blank (ws : List Char) : Prop := ∀ c ∈ ws, isspace c = true

instance (ws : List Char) : Decidable (Blank ws) :=
  inferInstanceAs (Decidable (∀ c ∈ ws, isspace c = true))

mutual

/-- Syntax tree of a factor; `ws` is the white space in front of its first token. -/
inductive Factor where
  | num (ws : List Char) (l : NumLit)
  | var (ws : List Char) (letter : Char) (digit : Option Char)
  | neg (ws : List Char) (f : Factor)
  | pos (ws : List Char) (f : Factor)
  | paren (ws : List Char) (e : Expr) (ws1 : List Char)

/-- The operators and factors after the first factor of a term. -/
inductive TermRest where
  | nil
  | mul (ws : List Char) (f : Factor) (r : TermRest)
  | div (ws : List Char) (f : Factor) (r : TermRest)

/-- Syntax tree of a term. -/
inductive Term where
  | mk (f : Factor) (r : TermRest)

/-- The operators and terms after the first term of an expression. -/
inductive ExprRest where
  | nil
  | add (ws : List Char) (t : Term) (r : ExprRest)
  | sub (ws : List Char) (t : Term) (r : ExprRest)

/-- Syntax tree of an expression. -/
inductive Expr where
  | mk (t : Term) (r : ExprRest)

end

mutual

/-- Text of a factor. -/
def Factor.render : Factor → List Char
  | .num ws l => ws ++ l.render
  | .var ws letter digit => ws ++ letter :: digit.toList
  | .neg ws f => ws ++ '-' :: f.render
  | .pos ws f => ws ++ '+' :: f.render
  | .paren ws e ws1 => ws ++ '(' :: (e.render ++ (ws1 ++ [')']))

/-- Text of the rest of a term. -/
def TermRest.render : TermRest → List Char
  | .nil => []
  | .mul ws f r => ws ++ '*' :: (f.render ++ r.render)
  | .div ws f r => ws ++ '/' :: (f.render ++ r.render)

/-- Text of a term. -/
def Term.render : Term → List Char
  | .mk f r => f.render ++ r.render

/-- Text of the rest of an expression. -/
def ExprRest.render : ExprRest → List Char
  | .nil => []
  | .add ws t r => ws ++ '+' :: (t.render ++ r.render)
  | .sub ws t r => ws ++ '-' :: (t.render ++ r.render)

/-- Text of an expression. -/
def Expr.render : Expr → List Char
  | .mk t r => t.render ++ r.render

end

mutual

/-- The tree is well formed: white space is white space, literals and variable
names are well formed. -/
def Factor.WF : Factor → Prop
  | .num ws l => Blank ws ∧ l.WF
  | .var ws letter digit => Blank ws ∧ isalpha letter = true ∧ ∀ d ∈ digit, isdigit d = true
  | .neg ws f => Blank ws ∧ f.WF
  | .pos ws f => Blank ws ∧ f.WF
  | .paren ws e ws1 => Blank ws ∧ e.WF ∧ Blank ws1

/-- Well-formedness of the rest of a term. -/
def TermRest.WF : TermRest → Prop
  | .nil => True
  | .mul ws f r => Blank ws ∧ f.WF ∧ r.WF
  | .div ws f r => Blank ws ∧ f.WF ∧ r.WF

/-- Well-formedness of a term. -/
def Term.WF : Term → Prop
  | .mk f r => f.WF ∧ r.WF

/-- Well-formedness of the rest of an expression. -/
def ExprRest.WF : ExprRest → Prop
  | .nil => True
  | .add ws t r => Blank ws ∧ t.WF ∧ r.WF
  | .sub ws t r => Blank ws ∧ t.WF ∧ r.WF

/-- Well-formedness of an expression. -/
def Expr.WF : Expr → Prop
  | .mk t r => t.WF ∧ r.WF

end

/-- Division of the dialect: a divisor equal to zero is replaced by one. -/
def Arith.sdiv {V : Type} (A : Arith V) (x y : V) : V :=
  A.div x (if A.eq y (A.ofRat 0) then A.ofRat 1 else y)

mutual

/-- Value of a factor: a sign multiplies the inner factor by 1 or -1, parentheses
give the value of the enclosed expression. -/
def Factor.eval {V : Type} (A : Arith V) (st : State V) : Factor → V
  | .num _ l => A.ofRat l.value
  | .var _ letter digit => st.vars (slot letter digit)
  | .neg _ f => A.mul (A.ofRat (-1)) (f.eval A st)
  | .pos _ f => A.mul (A.ofRat 1) (f.eval A st)
  | .paren _ e _ => e.eval A st

/-- Value of a term whose factors so far have the value `v`: the operators are
applied from left to right. -/
def TermRest.eval {V : Type} (A : Arith V) (st : State V) : TermRest → V → V
  | .nil, v => v
  | .mul _ f r, v => r.eval A st (A.mul v (f.eval A st))
  | .div _ f r, v => r.eval A st (A.sdiv v (f.eval A st))

/-- Value of a term. -/
def Term.eval {V : Type} (A : Arith V) (st : State V) : Term → V
  | .mk f r => r.eval A st (f.eval A st)

/-- Value of an expression whose terms so far have the value `v`: the operators
are applied from left to right. -/
def ExprRest.eval {V : Type} (A : Arith V) (st : State V) : ExprRest → V → V
  | .nil, v => v
  | .add _ t r, v => r.eval A st (A.add v (t.eval A st))
  | .sub _ t r, v => r.eval A st (A.sub v (t.eval A st))

/-- Value of an expression: `*` and `/` are applied inside the terms, before the
`+` and `-` between them. -/
def Expr.eval {V : Type} (A : Arith V) (st : State V) : Expr → V
  | .mk t r => r.eval A st (t.eval A st)

end

/-- Cursor left by `parse_factor` after a factor followed by `rest`: after a
variable the white space is skipped too. -/
def Factor.after : Factor → List Char → List Char
  | .num _ _, rest => rest
  | .var _ _ _, rest => skip_spaces rest
  | .neg _ f, rest => f.after rest
  | .pos _ f, rest => f.after rest
  | .paren _ _ _, rest => rest

/-- A character that could extend a literal or a variable name. -/
def contChar (c : Char) : Bool :=
  isdigit c || c = '.' || c = 'e' || c = 'E' || c = 'x' || c = 'X'

/-- What may follow a factor: the next character does not extend its last token,
and the next token is not an opening parenthesis. -/
def FollowF (rest : List Char) : Prop :=
  contChar (peek rest) = false ∧ peek (skip_spaces rest) ≠ '('

/-- What may follow a term: as for a factor, and the next token is neither `*`
nor `/`. -/
def FollowT (rest : List Char) : Prop :=
  FollowF rest ∧ peek (skip_spaces rest) ≠ '*' ∧ peek (skip_spaces rest) ≠ '/'

/-- What may follow an expression: as for a term, and the next token is neither
`+` nor `-`. -/
def FollowE (rest : List Char) : Prop :=
  FollowT rest ∧ peek (skip_spaces rest) ≠ '+' ∧ peek (skip_spaces rest) ≠ '-'

/-- The factor `f` behind the signs `sg` (outermost first; `true` is `-`), each
with the white space in front of it. -/
def signed (sg : List (Bool × List Char)) (f : Factor) : Factor :=
  sg.foldr (fun s acc => if s.1 then Factor.neg s.2 acc else Factor.pos s.2 acc) f

/-- The literal made of the digits `ds`. -/
def litOf (ds : List Char) : Factor := Factor.num [] ⟨ds, none, none⟩

/-- Syntax tree of `2+3*4`. -/
def exprEx1 : Expr :=
  .mk (.mk (litOf ['2']) .nil)
    (.add [] (.mk (litOf ['3']) (.mul [] (litOf ['4']) .nil)) .nil)

/-- Syntax tree of `(2+3)*4`. -/
def exprEx2 : Expr :=
  .mk (.mk (.paren [] (.mk (.mk (litOf ['2']) .nil) (.add [] (.mk (litOf ['3']) .nil) .nil)) [])
    (.mul [] (litOf ['4']) .nil)) .nil

/-- Syntax tree of `--5`. -/
def exprEx3 : Expr := .mk (.mk (.neg [] (.neg [] (litOf ['5']))) .nil) .nil

/-- Syntax tree of ` 1.5e1 * ( x1 - 2 )`, with white space between the tokens. -/
def exprEx4 : Expr :=
  .mk (.mk (.num [' '] ⟨['1'], some ['5'], some ⟨false, none, ['1']⟩⟩)
    (.mul [' '] (.paren [' ']
      (.mk (.mk (.var [' '] 'x' (some '1')) .nil) (.sub [' '] (.mk (.num [' '] ⟨['2'], none, none⟩) .nil) .nil))
      [' ']) .nil)) .nil

/-- The state in which every variable is 0, no array is declared, the FOR stack
is empty and nothing has been written. -/
def stZero : State ℚ := ⟨fun _ => 0, fun _ => none, [], [], []⟩

/-- The expression that is the single literal with digits `ds`. -/
def exprLit (ds : List Char) : Expr := .mk (.mk (litOf ds) .nil) .nil

/-- A program from its numbered lines. -/
def mkProgram (ls : List (Int × String)) : List Line := ls.map fun l => ⟨l.1, l.2.toList⟩

/-- A state with one FOR frame for the variable I (slot 8) counting to 3 by 1 from
the FOR line at index 0, and I equal to 1. -/
def stLoop : State ℚ :=
  ⟨fun j => if j = 8 then 1 else 0, fun _ => none, [⟨8, 3, 1, 0⟩], [], []⟩

/-- The program `10 FOR I=5 TO 1`, `20 PRINT I`, `30 NEXT I`, `40 END`. -/
def progSkip : List Line :=
  mkProgram [(10, "FOR I=5 TO 1"), (20, "PRINT I"), (30, "NEXT I"), (40, "END")]

/-- The expression that is the single literal with digits `ds` behind one space. -/
def exprLitSp (ds : List Char) : Expr :=
  .mk (.mk (.num [' '] ⟨ds, none, none⟩) .nil) .nil

/-- The state `stZero` with the array A declared with 4 cells equal to 0. -/
def stDimA : State ℚ := ⟨fun _ => 0, fun j => if j = 0 then some [0, 0, 0, 0] else none, [], [], []⟩

/-- The program `10 DIM A(3)`, `20 PRINT A(-1)`, `30 END`. -/
def progReadNeg : List Line :=
  mkProgram [(10, "DIM A(3)"), (20, "PRINT A(-1)"), (30, "END")]

/-! ## The depth counter of the specification -/

/-- Change of the depth counter of the specification at a line: an encountered
FOR increments it, a NEXT decrements it. -/
def lineDelta (l : Line) : Int :=
  if isForText (skip_spaces l.text) then 1
  else if isNextText (skip_spaces l.text) then -1
  else 0

/-- The depth counter of the specification for a FOR at index `p`, after the lines
at the indices `p+1 .. k`: it starts at 1. -/
def depthAt (program : List Line) (p k : Nat) : Int :=
  1 + (((program.drop (p + 1)).take (k - p)).map lineDelta).sum

/-- In the words of the specification: `k` is the index after `p` at which the
depth counter first reaches zero. -/
def MatchingNext (program : List Line) (p k : Nat) : Prop :=
  p < k ∧ k < program.length ∧ depthAt program p k = 0 ∧
  ∀ j, p < j → j < k → depthAt program p j ≠ 0

/-! ## Texts of FOR statements -/

/-- Text of `FOR name = e1 TO e2` followed by `tail`: the keyword, white space
`ws0`, the variable name, white space `ws1`, `=`, the start expression, white
space `ws2`, `TO`, the limit expression. -/
def forText (ws0 : List Char) (letter : Char) (digit : Option Char) (ws1 : List Char)
    (e1 : Expr) (ws2 : List Char) (e2 : Expr) (tail : List Char) : List Char :=
  'F' :: 'O' :: 'R' :: (ws0 ++ letter :: (digit.toList ++
    (ws1 ++ '=' :: (e1.render ++ (ws2 ++ 'T' :: 'O' :: (e2.render ++ tail))))))

/-- Text of `STEP e3` followed by `rest`, with white space `ws3` in front. -/
def stepText (ws3 : List Char) (e3 : Expr) (rest : List Char) : List Char :=
  ws3 ++ 'S' :: 'T' :: 'E' :: 'P' :: (e3.render ++ rest)

/-- The step of a FOR statement with `STEP e3`: a value equal to zero is replaced
by one. -/
def stepOf {V : Type} (A : Arith V) (v : V) : V :=
  if A.eq v (A.ofRat 0) then A.ofRat 1 else v

/-- The program of 257 lines `FOR I=1 TO 2`, numbered from 1. -/
def progDeep : List Line :=
  (List.range 257).map fun i => ⟨(i : Int) + 1, "FOR I=1 TO 2".toList⟩

/-! ## Terms extended by a division, array reads -/

/-- The rest of a term followed by one more division `/ d`. -/
def TermRest.snocDiv : TermRest → List Char → Factor → TermRest
  | .nil, ws, d => .div ws d .nil
  | .mul ws1 f r, ws, d => .mul ws1 f (r.snocDiv ws d)
  | .div ws1 f r, ws, d => .div ws1 f (r.snocDiv ws d)

/-- The term `x / d`. -/
def Term.divBy : Term → List Char → Factor → Term
  | .mk f r, ws, d => .mk f (r.snocDiv ws d)

/-- Value and message of the array read `L(e)` for the letter with index `id`,
when the index expression has the value `iv`: what source `parse_factor` does
after the closing parenthesis. -/
def array_read {V : Type} (A : Arith V) (st : State V) (id : Nat) (iv : V) :
    V × List Diag :=
  if A.toInt iv < 0 then (A.ofRat 0, [])
  else
    match st.arrays id with
    | none => (A.ofRat 0, [Diag.notDimd id])
    | some arr =>
      if (arr.length : Int) ≤ A.toInt iv then (A.ofRat 0, [Diag.outOfBounds id (A.toInt iv)])
      else (arr.getD (A.toInt iv).toNat (A.ofRat 0), [])

/-- The program `10 DIM A(3)`, `20 PRINT A(9)`, `30 PRINT A(-1)`, `40 END`. -/
def progRead : List Line :=
  mkProgram [(10, "DIM A(3)"), (20, "PRINT A(9)"), (30, "PRINT A(-1)"), (40, "END")]

/-! ## The counting program of the specification -/

/-- Digits of `n` in front of `acc`, least significant digit first into `acc`;
`fuel` bounds the number of digits. -/
def natTextAux : Nat → Nat → List Char → List Char
  | 0, _, acc => acc
  | fuel + 1, n, acc =>
    if n / 10 = 0 then Char.ofNat (48 + n % 10) :: acc
    else natTextAux fuel (n / 10) (Char.ofNat (48 + n % 10) :: acc)

/-- Decimal text of a natural number. -/
def natText (n : Nat) : List Char := natTextAux (n + 1) n []

/-- Syntax tree of the integer `z` written in decimal, with a unary minus when it
is negative, behind the white space `ws`. -/
def intFactor (ws : List Char) (z : Int) : Factor :=
  if z < 0 then .neg ws (litOf (natText (-z).toNat))
  else .num ws ⟨natText z.toNat, none, none⟩

/-- The expression that is the integer `z`. -/
def intExpr (ws : List Char) (z : Int) : Expr := .mk (.mk (intFactor ws z) .nil) .nil

/-- The value the evaluator gives to the decimal text of the integer `z`: the
conversion of the digits, multiplied by -1 behind a minus sign. -/
def Arith.ofInt {V : Type} (A : Arith V) (z : Int) : V :=
  if z < 0 then A.mul (A.ofRat (-1)) (A.ofRat (((-z).toNat : Nat) : ℚ))
  else A.ofRat ((z.toNat : Nat) : ℚ)

/-- The program `10 FOR I=a TO b`, `20 PRINT I`, `30 NEXT I`, `40 END`. -/
def progCount (a b : Int) : List Line :=
  [⟨10, forText [' '] 'I' none [] (intExpr [] a) [' '] (intExpr [' '] b) []⟩,
   ⟨20, "PRINT I".toList⟩, ⟨30, "NEXT I".toList⟩, ⟨40, "END".toList⟩]

/-- The arithmetic counts exactly from `a` to `b + 1`: 0 is less than 1, adding 1
to an integer of the range gives the next integer, and comparison with `b` is
that of the integers. -/
structure Counts {V : Type} (A : Arith V) (a b : Int) : Prop where
  lt01 : A.lt (A.ofRat 0) (A.ofRat 1) = true
  lt10 : A.lt (A.ofRat 1) (A.ofRat 0) = false
  ltba : A.lt (A.ofInt b) (A.ofInt a) = false
  succ : ∀ z, a ≤ z → z ≤ b → A.add (A.ofInt z) (A.ofRat 1) = A.ofInt (z + 1)
  le : ∀ z, a ≤ z → z ≤ b + 1 → A.le (A.ofInt z) (A.ofInt b) = decide (z ≤ b)

/-- The output lines for the values `a`, `a + 1`, ... (`n` of them). -/
def countOut {V : Type} (A : Arith V) (a : Int) (n : Nat) : List (Out V) :=
  (List.range n).map fun (i : Nat) => Out.num (A.ofInt (a + (i : Int)))

/-! ## Program store

The array `program[0 .. program_count-1]` is the list of its lines. -/

/-- The inner loop of source `sort_program` for one position `i`: `x` is the
line at `program[i]`, the list holds the lines at the positions `j > i`.  Each
line `y` with a smaller number than the current `program[i]` is exchanged with
it.  The result is the final `program[i]` and the lines behind it. -/
def sort_pass (x : Line) : List Line → Line × List Line
  | [] => (x, [])
  | y :: ys =>
    if x.lineno > y.lineno then ((sort_pass y ys).1, x :: (sort_pass y ys).2)
    else ((sort_pass x ys).1, y :: (sort_pass x ys).2)

/-- The outer loop of source `sort_program` over `n` positions. -/
def sort_loop : Nat → List Line → List Line
  | 0, p => p
  | _ + 1, [] => []
  | n + 1, x :: xs => (sort_pass x xs).1 :: sort_loop n (sort_pass x xs).2

/-- Source `sort_program`. -/
def sort_program (program : List Line) : List Line := sort_loop program.length program

/-- The assignment `program[idx].text = strdup(text)`. -/
def set_text : List Line → Nat → List Char → List Line
  | [], _, _ => []
  | l :: ls, 0, text => { l with text := text } :: ls
  | l :: ls, idx + 1, text => l :: set_text ls idx text

/-- Source `insert_or_replace_line`: the new store, and whether `Program full`
was written to `stderr`. -/
def insert_or_replace_line (program : List Line) (lineno : Int) (text : List Char) :
    List Line × Bool :=
  match find_index_by_lineno program lineno with
  | some idx => (set_text program idx text, false)
  | none =>
    if MAX_LINES ≤ program.length then (program, true)
    else (sort_program (program ++ [⟨lineno, text⟩]), false)

/-- Source `delete_line`: the lines behind `idx` move down by one position. -/
def delete_line (program : List Line) (lineno : Int) : List Line :=
  match find_index_by_lineno program lineno with
  | none => program
  | some idx => program.eraseIdx idx

/-- A call of one of the two functions that change the program store. -/
inductive StoreOp where
  | insert (lineno : Int) (text : List Char)
  | delete (lineno : Int)
deriving DecidableEq, Repr

/-- The store after one call. -/
def StoreOp.apply (program : List Line) : StoreOp → List Line
  | .insert lineno text => (insert_or_replace_line program lineno text).1
  | .delete lineno => delete_line program lineno

/-- The store after a sequence of calls, starting from the empty store. -/
def store_after (ops : List StoreOp) : List Line := ops.foldl StoreOp.apply []

/-- The stored lines are strictly ascending by line number. -/
def Ascending (program : List Line) : Prop :=
  program.Pairwise fun (a b : Line) => a.lineno < b.lineno

instance (program : List Line) : Decidable (Ascending program) :=
  inferInstanceAs (Decidable (program.Pairwise fun (a b : Line) => a.lineno < b.lineno))

/-- A store of 1000 lines, numbered 0, 10, 20, ... -/
def fullStore : List Line := (List.range 1000).map fun i => ⟨10 * (i : Int), ['E', 'N', 'D']⟩

/-! ## Texts of conditions and statements -/

/-- The relational operators of `eval_condition`. -/
inductive RelOp where
  | le
  | ge
  | ne
  | lt
  | gt
  | eq
deriving DecidableEq, Repr

/-- Text of a relational operator. -/
def RelOp.render : RelOp → List Char
  | .le => ['<', '=']
  | .ge => ['>', '=']
  | .ne => ['<', '>']
  | .lt => ['<']
  | .gt => ['>']
  | .eq => ['=']

/-- The comparison a relational operator stands for. -/
def RelOp.holds {V : Type} (A : Arith V) : RelOp → V → V → Bool
  | .le, x, y => A.le x y
  | .ge, x, y => A.ge x y
  | .ne, x, y => A.ne x y
  | .lt, x, y => A.lt x y
  | .gt, x, y => A.gt x y
  | .eq, x, y => A.eq x y

/-- Text of the condition `e1 op e2`, with white space `ws` in front of the
operator. -/
def condText (e1 : Expr) (ws : List Char) (op : RelOp) (e2 : Expr) : List Char :=
  e1.render ++ (ws ++ (op.render ++ e2.render))

/-- Text of `IF cond THEN n` followed by `rest`: the keyword, white space `ws1`,
the condition, white space `ws2`, `THEN`, white space `ws3`, the line number. -/
def ifText (ws1 cond ws2 ws3 : List Char) (n : Nat) (rest : List Char) : List Char :=
  'I' :: 'F' :: (ws1 ++ (cond ++ (ws2 ++ 'T' :: 'H' :: 'E' :: 'N' :: (ws3 ++
    (natText n ++ rest)))))

/-- Text of the array assignment `L(e1) = e2` followed by `rest`, without a
keyword: the letter, white space `ws1`, `(`, the index expression, white space
`ws2`, `)`, white space `ws3`, `=`, the value expression. -/
def arrayAssignText (letter : Char) (ws1 : List Char) (e1 : Expr) (ws2 ws3 : List Char)
    (e2 : Expr) (rest : List Char) : List Char :=
  letter :: (ws1 ++ '(' :: (e1.render ++ (ws2 ++ ')' :: (ws3 ++ '=' :: (e2.render ++ rest)))))

/-- Text of a statement behind the keyword `LET` and the white space `ws0`. -/
def letText (ws0 body : List Char) : List Char := 'L' :: 'E' :: 'T' :: (ws0 ++ body)

/-- Text of a statement behind the keyword `DIM` and the white space `ws0`. -/
def dimText (ws0 body : List Char) : List Char := 'D' :: 'I' :: 'M' :: (ws0 ++ body)

/-- One entry `L(e)` of a DIM statement with the white space around its tokens:
`ws1` in front of `(`, `ws2` in front of `)`, `ws3` behind `)`. -/
structure DimEntry where
  letter : Char
  ws1 : List Char
  e : Expr
  ws2 : List Char
  ws3 : List Char

/-- Text of a DIM entry. -/
def DimEntry.render (d : DimEntry) : List Char :=
  d.letter :: (d.ws1 ++ '(' :: (d.e.render ++ (d.ws2 ++ ')' :: d.ws3)))

/-- A DIM entry is well formed. -/
def DimEntry.WF (d : DimEntry) : Prop :=
  isalpha d.letter = true ∧ Blank d.ws1 ∧ d.e.WF ∧ Blank d.ws2 ∧ Blank d.ws3

/-- Text of the DIM entries `ds`, each followed by a comma and the white space
`ws`, in front of `tail`. -/
def dimEntries (ws : List Char) : List DimEntry → List Char → List Char
  | [], tail => tail
  | d :: ds, tail => d.render ++ ',' :: (ws ++ dimEntries ws ds tail)

/-- The array pointer a DIM entry with the bound value `v` leaves (source lines
314-320): the bound is converted to `int`, a negative bound counts as 0, the
count of cells is one more than the bound, computed as an `int`, and `calloc`
allocates that many cells or returns `NULL`. -/
def dimArray {V : Type} (A : Arith V) (v : V) : Option (List V) :=
  calloc A (to_int ((if A.toInt v < 0 then 0 else A.toInt v) + 1))

/-! ## States that a run cannot tell apart -/

/-- The two states hold the same values in the 286 scalars and the same arrays
for the 26 letters. -/
def SameStore {V : Type} (s1 s2 : State V) : Prop :=
  (∀ i, i < NUM_VARS → s1.vars i = s2.vars i) ∧ (∀ i, i < 26 → s1.arrays i = s2.arrays i)

/-- The two states agree in what a run reads: scalars, arrays and FOR stack, whose
frames name scalars; and each has written, behind what had been written at the
start (`o1`, `e1` and `o2`, `e2`), the same lines to `stdout` and `stderr`. -/
structure Sim {V : Type} (o1 o2 : List (Out V)) (e1 e2 : List Diag) (s1 s2 : State V) :
    Prop where
  store : SameStore s1 s2
  stack : s1.for_stack = s2.for_stack
  frames : ∀ f ∈ s1.for_stack, f.var < NUM_VARS
  out : ∃ o, s1.out = o1 ++ o ∧ s2.out = o2 ++ o
  err : ∃ e, s1.err = e1 ++ e ∧ s2.err = e2 ++ e

/-- Two results of a statement agree: same return code, same next index, and
states that agree. -/
def SimRes {V : Type} (o1 o2 : List (Out V)) (e1 e2 : List Diag) (r1 r2 : Res V) : Prop :=
  r1.rc = r2.rc ∧ r1.next_index = r2.next_index ∧ Sim o1 o2 e1 e2 r1.st r2.st

/-! ## IEEE 754 double precision

The C type `double` of the platforms the interpreter is built for is the binary64
format of IEEE 754: a sign, a significand of 53 binary digits and a binary
exponent, with every operation rounded to the nearest representable number and a
tie rounded to the even significand.  The model keeps the significand and the
rounding and leaves the exponent unbounded: overflow to infinity, subnormal
numbers, NaN and the sign of zero are outside of it. -/

/-- Number of binary digits of `n` (0 for 0), with a budget of halvings. -/
def bit_lengthF : Nat → Nat → Nat
  | 0, _ => 0
  | f + 1, n => if n = 0 then 0 else bit_lengthF f (n / 2) + 1

/-- Number of binary digits of a natural number: 0 for 0, and `k + 1` for a
number from `2 ^ k` to `2 ^ (k + 1) - 1`. -/
def bit_length (n : Nat) : Nat := bit_lengthF n n

/-- The quotient `N / D` rounded to the nearest natural number, a tie to the even
one. -/
def div_rne (N D : Nat) : Nat :=
  let f := N / D
  let r := N % D
  if 2 * r < D then f else if D < 2 * r then f + 1 else if f % 2 = 0 then f else f + 1

/-- Rounding of a rational number to binary64: the nearest number of the form
`m * 2 ^ e` with a natural `m` of at most 53 binary digits, a tie to the even
`m`.  The exponent `e` is chosen so that the quotient by `2 ^ e` lies between
`2 ^ 52` and `2 ^ 53`, and that quotient is rounded to a natural number. -/
def round53 (q : ℚ) : ℚ :=
  let n := q.num.natAbs
  let d := q.den
  if n = 0 then 0
  else
    let e0 : Int := (bit_length n : Int) - (bit_length d : Int) - 52
    let N0 := if e0 < 0 then n * 2 ^ (-e0).toNat else n
    let D0 := if e0 < 0 then d else d * 2 ^ e0.toNat
    let low := decide (N0 < 2 ^ 52 * D0)
    let e := if low then e0 - 1 else e0
    let N := if low then 2 * N0 else N0
    let r := scale 2 (div_rne N D0) e
    if q < 0 then -r else r

/-- The arithmetic of `double`: every literal and every result of an operation is
rounded to binary64, comparisons are exact, and `(int)` truncates toward zero.
A value outside the range of `int` converts to `INT_MIN` (the result of the
conversion instruction of x86-64; C leaves it undefined).  The interpreter never
divides by zero, because `parse_term` replaces a divisor equal to 0.0 by 1.0.
Every allocation succeeds. -/
def binary64 : Arith ℚ where
  ofRat := round53
  add := fun a b => round53 (a + b)
  sub := fun a b => round53 (a - b)
  mul := fun a b => round53 (a * b)
  div := fun a b => round53 (a / b)
  lt := fun a b => decide (a < b)
  le := fun a b => decide (a ≤ b)
  eq := fun a b => decide (a = b)
  toInt := fun q =>
    let t := q.num.tdiv q.den
    if t < -2147483648 ∨ 2147483647 < t then -2147483648 else t
  alloc := fun _ => true

/-! ## Cursor lemmas -/

theorem peek_cons_of_ne {s : List Char} {c : Char} (h : peek s = c) (hc : c ≠ Char.ofNat 0) :
    ∃ t, s = c :: t := by
  cases s with
  | nil => exact absurd h.symm hc
  | cons a t => exact ⟨t, by simp [peek] at h; rw [h]⟩

theorem length_drop_one {s : List Char} {c : Char} (h : peek s = c) (hc : c ≠ Char.ofNat 0) :
    (s.drop 1).length + 1 = s.length := by
  obtain ⟨t, rfl⟩ := peek_cons_of_ne h hc
  simp

theorem length_skip_spaces_le (s : List Char) : (skip_spaces s).length ≤ s.length := by
  unfold skip_spaces
  exact (List.dropWhile_sublist _).length_le

theorem length_eat_le (c : Char) (s : List Char) : (eat c s).length ≤ s.length := by
  unfold eat
  split <;> simp

theorem length_dropWhile_drop_le (p : Char → Bool) (k : Nat) (s : List Char) :
    ((s.drop k).dropWhile p).length ≤ s.length :=
  le_trans (List.dropWhile_sublist _).length_le (by simp)

theorem length_strtod_exp_le (lo up : Char) (s : List Char) :
    (strtod_exp lo up s).2.length ≤ s.length := by
  unfold strtod_exp
  simp only []
  split_ifs
  all_goals first
    | exact le_refl _
    | exact length_dropWhile_drop_le isdigit 1 s
    | simpa using length_dropWhile_drop_le isdigit 2 s

theorem length_strtod_dec_le (s : List Char) (r : ℚ × List Char) (h : strtod_dec s = some r) :
    r.2.length ≤ s.length := by
  unfold strtod_dec at h
  simp only [] at h
  split_ifs at h
  · cases h
    refine le_trans (length_strtod_exp_le _ _ _) ?_
    refine le_trans (length_dropWhile_drop_le isdigit 1 _) (List.dropWhile_sublist _).length_le
  · cases h
    exact le_trans (length_strtod_exp_le _ _ _) (List.dropWhile_sublist _).length_le

theorem length_strtod_hex_le (s : List Char) (r : ℚ × List Char) (h : strtod_hex s = some r) :
    r.2.length ≤ s.length := by
  unfold strtod_hex at h
  simp only [] at h
  split_ifs at h
  · cases h
    refine le_trans (length_strtod_exp_le _ _ _) ?_
    refine le_trans (length_dropWhile_drop_le isxdigit 1 _) (List.dropWhile_sublist _).length_le
  · cases h
    exact le_trans (length_strtod_exp_le _ _ _) (List.dropWhile_sublist _).length_le

theorem length_strtod_le (s : List Char) : (strtod s).2.length ≤ s.length := by
  have hdec : ((strtod_dec s).getD (0, s)).2.length ≤ s.length := by
    cases h : strtod_dec s with
    | none => simp
    | some r => simpa using length_strtod_dec_le s r h
  unfold strtod
  simp only []
  split_ifs
  · cases h : strtod_hex (s.drop 2) with
    | none => simpa using hdec
    | some r =>
      have := length_strtod_hex_le _ r h
      simp only [Option.getD_some]
      exact le_trans this (by simp)
  · exact hdec

theorem length_parse_number_le {V : Type} (A : Arith V) (s : List Char) :
    (parse_number A s).2.length ≤ s.length := by
  unfold parse_number
  exact le_trans (length_strtod_le _) (length_skip_spaces_le s)

theorem length_parse_var_name_lt (s : List Char) (r : Nat × List Char)
    (h : parse_var_name s = some r) : r.2.length < s.length := by
  unfold parse_var_name at h
  simp only [] at h
  split_ifs at h with h1 h2
  · cases h
    cases s with
    | nil => simp [peek, isalpha] at h1
    | cons a t => simp; omega
  · cases h
    cases s with
    | nil => simp [peek, isalpha] at h1
    | cons a t => simp

/-! ## The recursion budget of the parser suffices -/

theorem parse_adequate_aux {V : Type} (A : Arith V) (st : State V) : ∀ n,
    (∀ s, 4 * s.length + 1 ≤ n →
      ∃ r, parse_factorF A st n s = some r ∧ r.2.1.length ≤ s.length) ∧
    (∀ v s d, 4 * s.length + 1 ≤ n →
      ∃ r, parse_term_loopF A st n v s d = some r ∧ r.2.1.length ≤ s.length) ∧
    (∀ s, 4 * s.length + 2 ≤ n →
      ∃ r, parse_termF A st n s = some r ∧ r.2.1.length ≤ s.length) ∧
    (∀ v s d, 4 * s.length + 2 ≤ n →
      ∃ r, parse_expr_loopF A st n v s d = some r ∧ r.2.1.length ≤ s.length) ∧
    (∀ s, 4 * s.length + 3 ≤ n →
      ∃ r, parse_exprF A st n s = some r ∧ r.2.1.length ≤ s.length) := by
  intro n
  induction n with
  | zero =>
    refine ⟨?_, ?_, ?_, ?_, ?_⟩ <;> intros <;> omega
  | succ n ih =>
    obtain ⟨ihF, ihTL, ihT, ihEL, ihE⟩ := ih
    refine ⟨?_, ?_, ?_, ?_, ?_⟩
    · intro s hs
      have hsk := length_skip_spaces_le s
      simp only [parse_factorF]
      by_cases h1 : peek (skip_spaces s) = '+' ∨ peek (skip_spaces s) = '-'
      · rw [if_pos h1]
        have hl : ((skip_spaces s).drop 1).length + 1 = (skip_spaces s).length := by
          rcases h1 with h | h
          · exact length_drop_one h (by decide)
          · exact length_drop_one h (by decide)
        obtain ⟨⟨v1, r, d1⟩, hr, hrl⟩ := ihF ((skip_spaces s).drop 1) (by omega)
        rw [hr]
        simp only [] at hrl
        exact ⟨_, rfl, by simp only []; omega⟩
      · rw [if_neg h1]
        by_cases h2 : peek (skip_spaces s) = '('
        · rw [if_pos h2]
          have hl := length_drop_one h2 (by decide)
          obtain ⟨⟨v1, r, d1⟩, hr, hrl⟩ := ihE ((skip_spaces s).drop 1) (by omega)
          rw [hr]
          refine ⟨_, rfl, ?_⟩
          have h3 := length_eat_le ')' (skip_spaces r)
          have h4 := length_skip_spaces_le r
          unfold eat at h3
          simp only [] at hrl ⊢
          omega
        · rw [if_neg h2]
          by_cases h3 : isalpha (peek (skip_spaces s)) = true
          · rw [if_pos h3]
            cases hv : parse_var_name (skip_spaces s) with
            | none => exact ⟨_, rfl, by simp only []; omega⟩
            | some p =>
              obtain ⟨var_index, s1⟩ := p
              have hv1 := length_parse_var_name_lt _ _ hv
              have hs2 := length_skip_spaces_le s1
              simp only [] at hv1 ⊢
              by_cases h4 : peek (skip_spaces s1) = '('
              · rw [if_pos h4]
                by_cases h5 : 26 ≤ var_index
                · rw [if_pos h5]
                  exact ⟨_, rfl, by simp only []; omega⟩
                · rw [if_neg h5]
                  have hl := length_drop_one h4 (by decide)
                  obtain ⟨⟨v1, r, d1⟩, hr, hrl⟩ := ihE ((skip_spaces s1).drop 1) (by omega)
                  rw [hr]
                  have h6 := length_eat_le ')' (skip_spaces r)
                  have h7 := length_skip_spaces_le r
                  unfold eat at h6
                  simp only [] at hrl ⊢
                  split
                  · exact ⟨_, rfl, by simp only []; omega⟩
                  · split
                    · exact ⟨_, rfl, by simp only []; omega⟩
                    · split
                      · exact ⟨_, rfl, by simp only []; omega⟩
                      · exact ⟨_, rfl, by simp only []; omega⟩
              · rw [if_neg h4]
                exact ⟨_, rfl, by simp only []; omega⟩
          · rw [if_neg h3]
            have := length_parse_number_le A (skip_spaces s)
            exact ⟨_, rfl, by simp only []; omega⟩
    · intro v s d hs
      have hsk := length_skip_spaces_le s
      simp only [parse_term_loopF]
      by_cases h1 : peek (skip_spaces s) = '*'
      · rw [if_pos h1]
        have hl := length_drop_one h1 (by decide)
        obtain ⟨⟨v1, r, d1⟩, hr, hrl⟩ := ihF ((skip_spaces s).drop 1) (by omega)
        rw [hr]
        simp only [] at hrl ⊢
        obtain ⟨r', hr', hrl'⟩ := ihTL (A.mul v v1) r (d ++ d1) (by omega)
        exact ⟨r', hr', by omega⟩
      · rw [if_neg h1]
        by_cases h2 : peek (skip_spaces s) = '/'
        · rw [if_pos h2]
          have hl := length_drop_one h2 (by decide)
          obtain ⟨⟨v1, r, d1⟩, hr, hrl⟩ := ihF ((skip_spaces s).drop 1) (by omega)
          rw [hr]
          simp only [] at hrl ⊢
          obtain ⟨r', hr', hrl'⟩ := ihTL (A.div v (if A.eq v1 (A.ofRat 0) then A.ofRat 1 else v1)) r (d ++ d1) (by omega)
          exact ⟨r', hr', by omega⟩
        · rw [if_neg h2]
          exact ⟨_, rfl, hsk⟩
    · intro s hs
      simp only [parse_termF]
      obtain ⟨⟨v1, r, d1⟩, hr, hrl⟩ := ihF s (by omega)
      rw [hr]
      simp only [] at hrl ⊢
      obtain ⟨r', hr', hrl'⟩ := ihTL v1 r d1 (by omega)
      exact ⟨r', hr', by omega⟩
    · intro v s d hs
      have hsk := length_skip_spaces_le s
      simp only [parse_expr_loopF]
      by_cases h1 : peek (skip_spaces s) = '+'
      · rw [if_pos h1]
        have hl := length_drop_one h1 (by decide)
        obtain ⟨⟨v1, r, d1⟩, hr, hrl⟩ := ihT ((skip_spaces s).drop 1) (by omega)
        rw [hr]
        simp only [] at hrl ⊢
        obtain ⟨r', hr', hrl'⟩ := ihEL (A.add v v1) r (d ++ d1) (by omega)
        exact ⟨r', hr', by omega⟩
      · rw [if_neg h1]
        by_cases h2 : peek (skip_spaces s) = '-'
        · rw [if_pos h2]
          have hl := length_drop_one h2 (by decide)
          obtain ⟨⟨v1, r, d1⟩, hr, hrl⟩ := ihT ((skip_spaces s).drop 1) (by omega)
          rw [hr]
          simp only [] at hrl ⊢
          obtain ⟨r', hr', hrl'⟩ := ihEL (A.sub v v1) r (d ++ d1) (by omega)
          exact ⟨r', hr', by omega⟩
        · rw [if_neg h2]
          exact ⟨_, rfl, hsk⟩
    · intro s hs
      simp only [parse_exprF]
      obtain ⟨⟨v1, r, d1⟩, hr, hrl⟩ := ihT s (by omega)
      rw [hr]
      simp only [] at hrl ⊢
      obtain ⟨r', hr', hrl'⟩ := ihEL v1 r d1 (by omega)
      exact ⟨r', hr', by omega⟩

/-! ## White space and literals -/

theorem skip_spaces_of_not_space {s : List Char} (h : isspace (peek s) = false) :
    skip_spaces s = s := by
  cases s with
  | nil => rfl
  | cons a t =>
    simp only [peek, List.headD_cons] at h
    simp [skip_spaces, List.dropWhile_cons, h]

theorem skip_spaces_append {ws s : List Char} (h : Blank ws) :
    skip_spaces (ws ++ s) = skip_spaces s := by
  induction ws with
  | nil => rfl
  | cons a t ih =>
    have ha : isspace a = true := h a (List.mem_cons_self _ _)
    have ht : Blank t := fun c hc => h c (List.mem_cons_of_mem _ hc)
    simp only [skip_spaces, List.cons_append, List.dropWhile_cons, ha, if_true]
    exact ih ht

theorem skip_spaces_tok {ws s : List Char} {c : Char} (h : Blank ws) (hc : isspace c = false) :
    skip_spaces (ws ++ c :: s) = c :: s := by
  rw [skip_spaces_append h]
  exact skip_spaces_of_not_space (by simpa [peek] using hc)

theorem isspace_peek_skip_spaces (s : List Char) : isspace (peek (skip_spaces s)) = false := by
  induction s with
  | nil => decide
  | cons a t ih =>
    by_cases ha : isspace a = true
    · simpa [skip_spaces, List.dropWhile_cons, ha] using ih
    · simp only [Bool.not_eq_true] at ha
      simp [skip_spaces, List.dropWhile_cons, ha, peek]

theorem skip_spaces_idem (s : List Char) : skip_spaces (skip_spaces s) = skip_spaces s :=
  skip_spaces_of_not_space (isspace_peek_skip_spaces s)

theorem peek_blank_append {ws s : List Char} (h : Blank ws) :
    isspace (peek (ws ++ s)) = true ∨ ws = [] := by
  cases ws with
  | nil => exact Or.inr rfl
  | cons a t => exact Or.inl (by simpa [peek] using h a (List.mem_cons_self _ _))

theorem takeWhile_digits {p : Char → Bool} {ds r : List Char} (h : ∀ c ∈ ds, p c = true)
    (hr : p (peek r) = false) :
    (ds ++ r).takeWhile p = ds ∧ (ds ++ r).dropWhile p = r := by
  induction ds with
  | nil =>
    cases r with
    | nil => exact ⟨rfl, rfl⟩
    | cons a t =>
      simp only [peek, List.headD_cons] at hr
      simp [List.takeWhile_cons, List.dropWhile_cons, hr]
  | cons a t ih =>
    have ha : p a = true := h a (List.mem_cons_self _ _)
    have := ih (fun c hc => h c (List.mem_cons_of_mem _ hc))
    simp [List.takeWhile_cons, List.dropWhile_cons, ha, this.1, this.2]

theorem strtod_exp_none (lo up : Char) {s : List Char} (h1 : peek s ≠ lo) (h2 : peek s ≠ up) :
    strtod_exp lo up s = (0, s) := by
  unfold strtod_exp
  rw [if_neg (by simp [h1, h2])]

theorem strtod_exp_render (e : ExpPart) (rest : List Char) (hne : e.digits ≠ [])
    (hd : ∀ c ∈ e.digits, isdigit c = true) (hr : isdigit (peek rest) = false) :
    strtod_exp 'e' 'E' (e.render ++ rest) = (e.value, rest) := by
  obtain ⟨upper, sign, digits⟩ := e
  simp only [] at hne hd
  have htd := takeWhile_digits hd hr
  obtain ⟨d0, dt, rfl⟩ := List.exists_cons_of_ne_nil hne
  have hd0 : isdigit d0 = true := hd d0 (List.mem_cons_self _ _)
  have hp : d0 ≠ '+' := by rintro rfl; exact absurd hd0 (by decide)
  have hm : d0 ≠ '-' := by rintro rfl; exact absurd hd0 (by decide)
  simp only [List.cons_append] at htd
  unfold strtod_exp
  rcases sign with _ | _ | _ <;> cases upper <;>
    simp [ExpPart.render, signText, ExpPart.value, peek, hp, hm, htd.1, htd.2]

theorem contChar_false {c : Char} (h : contChar c = false) :
    isdigit c = false ∧ c ≠ '.' ∧ c ≠ 'e' ∧ c ≠ 'E' ∧ c ≠ 'x' ∧ c ≠ 'X' := by
  simp only [contChar, Bool.or_eq_false_iff, decide_eq_false_iff_not] at h
  tauto

theorem peek_expText (ex : Option ExpPart) (rest : List Char)
    (hr : contChar (peek rest) = false) :
    isdigit (peek (expText ex ++ rest)) = false ∧ peek (expText ex ++ rest) ≠ '.' ∧
    peek (expText ex ++ rest) ≠ 'x' ∧ peek (expText ex ++ rest) ≠ 'X' := by
  obtain ⟨h1, h2, -, -, h5, h6⟩ := contChar_false hr
  cases ex with
  | none => exact ⟨h1, h2, h5, h6⟩
  | some e =>
    obtain ⟨upper, sign, digits⟩ := e
    cases upper <;> simp [expText, ExpPart.render, peek] <;> decide

theorem strtod_exp_expText (ex : Option ExpPart) (rest : List Char)
    (hex : ∀ e, ex = some e → e.digits ≠ [] ∧ ∀ c ∈ e.digits, isdigit c = true)
    (hr : contChar (peek rest) = false) :
    strtod_exp 'e' 'E' (expText ex ++ rest) = (expValue ex, rest) := by
  obtain ⟨h1, -, h3, h4, -, -⟩ := contChar_false hr
  cases ex with
  | none => exact strtod_exp_none _ _ h3 h4
  | some e => exact strtod_exp_render e rest (hex e rfl).1 (hex e rfl).2 h1

theorem strtod_dec_render (l : NumLit) (rest : List Char) (hl : l.WF)
    (hr : contChar (peek rest) = false) :
    strtod_dec (l.render ++ rest) = some (l.value, rest) := by
  obtain ⟨ip, fp, ex⟩ := l
  obtain ⟨hip, hfp, hne, hex⟩ := hl
  simp only [] at hip hfp hne hex
  obtain ⟨he1, he2, -, -⟩ := peek_expText ex rest hr
  have hE := strtod_exp_expText ex rest hex hr
  unfold strtod_dec
  simp only [NumLit.render, NumLit.value, List.append_assoc]
  cases fp with
  | none =>
    have h1 := takeWhile_digits hip (r := fracText none ++ (expText ex ++ rest))
      (by simpa [fracText] using he1)
    simp only [h1.1, h1.2]
    simp only [fracText, List.nil_append, Option.getD_none, List.append_nil] at hne ⊢
    rw [if_neg he2, if_neg he2, if_neg (by simpa using hne), hE]
    simp
  | some f =>
    have h1 := takeWhile_digits hip (r := fracText (some f) ++ (expText ex ++ rest))
      (by simp [fracText, peek]; decide)
    simp only [Option.getD_some] at hfp hne
    have h2 := takeWhile_digits hfp he1
    simp only [h1.1, h1.2]
    simp only [fracText, List.cons_append, peek, List.headD_cons, if_true, List.drop_succ_cons,
      List.drop_zero, h2.1, h2.2, Option.getD_some]
    have hne' : ¬(ip = [] ∧ f = []) := by
      intro h
      exact hne (by simp [h.1, h.2])
    rw [if_neg hne']
    simp only [peek] at hE
    rw [hE]

theorem strtod_render (l : NumLit) (rest : List Char) (hl : l.WF)
    (hr : contChar (peek rest) = false) :
    strtod (l.render ++ rest) = (l.value, rest) := by
  have hdec := strtod_dec_render l rest hl hr
  have hx : ¬(peek (l.render ++ rest) = '0' ∧
      (at_ (l.render ++ rest) 1 = 'x' ∨ at_ (l.render ++ rest) 1 = 'X')) := by
    obtain ⟨ip, fp, ex⟩ := l
    obtain ⟨hip, hfp, hne, hex⟩ := hl
    simp only [] at hip hfp hne hex
    obtain ⟨he1, he2, he3, he4⟩ := peek_expText ex rest hr
    simp only [NumLit.render, List.append_assoc, at_]
    rintro ⟨h0, h1⟩
    cases ip with
    | nil =>
      cases fp with
      | none => simp at hne
      | some f => simp [fracText, peek] at h0
    | cons a t =>
      cases t with
      | cons b u =>
        have hb : isdigit b = true := hip b (by simp)
        simp only [List.cons_append, List.drop_succ_cons, List.drop_zero, peek,
          List.headD_cons] at h1
        rcases h1 with h | h <;> (rw [h] at hb; exact absurd hb (by decide))
      | nil =>
        simp only [List.cons_append, List.nil_append, List.drop_succ_cons, List.drop_zero] at h1
        cases fp with
        | none =>
          simp only [fracText, List.nil_append] at h1
          rcases h1 with h | h
          · exact he3 h
          · exact he4 h
        | some f => simp [fracText, peek] at h1
  unfold strtod
  simp only []
  rw [if_neg hx, hdec]
  rfl

/-! ## Token dispatch of the parser -/

theorem isalpha_facts {c : Char} (h : isalpha c = true) :
    isspace c = false ∧ isdigit c = false ∧ c ≠ '+' ∧ c ≠ '-' ∧ c ≠ '(' ∧ c ≠ '*' ∧ c ≠ '/' := by
  refine ⟨?_, ?_, ?_, ?_, ?_, ?_, ?_⟩
  · simp only [isalpha, isspace, Bool.or_eq_true, Bool.and_eq_true, decide_eq_true_eq,
      Bool.or_eq_false_iff, Bool.and_eq_false_iff, decide_eq_false_iff_not, beq_eq_false_iff_ne,
      ne_eq] at h ⊢
    omega
  · simp only [isalpha, isdigit, Bool.or_eq_true, Bool.and_eq_true, decide_eq_true_eq,
      Bool.and_eq_false_iff, decide_eq_false_iff_not] at h ⊢
    omega
  all_goals (rintro rfl; exact absurd h (by decide))

theorem isdigit_facts {c : Char} (h : isdigit c = true ∨ c = '.') :
    isspace c = false ∧ isalpha c = false ∧ c ≠ '+' ∧ c ≠ '-' ∧ c ≠ '(' := by
  rcases h with h | rfl
  · refine ⟨?_, ?_, ?_, ?_, ?_⟩
    · simp only [isdigit, isspace, Bool.and_eq_true, decide_eq_true_eq,
        Bool.or_eq_false_iff, Bool.and_eq_false_iff, decide_eq_false_iff_not,
        beq_eq_false_iff_ne, ne_eq] at h ⊢
      omega
    · simp only [isalpha, isdigit, Bool.or_eq_false_iff, Bool.and_eq_true, decide_eq_true_eq,
        Bool.and_eq_false_iff, decide_eq_false_iff_not] at h ⊢
      omega
    all_goals (rintro rfl; exact absurd h (by decide))
  · decide

theorem parse_factorF_neg {V : Type} (A : Arith V) (st : State V) (n : Nat)
    {ws : List Char} (t : List Char) (h : Blank ws) :
    parse_factorF A st (n + 1) (ws ++ '-' :: t) =
      (parse_factorF A st n t).map fun p => (A.mul (A.ofRat (-1)) p.1, p.2.1, p.2.2) := by
  simp only [parse_factorF, skip_spaces_tok h (by decide : isspace '-' = false), peek,
    List.headD_cons, or_true, if_true, List.drop_succ_cons, List.drop_zero]
  cases parse_factorF A st n t <;> rfl

theorem parse_factorF_pos {V : Type} (A : Arith V) (st : State V) (n : Nat)
    {ws : List Char} (t : List Char) (h : Blank ws) :
    parse_factorF A st (n + 1) (ws ++ '+' :: t) =
      (parse_factorF A st n t).map fun p => (A.mul (A.ofRat 1) p.1, p.2.1, p.2.2) := by
  simp only [parse_factorF, skip_spaces_tok h (by decide : isspace '+' = false), peek,
    List.headD_cons, true_or, if_true, List.drop_succ_cons, List.drop_zero]
  have : (if '+' = '-' then (-1 : ℚ) else 1) = 1 := by
    rw [if_neg (by decide)]
  rw [this]
  cases parse_factorF A st n t <;> rfl

theorem parse_factorF_paren {V : Type} (A : Arith V) (st : State V) (n : Nat)
    {ws : List Char} (t : List Char) (h : Blank ws) :
    parse_factorF A st (n + 1) (ws ++ '(' :: t) =
      (parse_exprF A st n t).map fun p => (p.1, eat ')' (skip_spaces p.2.1), p.2.2) := by
  simp only [parse_factorF, skip_spaces_tok h (by decide : isspace '(' = false), peek,
    List.headD_cons, List.drop_succ_cons, List.drop_zero, if_true]
  cases parse_exprF A st n t <;> rfl

theorem parse_factorF_num {V : Type} (A : Arith V) (st : State V) (n : Nat)
    {ws : List Char} {c : Char} (t : List Char) (h : Blank ws)
    (hc : isdigit c = true ∨ c = '.') :
    parse_factorF A st (n + 1) (ws ++ c :: t) =
      some (A.ofRat (strtod (c :: t)).1, (strtod (c :: t)).2, []) := by
  obtain ⟨h1, h2, h3, h4, h5⟩ := isdigit_facts hc
  simp only [parse_factorF, skip_spaces_tok h h1, peek, List.headD_cons, h2, h3, h4, h5,
    or_self, if_false, parse_number, Bool.false_eq_true]
  rw [skip_spaces_of_not_space (by simpa [peek] using h1)]

theorem parse_var_name_render {letter : Char} {digit : Option Char} (rest : List Char)
    (hl : isalpha letter = true) (hd : ∀ d ∈ digit, isdigit d = true)
    (hr : isdigit (peek rest) = false) :
    parse_var_name (letter :: digit.toList ++ rest) = some (slot letter digit, rest) := by
  unfold parse_var_name
  cases digit with
  | none => simp [peek, hl, slot] at hr ⊢; simp [peek, hr]
  | some d =>
    have := hd d rfl
    simp [peek, hl, slot, this]

theorem parse_factorF_var {V : Type} (A : Arith V) (st : State V) (n : Nat)
    {ws : List Char} {letter : Char} {digit : Option Char} (rest : List Char) (h : Blank ws)
    (hl : isalpha letter = true) (hd : ∀ d ∈ digit, isdigit d = true) (hr : FollowF rest) :
    parse_factorF A st (n + 1) (ws ++ letter :: digit.toList ++ rest) =
      some (st.vars (slot letter digit), skip_spaces rest, []) := by
  obtain ⟨h1, -, h3, h4, h5, -, -⟩ := isalpha_facts hl
  have hv := parse_var_name_render rest hl hd (contChar_false hr.1).1
  simp only [List.append_assoc, List.cons_append] at hv ⊢
  simp only [parse_factorF, skip_spaces_tok h h1, peek, List.headD_cons, h3, h4, h5,
    or_self, if_false, hl, if_true, hv]
  have := hr.2
  simp only [peek] at this
  rw [if_neg this]

theorem parse_term_loopF_mul {V : Type} (A : Arith V) (st : State V) (n : Nat) (v : V)
    {ws : List Char} (t : List Char) (d : List Diag) (h : Blank ws) :
    parse_term_loopF A st (n + 1) v (ws ++ '*' :: t) d =
      (parse_factorF A st n t).bind fun p =>
        parse_term_loopF A st n (A.mul v p.1) p.2.1 (d ++ p.2.2) := by
  simp only [parse_term_loopF, skip_spaces_tok h (by decide : isspace '*' = false), peek,
    List.headD_cons, if_true, List.drop_succ_cons, List.drop_zero]
  cases parse_factorF A st n t <;> rfl

theorem parse_term_loopF_div {V : Type} (A : Arith V) (st : State V) (n : Nat) (v : V)
    {ws : List Char} (t : List Char) (d : List Diag) (h : Blank ws) :
    parse_term_loopF A st (n + 1) v (ws ++ '/' :: t) d =
      (parse_factorF A st n t).bind fun p =>
        parse_term_loopF A st n (A.sdiv v p.1) p.2.1 (d ++ p.2.2) := by
  simp only [parse_term_loopF, skip_spaces_tok h (by decide : isspace '/' = false), peek,
    List.headD_cons, if_true, List.drop_succ_cons, List.drop_zero]
  rw [if_neg (by decide)]
  cases parse_factorF A st n t <;> rfl

theorem parse_term_loopF_stop {V : Type} (A : Arith V) (st : State V) (n : Nat) (v : V)
    {s : List Char} (d : List Diag) (h1 : peek (skip_spaces s) ≠ '*')
    (h2 : peek (skip_spaces s) ≠ '/') :
    parse_term_loopF A st (n + 1) v s d = some (v, skip_spaces s, d) := by
  simp only [parse_term_loopF, h1, h2, if_false]

theorem parse_term_loopF_skip {V : Type} (A : Arith V) (st : State V) (n : Nat) (v : V)
    (s : List Char) (d : List Diag) :
    parse_term_loopF A st n v (skip_spaces s) d = parse_term_loopF A st n v s d := by
  cases n with
  | zero => simp only [parse_term_loopF]
  | succ n => simp only [parse_term_loopF, skip_spaces_idem]

theorem parse_expr_loopF_add {V : Type} (A : Arith V) (st : State V) (n : Nat) (v : V)
    {ws : List Char} (t : List Char) (d : List Diag) (h : Blank ws) :
    parse_expr_loopF A st (n + 1) v (ws ++ '+' :: t) d =
      (parse_termF A st n t).bind fun p =>
        parse_expr_loopF A st n (A.add v p.1) p.2.1 (d ++ p.2.2) := by
  simp only [parse_expr_loopF, skip_spaces_tok h (by decide : isspace '+' = false), peek,
    List.headD_cons, if_true, List.drop_succ_cons, List.drop_zero]
  cases parse_termF A st n t <;> rfl

theorem parse_expr_loopF_sub {V : Type} (A : Arith V) (st : State V) (n : Nat) (v : V)
    {ws : List Char} (t : List Char) (d : List Diag) (h : Blank ws) :
    parse_expr_loopF A st (n + 1) v (ws ++ '-' :: t) d =
      (parse_termF A st n t).bind fun p =>
        parse_expr_loopF A st n (A.sub v p.1) p.2.1 (d ++ p.2.2) := by
  simp only [parse_expr_loopF, skip_spaces_tok h (by decide : isspace '-' = false), peek,
    List.headD_cons, if_true, List.drop_succ_cons, List.drop_zero]
  rw [if_neg (by decide)]
  cases parse_termF A st n t <;> rfl

theorem parse_expr_loopF_stop {V : Type} (A : Arith V) (st : State V) (n : Nat) (v : V)
    {s : List Char} (d : List Diag) (h1 : peek (skip_spaces s) ≠ '+')
    (h2 : peek (skip_spaces s) ≠ '-') :
    parse_expr_loopF A st (n + 1) v s d = some (v, skip_spaces s, d) := by
  simp only [parse_expr_loopF, h1, h2, if_false]

theorem parse_expr_loopF_skip {V : Type} (A : Arith V) (st : State V) (n : Nat) (v : V)
    (s : List Char) (d : List Diag) :
    parse_expr_loopF A st n v (skip_spaces s) d = parse_expr_loopF A st n v s d := by
  cases n with
  | zero => simp only [parse_expr_loopF]
  | succ n => simp only [parse_expr_loopF, skip_spaces_idem]

theorem after_cases : ∀ (f : Factor) (s : List Char),
    f.after s = s ∨ f.after s = skip_spaces s
  | .num _ _, _ => Or.inl rfl
  | .var _ _ _, _ => Or.inr rfl
  | .neg _ f, s => after_cases f s
  | .pos _ f, s => after_cases f s
  | .paren _ _ _, _ => Or.inl rfl

theorem parse_term_loopF_after {V : Type} (A : Arith V) (st : State V) (n : Nat) (v : V)
    (f : Factor) (s : List Char) (d : List Diag) :
    parse_term_loopF A st n v (f.after s) d = parse_term_loopF A st n v s d := by
  rcases after_cases f s with h | h <;> rw [h]
  exact parse_term_loopF_skip A st n v s d

/-! ## Follow sets of the rests of terms and expressions -/

theorem followF_of_tok {ws : List Char} {c : Char} (t : List Char) (h : Blank ws)
    (hs : isspace c = false) (hc : contChar c = false) (hp : c ≠ '(') :
    FollowF (ws ++ c :: t) := by
  constructor
  · cases ws with
    | nil => simpa [peek] using hc
    | cons a u =>
      have ha : isspace a = true := h a (List.mem_cons_self _ _)
      simp only [List.cons_append, peek, List.headD_cons]
      simp only [contChar, isspace, isdigit, Bool.or_eq_true, Bool.and_eq_true, beq_iff_eq,
        decide_eq_true_eq, Bool.or_eq_false_iff, Bool.and_eq_false_iff,
        decide_eq_false_iff_not] at ha ⊢
      refine ⟨⟨⟨⟨⟨?_, ?_⟩, ?_⟩, ?_⟩, ?_⟩, ?_⟩
      · omega
      all_goals (rintro rfl; revert ha; decide)
  · rw [skip_spaces_tok h hs]
    simpa [peek] using hp

theorem followF_termRest : ∀ (tr : TermRest) (rest : List Char), tr.WF → FollowT rest →
    FollowF (tr.render ++ rest)
  | .nil, _, _, h => h.1
  | .mul ws f r, rest, hwf, _ => by
    simp only [TermRest.render, List.append_assoc, List.cons_append]
    exact followF_of_tok _ hwf.1 (by decide) (by decide) (by decide)
  | .div ws f r, rest, hwf, _ => by
    simp only [TermRest.render, List.append_assoc, List.cons_append]
    exact followF_of_tok _ hwf.1 (by decide) (by decide) (by decide)

theorem followT_exprRest : ∀ (er : ExprRest) (rest : List Char), er.WF → FollowE rest →
    FollowT (er.render ++ rest)
  | .nil, _, _, h => h.1
  | .add ws t r, rest, hwf, _ => by
    simp only [ExprRest.render, List.append_assoc, List.cons_append]
    refine ⟨followF_of_tok _ hwf.1 (by decide) (by decide) (by decide), ?_, ?_⟩ <;>
      rw [skip_spaces_tok hwf.1 (by decide)] <;> simp [peek]
  | .sub ws t r, rest, hwf, _ => by
    simp only [ExprRest.render, List.append_assoc, List.cons_append]
    refine ⟨followF_of_tok _ hwf.1 (by decide) (by decide) (by decide), ?_, ?_⟩ <;>
      rw [skip_spaces_tok hwf.1 (by decide)] <;> simp [peek]

theorem followE_close {ws1 : List Char} (rest : List Char) (h : Blank ws1) :
    FollowE (ws1 ++ ')' :: rest) := by
  refine ⟨⟨followF_of_tok _ h (by decide) (by decide) (by decide), ?_, ?_⟩, ?_, ?_⟩ <;>
    rw [skip_spaces_tok h (by decide)] <;> simp [peek]

/-! ## The parser computes the value by standard precedence -/

theorem NumLit.render_head (l : NumLit) (hl : l.WF) :
    ∃ c t, l.render = c :: t ∧ (isdigit c = true ∨ c = '.') := by
  obtain ⟨ip, fp, ex⟩ := l
  obtain ⟨hip, hfp, hne, -⟩ := hl
  simp only [] at hip hfp hne
  cases ip with
  | cons a t => exact ⟨a, _, rfl, Or.inl (hip a (List.mem_cons_self _ _))⟩
  | nil =>
    cases fp with
    | none => simp at hne
    | some f => exact ⟨'.', _, rfl, Or.inr rfl⟩

mutual

theorem factor_sound {V : Type} (A : Arith V) (st : State V) :
    ∀ (f : Factor) (n : Nat) (rest : List Char) (r : V × List Char × List Diag),
      f.WF → FollowF rest → parse_factorF A st n (f.render ++ rest) = some r →
      r = (f.eval A st, f.after rest, [])
  | .num ws l, n, rest, r, hwf, hfol, h => by
    cases n with
    | zero => simp [parse_factorF] at h
    | succ n =>
      obtain ⟨c, t, hct, hc⟩ := NumLit.render_head l hwf.2
      have hs := strtod_render l rest hwf.2 hfol.1
      rw [hct, List.cons_append] at hs
      simp only [Factor.render, List.append_assoc] at h
      rw [hct, List.cons_append, parse_factorF_num A st n _ hwf.1 hc, hs] at h
      simp only [Option.some.injEq] at h
      rw [← h]
      rfl
  | .var ws letter digit, n, rest, r, hwf, hfol, h => by
    cases n with
    | zero => simp [parse_factorF] at h
    | succ n =>
      simp only [Factor.render] at h
      rw [parse_factorF_var A st n rest hwf.1 hwf.2.1 hwf.2.2 hfol] at h
      simp only [Option.some.injEq] at h
      rw [← h]
      rfl
  | .neg ws f, n, rest, r, hwf, hfol, h => by
    cases n with
    | zero => simp [parse_factorF] at h
    | succ n =>
      simp only [Factor.render, List.append_assoc, List.cons_append] at h
      rw [parse_factorF_neg A st n _ hwf.1] at h
      cases hp : parse_factorF A st n (f.render ++ rest) with
      | none => simp [hp] at h
      | some p =>
        have := factor_sound A st f n rest p hwf.2 hfol hp
        subst this
        simp only [hp, Option.map_some', Option.some.injEq] at h
        rw [← h]
        rfl
  | .pos ws f, n, rest, r, hwf, hfol, h => by
    cases n with
    | zero => simp [parse_factorF] at h
    | succ n =>
      simp only [Factor.render, List.append_assoc, List.cons_append] at h
      rw [parse_factorF_pos A st n _ hwf.1] at h
      cases hp : parse_factorF A st n (f.render ++ rest) with
      | none => simp [hp] at h
      | some p =>
        have := factor_sound A st f n rest p hwf.2 hfol hp
        subst this
        simp only [hp, Option.map_some', Option.some.injEq] at h
        rw [← h]
        rfl
  | .paren ws e ws1, n, rest, r, hwf, hfol, h => by
    cases n with
    | zero => simp [parse_factorF] at h
    | succ n =>
      simp only [Factor.render, List.append_assoc, List.cons_append, List.nil_append] at h
      rw [parse_factorF_paren A st n _ hwf.1] at h
      cases hp : parse_exprF A st n (e.render ++ (ws1 ++ ')' :: rest)) with
      | none => simp [hp] at h
      | some p =>
        have := expr_sound A st e n _ p hwf.2.1 (followE_close rest hwf.2.2) hp
        subst this
        simp only [hp, Option.map_some', Option.some.injEq] at h
        rw [← h]
        simp only [skip_spaces_tok hwf.2.2 (by decide : isspace ')' = false), Factor.eval,
          Factor.after]
        rw [skip_spaces_of_not_space (by simp [peek]; decide)]
        simp [eat, peek]

theorem termRest_sound {V : Type} (A : Arith V) (st : State V) :
    ∀ (tr : TermRest) (n : Nat) (v : V) (d : List Diag) (rest : List Char)
      (r : V × List Char × List Diag),
      tr.WF → FollowT rest → parse_term_loopF A st n v (tr.render ++ rest) d = some r →
      r = (tr.eval A st v, skip_spaces rest, d)
  | .nil, n, v, d, rest, r, _, hfol, h => by
    cases n with
    | zero => simp [parse_term_loopF] at h
    | succ n =>
      simp only [TermRest.render, List.nil_append] at h
      rw [parse_term_loopF_stop A st n v d hfol.2.1 hfol.2.2] at h
      simp only [Option.some.injEq] at h
      rw [← h]
      rfl
  | .mul ws f tr, n, v, d, rest, r, hwf, hfol, h => by
    cases n with
    | zero => simp [parse_term_loopF] at h
    | succ n =>
      simp only [TermRest.render, List.append_assoc, List.cons_append] at h
      rw [parse_term_loopF_mul A st n v _ d hwf.1] at h
      cases hp : parse_factorF A st n (f.render ++ (tr.render ++ rest)) with
      | none => simp [hp] at h
      | some p =>
        have := factor_sound A st f n _ p hwf.2.1 (followF_termRest tr rest hwf.2.2 hfol) hp
        subst this
        simp only [hp, Option.some_bind, parse_term_loopF_after, List.append_nil] at h
        exact termRest_sound A st tr n _ d rest r hwf.2.2 hfol h
  | .div ws f tr, n, v, d, rest, r, hwf, hfol, h => by
    cases n with
    | zero => simp [parse_term_loopF] at h
    | succ n =>
      simp only [TermRest.render, List.append_assoc, List.cons_append] at h
      rw [parse_term_loopF_div A st n v _ d hwf.1] at h
      cases hp : parse_factorF A st n (f.render ++ (tr.render ++ rest)) with
      | none => simp [hp] at h
      | some p =>
        have := factor_sound A st f n _ p hwf.2.1 (followF_termRest tr rest hwf.2.2 hfol) hp
        subst this
        simp only [hp, Option.some_bind, parse_term_loopF_after, List.append_nil] at h
        exact termRest_sound A st tr n _ d rest r hwf.2.2 hfol h

theorem term_sound {V : Type} (A : Arith V) (st : State V) :
    ∀ (t : Term) (n : Nat) (rest : List Char) (r : V × List Char × List Diag),
      t.WF → FollowT rest → parse_termF A st n (t.render ++ rest) = some r →
      r = (t.eval A st, skip_spaces rest, [])
  | .mk f tr, n, rest, r, hwf, hfol, h => by
    cases n with
    | zero => simp [parse_termF] at h
    | succ n =>
      simp only [Term.render, List.append_assoc, parse_termF] at h
      cases hp : parse_factorF A st n (f.render ++ (tr.render ++ rest)) with
      | none => simp [hp] at h
      | some p =>
        have := factor_sound A st f n _ p hwf.1 (followF_termRest tr rest hwf.2 hfol) hp
        subst this
        simp only [hp, parse_term_loopF_after] at h
        exact termRest_sound A st tr n _ [] rest r hwf.2 hfol h

theorem exprRest_sound {V : Type} (A : Arith V) (st : State V) :
    ∀ (er : ExprRest) (n : Nat) (v : V) (d : List Diag) (rest : List Char)
      (r : V × List Char × List Diag),
      er.WF → FollowE rest → parse_expr_loopF A st n v (er.render ++ rest) d = some r →
      r = (er.eval A st v, skip_spaces rest, d)
  | .nil, n, v, d, rest, r, _, hfol, h => by
    cases n with
    | zero => simp [parse_expr_loopF] at h
    | succ n =>
      simp only [ExprRest.render, List.nil_append] at h
      rw [parse_expr_loopF_stop A st n v d hfol.2.1 hfol.2.2] at h
      simp only [Option.some.injEq] at h
      rw [← h]
      rfl
  | .add ws t er, n, v, d, rest, r, hwf, hfol, h => by
    cases n with
    | zero => simp [parse_expr_loopF] at h
    | succ n =>
      simp only [ExprRest.render, List.append_assoc, List.cons_append] at h
      rw [parse_expr_loopF_add A st n v _ d hwf.1] at h
      cases hp : parse_termF A st n (t.render ++ (er.render ++ rest)) with
      | none => simp [hp] at h
      | some p =>
        have := term_sound A st t n _ p hwf.2.1 (followT_exprRest er rest hwf.2.2 hfol) hp
        subst this
        simp only [hp, Option.some_bind, parse_expr_loopF_skip, List.append_nil] at h
        exact exprRest_sound A st er n _ d rest r hwf.2.2 hfol h
  | .sub ws t er, n, v, d, rest, r, hwf, hfol, h => by
    cases n with
    | zero => simp [parse_expr_loopF] at h
    | succ n =>
      simp only [ExprRest.render, List.append_assoc, List.cons_append] at h
      rw [parse_expr_loopF_sub A st n v _ d hwf.1] at h
      cases hp : parse_termF A st n (t.render ++ (er.render ++ rest)) with
      | none => simp [hp] at h
      | some p =>
        have := term_sound A st t n _ p hwf.2.1 (followT_exprRest er rest hwf.2.2 hfol) hp
        subst this
        simp only [hp, Option.some_bind, parse_expr_loopF_skip, List.append_nil] at h
        exact exprRest_sound A st er n _ d rest r hwf.2.2 hfol h

theorem expr_sound {V : Type} (A : Arith V) (st : State V) :
    ∀ (e : Expr) (n : Nat) (rest : List Char) (r : V × List Char × List Diag),
      e.WF → FollowE rest → parse_exprF A st n (e.render ++ rest) = some r →
      r = (e.eval A st, skip_spaces rest, [])
  | .mk t er, n, rest, r, hwf, hfol, h => by
    cases n with
    | zero => simp [parse_exprF] at h
    | succ n =>
      simp only [Expr.render, List.append_assoc, parse_exprF] at h
      cases hp : parse_termF A st n (t.render ++ (er.render ++ rest)) with
      | none => simp [hp] at h
      | some p =>
        have := term_sound A st t n _ p hwf.1 (followT_exprRest er rest hwf.2 hfol) hp
        subst this
        simp only [hp, parse_expr_loopF_skip] at h
        exact exprRest_sound A st er n _ [] rest r hwf.2 hfol h

end

/-! ## The result of the parser does not depend on the budget -/

theorem parse_mono_aux {V : Type} (A : Arith V) (st : State V) : ∀ n,
    (∀ m s r, n ≤ m → parse_factorF A st n s = some r → parse_factorF A st m s = some r) ∧
    (∀ m v s d r, n ≤ m → parse_term_loopF A st n v s d = some r →
      parse_term_loopF A st m v s d = some r) ∧
    (∀ m s r, n ≤ m → parse_termF A st n s = some r → parse_termF A st m s = some r) ∧
    (∀ m v s d r, n ≤ m → parse_expr_loopF A st n v s d = some r →
      parse_expr_loopF A st m v s d = some r) ∧
    (∀ m s r, n ≤ m → parse_exprF A st n s = some r → parse_exprF A st m s = some r) := by
  intro n
  induction n with
  | zero =>
    refine ⟨?_, ?_, ?_, ?_, ?_⟩
    · intro m s r _ h; simp only [parse_factorF] at h; cases h
    · intro m v s d r _ h; simp only [parse_term_loopF] at h; cases h
    · intro m s r _ h; simp only [parse_termF] at h; cases h
    · intro m v s d r _ h; simp only [parse_expr_loopF] at h; cases h
    · intro m s r _ h; simp only [parse_exprF] at h; cases h
  | succ n ih =>
    obtain ⟨ihF, ihTL, ihT, ihEL, ihE⟩ := ih
    refine ⟨?_, ?_, ?_, ?_, ?_⟩
    · intro m s r hm h
      obtain ⟨m, rfl⟩ : ∃ k, m = k + 1 := ⟨m - 1, by omega⟩
      have hnm : n ≤ m := by omega
      simp only [parse_factorF] at h ⊢
      by_cases h1 : peek (skip_spaces s) = '+' ∨ peek (skip_spaces s) = '-'
      · rw [if_pos h1] at h ⊢
        generalize hp : parse_factorF A st n ((skip_spaces s).drop 1) = o at h
        cases o with
        | none => cases h
        | some p => rw [ihF m _ _ hnm hp]; exact h
      · rw [if_neg h1] at h ⊢
        by_cases h2 : peek (skip_spaces s) = '('
        · rw [if_pos h2] at h ⊢
          generalize hp : parse_exprF A st n ((skip_spaces s).drop 1) = o at h
          cases o with
          | none => cases h
          | some p => rw [ihE m _ _ hnm hp]; exact h
        · rw [if_neg h2] at h ⊢
          by_cases h3 : isalpha (peek (skip_spaces s)) = true
          · rw [if_pos h3] at h ⊢
            cases hv : parse_var_name (skip_spaces s) with
            | none => rw [hv] at h; exact h
            | some q =>
              rw [hv] at h
              simp only [] at h ⊢
              by_cases h4 : peek (skip_spaces q.2) = '('
              · rw [if_pos h4] at h ⊢
                by_cases h5 : 26 ≤ q.1
                · rw [if_pos h5] at h ⊢
                  exact h
                · rw [if_neg h5] at h ⊢
                  generalize hp : parse_exprF A st n ((skip_spaces q.2).drop 1) = o at h
                  cases o with
                  | none => cases h
                  | some p => rw [ihE m _ _ hnm hp]; exact h
              · rw [if_neg h4] at h ⊢
                exact h
          · rw [if_neg h3] at h ⊢
            exact h
    · intro m v s d r hm h
      obtain ⟨m, rfl⟩ : ∃ k, m = k + 1 := ⟨m - 1, by omega⟩
      have hnm : n ≤ m := by omega
      simp only [parse_term_loopF] at h ⊢
      by_cases h1 : peek (skip_spaces s) = '*'
      · rw [if_pos h1] at h ⊢
        generalize hp : parse_factorF A st n ((skip_spaces s).drop 1) = o at h
        cases o with
        | none => cases h
        | some p => rw [ihF m _ _ hnm hp]; exact ihTL m _ _ _ _ hnm h
      · rw [if_neg h1] at h ⊢
        by_cases h2 : peek (skip_spaces s) = '/'
        · rw [if_pos h2] at h ⊢
          generalize hp : parse_factorF A st n ((skip_spaces s).drop 1) = o at h
          cases o with
          | none => cases h
          | some p => rw [ihF m _ _ hnm hp]; exact ihTL m _ _ _ _ hnm h
        · rw [if_neg h2] at h ⊢
          exact h
    · intro m s r hm h
      obtain ⟨m, rfl⟩ : ∃ k, m = k + 1 := ⟨m - 1, by omega⟩
      have hnm : n ≤ m := by omega
      simp only [parse_termF] at h ⊢
      generalize hp : parse_factorF A st n s = o at h
      cases o with
      | none => cases h
      | some p => rw [ihF m _ _ hnm hp]; exact ihTL m _ _ _ _ hnm h
    · intro m v s d r hm h
      obtain ⟨m, rfl⟩ : ∃ k, m = k + 1 := ⟨m - 1, by omega⟩
      have hnm : n ≤ m := by omega
      simp only [parse_expr_loopF] at h ⊢
      by_cases h1 : peek (skip_spaces s) = '+'
      · rw [if_pos h1] at h ⊢
        generalize hp : parse_termF A st n ((skip_spaces s).drop 1) = o at h
        cases o with
        | none => cases h
        | some p => rw [ihT m _ _ hnm hp]; exact ihEL m _ _ _ _ hnm h
      · rw [if_neg h1] at h ⊢
        by_cases h2 : peek (skip_spaces s) = '-'
        · rw [if_pos h2] at h ⊢
          generalize hp : parse_termF A st n ((skip_spaces s).drop 1) = o at h
          cases o with
          | none => cases h
          | some p => rw [ihT m _ _ hnm hp]; exact ihEL m _ _ _ _ hnm h
        · rw [if_neg h2] at h ⊢
          exact h
    · intro m s r hm h
      obtain ⟨m, rfl⟩ : ∃ k, m = k + 1 := ⟨m - 1, by omega⟩
      have hnm : n ≤ m := by omega
      simp only [parse_exprF] at h ⊢
      generalize hp : parse_termF A st n s = o at h
      cases o with
      | none => cases h
      | some p => rw [ihT m _ _ hnm hp]; exact ihEL m _ _ _ _ hnm h

theorem parse_exprF_budget {V : Type} (A : Arith V) (st : State V) (s : List Char) :
    parse_exprF A st (budget s) s = some (parse_expr A st s) := by
  obtain ⟨r, hr, -⟩ := (parse_adequate_aux A st (budget s)).2.2.2.2 s (by unfold budget; omega)
  simp [parse_expr, hr]

theorem parse_factorF_budget {V : Type} (A : Arith V) (st : State V) (s : List Char) :
    parse_factorF A st (budget s) s = some (parse_factor A st s) := by
  obtain ⟨r, hr, -⟩ := (parse_adequate_aux A st (budget s)).1 s (by unfold budget; omega)
  simp [parse_factor, hr]

theorem parse_termF_budget {V : Type} (A : Arith V) (st : State V) (s : List Char) :
    parse_termF A st (budget s) s = some (parse_term A st s) := by
  obtain ⟨r, hr, -⟩ := (parse_adequate_aux A st (budget s)).2.2.1 s (by unfold budget; omega)
  simp [parse_term, hr]

/-- Any budget under which `parse_exprF` returns gives the result of `parse_expr`. -/
theorem parse_expr_of_F {V : Type} (A : Arith V) (st : State V) {n : Nat} {s : List Char}
    {r : V × List Char × List Diag} (h : parse_exprF A st n s = some r) :
    parse_expr A st s = r := by
  have hb := parse_exprF_budget A st s
  rcases le_total n (budget s) with hle | hle
  · have := (parse_mono_aux A st n).2.2.2.2 _ s r hle h
    rw [hb] at this
    exact Option.some.inj this
  · have := (parse_mono_aux A st (budget s)).2.2.2.2 _ s _ hle hb
    rw [h] at this
    exact (Option.some.inj this).symm

/-- Any budget under which `parse_factorF` returns gives the result of `parse_factor`. -/
theorem parse_factor_of_F {V : Type} (A : Arith V) (st : State V) {n : Nat} {s : List Char}
    {r : V × List Char × List Diag} (h : parse_factorF A st n s = some r) :
    parse_factor A st s = r := by
  have hb := parse_factorF_budget A st s
  rcases le_total n (budget s) with hle | hle
  · have := (parse_mono_aux A st n).1 _ s r hle h
    rw [hb] at this
    exact Option.some.inj this
  · have := (parse_mono_aux A st (budget s)).1 _ s _ hle hb
    rw [h] at this
    exact (Option.some.inj this).symm

/-- With enough budget `parse_exprF` returns the result of `parse_expr`. -/
theorem parse_exprF_eq {V : Type} (A : Arith V) (st : State V) {n : Nat} (s : List Char)
    (h : budget s ≤ n) : parse_exprF A st n s = some (parse_expr A st s) :=
  (parse_mono_aux A st (budget s)).2.2.2.2 _ s _ h (parse_exprF_budget A st s)

theorem parse_expr_render {V : Type} (A : Arith V) (st : State V) (e : Expr)
    (rest : List Char) (hwf : e.WF) (hfol : FollowE rest) :
    parse_expr A st (e.render ++ rest) = (e.eval A st, skip_spaces rest, []) :=
  expr_sound A st e _ rest _ hwf hfol (parse_exprF_budget A st _)

theorem parse_factor_render {V : Type} (A : Arith V) (st : State V) (f : Factor)
    (rest : List Char) (hwf : f.WF) (hfol : FollowF rest) :
    parse_factor A st (f.render ++ rest) = (f.eval A st, f.after rest, []) :=
  factor_sound A st f _ rest _ hwf hfol (parse_factorF_budget A st _)

theorem parse_term_render {V : Type} (A : Arith V) (st : State V) (t : Term)
    (rest : List Char) (hwf : t.WF) (hfol : FollowT rest) :
    parse_term A st (t.render ++ rest) = (t.eval A st, skip_spaces rest, []) :=
  term_sound A st t _ rest _ hwf hfol (parse_termF_budget A st _)

theorem followE_nil : FollowE [] := by
  refine ⟨⟨⟨?_, ?_⟩, ?_, ?_⟩, ?_, ?_⟩ <;> decide

theorem signed_wf (sg : List (Bool × List Char)) (f : Factor) (hs : ∀ s ∈ sg, Blank s.2)
    (hf : f.WF) : (signed sg f).WF := by
  induction sg with
  | nil => exact hf
  | cons a t ih =>
    have ha := hs a (List.mem_cons_self _ _)
    have ht := ih (fun s h => hs s (List.mem_cons_of_mem _ h))
    unfold signed
    simp only [List.foldr_cons]
    split
    · exact ⟨ha, ht⟩
    · exact ⟨ha, ht⟩

theorem signed_eval {V : Type} (A : Arith V) (st : State V)
    (h1 : ∀ x, A.mul (A.ofRat 1) x = x)
    (h2 : ∀ x, A.mul (A.ofRat (-1)) (A.mul (A.ofRat (-1)) x) = x)
    (sg : List (Bool × List Char)) (f : Factor) :
    (signed sg f).eval A st =
      if (sg.countP fun s => s.1) % 2 = 0 then f.eval A st
      else A.mul (A.ofRat (-1)) (f.eval A st) := by
  induction sg with
  | nil => simp [signed]
  | cons a t ih =>
    have hu : signed (a :: t) f = if a.1 then Factor.neg a.2 (signed t f)
        else Factor.pos a.2 (signed t f) := rfl
    rw [hu]
    cases ha : a.1
    · simp only [Bool.false_eq_true, if_false, Factor.eval, h1, ih, List.countP_cons, ha,
        add_zero]
    · simp only [if_true, Factor.eval, ih, List.countP_cons, ha]
      by_cases hk : (List.countP (fun s => s.1) t) % 2 = 0
      · have : ¬ (List.countP (fun s => s.1) t + 1) % 2 = 0 := by omega
        simp [hk, this]
      · have : (List.countP (fun s => s.1) t + 1) % 2 = 0 := by omega
        simp [hk, this, h2]

/-- The text `2+3*4`. -/
theorem render_ex1 : exprEx1.render = "2+3*4".toList := by decide

/-- The text `(2+3)*4`. -/
theorem render_ex2 : exprEx2.render = "(2+3)*4".toList := by decide

/-- The text `--5`. -/
theorem render_ex3 : exprEx3.render = "--5".toList := by decide

/-! ## C1: standard precedence -/

theorem litOf_wf (ds : List Char) (h : ds ≠ []) (hd : ∀ c ∈ ds, isdigit c = true) :
    (litOf ds).WF := by
  simp [litOf, Factor.WF, NumLit.WF, Blank]
  exact ⟨hd, h⟩

theorem exprEx1_wf : exprEx1.WF := by
  simp [exprEx1, Expr.WF, Term.WF, TermRest.WF, ExprRest.WF, Factor.WF, litOf, NumLit.WF, Blank]
  decide

theorem exprEx2_wf : exprEx2.WF := by
  simp [exprEx2, Expr.WF, Term.WF, TermRest.WF, ExprRest.WF, Factor.WF, litOf, NumLit.WF, Blank]
  decide

theorem exprEx3_wf : exprEx3.WF := by
  simp [exprEx3, Expr.WF, Term.WF, TermRest.WF, ExprRest.WF, Factor.WF, litOf, NumLit.WF, Blank]
  decide

theorem exprEx4_wf : exprEx4.WF := by
  simp [exprEx4, Expr.WF, Term.WF, TermRest.WF, ExprRest.WF, Factor.WF, NumLit.WF, Blank]
  decide

theorem exact_mul_one (x : ℚ) : exact.mul (exact.ofRat 1) x = x := by
  simp [exact]

theorem exact_neg_neg (x : ℚ) : exact.mul (exact.ofRat (-1)) (exact.mul (exact.ofRat (-1)) x) = x := by
  simp [exact]

/-- C1: on every text of the expression grammar (literals, scalar variables,
parentheses, unary signs, white space in front of any token) `parse_expr` returns
the value by standard precedence, `Expr.eval`, with the cursor behind the text and
no message; a factor behind signs of which `k` are `-` has the value of the inner
factor when `k` is even and -1 times it when `k` is odd, in exact arithmetic
`(-1)^k` times it; `2+3*4` is 14, `(2+3)*4` is 20 and `--5` is 5. -/
theorem parse_expr_standard_precedence :
    (∀ (V : Type) (A : Arith V) (st : State V) (e : Expr) (rest : List Char),
      e.WF → FollowE rest →
      parse_expr A st (e.render ++ rest) = (e.eval A st, skip_spaces rest, [])) ∧
    (∀ (V : Type) (A : Arith V) (st : State V) (sg : List (Bool × List Char)) (f : Factor)
      (rest : List Char),
      (∀ x, A.mul (A.ofRat 1) x = x) →
      (∀ x, A.mul (A.ofRat (-1)) (A.mul (A.ofRat (-1)) x) = x) →
      (∀ s ∈ sg, Blank s.2) → f.WF → FollowF rest →
      (parse_factor A st ((signed sg f).render ++ rest)).1 =
        if (sg.countP fun s => s.1) % 2 = 0 then (parse_factor A st (f.render ++ rest)).1
        else A.mul (A.ofRat (-1)) (parse_factor A st (f.render ++ rest)).1) ∧
    (∀ (st : State ℚ) (sg : List (Bool × List Char)) (f : Factor) (rest : List Char),
      (∀ s ∈ sg, Blank s.2) → f.WF → FollowF rest →
      (parse_factor exact st ((signed sg f).render ++ rest)).1 =
        (-1) ^ (sg.countP fun s => s.1) * (parse_factor exact st (f.render ++ rest)).1) ∧
    (∀ st : State ℚ, parse_expr exact st "2+3*4".toList = (14, [], [])) ∧
    (∀ st : State ℚ, parse_expr exact st "(2+3)*4".toList = (20, [], [])) ∧
    (∀ st : State ℚ, parse_expr exact st "--5".toList = (5, [], [])) := by
  refine ⟨?_, ?_, ?_, ?_, ?_, ?_⟩
  · intro V A st e rest hwf hfol
    exact parse_expr_render A st e rest hwf hfol
  · intro V A st sg f rest h1 h2 hs hf hfol
    rw [parse_factor_render A st _ rest (signed_wf sg f hs hf) hfol,
      parse_factor_render A st f rest hf hfol]
    exact signed_eval A st h1 h2 sg f
  · intro st sg f rest hs hf hfol
    rw [parse_factor_render exact st _ rest (signed_wf sg f hs hf) hfol,
      parse_factor_render exact st f rest hf hfol]
    simp only []
    rw [signed_eval exact st exact_mul_one exact_neg_neg sg f]
    rcases Nat.even_or_odd (List.countP (fun s => s.1) sg) with hk | hk
    · rw [if_pos (Nat.even_iff.mp hk), hk.neg_one_pow, one_mul]
    · rw [if_neg (by rw [Nat.odd_iff.mp hk]; decide), hk.neg_one_pow]
      simp [exact]
  · intro st
    have h := parse_expr_render exact st exprEx1 [] exprEx1_wf followE_nil
    rw [List.append_nil, render_ex1] at h
    rw [h]
    simp [exprEx1, Expr.eval, Term.eval, TermRest.eval, ExprRest.eval, Factor.eval, litOf,
      NumLit.value, expValue, scale, decVal, digitVal, exact, skip_spaces]
    norm_num
  · intro st
    have h := parse_expr_render exact st exprEx2 [] exprEx2_wf followE_nil
    rw [List.append_nil, render_ex2] at h
    rw [h]
    simp [exprEx2, Expr.eval, Term.eval, TermRest.eval, ExprRest.eval, Factor.eval, litOf,
      NumLit.value, expValue, scale, decVal, digitVal, exact, skip_spaces]
    norm_num
  · intro st
    have h := parse_expr_render exact st exprEx3 [] exprEx3_wf followE_nil
    rw [List.append_nil, render_ex3] at h
    rw [h]
    simp [exprEx3, Expr.eval, Term.eval, TermRest.eval, ExprRest.eval, Factor.eval, litOf,
      NumLit.value, expValue, scale, decVal, digitVal, exact, skip_spaces]

/-- Witness of C1 on the text ` 1.5e1 * ( x1 - 2 )`. -/
theorem parse_expr_standard_precedence_witness :
    exprEx4.WF ∧ FollowE [] ∧
    parse_expr exact stZero (exprEx4.render ++ []) =
      (exprEx4.eval exact stZero, skip_spaces [], []) :=
  ⟨exprEx4_wf, followE_nil,
    parse_expr_standard_precedence.1 ℚ exact stZero exprEx4 [] exprEx4_wf followE_nil⟩

/-! ## C2, C3: conditions -/

theorem parse_factorF_skip {V : Type} (A : Arith V) (st : State V) (n : Nat) (s : List Char) :
    parse_factorF A st n (skip_spaces s) = parse_factorF A st n s := by
  cases n with
  | zero => simp only [parse_factorF]
  | succ n => simp only [parse_factorF, skip_spaces_idem]

theorem parse_exprF_skip {V : Type} (A : Arith V) (st : State V) (n : Nat) (s : List Char) :
    parse_exprF A st n (skip_spaces s) = parse_exprF A st n s := by
  cases n with
  | zero => simp only [parse_exprF]
  | succ n =>
    cases n with
    | zero => simp only [parse_exprF, parse_termF]
    | succ n => simp only [parse_exprF, parse_termF, parse_factorF_skip]

/-- White space in front of an expression does not change the result. -/
theorem parse_expr_skip {V : Type} (A : Arith V) (st : State V) (s : List Char) :
    parse_expr A st (skip_spaces s) = parse_expr A st s := by
  have h := parse_exprF_budget A st (skip_spaces s)
  rw [parse_exprF_skip] at h
  exact (parse_expr_of_F A st h).symm

theorem strtod_no_literal {s : List Char} (h1 : isdigit (peek s) = false) (h2 : peek s ≠ '.') :
    strtod s = (0, s) := by
  have h0 : peek s ≠ '0' := by
    intro h
    rw [h] at h1
    exact absurd h1 (by decide)
  have hd : strtod_dec s = none := by
    unfold strtod_dec
    have ht : s.takeWhile isdigit = [] ∧ s.dropWhile isdigit = s := by
      cases s with
      | nil => exact ⟨rfl, rfl⟩
      | cons a t =>
        simp only [peek, List.headD_cons] at h1
        simp [List.takeWhile_cons, List.dropWhile_cons, h1]
    simp only [ht.1, ht.2, if_neg h2, and_self, if_true]
  unfold strtod
  simp only [hd, Option.getD_none]
  rw [if_neg (fun h => h0 h.1)]

/-- On a cursor at a character that starts no factor, `parse_expr` returns zero
and leaves the cursor where it is. -/
theorem parse_expr_no_factor {V : Type} (A : Arith V) (st : State V) (c : Char)
    (t : List Char) (hs : isspace c = false) (hd : isdigit c = false) (ha : isalpha c = false)
    (hc : c ≠ '.' ∧ c ≠ '+' ∧ c ≠ '-' ∧ c ≠ '(' ∧ c ≠ '*' ∧ c ≠ '/') :
    parse_expr A st (c :: t) = (A.ofRat 0, c :: t, []) := by
  obtain ⟨h1, h2, h3, h4, h5, h6⟩ := hc
  have hsk : skip_spaces (c :: t) = c :: t := skip_spaces_of_not_space (by simpa [peek] using hs)
  have hst : strtod (c :: t) = (0, c :: t) :=
    strtod_no_literal (by simpa [peek] using hd) (by simpa [peek] using h1)
  have hF : parse_factorF A st 1 (c :: t) = some (A.ofRat 0, c :: t, []) := by
    simp only [parse_factorF, hsk, peek, List.headD_cons, h2, h3, h4, ha, or_self, if_false,
      parse_number, hst, Bool.false_eq_true]
  have hT : parse_termF A st 2 (c :: t) = some (A.ofRat 0, c :: t, []) := by
    simp only [parse_termF, hF, parse_term_loopF, hsk, peek, List.headD_cons, h5, h6, if_false]
  have hE : parse_exprF A st 3 (c :: t) = some (A.ofRat 0, c :: t, []) := by
    simp only [parse_exprF, hT, parse_expr_loopF, hsk, peek, List.headD_cons, h2, h3, if_false]
  exact parse_expr_of_F A st hE

theorem factor_render_head : ∀ (f : Factor), f.WF →
    ∃ c t, f.render = c :: t ∧ c ≠ '=' ∧ c ≠ '>' ∧ c ≠ '<'
  | .num ws l, hwf => by
    cases ws with
    | cons a u =>
      have ha : isspace a = true := hwf.1 a (List.mem_cons_self _ _)
      refine ⟨a, _, rfl, ?_, ?_, ?_⟩ <;> (rintro rfl; exact absurd ha (by decide))
    | nil =>
      obtain ⟨c, t, hct, hc⟩ := NumLit.render_head l hwf.2
      refine ⟨c, t, by simp [Factor.render, hct], ?_, ?_, ?_⟩ <;>
        (rintro rfl; rcases hc with hc | hc <;> exact absurd hc (by decide))
  | .var ws letter digit, hwf => by
    cases ws with
    | cons a u =>
      have ha : isspace a = true := hwf.1 a (List.mem_cons_self _ _)
      refine ⟨a, _, rfl, ?_, ?_, ?_⟩ <;> (rintro rfl; exact absurd ha (by decide))
    | nil =>
      refine ⟨letter, _, rfl, ?_, ?_, ?_⟩ <;> (rintro rfl; exact absurd hwf.2.1 (by decide))
  | .neg ws f, hwf => by
    cases ws with
    | cons a u =>
      have ha : isspace a = true := hwf.1 a (List.mem_cons_self _ _)
      refine ⟨a, _, rfl, ?_, ?_, ?_⟩ <;> (rintro rfl; exact absurd ha (by decide))
    | nil => exact ⟨'-', _, rfl, by decide, by decide, by decide⟩
  | .pos ws f, hwf => by
    cases ws with
    | cons a u =>
      have ha : isspace a = true := hwf.1 a (List.mem_cons_self _ _)
      refine ⟨a, _, rfl, ?_, ?_, ?_⟩ <;> (rintro rfl; exact absurd ha (by decide))
    | nil => exact ⟨'+', _, rfl, by decide, by decide, by decide⟩
  | .paren ws e ws1, hwf => by
    cases ws with
    | cons a u =>
      have ha : isspace a = true := hwf.1 a (List.mem_cons_self _ _)
      refine ⟨a, _, rfl, ?_, ?_, ?_⟩ <;> (rintro rfl; exact absurd ha (by decide))
    | nil => exact ⟨'(', _, rfl, by decide, by decide, by decide⟩

theorem expr_render_head (e : Expr) (hwf : e.WF) :
    ∃ c t, e.render = c :: t ∧ c ≠ '=' ∧ c ≠ '>' ∧ c ≠ '<' := by
  obtain ⟨⟨f, tr⟩, er⟩ := e
  obtain ⟨c, t, hct, hc⟩ := factor_render_head f hwf.1.1
  exact ⟨c, t ++ (tr.render ++ er.render), by simp [Expr.render, Term.render, hct], hc⟩

/-- What may follow the first expression of a condition when an operator text
`op` comes next. -/
theorem followE_relop {ws : List Char} {c : Char} (t : List Char) (h : Blank ws)
    (hc : c = '<' ∨ c = '>' ∨ c = '=') : FollowE (ws ++ c :: t) := by
  have hs : isspace c = false := by rcases hc with rfl | rfl | rfl <;> decide
  have h1 : contChar c = false := by rcases hc with rfl | rfl | rfl <;> decide
  refine ⟨⟨followF_of_tok t h hs h1 ?_, ?_, ?_⟩, ?_, ?_⟩
  · rcases hc with rfl | rfl | rfl <;> decide
  all_goals
    rw [skip_spaces_tok h hs]
    simp only [peek, List.headD_cons]
    rcases hc with rfl | rfl | rfl <;> decide

theorem eval_condition_left {V : Type} (A : Arith V) (st : State V) (e1 : Expr)
    {ws : List Char} {c : Char} (t : List Char) (h1 : e1.WF) (hws : Blank ws)
    (hc : c = '<' ∨ c = '>' ∨ c = '=') :
    parse_expr A st (skip_spaces (e1.render ++ (ws ++ c :: t))) =
      (e1.eval A st, c :: t, []) := by
  have hs : isspace c = false := by rcases hc with rfl | rfl | rfl <;> decide
  rw [parse_expr_skip, parse_expr_render A st e1 _ h1 (followE_relop t hws hc),
    skip_spaces_tok hws hs]

theorem skip_spaces_relop {c : Char} (t : List Char) (hc : c = '<' ∨ c = '>' ∨ c = '=') :
    skip_spaces (c :: t) = c :: t :=
  skip_spaces_of_not_space (by rcases hc with rfl | rfl | rfl <;> simp [peek] <;> decide)

/-- The condition `e1 op e2` for a two-character operator `a b`, when the tests
made before it fail and its own test is `k`. -/
theorem eval_condition_le {V : Type} (A : Arith V) (st : State V) (e1 e2 : Expr)
    (ws rest : List Char) (h1 : e1.WF) (h2 : e2.WF) (hws : Blank ws) (hr : FollowE rest) :
    eval_condition A st (e1.render ++ (ws ++ '<' :: '=' :: (e2.render ++ rest))) =
      (A.le (e1.eval A st) (e2.eval A st), skip_spaces rest, []) := by
  unfold eval_condition
  simp only [eval_condition_left A st e1 _ h1 hws (Or.inl rfl),
    skip_spaces_relop _ (Or.inl rfl)]
  simp [strncmp_eq, parse_expr_render A st e2 rest h2 hr]

theorem eval_condition_ge {V : Type} (A : Arith V) (st : State V) (e1 e2 : Expr)
    (ws rest : List Char) (h1 : e1.WF) (h2 : e2.WF) (hws : Blank ws) (hr : FollowE rest) :
    eval_condition A st (e1.render ++ (ws ++ '>' :: '=' :: (e2.render ++ rest))) =
      (A.ge (e1.eval A st) (e2.eval A st), skip_spaces rest, []) := by
  unfold eval_condition
  simp only [eval_condition_left A st e1 _ h1 hws (Or.inr (Or.inl rfl)),
    skip_spaces_relop _ (Or.inr (Or.inl rfl))]
  simp [strncmp_eq, parse_expr_render A st e2 rest h2 hr]

theorem eval_condition_ne {V : Type} (A : Arith V) (st : State V) (e1 e2 : Expr)
    (ws rest : List Char) (h1 : e1.WF) (h2 : e2.WF) (hws : Blank ws) (hr : FollowE rest) :
    eval_condition A st (e1.render ++ (ws ++ '<' :: '>' :: (e2.render ++ rest))) =
      (A.ne (e1.eval A st) (e2.eval A st), skip_spaces rest, []) := by
  unfold eval_condition
  simp only [eval_condition_left A st e1 _ h1 hws (Or.inl rfl),
    skip_spaces_relop _ (Or.inl rfl)]
  simp [strncmp_eq, parse_expr_render A st e2 rest h2 hr]

theorem eval_condition_lt {V : Type} (A : Arith V) (st : State V) (e1 e2 : Expr)
    (ws rest : List Char) (h1 : e1.WF) (h2 : e2.WF) (hws : Blank ws) (hr : FollowE rest) :
    eval_condition A st (e1.render ++ (ws ++ '<' :: (e2.render ++ rest))) =
      (A.lt (e1.eval A st) (e2.eval A st), skip_spaces rest, []) := by
  obtain ⟨c, t, hct, hc1, hc2, -⟩ := expr_render_head e2 h2
  have hp := parse_expr_render A st e2 rest h2 hr
  rw [hct] at hp ⊢
  rw [List.cons_append] at hp
  unfold eval_condition
  simp only [eval_condition_left A st e1 _ h1 hws (Or.inl rfl),
    skip_spaces_relop _ (Or.inl rfl)]
  simp [strncmp_eq, hp, hc1, hc2, peek]

theorem eval_condition_gt {V : Type} (A : Arith V) (st : State V) (e1 e2 : Expr)
    (ws rest : List Char) (h1 : e1.WF) (h2 : e2.WF) (hws : Blank ws) (hr : FollowE rest) :
    eval_condition A st (e1.render ++ (ws ++ '>' :: (e2.render ++ rest))) =
      (A.gt (e1.eval A st) (e2.eval A st), skip_spaces rest, []) := by
  obtain ⟨c, t, hct, hc1, hc2, -⟩ := expr_render_head e2 h2
  have hp := parse_expr_render A st e2 rest h2 hr
  rw [hct] at hp ⊢
  rw [List.cons_append] at hp
  unfold eval_condition
  simp only [eval_condition_left A st e1 _ h1 hws (Or.inr (Or.inl rfl)),
    skip_spaces_relop _ (Or.inr (Or.inl rfl))]
  simp [strncmp_eq, hp, hc1, hc2, peek]

theorem eval_condition_eq {V : Type} (A : Arith V) (st : State V) (e1 e2 : Expr)
    (ws rest : List Char) (h1 : e1.WF) (h2 : e2.WF) (hws : Blank ws) (hr : FollowE rest) :
    eval_condition A st (e1.render ++ (ws ++ '=' :: (e2.render ++ rest))) =
      (A.eq (e1.eval A st) (e2.eval A st), skip_spaces rest, []) := by
  have hp := parse_expr_render A st e2 rest h2 hr
  unfold eval_condition
  simp only [eval_condition_left A st e1 _ h1 hws (Or.inr (Or.inr rfl)),
    skip_spaces_relop _ (Or.inr (Or.inr rfl))]
  simp [strncmp_eq, hp, peek]

theorem eval_condition_eqeq {V : Type} (A : Arith V) (st : State V) (e1 : Expr)
    (ws t : List Char) (h1 : e1.WF) (hws : Blank ws) :
    eval_condition A st (e1.render ++ (ws ++ '=' :: '=' :: t)) =
      (A.eq (e1.eval A st) (A.ofRat 0), '=' :: t, []) := by
  have hp := parse_expr_no_factor A st '=' t (by decide) (by decide) (by decide) (by decide)
  unfold eval_condition
  simp only [eval_condition_left A st e1 _ h1 hws (Or.inr (Or.inr rfl)),
    skip_spaces_relop _ (Or.inr (Or.inr rfl))]
  simp [strncmp_eq, hp, peek]

theorem eval_condition_bare {V : Type} (A : Arith V) (st : State V) (e1 : Expr)
    (rest : List Char) (h1 : e1.WF) (hr : FollowE rest)
    (hlt : peek (skip_spaces rest) ≠ '<') (hgt : peek (skip_spaces rest) ≠ '>')
    (heq : peek (skip_spaces rest) ≠ '=') :
    eval_condition A st (e1.render ++ rest) =
      (A.ne (e1.eval A st) (A.ofRat 0), skip_spaces rest, []) := by
  have hn : ∀ (a b : Char), peek (skip_spaces rest) ≠ a →
      strncmp_eq (skip_spaces rest) [a, b] = false := by
    intro a b ha
    cases hsr : skip_spaces rest with
    | nil => rfl
    | cons x u =>
      rw [hsr] at ha
      simp only [peek, List.headD_cons] at ha
      cases u <;> simp [strncmp_eq, ha]
  unfold eval_condition
  simp only [parse_expr_skip, parse_expr_render A st e1 rest h1 hr, skip_spaces_idem,
    hn _ _ hlt, hn _ _ hgt, hn _ _ heq, hlt, hgt, heq, or_self, if_false,
    Bool.false_eq_true]

theorem exprLit_wf (ds : List Char) (h : ds ≠ []) (hd : ∀ c ∈ ds, isdigit c = true) :
    (exprLit ds).WF :=
  ⟨⟨litOf_wf ds h hd, trivial⟩, trivial⟩

theorem followE_of_peek {rest : List Char} (h1 : contChar (peek rest) = false)
    (h2 : peek (skip_spaces rest) ≠ '(' ∧ peek (skip_spaces rest) ≠ '*' ∧
      peek (skip_spaces rest) ≠ '/' ∧ peek (skip_spaces rest) ≠ '+' ∧
      peek (skip_spaces rest) ≠ '-') : FollowE rest :=
  ⟨⟨⟨h1, h2.1⟩, h2.2.1, h2.2.2.1⟩, h2.2.2.2.1, h2.2.2.2.2⟩

/-- C2 (the code departs from it for `==`): for `e1 = e2` `eval_condition` returns
whether the values are equal and leaves the cursor behind `e2`; for `e1 == e2` it
consumes only the first `=`, reads no second operand (value 0, cursor unmoved),
and so returns whether the value of `e1` equals 0 with the cursor at the second
`=`; on `1 == 1` the result is false, and the program `10 IF 1 == 1 THEN 30`,
`20 PRINT 0`, `30 END` prints 0. -/
theorem eval_condition_equals :
    (∀ (V : Type) (A : Arith V) (st : State V) (e1 e2 : Expr) (ws rest : List Char),
      e1.WF → e2.WF → Blank ws → FollowE rest →
      eval_condition A st (e1.render ++ (ws ++ '=' :: (e2.render ++ rest))) =
        (A.eq (e1.eval A st) (e2.eval A st), skip_spaces rest, [])) ∧
    (∀ (V : Type) (A : Arith V) (st : State V) (e1 : Expr) (ws t : List Char),
      e1.WF → Blank ws →
      eval_condition A st (e1.render ++ (ws ++ '=' :: '=' :: t)) =
        (A.eq (e1.eval A st) (A.ofRat 0), '=' :: t, [])) ∧
    eval_condition exact stZero "1 == 1".toList = (false, "= 1".toList, []) ∧
    eval_condition exact stZero "1 = 1".toList = (true, [], []) ∧
    (run_program exact
      (mkProgram [(10, "IF 1 == 1 THEN 30"), (20, "PRINT 0"), (30, "END")]) 10 stZero).2.out =
      [Out.num 0] := by
  refine ⟨?_, ?_, ?_, ?_, ?_⟩
  · intro V A st e1 e2 ws rest h1 h2 hws hr
    exact eval_condition_eq A st e1 e2 ws rest h1 h2 hws hr
  · intro V A st e1 ws t h1 hws
    exact eval_condition_eqeq A st e1 ws t h1 hws
  · decide!
  · decide!
  · decide!

/-- C3: for `e1 <= e2`, `e1 >= e2`, `e1 <> e2`, `e1 < e2` and `e1 > e2`
`eval_condition` returns the comparison of the two values named by the whole
operator, and for an expression followed by no relational operator it returns
whether the value differs from 0; the cursor is left behind the condition and no
message is written. -/
theorem eval_condition_relational :
    (∀ (V : Type) (A : Arith V) (st : State V) (e1 e2 : Expr) (ws rest : List Char),
      e1.WF → e2.WF → Blank ws → FollowE rest →
      eval_condition A st (e1.render ++ (ws ++ '<' :: '=' :: (e2.render ++ rest))) =
        (A.le (e1.eval A st) (e2.eval A st), skip_spaces rest, []) ∧
      eval_condition A st (e1.render ++ (ws ++ '>' :: '=' :: (e2.render ++ rest))) =
        (A.ge (e1.eval A st) (e2.eval A st), skip_spaces rest, []) ∧
      eval_condition A st (e1.render ++ (ws ++ '<' :: '>' :: (e2.render ++ rest))) =
        (A.ne (e1.eval A st) (e2.eval A st), skip_spaces rest, []) ∧
      eval_condition A st (e1.render ++ (ws ++ '<' :: (e2.render ++ rest))) =
        (A.lt (e1.eval A st) (e2.eval A st), skip_spaces rest, []) ∧
      eval_condition A st (e1.render ++ (ws ++ '>' :: (e2.render ++ rest))) =
        (A.gt (e1.eval A st) (e2.eval A st), skip_spaces rest, [])) ∧
    (∀ (V : Type) (A : Arith V) (st : State V) (e1 : Expr) (rest : List Char),
      e1.WF → FollowE rest →
      peek (skip_spaces rest) ≠ '<' → peek (skip_spaces rest) ≠ '>' →
      peek (skip_spaces rest) ≠ '=' →
      eval_condition A st (e1.render ++ rest) =
        (A.ne (e1.eval A st) (A.ofRat 0), skip_spaces rest, [])) := by
  refine ⟨?_, ?_⟩
  · intro V A st e1 e2 ws rest h1 h2 hws hr
    exact ⟨eval_condition_le A st e1 e2 ws rest h1 h2 hws hr,
      eval_condition_ge A st e1 e2 ws rest h1 h2 hws hr,
      eval_condition_ne A st e1 e2 ws rest h1 h2 hws hr,
      eval_condition_lt A st e1 e2 ws rest h1 h2 hws hr,
      eval_condition_gt A st e1 e2 ws rest h1 h2 hws hr⟩
  · intro V A st e1 rest h1 hr hlt hgt heq
    exact eval_condition_bare A st e1 rest h1 hr hlt hgt heq

/-- Witness of C3 on `2 <= 3` followed by ` THEN 90`: the operator is read as
`<=`, not as `<`. -/
theorem eval_condition_relational_witness :
    (exprLit ['2']).WF ∧ (exprLit ['3']).WF ∧ Blank [' '] ∧ FollowE " THEN 90".toList ∧
    eval_condition exact stZero
      ((exprLit ['2']).render ++ ([' '] ++ '<' :: '=' :: ((exprLit ['3']).render ++
        " THEN 90".toList))) =
      (exact.le ((exprLit ['2']).eval exact stZero) ((exprLit ['3']).eval exact stZero),
        skip_spaces " THEN 90".toList, []) :=
  have w2 : (exprLit ['2']).WF := exprLit_wf _ (by decide) (by decide)
  have w3 : (exprLit ['3']).WF := exprLit_wf _ (by decide) (by decide)
  have hb : Blank [' '] := by decide
  have hf : FollowE " THEN 90".toList :=
    followE_of_peek (by decide) (by decide)
  ⟨w2, w3, hb, hf,
    (eval_condition_relational.1 ℚ exact stZero (exprLit ['2']) (exprLit ['3']) [' ']
      " THEN 90".toList w2 w3 hb hf).1⟩

/-! ## Dispatch of `run_statement` -/

theorem strncasecmp_eq_three {s : List Char} {x y z : Char}
    (h : strncasecmp_eq s [x, y, z] = true) :
    ∃ a b c t, s = a :: b :: c :: t ∧ toupper a = x ∧ toupper b = y ∧ toupper c = z := by
  unfold strncasecmp_eq at h
  match s, h with
  | a :: b :: c :: t, h =>
    simp only [List.length_cons, List.length_nil, List.take_succ_cons, List.take_zero,
      List.map_cons, List.map_nil, beq_iff_eq, List.cons.injEq, and_true] at h
    exact ⟨a, b, c, t, rfl, h.1, h.2.1, h.2.2⟩
  | [], h => simp at h
  | [_], h => simp at h
  | [_, _], h => simp at h

theorem strncasecmp_eq_four {s : List Char} {w x y z : Char}
    (h : strncasecmp_eq s [w, x, y, z] = true) :
    ∃ a b c d t, s = a :: b :: c :: d :: t ∧
      toupper a = w ∧ toupper b = x ∧ toupper c = y ∧ toupper d = z := by
  unfold strncasecmp_eq at h
  match s, h with
  | a :: b :: c :: d :: t, h =>
    simp only [List.length_cons, List.length_nil, List.take_succ_cons, List.take_zero,
      List.map_cons, List.map_nil, beq_iff_eq, List.cons.injEq, and_true] at h
    exact ⟨a, b, c, d, t, rfl, h.1, h.2.1, h.2.2.1, h.2.2.2⟩
  | [], h => simp at h
  | [_], h => simp at h
  | [_, _], h => simp at h
  | [_, _, _], h => simp at h

/-- A statement that passes the FOR test is executed by the FOR branch. -/
theorem run_statement_for {V : Type} (A : Arith V) (program : List Line) (pc : Nat)
    (text : List Char) (next : Nat) (st : State V)
    (h : isForText (skip_spaces text) = true) :
    run_statement A program pc text next st =
      stmt_for A program pc st next ((skip_spaces text).drop 3) := by
  have h' := h
  simp only [isForText, Bool.and_eq_true] at h'
  obtain ⟨a, b, c, t, hs, ha, hb, hc⟩ := strncasecmp_eq_three h'.1
  unfold run_statement
  simp only [h, if_true]
  rw [hs]
  simp [isLetText, isDimText, strncasecmp_eq, ha, hb, hc]

/-- A statement that passes the NEXT test is executed by the NEXT branch. -/
theorem run_statement_next {V : Type} (A : Arith V) (program : List Line) (pc : Nat)
    (text : List Char) (next : Nat) (st : State V)
    (h : isNextText (skip_spaces text) = true) :
    run_statement A program pc text next st =
      stmt_next A st next ((skip_spaces text).drop 4) := by
  have h' := h
  simp only [isNextText, Bool.and_eq_true] at h'
  obtain ⟨a, b, c, d, t, hs, ha, hb, hc, hd⟩ := strncasecmp_eq_four h'.1
  unfold run_statement
  simp only [h, if_true]
  rw [hs]
  simp [isLetText, isDimText, isPrintText, isGotoText, isIfText, isEndText,
    strncasecmp_eq, isForText, ha, hb, hc, hd]

/-! ## C6, C7: NEXT -/

/-- C6: in a state whose FOR stack has the top frame `f`, a NEXT statement whose
optional name is absent or resolves to the variable of `f` adds the step of `f`
to that variable and changes no other variable, no array and neither output
stream; if the new value passes the direction test it returns a jump to
`for_pc + 1` with the FOR stack unchanged, otherwise it pops exactly the top
frame and advances to the next line. -/
theorem next_statement_step {V : Type} (A : Arith V) (program : List Line) (pc : Nat)
    (text : List Char) (next : Nat) (st : State V) (f : ForFrame V)
    (below : List (ForFrame V))
    (hN : isNextText (skip_spaces text) = true) (hst : st.for_stack = f :: below)
    (hname : next_name ((skip_spaces text).drop 4) = none ∨
      next_name ((skip_spaces text).drop 4) = some f.var) :
    (run_statement A program pc text next st).st.vars =
        (fun j => if j = f.var then A.add (st.vars f.var) f.step else st.vars j) ∧
    (run_statement A program pc text next st).st.arrays = st.arrays ∧
    (run_statement A program pc text next st).st.out = st.out ∧
    (run_statement A program pc text next st).st.err = st.err ∧
    (if (A.gt f.step (A.ofRat 0) && A.le (A.add (st.vars f.var) f.step) f.end_) ||
        (A.lt f.step (A.ofRat 0) && A.ge (A.add (st.vars f.var) f.step) f.end_) then
      (run_statement A program pc text next st).rc = 2 ∧
      (run_statement A program pc text next st).next_index = f.for_pc + 1 ∧
      (run_statement A program pc text next st).st.for_stack = f :: below
    else
      (run_statement A program pc text next st).rc = 1 ∧
      (run_statement A program pc text next st).next_index = next ∧
      (run_statement A program pc text next st).st.for_stack = below) := by
  have hm : ¬(next_name ((skip_spaces text).drop 4) ≠ none ∧
      next_name ((skip_spaces text).drop 4) ≠ some f.var) := by
    rcases hname with h | h <;> simp [h]
  rw [run_statement_next A program pc text next st hN]
  unfold stmt_next
  simp only [hst, if_neg hm]
  split_ifs with hc <;> simp [State.setVar, hst]

/-- Witness of C6: `NEXT I` in a state whose top frame is the loop of I. -/
theorem next_statement_step_witness :
    isNextText (skip_spaces "NEXT I".toList) = true ∧
    stLoop.for_stack = ⟨8, 3, 1, 0⟩ :: [] ∧
    (next_name ((skip_spaces "NEXT I".toList).drop 4) = none ∨
      next_name ((skip_spaces "NEXT I".toList).drop 4) = some 8) ∧
    (run_statement exact [] 2 "NEXT I".toList 3 stLoop).st.vars =
      (fun j => if j = 8 then exact.add (stLoop.vars 8) 1 else stLoop.vars j) :=
  ⟨by decide, rfl, Or.inr (by decide),
    (next_statement_step exact [] 2 "NEXT I".toList 3 stLoop ⟨8, 3, 1, 0⟩ []
      (by decide) rfl (Or.inr (by decide))).1⟩

/-- C7: a NEXT statement returns the error code exactly when the FOR stack is
empty or its name resolves to a slot other than the variable of the top frame; it
then leaves variables, arrays, FOR stack and `stdout` unchanged, and the run loop
stops at it with the state it returned, whatever budget is left; the program
`10 NEXT` fails with the message `NEXT without FOR`. -/
theorem next_statement_fails_iff :
    (∀ (V : Type) (A : Arith V) (program : List Line) (pc : Nat) (text : List Char)
      (next : Nat) (st : State V), isNextText (skip_spaces text) = true →
      (((run_statement A program pc text next st).rc = -1 ↔
          (st.for_stack = [] ∨
            ∃ v f below, st.for_stack = f :: below ∧
              next_name ((skip_spaces text).drop 4) = some v ∧ v ≠ f.var)) ∧
        ((run_statement A program pc text next st).rc = -1 →
          (run_statement A program pc text next st).st.vars = st.vars ∧
          (run_statement A program pc text next st).st.arrays = st.arrays ∧
          (run_statement A program pc text next st).st.for_stack = st.for_stack ∧
          (run_statement A program pc text next st).st.out = st.out) ∧
        ((run_statement A program pc text next st).rc = -1 →
          ∀ (line : Line) (fuel : Nat), program[pc]? = some line → line.text = text →
            run_loop A program (fuel + 1) pc st =
              (Halt.failed, (run_statement A program pc text (pc + 1) st).st)))) ∧
    (∀ fuel : Nat,
      (run_program exact (mkProgram [(10, "NEXT")]) (fuel + 1) stZero).1 = Halt.failed ∧
      (run_program exact (mkProgram [(10, "NEXT")]) (fuel + 1) stZero).2.err =
        [Diag.nextWithoutFor] ∧
      (run_program exact (mkProgram [(10, "NEXT")]) (fuel + 1) stZero).2.out = []) := by
  refine ⟨?_, ?_⟩
  · intro V A program pc text next st hN
    have hrc : ∀ nx, (run_statement A program pc text nx st).rc = -1 ↔
        (st.for_stack = [] ∨
          ∃ v f below, st.for_stack = f :: below ∧
            next_name ((skip_spaces text).drop 4) = some v ∧ v ≠ f.var) := by
      intro nx
      rw [run_statement_next A program pc text nx st hN]
      unfold stmt_next
      cases hst : st.for_stack with
      | nil => simp
      | cons f below =>
        simp only []
        cases hn : next_name ((skip_spaces text).drop 4) with
        | none =>
          simp only [ne_eq, not_true_eq_false, false_and, if_false]
          split_ifs <;> simp
        | some v =>
          by_cases hv : v = f.var
          · subst hv
            simp only [ne_eq, not_true_eq_false, and_false, if_false]
            split_ifs <;> simp
          · have : some v ≠ none ∧ some v ≠ some f.var := ⟨by simp, by simpa using hv⟩
            simp only [if_pos this]
            simp [hv]
    refine ⟨hrc next, ?_, ?_⟩
    · intro h
      rw [run_statement_next A program pc text next st hN] at h ⊢
      unfold stmt_next at h ⊢
      cases hst : st.for_stack with
      | nil => simp [State.log, hst]
      | cons f below =>
        rw [hst] at h
        simp only [] at h ⊢
        split_ifs at h ⊢ with h1 h2
        simp [State.log, hst]
    · intro h line fuel hline htext
      have h1 : (run_statement A program pc text (pc + 1) st).rc = -1 :=
        (hrc (pc + 1)).mpr ((hrc next).mp h)
      unfold run_loop
      simp only [hline, htext, h1]
      simp
  · intro fuel
    refine ⟨?_, ?_, ?_⟩ <;> rfl

/-- Witness of C7: `NEXT J` while the top frame is the loop of I. -/
theorem next_statement_fails_iff_witness :
    isNextText (skip_spaces "NEXT J".toList) = true ∧
    ((run_statement exact [] 0 "NEXT J".toList 1 stLoop).rc = -1 ↔
      (stLoop.for_stack = [] ∨
        ∃ v f below, stLoop.for_stack = f :: below ∧
          next_name ((skip_spaces "NEXT J".toList).drop 4) = some v ∧ v ≠ f.var)) :=
  ⟨by decide,
    (next_statement_fails_iff.1 ℚ exact [] 0 "NEXT J".toList 1 stLoop (by decide)).1⟩

/-! ## C5: a FOR loop that does not execute -/

theorem find_matching_next_from_spec : ∀ (ls : List Line) (i : Nat) (c : Int) (k : Nat),
    1 ≤ c →
    (find_matching_next_from ls i c = some k ↔
      ∃ n, k = i + n ∧ n < ls.length ∧ c + ((ls.take (n + 1)).map lineDelta).sum = 0 ∧
        ∀ m, m < n → c + ((ls.take (m + 1)).map lineDelta).sum ≠ 0)
  | [], i, c, k, _ => by simp [find_matching_next_from]
  | l :: ls, i, c, k, hc => by
    have ih := fun c' (h : 1 ≤ c') => find_matching_next_from_spec ls (i + 1) c' k h
    have shift : ∀ (c' : Int) (d : Int), c' = c + d → lineDelta l = d → d ≠ -c →
        ((∃ n, k = i + 1 + n ∧ n < ls.length ∧
            c' + ((ls.take (n + 1)).map lineDelta).sum = 0 ∧
            ∀ m, m < n → c' + ((ls.take (m + 1)).map lineDelta).sum ≠ 0) ↔
          ∃ n, k = i + n ∧ n < (l :: ls).length ∧
            c + (((l :: ls).take (n + 1)).map lineDelta).sum = 0 ∧
            ∀ m, m < n → c + (((l :: ls).take (m + 1)).map lineDelta).sum ≠ 0) := by
      intro c' d hc' hd hne
      constructor
      · rintro ⟨n, hk, hn, h0, hmin⟩
        refine ⟨n + 1, by omega, by simp; omega, ?_, ?_⟩
        · simp only [List.take_succ_cons, List.map_cons, List.sum_cons, hd]
          rw [← h0, hc']; ring
        · intro m hm
          cases m with
          | zero =>
            simp only [zero_add, List.take_succ_cons, List.take_zero, List.map_cons,
              List.map_nil, List.sum_cons, List.sum_nil, hd, add_zero]
            omega
          | succ m =>
            have := hmin m (by omega)
            simp only [List.take_succ_cons, List.map_cons, List.sum_cons, hd]
            intro h
            apply this
            rw [← h, hc']; ring
      · rintro ⟨n, hk, hn, h0, hmin⟩
        cases n with
        | zero =>
          simp only [zero_add, List.take_succ_cons, List.take_zero, List.map_cons,
            List.map_nil, List.sum_cons, List.sum_nil, hd, add_zero] at h0
          omega
        | succ n =>
          refine ⟨n, by omega, by simpa using hn, ?_, ?_⟩
          · simp only [List.take_succ_cons, List.map_cons, List.sum_cons, hd] at h0
            rw [← h0, hc']; ring
          · intro m hm
            have := hmin (m + 1) (by omega)
            simp only [List.take_succ_cons, List.map_cons, List.sum_cons, hd] at this
            intro h
            apply this
            rw [← h, hc']; ring
    unfold find_matching_next_from
    simp only []
    by_cases hf : isForText (skip_spaces l.text) = true
    · have hd : lineDelta l = 1 := by simp [lineDelta, hf]
      rw [if_pos hf, ih (c + 1) (by omega)]
      exact shift (c + 1) 1 rfl hd (by omega)
    · rw [if_neg hf]
      by_cases hn : isNextText (skip_spaces l.text) = true
      · have hd : lineDelta l = -1 := by simp [lineDelta, hf, hn]
        rw [if_pos hn]
        by_cases hz : c - 1 = 0
        · rw [if_pos hz]
          constructor
          · intro h
            have hk : k = i := by simpa using h.symm
            refine ⟨0, by omega, by simp, ?_, ?_⟩
            · simp only [zero_add, List.take_succ_cons, List.take_zero, List.map_cons,
                List.map_nil, List.sum_cons, List.sum_nil, hd, add_zero]
              omega
            · intro m hm
              omega
          · rintro ⟨n, hk, -, -, hmin⟩
            cases n with
            | zero => simp [hk]
            | succ n =>
              have := hmin 0 (by omega)
              simp only [zero_add, List.take_succ_cons, List.take_zero, List.map_cons,
                List.map_nil, List.sum_cons, List.sum_nil, hd, add_zero] at this
              omega
        · rw [if_neg hz, ih (c - 1) (by omega)]
          exact shift (c - 1) (-1) (by ring) hd (by omega)
      · have hd : lineDelta l = 0 := by simp [lineDelta, hf, hn]
        rw [if_neg hn, ih c hc]
        exact shift c 0 (by ring) hd (by omega)

/-- Source `find_matching_next` finds the index named by the specification. -/
theorem find_matching_next_spec (program : List Line) (p k : Nat) :
    find_matching_next program (p + 1) = some k ↔ MatchingNext program p k := by
  unfold find_matching_next MatchingNext depthAt
  rw [find_matching_next_from_spec _ _ 1 k (le_refl 1)]
  constructor
  · rintro ⟨n, hk, hn, h0, hmin⟩
    simp only [List.length_drop] at hn
    refine ⟨by omega, by omega, ?_, ?_⟩
    · have : k - p = n + 1 := by omega
      rw [this]
      exact h0
    · intro j hj hjk
      have := hmin (j - p - 1) (by omega)
      have he : j - p - 1 + 1 = j - p := by omega
      rw [he] at this
      exact this
  · rintro ⟨hpk, hk, h0, hmin⟩
    refine ⟨k - p - 1, by omega, by simp only [List.length_drop]; omega, ?_, ?_⟩
    · have : k - p - 1 + 1 = k - p := by omega
      rw [this]
      exact h0
    · intro m hm
      have := hmin (p + 1 + m) (by omega) (by omega)
      have he : p + 1 + m - p = m + 1 := by omega
      rw [he] at this
      exact this

theorem find_matching_next_none (program : List Line) (p : Nat) :
    find_matching_next program (p + 1) = none ↔ ¬∃ k, MatchingNext program p k := by
  constructor
  · rintro h ⟨k, hk⟩
    rw [(find_matching_next_spec program p k).mpr hk] at h
    cases h
  · intro h
    cases hf : find_matching_next program (p + 1) with
    | none => rfl
    | some k => exact absurd ⟨k, (find_matching_next_spec program p k).mp hf⟩ h

theorem find_matching_next_from_isNext : ∀ (ls : List Line) (i : Nat) (c : Int) (k : Nat),
    find_matching_next_from ls i c = some k →
    i ≤ k ∧ ∃ l, ls[k - i]? = some l ∧ isNextText (skip_spaces l.text) = true
  | [], i, c, k, h => by simp [find_matching_next_from] at h
  | l :: ls, i, c, k, h => by
    have ih := fun c' (h' : find_matching_next_from ls (i + 1) c' = some k) =>
      find_matching_next_from_isNext ls (i + 1) c' k h'
    have lift : (i + 1 ≤ k ∧ ∃ l', ls[k - (i + 1)]? = some l' ∧
        isNextText (skip_spaces l'.text) = true) →
        i ≤ k ∧ ∃ l', (l :: ls)[k - i]? = some l' ∧
          isNextText (skip_spaces l'.text) = true := by
      rintro ⟨hk, l', hl', hn⟩
      refine ⟨by omega, l', ?_, hn⟩
      have : k - i = (k - (i + 1)) + 1 := by omega
      rw [this, List.getElem?_cons_succ]
      exact hl'
    unfold find_matching_next_from at h
    simp only [] at h
    by_cases hf : isForText (skip_spaces l.text) = true
    · rw [if_pos hf] at h
      exact lift (ih _ h)
    · rw [if_neg hf] at h
      by_cases hn : isNextText (skip_spaces l.text) = true
      · rw [if_pos hn] at h
        by_cases hz : c - 1 = 0
        · rw [if_pos hz] at h
          have hk : i = k := by simpa using h
          subst hk
          exact ⟨le_refl _, l, by simp, hn⟩
        · rw [if_neg hz] at h
          exact lift (ih _ h)
      · rw [if_neg hn] at h
        exact lift (ih _ h)

/-- The index found by `find_matching_next` holds a NEXT line. -/
theorem find_matching_next_isNext (program : List Line) (p k : Nat)
    (h : find_matching_next program (p + 1) = some k) :
    ∃ l, program[k]? = some l ∧ isNextText (skip_spaces l.text) = true := by
  unfold find_matching_next at h
  obtain ⟨hk, l, hl, hn⟩ := find_matching_next_from_isNext _ _ _ _ h
  refine ⟨l, ?_, hn⟩
  rw [List.getElem?_drop] at hl
  have : p + 1 + (k - (p + 1)) = k := by omega
  rw [this] at hl
  exact hl

/-- Once the run loop has stopped within a budget, a larger budget gives the same
result. -/
theorem run_loop_mono {V : Type} (A : Arith V) (program : List Line) :
    ∀ (n m pc : Nat) (st : State V), n ≤ m →
      (run_loop A program n pc st).1 ≠ Halt.running →
      run_loop A program m pc st = run_loop A program n pc st := by
  intro n
  induction n with
  | zero =>
    intro m pc st _ h
    unfold run_loop at h ⊢
    cases hl : program[pc]? with
    | none => rfl
    | some line => simp [hl] at h
  | succ n ih =>
    intro m pc st hm h
    obtain ⟨m, rfl⟩ : ∃ k, m = k + 1 := ⟨m - 1, by omega⟩
    unfold run_loop at h ⊢
    cases hl : program[pc]? with
    | none => rfl
    | some line =>
      simp only [hl] at h ⊢
      split_ifs at h ⊢ with h0 h1
      · rfl
      · rfl
      · exact ih m _ _ (by omega) h

theorem run_program_mono {V : Type} (A : Arith V) (program : List Line) (n m : Nat)
    (st : State V) (hnm : n ≤ m) (h : (run_program A program n st).1 ≠ Halt.running) :
    run_program A program m st = run_program A program n st := by
  unfold run_program at h ⊢
  split_ifs at h ⊢ with h0
  · rfl
  · exact run_loop_mono A program n m 0 _ hnm h

/-- C5: a FOR statement at index `pc` whose header gives the values `h` and whose
loop would not execute even once pushes no frame; if `k` is the index after `pc`
at which the depth counter of the specification first reaches zero, it returns a
jump to `k + 1`, and if there is no such index it returns the error code, on which
the run loop stops; `find_matching_next` computes that index, which holds a NEXT
line; the program
`10 FOR I=5 TO 1`, `20 PRINT I`, `30 NEXT I`, `40 END` ends at END without
output. -/
theorem for_statement_skip :
    (∀ (V : Type) (A : Arith V) (program : List Line) (pc : Nat) (text : List Char)
      (next : Nat) (st : State V) (h : ForHead V),
      isForText (skip_spaces text) = true →
      for_header A st ((skip_spaces text).drop 3) = .ok h →
      ((A.gt h.step (A.ofRat 0) && A.gt h.start h.end_) ||
        (A.lt h.step (A.ofRat 0) && A.lt h.start h.end_)) = true →
      (run_statement A program pc text next st).st.for_stack = st.for_stack ∧
      (∀ k, MatchingNext program pc k →
        (run_statement A program pc text next st).rc = 2 ∧
        (run_statement A program pc text next st).next_index = k + 1) ∧
      ((¬∃ k, MatchingNext program pc k) →
        (run_statement A program pc text next st).rc = -1 ∧
        ∀ (line : Line) (fuel : Nat), program[pc]? = some line → line.text = text →
          (run_loop A program (fuel + 1) pc st).1 = Halt.failed)) ∧
    (∀ (program : List Line) (p k : Nat),
      (find_matching_next program (p + 1) = some k ↔ MatchingNext program p k) ∧
      (MatchingNext program p k →
        ∃ l, program[k]? = some l ∧ isNextText (skip_spaces l.text) = true)) ∧
    (∀ fuel : Nat, 2 ≤ fuel →
      (run_program exact progSkip fuel stZero).1 = Halt.ended ∧
      (run_program exact progSkip fuel stZero).2.out = []) := by
  refine ⟨?_, fun program p k => ⟨find_matching_next_spec program p k, fun h =>
    find_matching_next_isNext program p k ((find_matching_next_spec program p k).mpr h)⟩, ?_⟩
  · intro V A program pc text next st h hF hh hskip
    have hrun : ∀ nx, run_statement A program pc text nx st =
        match find_matching_next program (pc + 1) with
        | some next_line => ⟨2, next_line + 1, (st.log h.diag).setVar h.var_index h.start⟩
        | none => ⟨-1, nx,
            ((st.log h.diag).setVar h.var_index h.start).log [Diag.forWithoutNext]⟩ := by
      intro nx
      rw [run_statement_for A program pc text nx st hF]
      unfold stmt_for
      simp only [hh, hskip, if_true]
    refine ⟨?_, ?_, ?_⟩
    · rw [hrun]
      cases find_matching_next program (pc + 1) <;> rfl
    · intro k hk
      rw [hrun, (find_matching_next_spec program pc k).mpr hk]
      exact ⟨rfl, rfl⟩
    · intro hno
      have hnone := (find_matching_next_none program pc).mpr hno
      refine ⟨by rw [hrun, hnone], ?_⟩
      intro line fuel hline htext
      unfold run_loop
      simp only [hline, htext, hrun, hnone]
      simp
  · intro fuel hfuel
    have h2 : (run_program exact progSkip 2 stZero).1 = Halt.ended ∧
        (run_program exact progSkip 2 stZero).2.out = [] := by decide!
    rw [run_program_mono exact progSkip 2 fuel stZero hfuel (by rw [h2.1]; decide)]
    exact h2

/-- Witness of C5: the FOR line of the program `progSkip`, whose matching NEXT is
at index 2. -/
theorem for_statement_skip_witness :
    isForText (skip_spaces "FOR I=5 TO 1".toList) = true ∧
    for_header exact stZero ((skip_spaces "FOR I=5 TO 1".toList).drop 3) =
      .ok ⟨8, 5, 1, 1, []⟩ ∧
    ((exact.gt (1 : ℚ) (exact.ofRat 0) && exact.gt (5 : ℚ) 1) ||
      (exact.lt (1 : ℚ) (exact.ofRat 0) && exact.lt (5 : ℚ) 1)) = true ∧
    MatchingNext progSkip 0 2 ∧
    (run_statement exact progSkip 0 "FOR I=5 TO 1".toList 1 stZero).rc = 2 ∧
    (run_statement exact progSkip 0 "FOR I=5 TO 1".toList 1 stZero).next_index = 2 + 1 :=
  have hF : isForText (skip_spaces "FOR I=5 TO 1".toList) = true := by decide
  have hh : for_header exact stZero ((skip_spaces "FOR I=5 TO 1".toList).drop 3) =
      .ok ⟨8, 5, 1, 1, []⟩ := by decide!
  have hc : ((exact.gt (1 : ℚ) (exact.ofRat 0) && exact.gt (5 : ℚ) 1) ||
      (exact.lt (1 : ℚ) (exact.ofRat 0) && exact.lt (5 : ℚ) 1)) = true := by decide!
  have hm : MatchingNext progSkip 0 2 :=
    ((for_statement_skip.2.1 progSkip 0 2).1).mp (by decide)
  ⟨hF, hh, hc, hm,
    ((for_statement_skip.1 ℚ exact progSkip 0 "FOR I=5 TO 1".toList 1 stZero
      ⟨8, 5, 1, 1, []⟩ hF hh hc).2.1 2 hm)⟩

/-! ## C8: a FOR loop that executes -/

theorem followE_tok {ws : List Char} {c : Char} (t : List Char) (h : Blank ws)
    (hs : isspace c = false) (h1 : contChar c = false)
    (h2 : c ≠ '(' ∧ c ≠ '*' ∧ c ≠ '/' ∧ c ≠ '+' ∧ c ≠ '-') : FollowE (ws ++ c :: t) := by
  refine ⟨⟨followF_of_tok t h hs h1 h2.1, ?_, ?_⟩, ?_, ?_⟩
  all_goals
    rw [skip_spaces_tok h hs]
    simp only [peek, List.headD_cons]
    tauto

theorem followE_blank {ws : List Char} (h : Blank ws) : FollowE ws := by
  have hsk : skip_spaces ws = [] := by
    have := skip_spaces_append (s := []) h
    simpa [skip_spaces] using this
  have hp : contChar (peek ws) = false := by
    cases ws with
    | nil => decide
    | cons a u =>
      have ha : isspace a = true := h a (List.mem_cons_self _ _)
      simp only [peek, List.headD_cons]
      simp only [contChar, isspace, isdigit, Bool.or_eq_true, Bool.and_eq_true, beq_iff_eq,
        decide_eq_true_eq, Bool.or_eq_false_iff, Bool.and_eq_false_iff,
        decide_eq_false_iff_not] at ha ⊢
      refine ⟨⟨⟨⟨⟨?_, ?_⟩, ?_⟩, ?_⟩, ?_⟩, ?_⟩
      · omega
      all_goals (rintro rfl; revert ha; decide)
  refine followE_of_peek hp ?_
  rw [hsk]
  decide

theorem skip_spaces_blank {ws : List Char} (h : Blank ws) : skip_spaces ws = [] := by
  have := skip_spaces_append (s := []) h
  simpa [skip_spaces] using this

theorem for_step_none {V : Type} (A : Arith V) (st : State V) :
    for_step A st [] = (A.ofRat 1, []) := by
  simp [for_step, strncasecmp_eq]

theorem for_step_render {V : Type} (A : Arith V) (st : State V) (e3 : Expr)
    (rest : List Char) (he3 : e3.WF) (hsp : isspace (peek e3.render) = true)
    (hr : FollowE rest) :
    for_step A st ('S' :: 'T' :: 'E' :: 'P' :: (e3.render ++ rest)) =
      (stepOf A (e3.eval A st), []) := by
  have hp3 := parse_expr_render A st e3 rest he3 hr
  obtain ⟨c, t, hct, -⟩ := expr_render_head e3 he3
  have hc : isspace c = true := by simpa [hct, peek] using hsp
  have hst : strncasecmp_eq ('S' :: 'T' :: 'E' :: 'P' :: (e3.render ++ rest))
      ['S', 'T', 'E', 'P'] = true := by
    simp [strncasecmp_eq, toupper]
  have hat : isspace (at_ ('S' :: 'T' :: 'E' :: 'P' :: (e3.render ++ rest)) 4) = true := by
    simp [at_, hct, peek, hc]
  unfold for_step
  simp only [hst, hat, Bool.true_or, Bool.and_self, if_true, List.drop_succ_cons,
    List.drop_zero, parse_expr_skip, hp3, stepOf]

theorem for_limit_render {V : Type} (A : Arith V) (st : State V) (var_index : Nat)
    (start : V) (e2 : Expr) (tail : List Char) (he2 : e2.WF) (ht : FollowE tail) :
    for_limit A st var_index start [] ('T' :: 'O' :: (e2.render ++ tail)) =
      .ok ⟨var_index, start, e2.eval A st, (for_step A st (skip_spaces tail)).1,
        (for_step A st (skip_spaces tail)).2⟩ := by
  have hp2 := parse_expr_render A st e2 tail he2 ht
  have hto : strncasecmp_eq ('T' :: 'O' :: (e2.render ++ tail)) ['T', 'O'] = true := by
    simp [strncasecmp_eq, toupper]
  unfold for_limit
  simp only [hto, Bool.not_true, Bool.false_eq_true, if_false, List.drop_succ_cons,
    List.drop_zero, parse_expr_skip, hp2, skip_spaces_idem, List.nil_append]

/-- The header of a FOR statement `FOR name = e1 TO e2` followed by `tail`. -/
theorem for_header_forText {V : Type} (A : Arith V) (st : State V) (ws0 : List Char)
    (letter : Char) (digit : Option Char) (ws1 : List Char) (e1 : Expr) (ws2 : List Char)
    (e2 : Expr) (tail : List Char)
    (h0 : Blank ws0) (hl : isalpha letter = true) (hd : ∀ d ∈ digit, isdigit d = true)
    (h1 : Blank ws1) (he1 : e1.WF) (h2 : Blank ws2) (he2 : e2.WF) (ht : FollowE tail) :
    for_header A st ((forText ws0 letter digit ws1 e1 ws2 e2 tail).drop 3) =
      .ok ⟨slot letter digit, e1.eval A st, e2.eval A st,
        (for_step A st (skip_spaces tail)).1, (for_step A st (skip_spaces tail)).2⟩ := by
  obtain ⟨hls, -, -⟩ := isalpha_facts hl
  have hv : parse_var_name (letter :: digit.toList ++
      (ws1 ++ '=' :: (e1.render ++ (ws2 ++ 'T' :: 'O' :: (e2.render ++ tail))))) =
      some (slot letter digit, _) :=
    parse_var_name_render _ hl hd (by
      cases ws1 with
      | nil => simp only [List.nil_append, peek, List.headD_cons]; decide
      | cons a u =>
        have ha : isspace a = true := h1 a (List.mem_cons_self _ _)
        simp only [List.cons_append, peek, List.headD_cons]
        simp only [isspace, isdigit, Bool.or_eq_true, Bool.and_eq_true, beq_iff_eq,
          decide_eq_true_eq, Bool.and_eq_false_iff, decide_eq_false_iff_not] at ha ⊢
        omega)
  have hp1 := parse_expr_render A st e1 (ws2 ++ 'T' :: 'O' :: (e2.render ++ tail)) he1
    (followE_tok _ h2 (by decide) (by decide) (by decide))
  have hx : eat '=' (skip_spaces (ws1 ++ '=' :: (e1.render ++
      (ws2 ++ 'T' :: 'O' :: (e2.render ++ tail))))) =
      e1.render ++ (ws2 ++ 'T' :: 'O' :: (e2.render ++ tail)) := by
    rw [skip_spaces_tok h1 (by decide : isspace '=' = false)]
    simp [eat, peek]
  unfold for_header forText
  simp only [List.drop_succ_cons, List.drop_zero]
  rw [skip_spaces_tok h0 hls]
  simp only [List.cons_append] at hv
  simp only [peek, List.headD_cons, hl, Bool.not_true, Bool.false_eq_true, if_false, hv, hx,
    hp1, skip_spaces_idem, skip_spaces_tok h2 (by decide : isspace 'T' = false)]
  exact for_limit_render A st _ _ e2 tail he2 ht

/-- The header of `FOR name = e1 TO e2` without STEP. -/
theorem for_header_render {V : Type} (A : Arith V) (st : State V) (ws0 : List Char)
    (letter : Char) (digit : Option Char) (ws1 : List Char) (e1 : Expr) (ws2 : List Char)
    (e2 : Expr) (wsEnd : List Char)
    (h0 : Blank ws0) (hl : isalpha letter = true) (hd : ∀ d ∈ digit, isdigit d = true)
    (h1 : Blank ws1) (he1 : e1.WF) (h2 : Blank ws2) (he2 : e2.WF) (hE : Blank wsEnd) :
    for_header A st ((forText ws0 letter digit ws1 e1 ws2 e2 wsEnd).drop 3) =
      .ok ⟨slot letter digit, e1.eval A st, e2.eval A st, A.ofRat 1, []⟩ := by
  rw [for_header_forText A st ws0 letter digit ws1 e1 ws2 e2 wsEnd h0 hl hd h1 he1 h2 he2
    (followE_blank hE), skip_spaces_blank hE, for_step_none]

/-- The header of `FOR name = e1 TO e2 STEP e3`. -/
theorem for_header_render_step {V : Type} (A : Arith V) (st : State V) (ws0 : List Char)
    (letter : Char) (digit : Option Char) (ws1 : List Char) (e1 : Expr) (ws2 : List Char)
    (e2 : Expr) (ws3 : List Char) (e3 : Expr) (rest : List Char)
    (h0 : Blank ws0) (hl : isalpha letter = true) (hd : ∀ d ∈ digit, isdigit d = true)
    (h1 : Blank ws1) (he1 : e1.WF) (h2 : Blank ws2) (he2 : e2.WF) (h3 : Blank ws3)
    (he3 : e3.WF) (hsp : isspace (peek e3.render) = true) (hr : FollowE rest) :
    for_header A st
        ((forText ws0 letter digit ws1 e1 ws2 e2 (stepText ws3 e3 rest)).drop 3) =
      .ok ⟨slot letter digit, e1.eval A st, e2.eval A st, stepOf A (e3.eval A st), []⟩ := by
  have hf : FollowE (stepText ws3 e3 rest) :=
    followE_tok _ h3 (by decide) (by decide) (by decide)
  rw [for_header_forText A st ws0 letter digit ws1 e1 ws2 e2 _ h0 hl hd h1 he1 h2 he2 hf]
  unfold stepText
  rw [skip_spaces_tok h3 (by decide : isspace 'S' = false),
    for_step_render A st e3 rest he3 hsp hr]

/-! ## What a statement does to the FOR stack -/

theorem array_store_stack {V : Type} (st : State V) (next id : Nat) (idx : Int) (val : V) :
    (array_store st next id idx val).st.for_stack = st.for_stack := by
  unfold array_store
  cases st.arrays id with
  | none => rfl
  | some arr =>
    simp only []
    split_ifs <;> rfl

theorem stmt_let_stack {V : Type} (A : Arith V) (st : State V) (next : Nat) (s0 : List Char) :
    (stmt_let A st next s0).st.for_stack = st.for_stack := by
  unfold stmt_let
  simp only []
  split_ifs with h1
  · cases parse_var_name (skip_spaces s0) with
    | none => rfl
    | some p =>
      simp only []
      split_ifs
      · rfl
      · rw [array_store_stack]; rfl
      · rfl
  · rfl

theorem dim_loopF_stack {V : Type} (A : Arith V) (next : Nat) :
    ∀ (n : Nat) (s : List Char) (st : State V) (r : Res V),
      dim_loopF A next n s st = some r → r.st.for_stack = st.for_stack := by
  intro n
  induction n with
  | zero =>
    intro s st r h
    simp [dim_loopF] at h
  | succ n ih =>
    intro s st r h
    rw [dim_loopF] at h
    simp only [] at h
    split_ifs at h
    all_goals first
      | (rw [ih _ _ _ h]; rfl)
      | (cases h; rfl)

theorem stmt_dim_stack {V : Type} (A : Arith V) (st : State V) (next : Nat) (s0 : List Char) :
    (stmt_dim A st next s0).st.for_stack = st.for_stack := by
  unfold stmt_dim
  simp only []
  cases h : dim_loopF A next ((skip_spaces s0).length + 1) (skip_spaces s0) st with
  | none => rfl
  | some r => exact dim_loopF_stack A next _ _ _ _ h

theorem stmt_print_stack {V : Type} (A : Arith V) (st : State V) (next : Nat)
    (s0 : List Char) : (stmt_print A st next s0).st.for_stack = st.for_stack := by
  unfold stmt_print
  simp only []
  split_ifs <;> rfl

theorem stmt_goto_stack {V : Type} (program : List Line) (st : State V) (next : Nat)
    (s0 : List Char) : (stmt_goto program st next s0).st.for_stack = st.for_stack := by
  unfold stmt_goto
  simp only []
  cases find_index_by_lineno program (atoi (skip_spaces s0)) <;> rfl

theorem stmt_if_stack {V : Type} (A : Arith V) (program : List Line) (st : State V)
    (next : Nat) (s0 : List Char) :
    (stmt_if A program st next s0).st.for_stack = st.for_stack := by
  unfold stmt_if
  simp only []
  split_ifs
  · cases find_index_by_lineno program _ <;> rfl
  · rfl
  · rfl

theorem stmt_assign_stack {V : Type} (A : Arith V) (st : State V) (next : Nat)
    (text s : List Char) : (stmt_assign A st next text s).st.for_stack = st.for_stack := by
  unfold stmt_assign
  split_ifs with h1
  · cases parse_var_name s with
    | none => rfl
    | some p =>
      simp only []
      split_ifs
      · rfl
      · rw [array_store_stack]; rfl
      · rfl
      · rfl
      · rfl
  · rfl

theorem stmt_next_stack {V : Type} (A : Arith V) (st : State V) (next : Nat)
    (s0 : List Char) :
    (stmt_next A st next s0).st.for_stack = st.for_stack ∨
    ∃ f, st.for_stack = f :: (stmt_next A st next s0).st.for_stack := by
  unfold stmt_next
  cases hst : st.for_stack with
  | nil => exact Or.inl (by simp [State.log, hst])
  | cons f below =>
    simp only []
    split_ifs
    · exact Or.inl (by simp [State.log, hst])
    · exact Or.inl (by simp [State.setVar, hst])
    · exact Or.inr ⟨f, rfl⟩

theorem stmt_for_stack {V : Type} (A : Arith V) (program : List Line) (pc : Nat)
    (st : State V) (next : Nat) (s0 : List Char) :
    (stmt_for A program pc st next s0).st.for_stack = st.for_stack ∨
    ∃ h, for_header A st s0 = .ok h ∧ st.for_sp < MAX_FOR_DEPTH ∧
      (stmt_for A program pc st next s0).st.for_stack =
        ⟨h.var_index, h.end_, h.step, pc⟩ :: st.for_stack := by
  unfold stmt_for
  cases hh : for_header A st s0 with
  | error d => exact Or.inl rfl
  | ok h =>
    simp only []
    split_ifs with h1 h2
    · cases find_matching_next program (pc + 1) <;> exact Or.inl rfl
    · exact Or.inl rfl
    · refine Or.inr ⟨h, rfl, ?_, rfl⟩
      simpa [State.for_sp, State.setVar, State.log] using h2

/-- Every statement leaves the FOR stack as it is, pops its top frame (NEXT), or
pushes the frame of its header onto a stack that is not full (FOR). -/
theorem run_statement_stack {V : Type} (A : Arith V) (program : List Line) (pc : Nat)
    (text : List Char) (next : Nat) (st : State V) :
    (run_statement A program pc text next st).st.for_stack = st.for_stack ∨
    (∃ f, st.for_stack = f :: (run_statement A program pc text next st).st.for_stack) ∨
    ∃ h, isForText (skip_spaces text) = true ∧
      for_header A st ((skip_spaces text).drop 3) = .ok h ∧ st.for_sp < MAX_FOR_DEPTH ∧
      (run_statement A program pc text next st).st.for_stack =
        ⟨h.var_index, h.end_, h.step, pc⟩ :: st.for_stack := by
  unfold run_statement
  simp only []
  by_cases h1 : isLetText (skip_spaces text) = true
  · rw [if_pos h1]
    exact Or.inl (stmt_let_stack A st next _)
  rw [if_neg h1]
  by_cases h2 : isDimText (skip_spaces text) = true
  · rw [if_pos h2]
    exact Or.inl (stmt_dim_stack A st next _)
  rw [if_neg h2]
  by_cases h3 : isForText (skip_spaces text) = true
  · rw [if_pos h3]
    rcases stmt_for_stack A program pc st next ((skip_spaces text).drop 3) with h | ⟨h, hh⟩
    · exact Or.inl h
    · exact Or.inr (Or.inr ⟨h, h3, hh⟩)
  rw [if_neg h3]
  by_cases h4 : isPrintText (skip_spaces text) = true
  · rw [if_pos h4]
    exact Or.inl (stmt_print_stack A st next _)
  rw [if_neg h4]
  by_cases h5 : isGotoText (skip_spaces text) = true
  · rw [if_pos h5]
    exact Or.inl (stmt_goto_stack program st next _)
  rw [if_neg h5]
  by_cases h6 : isIfText (skip_spaces text) = true
  · rw [if_pos h6]
    exact Or.inl (stmt_if_stack A program st next _)
  rw [if_neg h6]
  by_cases h7 : isEndText (skip_spaces text) = true
  · rw [if_pos h7]
    exact Or.inl rfl
  rw [if_neg h7]
  by_cases h8 : isNextText (skip_spaces text) = true
  · rw [if_pos h8]
    rcases stmt_next_stack A st next ((skip_spaces text).drop 4) with h | h
    · exact Or.inl h
    · exact Or.inr (Or.inl h)
  rw [if_neg h8]
  exact Or.inl (stmt_assign_stack A st next text _)

theorem for_step_ne_zero {V : Type} (A : Arith V) (st : State V) (s3 : List Char)
    (h10 : A.eq (A.ofRat 1) (A.ofRat 0) = false) :
    A.eq (for_step A st s3).1 (A.ofRat 0) = false := by
  unfold for_step
  simp only []
  split_ifs with h1 h2
  · exact h10
  · simpa using h2
  · exact h10

theorem for_limit_step {V : Type} (A : Arith V) (st : State V) (var_index : Nat) (start : V)
    (d1 : List Diag) (s2 : List Char) (h : ForHead V)
    (hh : for_limit A st var_index start d1 s2 = .ok h) :
    ∃ s3, h.step = (for_step A st s3).1 := by
  unfold for_limit at hh
  by_cases h2 : (!strncasecmp_eq s2 ['T', 'O']) = true
  · rw [if_pos h2] at hh
    cases hh
  · rw [if_neg h2] at hh
    have hk := ForParse.ok.inj hh
    exact ⟨_, by rw [← hk]⟩

theorem for_header_step {V : Type} (A : Arith V) (st : State V) (s0 : List Char)
    (h : ForHead V) (hh : for_header A st s0 = .ok h) :
    ∃ s3, h.step = (for_step A st s3).1 := by
  unfold for_header at hh
  by_cases h1 : (!isalpha (peek (skip_spaces s0))) = true
  · simp only [h1, if_true] at hh
    cases hh
  · simp only [h1, if_false] at hh
    cases hv : parse_var_name (skip_spaces s0) with
    | none => rw [hv] at hh; cases hh
    | some p =>
      rw [hv] at hh
      exact for_limit_step A st _ _ _ _ h hh

theorem for_header_step_ne_zero {V : Type} (A : Arith V) (st : State V) (s0 : List Char)
    (h : ForHead V) (h10 : A.eq (A.ofRat 1) (A.ofRat 0) = false)
    (hh : for_header A st s0 = .ok h) : A.eq h.step (A.ofRat 0) = false := by
  obtain ⟨s3, hs⟩ := for_header_step A st s0 h hh
  rw [hs]
  exact for_step_ne_zero A st s3 h10

/-- The steps of the frames on the FOR stack stay different from zero. -/
theorem run_statement_steps {V : Type} (A : Arith V) (program : List Line) (pc : Nat)
    (text : List Char) (next : Nat) (st : State V)
    (h10 : A.eq (A.ofRat 1) (A.ofRat 0) = false)
    (hinv : ∀ f ∈ st.for_stack, A.eq f.step (A.ofRat 0) = false) :
    ∀ f ∈ (run_statement A program pc text next st).st.for_stack,
      A.eq f.step (A.ofRat 0) = false := by
  rcases run_statement_stack A program pc text next st with h | ⟨f0, h⟩ | ⟨h, -, hh, -, hs⟩
  · rw [h]; exact hinv
  · intro f hf
    exact hinv f (by rw [h]; exact List.mem_cons_of_mem _ hf)
  · rw [hs]
    intro f hf
    rcases List.mem_cons.mp hf with rfl | hf
    · exact for_header_step_ne_zero A st _ h h10 hh
    · exact hinv f hf

theorem run_loop_steps {V : Type} (A : Arith V) (program : List Line)
    (h10 : A.eq (A.ofRat 1) (A.ofRat 0) = false) :
    ∀ (n pc : Nat) (st : State V),
      (∀ f ∈ st.for_stack, A.eq f.step (A.ofRat 0) = false) →
      ∀ f ∈ (run_loop A program n pc st).2.for_stack, A.eq f.step (A.ofRat 0) = false := by
  intro n
  induction n with
  | zero =>
    intro pc st hinv
    unfold run_loop
    cases program[pc]? <;> exact hinv
  | succ n ih =>
    intro pc st hinv
    unfold run_loop
    cases hl : program[pc]? with
    | none => exact hinv
    | some line =>
      have hs := run_statement_steps A program pc line.text (pc + 1) st h10 hinv
      simp only []
      split_ifs
      · exact hs
      · exact hs
      · exact ih _ _ hs

/-! ### The FOR statement on a full stack, and STEP without white space -/

/-- A FOR statement whose loop would execute, on a full FOR stack: the error
code, and no frame is pushed. -/
theorem stmt_for_full {V : Type} (A : Arith V) (program : List Line) (pc : Nat)
    (st : State V) (next : Nat) (s0 : List Char) (h : ForHead V)
    (hh : for_header A st s0 = .ok h) (hfull : MAX_FOR_DEPTH ≤ st.for_sp)
    (hrun : ((A.gt h.step (A.ofRat 0) && A.gt h.start h.end_) ||
      (A.lt h.step (A.ofRat 0) && A.lt h.start h.end_)) = false) :
    (stmt_for A program pc st next s0).rc = -1 ∧
      (stmt_for A program pc st next s0).st.for_stack = st.for_stack ∧
      (stmt_for A program pc st next s0).st.err =
        st.err ++ h.diag ++ [Diag.forStackOverflow] := by
  have hfull1 : MAX_FOR_DEPTH ≤ ((st.log h.diag).setVar h.var_index h.start).for_sp := hfull
  unfold stmt_for
  simp only [hh, hrun, Bool.false_eq_true, if_false]
  rw [if_pos hfull1]
  refine ⟨rfl, rfl, ?_⟩
  simp [State.log, State.setVar]

/-- The word STEP directly followed by a character that is neither white space
nor the end of the text is not the STEP clause: the step is 1 and the rest of
the text is not read. -/
theorem for_step_glued {V : Type} (A : Arith V) (st : State V) (c : Char) (rest : List Char)
    (hc : isspace c = false) (h0 : c ≠ Char.ofNat 0) :
    for_step A st ('S' :: 'T' :: 'E' :: 'P' :: c :: rest) = (A.ofRat 1, []) := by
  have hat : at_ ('S' :: 'T' :: 'E' :: 'P' :: c :: rest) 4 = c := rfl
  unfold for_step
  simp [hat, hc, h0]

/-- The header of `FOR name = e1 TO e2 STEPx...` with a character `x` that is
not white space directly behind STEP: the step is 1. -/
theorem for_header_glued {V : Type} (A : Arith V) (st : State V) (ws0 : List Char)
    (letter : Char) (digit : Option Char) (ws1 : List Char) (e1 : Expr) (ws2 : List Char)
    (e2 : Expr) (ws3 : List Char) (c : Char) (rest : List Char)
    (h0 : Blank ws0) (hl : isalpha letter = true) (hd : ∀ d ∈ digit, isdigit d = true)
    (h1 : Blank ws1) (he1 : e1.WF) (h2 : Blank ws2) (he2 : e2.WF) (h3 : Blank ws3)
    (hc : isspace c = false) (hc0 : c ≠ Char.ofNat 0) :
    for_header A st
        ((forText ws0 letter digit ws1 e1 ws2 e2
          (ws3 ++ 'S' :: 'T' :: 'E' :: 'P' :: c :: rest)).drop 3) =
      .ok ⟨slot letter digit, e1.eval A st, e2.eval A st, A.ofRat 1, []⟩ := by
  have hf : FollowE (ws3 ++ 'S' :: 'T' :: 'E' :: 'P' :: c :: rest) :=
    followE_tok _ h3 (by decide) (by decide) (by decide)
  rw [for_header_forText A st ws0 letter digit ws1 e1 ws2 e2 _ h0 hl hd h1 he1 h2 he2 hf,
    skip_spaces_tok h3 (by decide : isspace 'S' = false), for_step_glued A st c rest hc hc0]

/-- The FOR branch when the header is read and the loop executes: below the
maximum depth the variable is written and the frame pushed; at the maximum depth
the variable is written, a message is written and -1 returned. -/
theorem stmt_for_executes {V : Type} (A : Arith V) (program : List Line) (pc : Nat)
    (st : State V) (next : Nat) (s0 : List Char) (h : ForHead V)
    (hh : for_header A st s0 = .ok h)
    (hrun : ((A.gt h.step (A.ofRat 0) && A.gt h.start h.end_) ||
      (A.lt h.step (A.ofRat 0) && A.lt h.start h.end_)) = false) :
    (st.for_sp < MAX_FOR_DEPTH →
      stmt_for A program pc st next s0 =
        ⟨1, next, { (st.log h.diag).setVar h.var_index h.start with
          for_stack := ⟨h.var_index, h.end_, h.step, pc⟩ :: st.for_stack }⟩) ∧
    (MAX_FOR_DEPTH ≤ st.for_sp →
      stmt_for A program pc st next s0 =
        ⟨-1, next, ((st.log h.diag).setVar h.var_index h.start).log
          [Diag.forStackOverflow]⟩) := by
  constructor
  · intro hsp
    have : ¬ MAX_FOR_DEPTH ≤ ((st.log h.diag).setVar h.var_index h.start).for_sp := by
      simpa [State.for_sp, State.setVar, State.log] using hsp
    unfold stmt_for
    simp only [hh, hrun, Bool.false_eq_true, if_false]
    rw [if_neg this]
    rfl
  · intro hfull
    have hfull1 : MAX_FOR_DEPTH ≤ ((st.log h.diag).setVar h.var_index h.start).for_sp := hfull
    unfold stmt_for
    simp only [hh, hrun, Bool.false_eq_true, if_false]
    rw [if_pos hfull1]

theorem isForText_forText (ws0 : List Char) (letter : Char) (digit : Option Char)
    (ws1 : List Char) (e1 : Expr) (ws2 : List Char) (e2 : Expr) (tail : List Char)
    (h0 : Blank ws0) (hne : ws0 ≠ []) :
    skip_spaces (forText ws0 letter digit ws1 e1 ws2 e2 tail) =
        forText ws0 letter digit ws1 e1 ws2 e2 tail ∧
      isForText (forText ws0 letter digit ws1 e1 ws2 e2 tail) = true := by
  obtain ⟨a, u, rfl⟩ := List.exists_cons_of_ne_nil hne
  have ha : isspace a = true := h0 a (List.mem_cons_self _ _)
  constructor
  · exact skip_spaces_of_not_space (by simp [forText, peek]; decide)
  · simp [isForText, forText, strncasecmp_eq, toupper, at_, peek, ha]

/-- The FOR branch when the header is read, the loop executes and the stack is
not full. -/
theorem stmt_for_push {V : Type} (A : Arith V) (program : List Line) (pc : Nat)
    (st : State V) (next : Nat) (s0 : List Char) (v : Nat) (start end_ step : V)
    (hh : for_header A st s0 = .ok ⟨v, start, end_, step, []⟩)
    (hsp : st.for_sp < MAX_FOR_DEPTH)
    (hrun : ((A.gt step (A.ofRat 0) && A.gt start end_) ||
      (A.lt step (A.ofRat 0) && A.lt start end_)) = false) :
    stmt_for A program pc st next s0 =
      ⟨1, next, { st with
        vars := fun j => if j = v then start else st.vars j
        for_stack := ⟨v, end_, step, pc⟩ :: st.for_stack }⟩ := by
  unfold stmt_for
  simp only [hh, hrun, Bool.false_eq_true, if_false]
  have : ¬ MAX_FOR_DEPTH ≤ ((st.log []).setVar v start).for_sp := by
    simpa [State.for_sp, State.setVar, State.log] using hsp
  rw [if_neg this]
  simp [State.log, State.setVar]

/-- A statement `FOR name = e1 TO e2` without STEP whose loop executes, on a stack
that is not full. -/
theorem run_for_plain {V : Type} (A : Arith V) (program : List Line) (pc next : Nat)
    (st : State V) (ws0 : List Char) (letter : Char) (digit : Option Char) (ws1 : List Char)
    (e1 : Expr) (ws2 : List Char) (e2 : Expr) (wsEnd : List Char)
    (h0 : Blank ws0) (hne : ws0 ≠ []) (hl : isalpha letter = true)
    (hd : ∀ d ∈ digit, isdigit d = true) (h1 : Blank ws1) (he1 : e1.WF) (h2 : Blank ws2)
    (he2 : e2.WF) (hE : Blank wsEnd) (hsp : st.for_sp < MAX_FOR_DEPTH)
    (hrun : ((A.gt (A.ofRat 1) (A.ofRat 0) && A.gt (e1.eval A st) (e2.eval A st)) ||
      (A.lt (A.ofRat 1) (A.ofRat 0) && A.lt (e1.eval A st) (e2.eval A st))) = false) :
    run_statement A program pc (forText ws0 letter digit ws1 e1 ws2 e2 wsEnd) next st =
      ⟨1, next, { st with
        vars := fun j => if j = slot letter digit then e1.eval A st else st.vars j
        for_stack := ⟨slot letter digit, e2.eval A st, A.ofRat 1, pc⟩ :: st.for_stack }⟩ := by
  obtain ⟨hsk, hF⟩ := isForText_forText ws0 letter digit ws1 e1 ws2 e2 wsEnd h0 hne
  rw [run_statement_for A program pc _ next st (by rw [hsk]; exact hF), hsk]
  exact stmt_for_push A program pc st next _ _ _ _ _
    (for_header_render A st ws0 letter digit ws1 e1 ws2 e2 wsEnd h0 hl hd h1 he1 h2 he2 hE)
    hsp hrun

/-- C8 (amended: fewer than 256 frames on the FOR stack, and STEP counts only
when white space or the end of the text follows the word): a statement
`FOR name = e1 TO e2` or `FOR name = e1 TO e2 STEP e3` whose loop executes at
least once, executed with fewer than 256 frames on the FOR stack, writes the
value of `e1` into the variable, pushes exactly the frame (slot of the name,
value of `e2`, step, current index) and advances, where the step is 1 without
STEP and otherwise the value of `e3` with a value equal to 0 replaced by 1.  When
the word STEP is directly followed by a character that is not white space, as in
`STEP-1`, the step is 1 and the rest of the text is not read.  With 256 frames
on the stack the statement writes the variable, returns -1 with the message
`FOR stack overflow` and pushes nothing.  The step of a pushed frame never
equals 0, and no frame on the FOR stack of a run ever has a step equal to 0. -/
theorem for_statement_push :
    (∀ (V : Type) (A : Arith V) (program : List Line) (pc next : Nat) (st : State V)
      (ws0 : List Char) (letter : Char) (digit : Option Char) (ws1 : List Char) (e1 : Expr)
      (ws2 : List Char) (e2 : Expr) (wsEnd : List Char),
      Blank ws0 → ws0 ≠ [] → isalpha letter = true → (∀ d ∈ digit, isdigit d = true) →
      Blank ws1 → e1.WF → Blank ws2 → e2.WF → Blank wsEnd →
      ((A.gt (A.ofRat 1) (A.ofRat 0) && A.gt (e1.eval A st) (e2.eval A st)) ||
        (A.lt (A.ofRat 1) (A.ofRat 0) && A.lt (e1.eval A st) (e2.eval A st))) = false →
      (st.for_sp < MAX_FOR_DEPTH →
        run_statement A program pc (forText ws0 letter digit ws1 e1 ws2 e2 wsEnd) next st =
          ⟨1, next, { st with
            vars := fun j => if j = slot letter digit then e1.eval A st else st.vars j
            for_stack := ⟨slot letter digit, e2.eval A st, A.ofRat 1, pc⟩ :: st.for_stack }⟩) ∧
      (MAX_FOR_DEPTH ≤ st.for_sp →
        (run_statement A program pc (forText ws0 letter digit ws1 e1 ws2 e2 wsEnd)
          next st).rc = -1 ∧
        (run_statement A program pc (forText ws0 letter digit ws1 e1 ws2 e2 wsEnd)
          next st).st.for_stack = st.for_stack ∧
        (run_statement A program pc (forText ws0 letter digit ws1 e1 ws2 e2 wsEnd)
          next st).st.err = st.err ++ [Diag.forStackOverflow])) ∧
    (∀ (V : Type) (A : Arith V) (program : List Line) (pc next : Nat) (st : State V)
      (ws0 : List Char) (letter : Char) (digit : Option Char) (ws1 : List Char) (e1 : Expr)
      (ws2 : List Char) (e2 : Expr) (ws3 : List Char) (e3 : Expr) (rest : List Char),
      Blank ws0 → ws0 ≠ [] → isalpha letter = true → (∀ d ∈ digit, isdigit d = true) →
      Blank ws1 → e1.WF → Blank ws2 → e2.WF → Blank ws3 → e3.WF →
      isspace (peek e3.render) = true → FollowE rest →
      ((A.gt (stepOf A (e3.eval A st)) (A.ofRat 0) && A.gt (e1.eval A st) (e2.eval A st)) ||
        (A.lt (stepOf A (e3.eval A st)) (A.ofRat 0) &&
          A.lt (e1.eval A st) (e2.eval A st))) = false →
      (st.for_sp < MAX_FOR_DEPTH →
        run_statement A program pc
            (forText ws0 letter digit ws1 e1 ws2 e2 (stepText ws3 e3 rest)) next st =
          ⟨1, next, { st with
            vars := fun j => if j = slot letter digit then e1.eval A st else st.vars j
            for_stack :=
              ⟨slot letter digit, e2.eval A st, stepOf A (e3.eval A st), pc⟩ ::
                st.for_stack }⟩) ∧
      (MAX_FOR_DEPTH ≤ st.for_sp →
        (run_statement A program pc
          (forText ws0 letter digit ws1 e1 ws2 e2 (stepText ws3 e3 rest)) next st).rc = -1 ∧
        (run_statement A program pc
          (forText ws0 letter digit ws1 e1 ws2 e2 (stepText ws3 e3 rest))
          next st).st.for_stack = st.for_stack ∧
        (run_statement A program pc
          (forText ws0 letter digit ws1 e1 ws2 e2 (stepText ws3 e3 rest))
          next st).st.err = st.err ++ [Diag.forStackOverflow])) ∧
    (∀ (V : Type) (A : Arith V) (program : List Line) (pc next : Nat) (st : State V)
      (ws0 : List Char) (letter : Char) (digit : Option Char) (ws1 : List Char) (e1 : Expr)
      (ws2 : List Char) (e2 : Expr) (ws3 : List Char) (c : Char) (rest : List Char),
      Blank ws0 → ws0 ≠ [] → isalpha letter = true → (∀ d ∈ digit, isdigit d = true) →
      Blank ws1 → e1.WF → Blank ws2 → e2.WF → Blank ws3 →
      isspace c = false → c ≠ Char.ofNat 0 →
      for_header A st
          ((forText ws0 letter digit ws1 e1 ws2 e2
            (ws3 ++ 'S' :: 'T' :: 'E' :: 'P' :: c :: rest)).drop 3) =
        .ok ⟨slot letter digit, e1.eval A st, e2.eval A st, A.ofRat 1, []⟩ ∧
      (st.for_sp < MAX_FOR_DEPTH →
        ((A.gt (A.ofRat 1) (A.ofRat 0) && A.gt (e1.eval A st) (e2.eval A st)) ||
          (A.lt (A.ofRat 1) (A.ofRat 0) && A.lt (e1.eval A st) (e2.eval A st))) = false →
        run_statement A program pc
            (forText ws0 letter digit ws1 e1 ws2 e2
              (ws3 ++ 'S' :: 'T' :: 'E' :: 'P' :: c :: rest)) next st =
          ⟨1, next, { st with
            vars := fun j => if j = slot letter digit then e1.eval A st else st.vars j
            for_stack :=
              ⟨slot letter digit, e2.eval A st, A.ofRat 1, pc⟩ :: st.for_stack }⟩)) ∧
    (∀ (V : Type) (A : Arith V) (program : List Line) (pc : Nat) (text : List Char)
      (next : Nat) (st : State V) (h : ForHead V),
      isForText (skip_spaces text) = true →
      for_header A st ((skip_spaces text).drop 3) = .ok h →
      ((A.gt h.step (A.ofRat 0) && A.gt h.start h.end_) ||
        (A.lt h.step (A.ofRat 0) && A.lt h.start h.end_)) = false →
      (st.for_sp < MAX_FOR_DEPTH →
        run_statement A program pc text next st =
          ⟨1, next, { (st.log h.diag).setVar h.var_index h.start with
            for_stack := ⟨h.var_index, h.end_, h.step, pc⟩ :: st.for_stack }⟩) ∧
      (MAX_FOR_DEPTH ≤ st.for_sp →
        run_statement A program pc text next st =
          ⟨-1, next, ((st.log h.diag).setVar h.var_index h.start).log
            [Diag.forStackOverflow]⟩)) ∧
    (∀ (V : Type) (A : Arith V), A.eq (A.ofRat 1) (A.ofRat 0) = false →
      ∀ v : V, A.eq (stepOf A v) (A.ofRat 0) = false) ∧
    (∀ (V : Type) (A : Arith V) (program : List Line) (fuel : Nat) (st0 : State V),
      A.eq (A.ofRat 1) (A.ofRat 0) = false →
      ∀ f ∈ (run_program A program fuel st0).2.for_stack,
        A.eq f.step (A.ofRat 0) = false) := by
  refine ⟨?_, ?_, ?_, ?_, ?_, ?_⟩
  · intro V A program pc next st ws0 letter digit ws1 e1 ws2 e2 wsEnd h0 hne hl hd h1 he1 h2
      he2 hE hrun
    constructor
    · intro hsp
      exact run_for_plain A program pc next st ws0 letter digit ws1 e1 ws2 e2 wsEnd h0 hne hl
        hd h1 he1 h2 he2 hE hsp hrun
    · intro hfull
      obtain ⟨hsk, hF⟩ := isForText_forText ws0 letter digit ws1 e1 ws2 e2 wsEnd h0 hne
      rw [run_statement_for A program pc _ next st (by rw [hsk]; exact hF), hsk]
      have := stmt_for_full A program pc st next _ _
        (for_header_render A st ws0 letter digit ws1 e1 ws2 e2 wsEnd h0 hl hd h1 he1 h2 he2 hE)
        hfull hrun
      simpa using this
  · intro V A program pc next st ws0 letter digit ws1 e1 ws2 e2 ws3 e3 rest h0 hne hl hd h1
      he1 h2 he2 h3 he3 hs3 hr hrun
    obtain ⟨hsk, hF⟩ := isForText_forText ws0 letter digit ws1 e1 ws2 e2
      (stepText ws3 e3 rest) h0 hne
    rw [run_statement_for A program pc _ next st (by rw [hsk]; exact hF), hsk]
    have hh := for_header_render_step A st ws0 letter digit ws1 e1 ws2 e2 ws3 e3 rest h0 hl hd
      h1 he1 h2 he2 h3 he3 hs3 hr
    constructor
    · intro hsp
      exact stmt_for_push A program pc st next _ _ _ _ _ hh hsp hrun
    · intro hfull
      have := stmt_for_full A program pc st next _ _ hh hfull hrun
      simpa using this
  · intro V A program pc next st ws0 letter digit ws1 e1 ws2 e2 ws3 c rest h0 hne hl hd h1 he1
      h2 he2 h3 hc hc0
    have hh := for_header_glued A st ws0 letter digit ws1 e1 ws2 e2 ws3 c rest h0 hl hd h1 he1
      h2 he2 h3 hc hc0
    refine ⟨hh, ?_⟩
    intro hsp hrun
    obtain ⟨hsk, hF⟩ := isForText_forText ws0 letter digit ws1 e1 ws2 e2
      (ws3 ++ 'S' :: 'T' :: 'E' :: 'P' :: c :: rest) h0 hne
    rw [run_statement_for A program pc _ next st (by rw [hsk]; exact hF), hsk]
    exact stmt_for_push A program pc st next _ _ _ _ _ hh hsp hrun
  · intro V A program pc text next st h hF hh hrun
    rw [run_statement_for A program pc text next st hF]
    exact stmt_for_executes A program pc st next _ h hh hrun
  · intro V A h10 v
    unfold stepOf
    split_ifs with h
    · exact h10
    · simpa using h
  · intro V A program fuel st0 h10
    unfold run_program
    split_ifs
    · intro f hf
      simp [reset] at hf
    · exact run_loop_steps A program h10 fuel 0 _ (by intro f hf; simp [reset] at hf)

/-- Counterexamples to C8 as stated.  First: after the first 256 lines of the
program of 257 lines `FOR I=1 TO 2` the FOR stack holds 256 frames; the FOR
statement of line 257, whose loop would execute (1 is not greater than 2),
returns the error code and pushes no frame.  Second: in `FOR I=10 TO 1 STEP-1`
the word STEP is not followed by white space, so the step is 1 and not -1; the
loop from 10 down to 1, which would execute, is skipped: the statement pushes no
frame and jumps behind NEXT, and the program prints nothing, whereas with
`STEP -1` it prints 10, 9, ..., 1. -/
theorem for_statement_push_counterexample :
    ((run_program exact progDeep 256 stZero).2.for_stack.length = 256 ∧
      for_header exact (run_program exact progDeep 256 stZero).2
        ("FOR I=1 TO 2".toList.drop 3) = .ok ⟨8, 1, 2, 1, []⟩ ∧
      ((exact.gt (1 : ℚ) 0 && exact.gt (1 : ℚ) 2) ||
        (exact.lt (1 : ℚ) 0 && exact.lt (1 : ℚ) 2)) = false ∧
      (run_statement exact progDeep 256 "FOR I=1 TO 2".toList 257
        (run_program exact progDeep 256 stZero).2).rc = -1 ∧
      (run_statement exact progDeep 256 "FOR I=1 TO 2".toList 257
        (run_program exact progDeep 256 stZero).2).st.for_stack.length = 256) ∧
    (for_header exact stZero ("FOR I=10 TO 1 STEP-1".toList.drop 3) =
        .ok ⟨8, 10, 1, 1, []⟩ ∧
      for_header exact stZero ("FOR I=10 TO 1 STEP -1".toList.drop 3) =
        .ok ⟨8, 10, 1, -1, []⟩ ∧
      (run_statement exact
        (mkProgram [(10, "FOR I=10 TO 1 STEP-1"), (20, "PRINT I"), (30, "NEXT I"), (40, "END")])
        0 "FOR I=10 TO 1 STEP-1".toList 1 stZero).rc = 2 ∧
      (run_statement exact
        (mkProgram [(10, "FOR I=10 TO 1 STEP-1"), (20, "PRINT I"), (30, "NEXT I"), (40, "END")])
        0 "FOR I=10 TO 1 STEP-1".toList 1 stZero).st.for_stack = [] ∧
      (run_program exact
        (mkProgram [(10, "FOR I=10 TO 1 STEP-1"), (20, "PRINT I"), (30, "NEXT I"), (40, "END")])
        30 stZero).1 = Halt.ended ∧
      (run_program exact
        (mkProgram [(10, "FOR I=10 TO 1 STEP-1"), (20, "PRINT I"), (30, "NEXT I"), (40, "END")])
        30 stZero).2.out = [] ∧
      (run_program exact
        (mkProgram [(10, "FOR I=10 TO 1 STEP -1"), (20, "PRINT I"), (30, "NEXT I"),
          (40, "END")])
        30 stZero).2.out =
        [Out.num 10, Out.num 9, Out.num 8, Out.num 7, Out.num 6, Out.num 5, Out.num 4,
          Out.num 3, Out.num 2, Out.num 1]) := by
  refine ⟨by decide!, by decide!⟩

/-- Witness of C8: `FOR I=1 TO 3` at index 0 in the state `stZero`. -/
theorem for_statement_push_witness :
    Blank [' '] ∧ [' '] ≠ [] ∧ isalpha 'I' = true ∧ (∀ d ∈ (none : Option Char),
      isdigit d = true) ∧ Blank [] ∧ (exprLit ['1']).WF ∧ Blank [' '] ∧ (exprLitSp ['3']).WF ∧
    Blank [] ∧ stZero.for_sp < MAX_FOR_DEPTH ∧
    ((exact.gt (exact.ofRat 1) (exact.ofRat 0) &&
        exact.gt ((exprLit ['1']).eval exact stZero) ((exprLitSp ['3']).eval exact stZero)) ||
      (exact.lt (exact.ofRat 1) (exact.ofRat 0) &&
        exact.lt ((exprLit ['1']).eval exact stZero) ((exprLitSp ['3']).eval exact stZero))) =
      false ∧
    forText [' '] 'I' none [] (exprLit ['1']) [' '] (exprLitSp ['3']) [] =
      "FOR I=1 TO 3".toList ∧
    run_statement exact [] 0
        (forText [' '] 'I' none [] (exprLit ['1']) [' '] (exprLitSp ['3']) []) 1 stZero =
      ⟨1, 1, { stZero with
        vars := fun j => if j = slot 'I' none then (exprLit ['1']).eval exact stZero
          else stZero.vars j
        for_stack := ⟨slot 'I' none, (exprLitSp ['3']).eval exact stZero, exact.ofRat 1, 0⟩ ::
          stZero.for_stack }⟩ :=
  have hb : Blank [' '] := by decide
  have hn : Blank [] := by decide
  have w1 : (exprLit ['1']).WF := exprLit_wf _ (by decide) (by decide)
  have w3 : (exprLitSp ['3']).WF := by
    simp [exprLitSp, Expr.WF, Term.WF, TermRest.WF, ExprRest.WF, Factor.WF, NumLit.WF, Blank]
    decide
  have hd : ∀ d ∈ (none : Option Char), isdigit d = true := by intro d hd; cases hd
  have hrun : ((exact.gt (exact.ofRat 1) (exact.ofRat 0) &&
        exact.gt ((exprLit ['1']).eval exact stZero) ((exprLitSp ['3']).eval exact stZero)) ||
      (exact.lt (exact.ofRat 1) (exact.ofRat 0) &&
        exact.lt ((exprLit ['1']).eval exact stZero) ((exprLitSp ['3']).eval exact stZero))) =
      false := by decide!
  ⟨hb, by decide, by decide, hd, hn, w1, hb, w3, hn, by decide, hrun, by decide,
    (for_statement_push.1 ℚ exact [] 0 1 stZero [' '] 'I' none [] (exprLit ['1']) [' ']
      (exprLitSp ['3']) [] hb (by decide) (by decide) hd hn w1 hb w3 hn hrun).1 (by decide)⟩

/-! ## C9: division by zero -/

theorem snocDiv_render : ∀ (r : TermRest) (ws : List Char) (d : Factor),
    (r.snocDiv ws d).render = r.render ++ (ws ++ '/' :: d.render)
  | .nil, ws, d => by simp [TermRest.snocDiv, TermRest.render]
  | .mul ws1 f r, ws, d => by
    simp [TermRest.snocDiv, TermRest.render, snocDiv_render r ws d]
  | .div ws1 f r, ws, d => by
    simp [TermRest.snocDiv, TermRest.render, snocDiv_render r ws d]

theorem snocDiv_wf : ∀ (r : TermRest) (ws : List Char) (d : Factor),
    r.WF → Blank ws → d.WF → (r.snocDiv ws d).WF
  | .nil, _, _, _, hws, hd => ⟨hws, hd, trivial⟩
  | .mul _ _ r, ws, d, hr, hws, hd => ⟨hr.1, hr.2.1, snocDiv_wf r ws d hr.2.2 hws hd⟩
  | .div _ _ r, ws, d, hr, hws, hd => ⟨hr.1, hr.2.1, snocDiv_wf r ws d hr.2.2 hws hd⟩

theorem snocDiv_eval {V : Type} (A : Arith V) (st : State V) :
    ∀ (r : TermRest) (ws : List Char) (d : Factor) (v : V),
      (r.snocDiv ws d).eval A st v = A.sdiv (r.eval A st v) (d.eval A st)
  | .nil, _, _, _ => rfl
  | .mul _ f r, ws, d, v => by
    simp only [TermRest.snocDiv, TermRest.eval]
    exact snocDiv_eval A st r ws d _
  | .div _ f r, ws, d, v => by
    simp only [TermRest.snocDiv, TermRest.eval]
    exact snocDiv_eval A st r ws d _

theorem parse_expr_divBy {V : Type} (A : Arith V) (st : State V) (x : Term)
    (ws : List Char) (d : Factor) (rest : List Char) (hx : x.WF) (hws : Blank ws)
    (hd : d.WF) (hr : FollowE rest) :
    parse_expr A st (x.render ++ (ws ++ '/' :: (d.render ++ rest))) =
      (A.sdiv (x.eval A st) (d.eval A st), skip_spaces rest, []) := by
  obtain ⟨f, r⟩ := x
  have h := parse_expr_render A st (.mk ((Term.mk f r).divBy ws d) .nil) rest
    ⟨⟨hx.1, snocDiv_wf r ws d hx.2 hws hd⟩, trivial⟩ hr
  simp only [Expr.render, Term.render, Term.divBy, ExprRest.render, List.append_nil,
    snocDiv_render, List.append_assoc, List.cons_append, Expr.eval, Term.eval, ExprRest.eval,
    snocDiv_eval] at h
  simpa [Term.render, Term.eval] using h

/-- C9: for an expression `x / d` whose divisor `d` evaluates to a value equal to
0, the evaluator divides the value of `x` by 1 and writes no message; in an
arithmetic where dividing by 1 changes nothing the result is the value of `x`;
`10/0` evaluates to 10. -/
theorem division_by_zero :
    (∀ (V : Type) (A : Arith V) (st : State V) (x : Term) (ws : List Char) (d : Factor)
      (rest : List Char),
      x.WF → Blank ws → d.WF → FollowE rest → A.eq (d.eval A st) (A.ofRat 0) = true →
      parse_expr A st (x.render ++ (ws ++ '/' :: (d.render ++ rest))) =
        (A.div (x.eval A st) (A.ofRat 1), skip_spaces rest, [])) ∧
    (∀ (V : Type) (A : Arith V) (st : State V) (x : Term) (ws : List Char) (d : Factor)
      (rest : List Char),
      x.WF → Blank ws → d.WF → FollowE rest → A.eq (d.eval A st) (A.ofRat 0) = true →
      (∀ v, A.div v (A.ofRat 1) = v) →
      parse_expr A st (x.render ++ (ws ++ '/' :: (d.render ++ rest))) =
        (x.eval A st, skip_spaces rest, [])) ∧
    (∀ (st : State ℚ) (x : Term) (ws : List Char) (d : Factor) (rest : List Char),
      x.WF → Blank ws → d.WF → FollowE rest → d.eval exact st = 0 →
      parse_expr exact st (x.render ++ (ws ++ '/' :: (d.render ++ rest))) =
        (x.eval exact st, skip_spaces rest, [])) ∧
    (∀ st : State ℚ, parse_expr exact st "10/0".toList = (10, [], [])) := by
  have key : ∀ (V : Type) (A : Arith V) (st : State V) (x : Term) (ws : List Char)
      (d : Factor) (rest : List Char),
      x.WF → Blank ws → d.WF → FollowE rest → A.eq (d.eval A st) (A.ofRat 0) = true →
      parse_expr A st (x.render ++ (ws ++ '/' :: (d.render ++ rest))) =
        (A.div (x.eval A st) (A.ofRat 1), skip_spaces rest, []) := by
    intro V A st x ws d rest hx hws hd hr h0
    rw [parse_expr_divBy A st x ws d rest hx hws hd hr]
    simp [Arith.sdiv, h0]
  refine ⟨key, ?_, ?_, ?_⟩
  · intro V A st x ws d rest hx hws hd hr h0 h1
    rw [key V A st x ws d rest hx hws hd hr h0, h1]
  · intro st x ws d rest hx hws hd hr h0
    have he : exact.eq (d.eval exact st) (exact.ofRat 0) = true := by
      have hd0 : exact.eq (d.eval exact st) (exact.ofRat 0) =
          decide (d.eval exact st = 0) := rfl
      rw [hd0, h0]
      decide
    rw [key ℚ exact st x ws d rest hx hws hd hr he]
    simp [exact]
  · intro st
    have h := key ℚ exact st (.mk (litOf ['1', '0']) .nil) [] (litOf ['0']) []
      ⟨litOf_wf _ (by decide) (by decide), trivial⟩ (by decide)
      (litOf_wf _ (by decide) (by decide)) followE_nil
      (by simp [Factor.eval, litOf, NumLit.value, expValue, scale, decVal, digitVal, exact])
    have ht : (Term.mk (litOf ['1', '0']) .nil).render ++ ([] ++ '/' :: ((litOf ['0']).render ++ []))
        = "10/0".toList := by decide
    rw [ht] at h
    rw [h]
    simp [Term.eval, TermRest.eval, Factor.eval, litOf, NumLit.value, expValue, scale, decVal,
      digitVal, exact, skip_spaces]

/-- Witness of C9: `10/0` in exact arithmetic. -/
theorem division_by_zero_witness :
    (Term.mk (litOf ['1', '0']) .nil).WF ∧ Blank [] ∧ (litOf ['0']).WF ∧ FollowE [] ∧
    exact.eq ((litOf ['0']).eval exact stZero) (exact.ofRat 0) = true ∧
    parse_expr exact stZero
        ((Term.mk (litOf ['1', '0']) .nil).render ++ ([] ++ '/' :: ((litOf ['0']).render ++ []))) =
      (exact.div ((Term.mk (litOf ['1', '0']) .nil).eval exact stZero) (exact.ofRat 1),
        skip_spaces [], []) :=
  have hx : (Term.mk (litOf ['1', '0']) .nil).WF :=
    ⟨litOf_wf _ (by decide) (by decide), trivial⟩
  have hd : (litOf ['0']).WF := litOf_wf _ (by decide) (by decide)
  have h0 : exact.eq ((litOf ['0']).eval exact stZero) (exact.ofRat 0) = true := by decide!
  ⟨hx, by decide, hd, followE_nil, h0,
    division_by_zero.1 ℚ exact stZero _ [] _ [] hx (by decide) hd followE_nil h0⟩

/-! ## C10: array reads -/

theorem toNat_ofNat_small (n : Nat) (h : n < 55296) : (Char.ofNat n).toNat = n := by
  have hv : n.isValidChar := Or.inl h
  simp [Char.ofNat, hv, Char.ofNatAux, Char.toNat]
  rfl

theorem slot_letter_lt {letter : Char} (h : isalpha letter = true) : slot letter none < 26 := by
  simp only [isalpha, Bool.or_eq_true, Bool.and_eq_true, decide_eq_true_eq] at h
  unfold slot toupper
  simp only []
  split_ifs with hl
  · simp only [Bool.and_eq_true, decide_eq_true_eq] at hl
    rw [toNat_ofNat_small _ (by omega)]
    omega
  · simp only [Bool.and_eq_true, decide_eq_true_eq, not_and, not_le] at hl
    omega

/-- Source `parse_factor` on an array read `L ( ...`: the index expression is
evaluated by `parse_expr`, a closing parenthesis is consumed, and value and
message are those of `array_read`. -/
theorem parse_factor_array {V : Type} (A : Arith V) (st : State V) (ws : List Char)
    (letter : Char) (ws1 t : List Char) (hws : Blank ws) (hl : isalpha letter = true)
    (hws1 : Blank ws1) :
    parse_factor A st (ws ++ letter :: (ws1 ++ '(' :: t)) =
      ((array_read A st (slot letter none) (parse_expr A st t).1).1,
        eat ')' (skip_spaces (parse_expr A st t).2.1),
        (parse_expr A st t).2.2 ++
          (array_read A st (slot letter none) (parse_expr A st t).1).2) := by
  obtain ⟨h1, -, h3, h4, h5, -, -⟩ := isalpha_facts hl
  have hd : ∀ d ∈ (none : Option Char), isdigit d = true := by intro d hd; cases hd
  have hv : parse_var_name (letter :: (ws1 ++ '(' :: t)) =
      some (slot letter none, ws1 ++ '(' :: t) := by
    have := parse_var_name_render (ws1 ++ '(' :: t) hl hd (by
      cases ws1 with
      | nil => simp only [List.nil_append, peek, List.headD_cons]; decide
      | cons a u =>
        have ha : isspace a = true := hws1 a (List.mem_cons_self _ _)
        simp only [List.cons_append, peek, List.headD_cons]
        simp only [isspace, isdigit, Bool.or_eq_true, Bool.and_eq_true, beq_iff_eq,
          decide_eq_true_eq, Bool.and_eq_false_iff, decide_eq_false_iff_not] at ha ⊢
        omega)
    simpa using this
  have hlt : ¬ 26 ≤ slot letter none := by
    have := slot_letter_lt hl
    omega
  have hb : budget t ≤ 4 * (ws ++ letter :: (ws1 ++ '(' :: t)).length + 3 := by
    simp only [budget, List.length_append, List.length_cons]
    omega
  have hF : parse_factorF A st (4 * (ws ++ letter :: (ws1 ++ '(' :: t)).length + 3 + 1)
      (ws ++ letter :: (ws1 ++ '(' :: t)) =
      some ((array_read A st (slot letter none) (parse_expr A st t).1).1,
        eat ')' (skip_spaces (parse_expr A st t).2.1),
        (parse_expr A st t).2.2 ++
          (array_read A st (slot letter none) (parse_expr A st t).1).2) := by
    rw [parse_factorF]
    simp only [skip_spaces_tok hws h1, peek, List.headD_cons, h3, h4, h5, or_self, if_false, hl,
      if_true, hv, skip_spaces_tok hws1 (by decide : isspace '(' = false), hlt,
      List.drop_succ_cons, List.drop_zero, parse_exprF_eq A st t hb]
    unfold array_read eat
    simp only [peek]
    by_cases hneg : A.toInt (parse_expr A st t).1 < 0
    · simp [hneg]
    · cases harr : st.arrays (slot letter none) with
      | none => simp [hneg]
      | some arr =>
        by_cases hlen : (arr.length : Int) ≤ A.toInt (parse_expr A st t).1
        · simp [hneg, hlen]
        · simp [hneg, hlen]
  exact parse_factor_of_F A st hF

/-- C10 (amended: a negative index gives no message): an array read `L(e)` inside
an expression yields a value and leaves the cursor behind the closing
parenthesis, so parsing of the enclosing expression goes on; for an index that is
not negative it yields 0 with the message `not DIM'd` when `L` has no array and 0
with the message `out of bounds` when the index is at least the size; for a
negative index it yields 0 and writes no message; inside the bounds it yields the
cell.  The program `10 DIM A(3)`, `20 PRINT A(9)`, `30 PRINT A(-1)`, `40 END`
writes one out-of-bounds message, prints 0 twice and ends at END. -/
theorem array_read_fail_soft :
    (∀ (V : Type) (A : Arith V) (st : State V) (ws : List Char) (letter : Char)
      (ws1 t : List Char), Blank ws → isalpha letter = true → Blank ws1 →
      parse_factor A st (ws ++ letter :: (ws1 ++ '(' :: t)) =
        ((array_read A st (slot letter none) (parse_expr A st t).1).1,
          eat ')' (skip_spaces (parse_expr A st t).2.1),
          (parse_expr A st t).2.2 ++
            (array_read A st (slot letter none) (parse_expr A st t).1).2)) ∧
    (∀ (V : Type) (A : Arith V) (st : State V) (id : Nat) (iv : V),
      (0 ≤ A.toInt iv → st.arrays id = none →
        array_read A st id iv = (A.ofRat 0, [Diag.notDimd id])) ∧
      (∀ arr, 0 ≤ A.toInt iv → st.arrays id = some arr → (arr.length : Int) ≤ A.toInt iv →
        array_read A st id iv = (A.ofRat 0, [Diag.outOfBounds id (A.toInt iv)])) ∧
      (A.toInt iv < 0 → array_read A st id iv = (A.ofRat 0, [])) ∧
      (∀ arr, 0 ≤ A.toInt iv → st.arrays id = some arr → A.toInt iv < (arr.length : Int) →
        array_read A st id iv = (arr.getD (A.toInt iv).toNat (A.ofRat 0), []))) ∧
    ((run_program exact progRead 10 stZero).1 = Halt.ended ∧
      (run_program exact progRead 10 stZero).2.out = [Out.num 0, Out.num 0] ∧
      (run_program exact progRead 10 stZero).2.err = [Diag.outOfBounds 0 9]) := by
  refine ⟨?_, ?_, ?_⟩
  · intro V A st ws letter ws1 t hws hl hws1
    exact parse_factor_array A st ws letter ws1 t hws hl hws1
  · intro V A st id iv
    refine ⟨?_, ?_, ?_, ?_⟩
    · intro h0 hn
      unfold array_read
      rw [if_neg (by omega), hn]
    · intro arr h0 hs hle
      unfold array_read
      rw [if_neg (by omega), hs]
      simp only [if_pos hle]
    · intro hneg
      unfold array_read
      rw [if_pos hneg]
    · intro arr h0 hs hlt
      unfold array_read
      rw [if_neg (by omega), hs]
      simp only []
      rw [if_neg (by omega)]
  · decide!

/-- Counterexample to C10 as stated: the read `A(-1)` in the program
`10 DIM A(3)`, `20 PRINT A(-1)`, `30 END` has a negative index, yet the run
writes no message at all; it prints 0 and ends at END. -/
theorem array_read_fail_soft_counterexample :
    (run_program exact progReadNeg 10 stZero).2.err = [] ∧
    (run_program exact progReadNeg 10 stZero).2.out = [Out.num 0] ∧
    (run_program exact progReadNeg 10 stZero).1 = Halt.ended ∧
    parse_factor exact stDimA "A(-1)".toList = (0, [], []) := by
  decide!

/-- Witness of C10: the read `A(9)` of an array with 4 cells. -/
theorem array_read_fail_soft_witness :
    Blank [] ∧ isalpha 'A' = true ∧
    parse_factor exact stDimA ([] ++ 'A' :: ([] ++ '(' :: "9)".toList)) =
      ((array_read exact stDimA (slot 'A' none) (parse_expr exact stDimA "9)".toList).1).1,
        eat ')' (skip_spaces (parse_expr exact stDimA "9)".toList).2.1),
        (parse_expr exact stDimA "9)".toList).2.2 ++
          (array_read exact stDimA (slot 'A' none)
            (parse_expr exact stDimA "9)".toList).1).2) :=
  ⟨by decide, by decide,
    array_read_fail_soft.1 ℚ exact stDimA [] 'A' [] "9)".toList (by decide) (by decide)
      (by decide)⟩

/-! ## C4: the counting loop -/

theorem decVal_snoc (ds : List Char) (d : Char) :
    decVal (ds ++ [d]) = 10 * decVal ds + digitVal d := by
  simp [decVal, List.foldl_append]

theorem digit_char (k : Nat) (hk : k < 10) :
    isdigit (Char.ofNat (48 + k)) = true ∧ digitVal (Char.ofNat (48 + k)) = k := by
  have h := toNat_ofNat_small (48 + k) (by omega)
  constructor
  · simp only [isdigit, h, Bool.and_eq_true, decide_eq_true_eq]
    omega
  · simp only [digitVal, h]
    omega

theorem natTextAux_spec : ∀ (fuel n : Nat) (acc : List Char), n < fuel →
    ∃ ds, natTextAux fuel n acc = ds ++ acc ∧ ds ≠ [] ∧ (∀ c ∈ ds, isdigit c = true) ∧
      decVal ds = n := by
  intro fuel
  induction fuel with
  | zero => intro n acc h; omega
  | succ fuel ih =>
    intro n acc h
    obtain ⟨hd1, hd2⟩ := digit_char (n % 10) (Nat.mod_lt _ (by decide))
    unfold natTextAux
    by_cases h0 : n / 10 = 0
    · rw [if_pos h0]
      refine ⟨[Char.ofNat (48 + n % 10)], rfl, by simp, ?_, ?_⟩
      · intro c hc
        rw [List.mem_singleton.mp hc]
        exact hd1
      · have : decVal [Char.ofNat (48 + n % 10)] = digitVal (Char.ofNat (48 + n % 10)) := by
          simp [decVal]
        rw [this, hd2]
        omega
    · rw [if_neg h0]
      obtain ⟨ds, hds, -, hdig, hval⟩ := ih (n / 10) (Char.ofNat (48 + n % 10) :: acc) (by omega)
      refine ⟨ds ++ [Char.ofNat (48 + n % 10)], by rw [hds]; simp, by simp, ?_, ?_⟩
      · intro c hc
        rcases List.mem_append.mp hc with hc | hc
        · exact hdig c hc
        · rw [List.mem_singleton.mp hc]
          exact hd1
      · rw [decVal_snoc, hval, hd2]
        omega

theorem natText_spec (n : Nat) :
    natText n ≠ [] ∧ (∀ c ∈ natText n, isdigit c = true) ∧ decVal (natText n) = n := by
  obtain ⟨ds, hds, hne, hdig, hval⟩ := natTextAux_spec (n + 1) n [] (by omega)
  have : natText n = ds := by simpa [natText] using hds
  rw [this]
  exact ⟨hne, hdig, hval⟩

theorem natLit_value (n : Nat) : NumLit.value ⟨natText n, none, none⟩ = (n : ℚ) := by
  simp [NumLit.value, expValue, scale, (natText_spec n).2.2]

theorem intFactor_wf (ws : List Char) (z : Int) (hws : Blank ws) : (intFactor ws z).WF := by
  unfold intFactor
  split_ifs
  · exact ⟨hws, litOf_wf _ (natText_spec _).1 (natText_spec _).2.1⟩
  · have := litOf_wf _ (natText_spec z.toNat).1 (natText_spec z.toNat).2.1
    exact ⟨hws, this.2⟩

theorem intExpr_wf (ws : List Char) (z : Int) (hws : Blank ws) : (intExpr ws z).WF :=
  ⟨⟨intFactor_wf ws z hws, trivial⟩, trivial⟩

theorem intExpr_eval {V : Type} (A : Arith V) (st : State V) (ws : List Char) (z : Int) :
    (intExpr ws z).eval A st = A.ofInt z := by
  unfold intExpr intFactor Arith.ofInt
  split_ifs
  · simp [Expr.eval, Term.eval, TermRest.eval, ExprRest.eval, Factor.eval, litOf, natLit_value]
  · simp [Expr.eval, Term.eval, TermRest.eval, ExprRest.eval, Factor.eval, natLit_value]

/-! ### The single statements of the program -/

/-- One iteration of the run loop on a statement that neither ends nor fails. -/
theorem run_loop_step {V : Type} (A : Arith V) (program : List Line) (n pc : Nat)
    (st : State V) (line : Line) (rc : Int) (nx : Nat) (st1 : State V)
    (hl : program[pc]? = some line)
    (hr : run_statement A program pc line.text (pc + 1) st = ⟨rc, nx, st1⟩) (h0 : rc ≠ 0)
    (h1 : rc ≠ -1) :
    run_loop A program (n + 1) pc st = run_loop A program n nx st1 := by
  rw [run_loop]
  simp only [hl, hr, h0, h1, if_false]

/-- The run loop on a statement that returns 0. -/
theorem run_loop_end {V : Type} (A : Arith V) (program : List Line) (n pc : Nat)
    (st : State V) (line : Line) (nx : Nat) (st1 : State V)
    (hl : program[pc]? = some line)
    (hr : run_statement A program pc line.text (pc + 1) st = ⟨0, nx, st1⟩) :
    run_loop A program (n + 1) pc st = (Halt.ended, st1) := by
  rw [run_loop]
  simp only [hl, hr, if_true]

/-- The statement `PRINT I` writes the value of the variable I. -/
theorem run_print_I {V : Type} (A : Arith V) (program : List Line) (pc next : Nat)
    (st : State V) :
    run_statement A program pc "PRINT I".toList next st =
      ⟨1, next, { st with out := st.out ++ [Out.num (st.vars 8)] }⟩ := by
  have hp := parse_expr_render A st (.mk (.mk (.var [] 'I' none) .nil) .nil) []
    ⟨⟨⟨by decide, by decide, by intro d hd; cases hd⟩, trivial⟩, trivial⟩ followE_nil
  have hren : (Expr.mk (.mk (.var [] 'I' none) .nil) .nil).render ++ [] = ['I'] := by decide
  have hev : (Expr.mk (.mk (.var [] 'I' none) .nil) .nil).eval A st = st.vars 8 := by
    have : slot 'I' none = 8 := by decide
    simp [Expr.eval, Term.eval, TermRest.eval, ExprRest.eval, Factor.eval, this]
  rw [hren, hev] at hp
  have hd : run_statement A program pc "PRINT I".toList next st =
      stmt_print A st next [' ', 'I'] := by
    unfold run_statement
    have h1 : isLetText (skip_spaces "PRINT I".toList) = false := by decide
    have h2 : isDimText (skip_spaces "PRINT I".toList) = false := by decide
    have h3 : isForText (skip_spaces "PRINT I".toList) = false := by decide
    have h4 : isPrintText (skip_spaces "PRINT I".toList) = true := by decide
    simp only [h1, h2, h3, h4, if_true, Bool.false_eq_true, if_false]
    rfl
  rw [hd]
  unfold stmt_print
  have hs : skip_spaces [' ', 'I'] = ['I'] := by decide
  simp only [hs, hp]
  rw [if_neg (by decide)]
  simp [State.log]

/-- The statement `END` returns 0 and changes nothing. -/
theorem run_end {V : Type} (A : Arith V) (program : List Line) (pc next : Nat)
    (st : State V) :
    run_statement A program pc "END".toList next st = ⟨0, next, st⟩ := by
  unfold run_statement
  have h1 : isLetText (skip_spaces "END".toList) = false := by decide
  have h2 : isDimText (skip_spaces "END".toList) = false := by decide
  have h3 : isForText (skip_spaces "END".toList) = false := by decide
  have h4 : isPrintText (skip_spaces "END".toList) = false := by decide
  have h5 : isGotoText (skip_spaces "END".toList) = false := by decide
  have h6 : isIfText (skip_spaces "END".toList) = false := by decide
  have h7 : isEndText (skip_spaces "END".toList) = true := by decide
  simp only [h1, h2, h3, h4, h5, h6, h7, if_true, Bool.false_eq_true, if_false]

/-- A NEXT statement whose name is absent or that of the top frame `f`. -/
theorem run_next_top {V : Type} (A : Arith V) (program : List Line) (pc : Nat)
    (text : List Char) (next : Nat) (st : State V) (f : ForFrame V)
    (below : List (ForFrame V))
    (hN : isNextText (skip_spaces text) = true) (hst : st.for_stack = f :: below)
    (hname : next_name ((skip_spaces text).drop 4) = none ∨
      next_name ((skip_spaces text).drop 4) = some f.var) :
    run_statement A program pc text next st =
      if (A.gt f.step (A.ofRat 0) && A.le (A.add (st.vars f.var) f.step) f.end_) ||
          (A.lt f.step (A.ofRat 0) && A.ge (A.add (st.vars f.var) f.step) f.end_) then
        ⟨2, f.for_pc + 1, st.setVar f.var (A.add (st.vars f.var) f.step)⟩
      else
        ⟨1, next, { st.setVar f.var (A.add (st.vars f.var) f.step) with for_stack := below }⟩ := by
  have hm : ¬(next_name ((skip_spaces text).drop 4) ≠ none ∧
      next_name ((skip_spaces text).drop 4) ≠ some f.var) := by
    rcases hname with h | h <;> simp [h]
  rw [run_statement_next A program pc text next st hN]
  unfold stmt_next
  simp only [hst, if_neg hm]

/-! ### The loop -/

theorem countOut_succ {V : Type} (A : Arith V) (z : Int) (n : Nat) :
    countOut A z (n + 1) = Out.num (A.ofInt z) :: countOut A (z + 1) n := by
  unfold countOut
  rw [List.range_succ_eq_map, List.map_cons, List.map_map]
  congr 1
  · simp
  · apply List.map_congr_left
    intro i _
    simp only [Function.comp, Nat.cast_succ]
    congr 2
    ring

/-- The PRINT and NEXT lines of the counting program when the loop goes on. -/
theorem count_iter {V : Type} (A : Arith V) (a b : Int) (hc : Counts A a b) (z : Int)
    (st : State V) (haz : a ≤ z) (hzb : z < b) (hv : st.vars 8 = A.ofInt z)
    (hs : st.for_stack = [⟨8, A.ofInt b, A.ofRat 1, 0⟩]) (n : Nat) :
    run_loop A (progCount a b) (n + 2) 1 st =
      run_loop A (progCount a b) n 1
        (({ st with out := st.out ++ [Out.num (A.ofInt z)] } : State V).setVar 8
          (A.ofInt (z + 1))) := by
  have hl1 : (progCount a b)[1]? = some ⟨20, "PRINT I".toList⟩ := rfl
  have hl2 : (progCount a b)[2]? = some ⟨30, "NEXT I".toList⟩ := rfl
  have hpr : run_statement A (progCount a b) 1 "PRINT I".toList 2 st =
      ⟨1, 2, { st with out := st.out ++ [Out.num (A.ofInt z)] }⟩ := by
    rw [run_print_I, hv]
  have hnx : run_statement A (progCount a b) 2 "NEXT I".toList 3
      { st with out := st.out ++ [Out.num (A.ofInt z)] } =
      ⟨2, 1, ({ st with out := st.out ++ [Out.num (A.ofInt z)] } : State V).setVar 8
        (A.ofInt (z + 1))⟩ := by
    have hnm : next_name ((skip_spaces "NEXT I".toList).drop 4) = some 8 := by decide
    rw [run_next_top A (progCount a b) 2 "NEXT I".toList 3
      { st with out := st.out ++ [Out.num (A.ofInt z)] } ⟨8, A.ofInt b, A.ofRat 1, 0⟩ []
      (by decide) hs (Or.inr hnm)]
    have hcond : ((A.gt (A.ofRat 1) (A.ofRat 0) && A.le (A.ofInt (z + 1)) (A.ofInt b)) ||
        (A.lt (A.ofRat 1) (A.ofRat 0) && A.ge (A.ofInt (z + 1)) (A.ofInt b))) = true := by
      rw [hc.le (z + 1) (by omega) (by omega), hc.lt10]
      have : A.gt (A.ofRat 1) (A.ofRat 0) = true := hc.lt01
      rw [this]
      simp
      omega
    simp only [hv, hc.succ z haz (le_of_lt hzb)]
    rw [if_pos hcond]
  rw [show n + 2 = (n + 1) + 1 from rfl,
    run_loop_step A _ _ 1 st _ _ _ _ hl1 hpr (by decide) (by decide),
    run_loop_step A _ _ 2 _ _ _ _ _ hl2 hnx (by decide) (by decide)]

/-- The PRINT, NEXT and END lines of the counting program at the last value. -/
theorem count_last {V : Type} (A : Arith V) (a b : Int) (hc : Counts A a b)
    (st : State V) (hab : a ≤ b) (hv : st.vars 8 = A.ofInt b)
    (hs : st.for_stack = [⟨8, A.ofInt b, A.ofRat 1, 0⟩]) (n : Nat) :
    run_loop A (progCount a b) (n + 3) 1 st =
      (Halt.ended,
        { ({ st with out := st.out ++ [Out.num (A.ofInt b)] } : State V).setVar 8
            (A.ofInt (b + 1)) with for_stack := [] }) := by
  have hl1 : (progCount a b)[1]? = some ⟨20, "PRINT I".toList⟩ := rfl
  have hl2 : (progCount a b)[2]? = some ⟨30, "NEXT I".toList⟩ := rfl
  have hl3 : (progCount a b)[3]? = some ⟨40, "END".toList⟩ := rfl
  have hpr : run_statement A (progCount a b) 1 "PRINT I".toList 2 st =
      ⟨1, 2, { st with out := st.out ++ [Out.num (A.ofInt b)] }⟩ := by
    rw [run_print_I, hv]
  have hnx : run_statement A (progCount a b) 2 "NEXT I".toList 3
      { st with out := st.out ++ [Out.num (A.ofInt b)] } =
      ⟨1, 3, { ({ st with out := st.out ++ [Out.num (A.ofInt b)] } : State V).setVar 8
        (A.ofInt (b + 1)) with for_stack := [] }⟩ := by
    have hnm : next_name ((skip_spaces "NEXT I".toList).drop 4) = some 8 := by decide
    rw [run_next_top A (progCount a b) 2 "NEXT I".toList 3
      { st with out := st.out ++ [Out.num (A.ofInt b)] } ⟨8, A.ofInt b, A.ofRat 1, 0⟩ []
      (by decide) hs (Or.inr hnm)]
    have hcond : ¬((A.gt (A.ofRat 1) (A.ofRat 0) && A.le (A.ofInt (b + 1)) (A.ofInt b)) ||
        (A.lt (A.ofRat 1) (A.ofRat 0) && A.ge (A.ofInt (b + 1)) (A.ofInt b))) = true := by
      rw [hc.le (b + 1) (by omega) (le_refl _), hc.lt10]
      simp
    simp only [hv, hc.succ b hab (le_refl b)]
    rw [if_neg hcond]
  rw [show n + 3 = (n + 2) + 1 from rfl,
    run_loop_step A _ _ 1 st _ _ _ _ hl1 hpr (by decide) (by decide),
    show n + 2 = (n + 1) + 1 from rfl,
    run_loop_step A _ _ 2 _ _ _ _ _ hl2 hnx (by decide) (by decide),
    run_loop_end A _ _ 3 _ _ _ _ hl3 (run_end A _ 3 4 _)]

/-! ### Exact integers of binary64 -/

theorem bit_lengthF_zero (f : Nat) : bit_lengthF f 0 = 0 := by
  cases f <;> simp [bit_lengthF]

/-- The number of binary digits of a positive number brackets it between two
powers of two. -/
theorem bit_lengthF_spec : ∀ (f n : Nat), n ≤ f → 0 < n →
    0 < bit_lengthF f n ∧ 2 ^ (bit_lengthF f n - 1) ≤ n ∧ n < 2 ^ bit_lengthF f n := by
  intro f
  induction f with
  | zero => intro n h1 h2; omega
  | succ f ih =>
    intro n h1 h2
    have hn : n ≠ 0 := by omega
    simp only [bit_lengthF, hn, if_false]
    by_cases h0 : n / 2 = 0
    · rw [h0, bit_lengthF_zero]
      have : n = 1 := by omega
      subst this
      decide
    · obtain ⟨hk, hlo, hhi⟩ := ih (n / 2) (by omega) (by omega)
      generalize bit_lengthF f (n / 2) = k at hk hlo hhi
      obtain ⟨j, rfl⟩ : ∃ j, k = j + 1 := ⟨k - 1, by omega⟩
      simp only [Nat.add_sub_cancel] at hlo ⊢
      rw [pow_succ] at hhi ⊢
      rw [pow_succ (n := j + 1), pow_succ]
      refine ⟨by omega, by omega, by omega⟩

theorem bit_length_spec (n : Nat) (h : 0 < n) :
    0 < bit_length n ∧ 2 ^ (bit_length n - 1) ≤ n ∧ n < 2 ^ bit_length n :=
  bit_lengthF_spec n n (le_refl n) h

theorem div_rne_one (N : Nat) : div_rne N 1 = N := by
  simp [div_rne, Nat.mod_one]

/-- Natural numbers up to `2 ^ 53` are numbers of binary64. -/
theorem round53_nat (n : Nat) (h : n ≤ 2 ^ 53) : round53 (n : ℚ) = (n : ℚ) := by
  by_cases h53 : n = 2 ^ 53
  · subst h53
    decide!
  by_cases h0 : n = 0
  · subst h0
    decide!
  have hlt : n < 2 ^ 53 := by omega
  obtain ⟨hk, hlo, hhi⟩ := bit_length_spec n (by omega)
  have hk53 : bit_length n ≤ 53 := by
    by_contra hc
    have : 2 ^ 53 ≤ 2 ^ (bit_length n - 1) := Nat.pow_le_pow_right (by decide) (by omega)
    omega
  have hb1 : bit_length 1 = 1 := by decide
  have hq : ¬ ((n : ℚ) < 0) := by
    have : (0 : ℚ) ≤ (n : ℚ) := Nat.cast_nonneg n
    linarith
  simp only [round53, Rat.num_natCast, Int.natAbs_ofNat, Rat.den_natCast, hb1, h0, if_false, hq]
  generalize bit_length n = k at hk hlo hhi hk53
  obtain ⟨j, rfl⟩ : ∃ j, k = j + 1 := ⟨k - 1, by omega⟩
  simp only [Nat.add_sub_cancel] at hlo
  by_cases he : ((j + 1 : Nat) : Int) - ((1 : Nat) : Int) - 52 < 0
  · have hj : j < 52 := by omega
    have hto : (-(((j + 1 : Nat) : Int) - ((1 : Nat) : Int) - 52)).toNat = 52 - j := by omega
    have hpow : 2 ^ 52 = 2 ^ j * 2 ^ (52 - j) := by
      rw [← pow_add]; congr 1; omega
    have hnl : ¬ (n * 2 ^ (52 - j) < 2 ^ 52 * 1) := by
      rw [hpow, Nat.mul_one]
      exact Nat.not_lt.mpr (Nat.mul_le_mul_right _ hlo)
    simp only [he, if_true, hto, hnl, decide_False, Bool.false_eq_true, if_false, div_rne_one]
    unfold scale
    rw [if_neg (by omega), hto]
    have hne : (2 ^ (52 - j) : Nat) ≠ 0 := by positivity
    have := Rat.mkRat_mul_right (n := (n : Int)) (d := 1) hne
    rw [Nat.one_mul] at this
    push_cast at this ⊢
    rw [this]
    simp [Rat.mkRat_one]
  · have hj : j = 52 := by omega
    subst hj
    have hnl : ¬ (n < 4503599627370496) := by
      have : (2 : Nat) ^ 52 = 4503599627370496 := by norm_num
      omega
    simp [hnl, div_rne_one, scale]

theorem round53_neg (q : ℚ) : round53 (-q) = -round53 q := by
  by_cases h0 : q.num.natAbs = 0
  · simp [round53, h0]
  have hq0 : q ≠ 0 := by
    intro h; subst h; simp at h0
  simp only [round53, Rat.num_neg_eq_neg_num, Int.natAbs_neg, Rat.den_neg_eq_den, h0, if_false,
    Left.neg_neg_iff]
  rcases lt_or_gt_of_ne hq0 with h | h
  · have h2 : ¬ (0 < q) := by linarith
    simp [h, h2]
  · have h2 : ¬ (q < 0) := by linarith
    simp [h, h2]

/-- Integers from `-2 ^ 53` to `2 ^ 53` are numbers of binary64: rounding leaves
them as they are. -/
theorem round53_int (z : Int) (h1 : -2 ^ 53 ≤ z) (h2 : z ≤ 2 ^ 53) :
    round53 (z : ℚ) = (z : ℚ) := by
  rcases Int.lt_or_le z 0 with h | h
  · obtain ⟨n, hn⟩ : ∃ n : Nat, z = -(n : Int) := ⟨(-z).toNat, by omega⟩
    subst hn
    push_cast
    rw [round53_neg, round53_nat n (by omega)]
  · obtain ⟨n, hn⟩ : ∃ n : Nat, z = (n : Int) := ⟨z.toNat, by omega⟩
    subst hn
    push_cast
    exact round53_nat n (by omega)

/-- The decimal text of an integer from `-2 ^ 53` to `2 ^ 53` has that integer as
its value in binary64. -/
theorem binary64_ofInt (z : Int) (h1 : -2 ^ 53 ≤ z) (h2 : z ≤ 2 ^ 53) :
    binary64.ofInt z = (z : ℚ) := by
  unfold Arith.ofInt
  split_ifs with h
  · have e1 : (((-z).toNat : Nat) : Int) = -z := Int.toNat_of_nonneg (by omega)
    have e2 : (((-z).toNat : Nat) : ℚ) = ((-z : Int) : ℚ) := by
      rw [← Int.cast_natCast, e1]
    have e3 : round53 (-1) = -1 := by decide!
    have e4 : (-1 : ℚ) * ((-z : Int) : ℚ) = (z : ℚ) := by
      push_cast
      ring
    show round53 (round53 (-1) * round53 (((-z).toNat : Nat) : ℚ)) = (z : ℚ)
    rw [e2, e3, round53_int (-z) (by omega) (by omega), e4, round53_int z h1 h2]
  · have e1 : ((z.toNat : Nat) : Int) = z := Int.toNat_of_nonneg (by omega)
    have e2 : ((z.toNat : Nat) : ℚ) = (z : ℚ) := by
      rw [← Int.cast_natCast, e1]
    show round53 ((z.toNat : Nat) : ℚ) = (z : ℚ)
    rw [e2, round53_int z h1 h2]

/-- The arithmetic binary64 counts exactly between `-2 ^ 53` and `2 ^ 53`. -/
theorem binary64_counts (a b : Int) (hab : a ≤ b) (ha : -2 ^ 53 ≤ a) (hb : b < 2 ^ 53) :
    Counts binary64 a b := by
  refine ⟨by decide!, by decide!, ?_, ?_, ?_⟩
  · rw [binary64_ofInt a ha (by omega), binary64_ofInt b (by omega) (by omega)]
    simp only [binary64, decide_eq_false_iff_not, not_lt]
    exact_mod_cast hab
  · intro z h1 h2
    rw [binary64_ofInt z (by omega) (by omega), binary64_ofInt (z + 1) (by omega) (by omega)]
    have e1 : round53 1 = 1 := by decide!
    show round53 ((z : ℚ) + round53 1) = ((z + 1 : Int) : ℚ)
    rw [e1]
    have := round53_int (z + 1) (by omega) (by omega)
    push_cast at this ⊢
    exact this
  · intro z h1 h2
    rw [binary64_ofInt z (by omega) (by omega), binary64_ofInt b (by omega) (by omega)]
    simp only [binary64]
    congr 1
    exact propext Int.cast_le

theorem countOut_binary64 (a : Int) (n : Nat) (ha : -2 ^ 53 ≤ a) (hn : a + (n : Int) ≤ 2 ^ 53) :
    countOut binary64 a n =
      (List.range n).map fun (i : Nat) => Out.num ((a + (i : Int) : Int) : ℚ) := by
  unfold countOut
  apply List.map_congr_left
  intro i hi
  have := List.mem_range.mp hi
  rw [binary64_ofInt _ (by omega) (by omega)]

/-! ### A loop that does not advance -/

/-- The run loop without budget on a line of the program. -/
theorem run_loop_zero {V : Type} (A : Arith V) (program : List Line) (pc : Nat)
    (st : State V) (line : Line) (hl : program[pc]? = some line) :
    run_loop A program 0 pc st = (Halt.running, st) := by
  rw [run_loop]
  simp only [hl]

/-- The PRINT and NEXT lines of the counting program when adding the step does
not change the variable: the loop goes on for ever and prints the same value. -/
theorem count_stuck {V : Type} (A : Arith V) (a b : Int) (x e : V)
    (hgt : A.gt (A.ofRat 1) (A.ofRat 0) = true) (hadd : A.add x (A.ofRat 1) = x)
    (hle : A.le x e = true) :
    ∀ (k : Nat) (st : State V), st.vars 8 = x → st.for_stack = [⟨8, e, A.ofRat 1, 0⟩] →
      (∀ o ∈ st.out, o = Out.num x) →
      ((run_loop A (progCount a b) (2 * k) 1 st).1 = Halt.running ∧
        ∀ o ∈ (run_loop A (progCount a b) (2 * k) 1 st).2.out, o = Out.num x) ∧
      ((run_loop A (progCount a b) (2 * k + 1) 1 st).1 = Halt.running ∧
        ∀ o ∈ (run_loop A (progCount a b) (2 * k + 1) 1 st).2.out, o = Out.num x) := by
  have hl1 : (progCount a b)[1]? = some ⟨20, "PRINT I".toList⟩ := rfl
  have hl2 : (progCount a b)[2]? = some ⟨30, "NEXT I".toList⟩ := rfl
  intro k
  induction k with
  | zero =>
    intro st hv hs ho
    have hpr : run_statement A (progCount a b) 1 "PRINT I".toList 2 st =
        ⟨1, 2, { st with out := st.out ++ [Out.num x] }⟩ := by
      rw [run_print_I, hv]
    refine ⟨?_, ?_⟩
    · rw [show 2 * 0 = 0 from rfl, run_loop_zero A _ 1 st _ hl1]
      exact ⟨rfl, ho⟩
    · rw [show 2 * 0 + 1 = 0 + 1 from rfl,
        run_loop_step A _ _ 1 st _ _ _ _ hl1 hpr (by decide) (by decide),
        run_loop_zero A _ 2 _ _ hl2]
      refine ⟨rfl, ?_⟩
      intro o hm
      rcases List.mem_append.mp hm with h | h
      · exact ho o h
      · exact List.mem_singleton.mp h
  | succ k ih =>
    intro st hv hs ho
    have hpr : run_statement A (progCount a b) 1 "PRINT I".toList 2 st =
        ⟨1, 2, { st with out := st.out ++ [Out.num x] }⟩ := by
      rw [run_print_I, hv]
    have hnx : run_statement A (progCount a b) 2 "NEXT I".toList 3
        { st with out := st.out ++ [Out.num x] } =
        ⟨2, 1, ({ st with out := st.out ++ [Out.num x] } : State V).setVar 8 x⟩ := by
      have hnm : next_name ((skip_spaces "NEXT I".toList).drop 4) = some 8 := by decide
      rw [run_next_top A (progCount a b) 2 "NEXT I".toList 3
        { st with out := st.out ++ [Out.num x] } ⟨8, e, A.ofRat 1, 0⟩ []
        (by decide) hs (Or.inr hnm)]
      simp only [hv, hadd, hgt, hle, Bool.and_self, Bool.true_or, if_true]
    have hiter : ∀ n, run_loop A (progCount a b) (n + 2) 1 st =
        run_loop A (progCount a b) n 1
          (({ st with out := st.out ++ [Out.num x] } : State V).setVar 8 x) := by
      intro n
      rw [show n + 2 = (n + 1) + 1 from rfl,
        run_loop_step A _ _ 1 st _ _ _ _ hl1 hpr (by decide) (by decide),
        run_loop_step A _ _ 2 _ _ _ _ _ hl2 hnx (by decide) (by decide)]
    have := ih (({ st with out := st.out ++ [Out.num x] } : State V).setVar 8 x)
      (by simp [State.setVar]) (by simpa [State.setVar] using hs)
      (by
        intro o hm
        have hm1 : o ∈ st.out ++ [Out.num x] := by simpa [State.setVar] using hm
        rcases List.mem_append.mp hm1 with h | h
        · exact ho o h
        · exact List.mem_singleton.mp h)
    rw [show 2 * (k + 1) + 1 = (2 * k + 1) + 2 by omega, show 2 * (k + 1) = 2 * k + 2 by omega,
      hiter, hiter]
    exact this

/-- The counting program in an arithmetic in which adding 1 to the start value
gives the start value again: whatever the budget, the run has not ended and every
line of output is the start value. -/
theorem count_program_stuck {V : Type} (A : Arith V) (a b : Int)
    (hgt : A.gt (A.ofRat 1) (A.ofRat 0) = true) (hlt : A.lt (A.ofRat 1) (A.ofRat 0) = false)
    (hab : A.gt (A.ofInt a) (A.ofInt b) = false)
    (hadd : A.add (A.ofInt a) (A.ofRat 1) = A.ofInt a)
    (hle : A.le (A.ofInt a) (A.ofInt b) = true) (st : State V) (hout : st.out = [])
    (fuel : Nat) :
    (run_program A (progCount a b) fuel st).1 = Halt.running ∧
    ∀ o ∈ (run_program A (progCount a b) fuel st).2.out, o = Out.num (A.ofInt a) := by
  have hl0 : (progCount a b)[0]? =
      some ⟨10, forText [' '] 'I' none [] (intExpr [] a) [' '] (intExpr [' '] b) []⟩ := rfl
  have hb : Blank [' '] := by decide
  have hn : Blank [] := by decide
  have hfor := run_for_plain A (progCount a b) 0 1 (reset A st) [' '] 'I' none []
    (intExpr [] a) [' '] (intExpr [' '] b) [] hb (by decide) (by decide)
    (by intro d hd; cases hd) hn (intExpr_wf _ a hn) hb (intExpr_wf _ b hb) hn
    (by simp [State.for_sp, reset, MAX_FOR_DEPTH])
    (by simp [intExpr_eval, hab, hlt])
  have hslot : slot 'I' none = 8 := by decide
  simp only [intExpr_eval, hslot] at hfor
  unfold run_program
  rw [if_neg (by simp [progCount])]
  cases fuel with
  | zero =>
    rw [run_loop_zero A _ 0 _ _ hl0]
    refine ⟨rfl, ?_⟩
    intro o hm
    simp [reset, hout] at hm
  | succ n =>
    rw [run_loop_step A _ _ 0 _ _ _ _ _ hl0 hfor (by decide) (by decide)]
    have key := count_stuck A a b (A.ofInt a) (A.ofInt b) hgt hadd hle (n / 2)
      ({ reset A st with
        vars := fun j => if j = 8 then A.ofInt a else (reset A st).vars j
        for_stack := ⟨8, A.ofInt b, A.ofRat 1, 0⟩ :: (reset A st).for_stack } : State V)
      (by simp) (by simp [reset]) (by simp [reset, hout])
    rcases Nat.even_or_odd' n with ⟨m, hm | hm⟩
    · have h2 : n / 2 = m := by omega
      rw [h2] at key
      rw [hm]
      simpa [reset] using key.1
    · have h2 : n / 2 = m := by omega
      rw [h2] at key
      rw [hm]
      simpa [reset] using key.2

/-- From the PRINT line with I equal to `z` and the frame of the loop on the
stack, the run prints `z .. b` and ends at END with an empty stack. -/
theorem count_loop {V : Type} (A : Arith V) (a b : Int) (hc : Counts A a b) :
    ∀ (k : Nat) (z : Int) (st : State V), a ≤ z → z ≤ b → (b - z).toNat = k →
      st.vars 8 = A.ofInt z → st.for_stack = [⟨8, A.ofInt b, A.ofRat 1, 0⟩] →
      ∀ n,
        (run_loop A (progCount a b) (2 * k + 3 + n) 1 st).1 = Halt.ended ∧
        (run_loop A (progCount a b) (2 * k + 3 + n) 1 st).2.out =
          st.out ++ countOut A z (k + 1) ∧
        (run_loop A (progCount a b) (2 * k + 3 + n) 1 st).2.for_stack = [] := by
  intro k
  induction k with
  | zero =>
    intro z st haz hzb hk hv hs n
    have hz : z = b := by omega
    subst hz
    rw [show 2 * 0 + 3 + n = n + 3 by omega, count_last A a z hc st haz hv hs n,
      countOut_succ]
    simp [State.setVar, countOut]
  | succ k ih =>
    intro z st haz hzb hk hv hs n
    rw [show 2 * (k + 1) + 3 + n = (2 * k + 3 + n) + 2 by omega,
      count_iter A a b hc z st haz (by omega) hv hs]
    have := ih (z + 1)
      (({ st with out := st.out ++ [Out.num (A.ofInt z)] } : State V).setVar 8 (A.ofInt (z + 1)))
      (by omega) (by omega) (by omega) (by simp [State.setVar]) (by simpa [State.setVar] using hs)
      n
    refine ⟨this.1, ?_, this.2.2⟩
    rw [this.2.1, countOut_succ A z (k + 1)]
    simp [State.setVar]

/-- The counting program in an arithmetic that counts exactly from `a` to `b + 1`. -/
theorem count_program_generic {V : Type} (A : Arith V) (a b : Int) (hab : a ≤ b)
    (hc : Counts A a b) (st : State V) (n : Nat) :
    (run_program A (progCount a b) (2 * (b - a).toNat + 4 + n) st).1 = Halt.ended ∧
    (run_program A (progCount a b) (2 * (b - a).toNat + 4 + n) st).2.out =
      st.out ++ countOut A a ((b - a).toNat + 1) ∧
    (run_program A (progCount a b) (2 * (b - a).toNat + 4 + n) st).2.for_stack = [] := by
  have hl0 : (progCount a b)[0]? =
      some ⟨10, forText [' '] 'I' none [] (intExpr [] a) [' '] (intExpr [' '] b) []⟩ := rfl
  have hb : Blank [' '] := by decide
  have hn : Blank [] := by decide
  have hgt : A.gt (A.ofInt a) (A.ofInt b) = false := hc.ltba
  have hfor := run_for_plain A (progCount a b) 0 1 (reset A st) [' '] 'I' none []
    (intExpr [] a) [' '] (intExpr [' '] b) [] hb (by decide) (by decide)
    (by intro d hd; cases hd) hn (intExpr_wf _ a hn) hb (intExpr_wf _ b hb) hn
    (by simp [State.for_sp, reset, MAX_FOR_DEPTH])
    (by simp [intExpr_eval, hgt, hc.lt10])
  have hslot : slot 'I' none = 8 := by decide
  simp only [intExpr_eval, hslot] at hfor
  unfold run_program
  rw [if_neg (by simp [progCount])]
  rw [show 2 * (b - a).toNat + 4 + n = (2 * (b - a).toNat + 3 + n) + 1 by omega,
    run_loop_step A _ _ 0 _ _ _ _ _ hl0 hfor (by decide) (by decide)]
  have := count_loop A a b hc (b - a).toNat a
    ({ reset A st with
      vars := fun j => if j = 8 then A.ofInt a else (reset A st).vars j
      for_stack := ⟨8, A.ofInt b, A.ofRat 1, 0⟩ :: (reset A st).for_stack } : State V)
    (le_refl a) hab rfl (by simp) (by simp [reset]) n
  simpa [reset] using this

theorem exact_ofInt (z : Int) : exact.ofInt z = (z : ℚ) := by
  unfold Arith.ofInt
  split_ifs with h
  · have h1 : (((-z).toNat : Nat) : Int) = -z := Int.toNat_of_nonneg (by omega)
    have h2 : (((-z).toNat : Nat) : ℚ) = ((-z : Int) : ℚ) := by
      rw [← Int.cast_natCast, h1]
    simp only [exact, id, h2]
    push_cast
    ring
  · have h1 : ((z.toNat : Nat) : Int) = z := Int.toNat_of_nonneg (by omega)
    have h2 : ((z.toNat : Nat) : ℚ) = (z : ℚ) := by
      rw [← Int.cast_natCast, h1]
    simp only [exact, id, h2]

theorem exact_counts (a b : Int) (hab : a ≤ b) : Counts exact a b := by
  refine ⟨by decide!, by decide!, ?_, ?_, ?_⟩
  · rw [exact_ofInt, exact_ofInt]
    simp only [exact, decide_eq_false_iff_not, not_lt]
    exact_mod_cast hab
  · intro z _ _
    rw [exact_ofInt, exact_ofInt]
    simp only [exact, id]
    push_cast
    ring
  · intro z _ _
    rw [exact_ofInt, exact_ofInt]
    simp only [exact]
    congr 1
    exact propext Int.cast_le

theorem countOut_exact (a : Int) (n : Nat) :
    countOut exact a n = (List.range n).map fun (i : Nat) => Out.num ((a + (i : Int) : Int) : ℚ) := by
  unfold countOut
  apply List.map_congr_left
  intro i _
  rw [exact_ofInt]

/-- C4 (amended to the integers that `double` counts exactly): in the arithmetic
of `double` (binary64), for all integers `a <= b` with `-2 ^ 53 <= a` and
`b < 2 ^ 53` the program `10 FOR I=a TO b`, `20 PRINT I`, `30 NEXT I`, `40 END`,
run from any state with a budget of at least `2 (b - a) + 4` statements, ends at
END, has printed exactly the `b - a + 1` values `a`, `a + 1`, ..., `b` in that
order, and leaves the FOR stack empty; the same holds in every arithmetic that
counts exactly from `a` to `b + 1`. -/
theorem count_program (a b : Int) (hab : a ≤ b) (ha : -2 ^ 53 ≤ a) (hb : b < 2 ^ 53)
    (st : State ℚ) (fuel : Nat) (hf : 2 * (b - a).toNat + 4 ≤ fuel) :
    ((run_program binary64 (progCount a b) fuel st).1 = Halt.ended ∧
      (run_program binary64 (progCount a b) fuel st).2.out =
        st.out ++ (List.range ((b - a).toNat + 1)).map
          (fun (i : Nat) => Out.num ((a + (i : Int) : Int) : ℚ)) ∧
      (run_program binary64 (progCount a b) fuel st).2.for_stack = []) ∧
    (∀ (V : Type) (A : Arith V) (s : State V), Counts A a b →
      (run_program A (progCount a b) fuel s).1 = Halt.ended ∧
      (run_program A (progCount a b) fuel s).2.out =
        s.out ++ countOut A a ((b - a).toNat + 1) ∧
      (run_program A (progCount a b) fuel s).2.for_stack = []) := by
  obtain ⟨n, rfl⟩ : ∃ n, fuel = 2 * (b - a).toNat + 4 + n := ⟨fuel - (2 * (b - a).toNat + 4), by omega⟩
  refine ⟨?_, ?_⟩
  · have := count_program_generic binary64 a b hab (binary64_counts a b hab ha hb) st n
    rw [countOut_binary64 a _ ha (by omega)] at this
    exact this
  · intro V A s hc
    exact count_program_generic A a b hab hc s n

/-- Counterexample to C4 as stated (all integers `a <= b`): for `a = 2 ^ 53` and
`b = 2 ^ 53 + 2` the sum `I + 1` computed by NEXT is rounded back to `2 ^ 53`, so
the variable never advances.  With the budget of 8 statements that three values
would need, the run has printed `2 ^ 53` four times and has not ended; whatever
the budget, the run has not ended and has printed nothing but `2 ^ 53`. -/
theorem count_program_counterexample :
    (9007199254740992 : Int) ≤ 9007199254740994 ∧
    progCount 9007199254740992 9007199254740994 =
      mkProgram [(10, "FOR I=9007199254740992 TO 9007199254740994"), (20, "PRINT I"),
        (30, "NEXT I"), (40, "END")] ∧
    binary64.ofInt 9007199254740992 = 9007199254740992 ∧
    binary64.ofInt 9007199254740994 = 9007199254740994 ∧
    binary64.add 9007199254740992 (binary64.ofRat 1) = 9007199254740992 ∧
    (run_program binary64 (progCount 9007199254740992 9007199254740994) 8 stZero).1 =
      Halt.running ∧
    (run_program binary64 (progCount 9007199254740992 9007199254740994) 8 stZero).2.out =
      [Out.num 9007199254740992, Out.num 9007199254740992, Out.num 9007199254740992,
        Out.num 9007199254740992] ∧
    (∀ fuel : Nat,
      (run_program binary64 (progCount 9007199254740992 9007199254740994) fuel stZero).1 =
        Halt.running ∧
      ∀ o ∈ (run_program binary64 (progCount 9007199254740992 9007199254740994) fuel
          stZero).2.out, o = Out.num (9007199254740992 : ℚ)) := by
  have h1 : binary64.ofInt 9007199254740992 = 9007199254740992 := by decide!
  have h2 : binary64.ofInt 9007199254740994 = 9007199254740994 := by decide!
  refine ⟨by decide, by decide!, h1, h2, by decide!, by decide!, by decide!, ?_⟩
  intro fuel
  have := count_program_stuck binary64 9007199254740992 9007199254740994 (by decide!)
    (by decide!) (by decide!) (by decide!) (by decide!) stZero rfl fuel
  rw [h1] at this
  exact this

/-- Witness of C4: `a = 1`, `b = 3`; the program is that of the specification and
its output is 1, 2, 3. -/
theorem count_program_witness :
    (1 : Int) ≤ 3 ∧ -2 ^ 53 ≤ (1 : Int) ∧ (3 : Int) < 2 ^ 53 ∧
    2 * ((3 : Int) - 1).toNat + 4 ≤ 8 ∧
    progCount 1 3 =
      mkProgram [(10, "FOR I=1 TO 3"), (20, "PRINT I"), (30, "NEXT I"), (40, "END")] ∧
    stZero.out ++ (List.range (((3 : Int) - 1).toNat + 1)).map
      (fun (i : Nat) => Out.num ((1 + (i : Int) : Int) : ℚ)) = [Out.num 1, Out.num 2, Out.num 3] ∧
    (run_program binary64 (progCount 1 3) 8 stZero).1 = Halt.ended ∧
    (run_program binary64 (progCount 1 3) 8 stZero).2.out =
      stZero.out ++ (List.range (((3 : Int) - 1).toNat + 1)).map
        (fun (i : Nat) => Out.num ((1 + (i : Int) : Int) : ℚ)) ∧
    (run_program binary64 (progCount 1 3) 8 stZero).2.for_stack = [] :=
  ⟨by decide, by decide, by decide, by decide, by decide, by decide!,
    (count_program 1 3 (by decide) (by decide) (by decide) stZero 8 (by decide)).1⟩

/-! ## Variable names and slots -/

/-- The upper-case form of a letter is one of `A` .. `Z`. -/
theorem toupper_range {c : Char} (h : isalpha c = true) :
    65 ≤ (toupper c).toNat ∧ (toupper c).toNat ≤ 90 := by
  simp only [isalpha, Bool.or_eq_true, Bool.and_eq_true, decide_eq_true_eq] at h
  unfold toupper
  by_cases hl : (decide (97 ≤ c.toNat) && decide (c.toNat ≤ 122)) = true
  · rw [if_pos hl]
    simp only [Bool.and_eq_true, decide_eq_true_eq] at hl
    rw [toNat_ofNat_small _ (by omega)]
    omega
  · rw [if_neg hl]
    simp only [Bool.and_eq_true, decide_eq_true_eq] at hl
    omega

/-- The value of a digit character is below ten. -/
theorem digitVal_lt {d : Char} (h : isdigit d = true) : d.toNat - 48 < 10 := by
  simp only [isdigit, Bool.and_eq_true, decide_eq_true_eq] at h
  omega

/-- Two characters with the same code are equal. -/
theorem char_eq_of_toNat {a b : Char} (h : a.toNat = b.toNat) : a = b := by
  apply Char.ext
  apply UInt32.ext
  exact h

/-- Every slot computed by `parse_var_name` is below `NUM_VARS`. -/
theorem parse_var_name_lt {s : List Char} {v : Nat} {r : List Char}
    (h : parse_var_name s = some (v, r)) : v < NUM_VARS := by
  unfold parse_var_name at h
  by_cases ha : isalpha (peek s) = true
  · have hr := toupper_range ha
    simp only [ha, Bool.not_true, Bool.false_eq_true, if_false] at h
    by_cases hd : isdigit (peek (s.drop 1)) = true
    · have hdl := digitVal_lt hd
      simp only [hd, if_true, Option.some.injEq, Prod.mk.injEq] at h
      unfold NUM_VARS
      omega
    · simp only [hd, Bool.false_eq_true, if_false, Option.some.injEq, Prod.mk.injEq] at h
      unfold NUM_VARS
      omega
  · simp [ha] at h

/-- On a cursor that does not start with a letter the result is invalid. -/
theorem parse_var_name_none_of_not_alpha {s : List Char} (h : isalpha (peek s) = false) :
    parse_var_name s = none := by
  simp [parse_var_name, h]

/-- C16: on a cursor starting with a letter, `parse_var_name` returns the index
of the letter in A..Z (either case, 0..25) and advances by one character when
the next character is not a digit, and returns 26 + 10 * index + digit and
advances by two characters when the next character is a digit; on a cursor that
does not start with a letter it returns the invalid result.  Every slot it
returns is below 286, and two names have the same slot only if their letters
agree up to case and their digits agree. -/
theorem parse_var_name_slot :
    (∀ (letter : Char) (rest : List Char), isalpha letter = true →
      isdigit (peek rest) = false →
      parse_var_name (letter :: rest) = some (slot letter none, rest) ∧
      slot letter none < 26 ∧ (toupper letter).toNat = 65 + slot letter none) ∧
    (∀ (letter d : Char) (rest : List Char), isalpha letter = true → isdigit d = true →
      parse_var_name (letter :: d :: rest) =
        some (26 + slot letter none * 10 + (d.toNat - 48), rest) ∧
      d.toNat - 48 < 10 ∧ d.toNat = 48 + (d.toNat - 48) ∧
      slot letter (some d) = 26 + slot letter none * 10 + (d.toNat - 48)) ∧
    (∀ s : List Char, isalpha (peek s) = false → parse_var_name s = none) ∧
    (∀ (s : List Char) (v : Nat) (r : List Char), parse_var_name s = some (v, r) →
      v < NUM_VARS) ∧
    (∀ (l1 l2 : Char) (d1 d2 : Option Char), isalpha l1 = true → isalpha l2 = true →
      (∀ d ∈ d1, isdigit d = true) → (∀ d ∈ d2, isdigit d = true) →
      (slot l1 d1 = slot l2 d2 ↔ toupper l1 = toupper l2 ∧ d1 = d2)) := by
  refine ⟨?_, ?_, ?_, ?_, ?_⟩
  · intro letter rest hl hr
    have hd : ∀ d ∈ (none : Option Char), isdigit d = true := by intro d hd; cases hd
    have hv := parse_var_name_render rest hl hd hr
    have hu := toupper_range hl
    refine ⟨by simpa using hv, slot_letter_lt hl, ?_⟩
    simp only [slot]
    omega
  · intro letter d rest hl hd
    have hu := toupper_range hl
    have hlt := digitVal_lt hd
    simp only [isdigit, Bool.and_eq_true, decide_eq_true_eq] at hd
    refine ⟨?_, hlt, by omega, rfl⟩
    have hd1 : isdigit d = true := by
      simp only [isdigit, Bool.and_eq_true, decide_eq_true_eq]; exact hd
    simp [parse_var_name, peek, hl, hd1, slot]
  · intro s h
    exact parse_var_name_none_of_not_alpha h
  · intro s v r h
    exact parse_var_name_lt h
  · intro l1 l2 d1 d2 h1 h2 hd1 hd2
    have hu1 := toupper_range h1
    have hu2 := toupper_range h2
    constructor
    · intro h
      cases d1 with
      | none =>
        cases d2 with
        | none =>
          simp only [slot] at h
          exact ⟨char_eq_of_toNat (by omega), rfl⟩
        | some b =>
          simp only [slot] at h
          omega
      | some a =>
        have ha := hd1 a rfl
        have hal := digitVal_lt ha
        simp only [isdigit, Bool.and_eq_true, decide_eq_true_eq] at ha
        cases d2 with
        | none =>
          simp only [slot] at h
          omega
        | some b =>
          have hb := hd2 b rfl
          have hbl := digitVal_lt hb
          simp only [isdigit, Bool.and_eq_true, decide_eq_true_eq] at hb
          simp only [slot] at h
          have e1 : (toupper l1).toNat = (toupper l2).toNat := by omega
          have e2 : a.toNat = b.toNat := by omega
          exact ⟨char_eq_of_toNat e1, by rw [char_eq_of_toNat e2]⟩
    · rintro ⟨h, rfl⟩
      cases d1 with
      | none => simp only [slot, h]
      | some a => simp only [slot, h]

/-- Witness of C16: the names `b` and `B7`. -/
theorem parse_var_name_slot_witness :
    isalpha 'b' = true ∧ isdigit (peek "=1".toList) = false ∧
    parse_var_name ('b' :: "=1".toList) = some (1, "=1".toList) ∧
    parse_var_name ('B' :: '7' :: "=1".toList) = some (43, "=1".toList) ∧
    parse_var_name "=1".toList = none ∧
    parse_var_name ('b' :: "=1".toList) = some (slot 'b' none, "=1".toList) :=
  ⟨by decide, by decide, by decide, by decide, by decide,
    (parse_var_name_slot.1 'b' "=1".toList (by decide) (by decide)).1⟩

/-! ## Program store: sorting -/

/-- The inner loop of `sort_program` permutes the lines. -/
theorem sort_pass_perm : ∀ (xs : List Line) (x : Line),
    ((sort_pass x xs).1 :: (sort_pass x xs).2).Perm (x :: xs)
  | [], x => by simp [sort_pass]
  | y :: ys, x => by
    unfold sort_pass
    by_cases h : x.lineno > y.lineno
    · rw [if_pos h]
      have ih := sort_pass_perm ys y
      exact (List.Perm.swap _ _ _).trans (ih.cons x)
    · rw [if_neg h]
      have ih := sort_pass_perm ys x
      exact ((List.Perm.swap _ _ _).trans (ih.cons y)).trans (List.Perm.swap _ _ _)

/-- The inner loop of `sort_program` keeps the number of lines behind position `i`. -/
theorem sort_pass_length (xs : List Line) (x : Line) : (sort_pass x xs).2.length = xs.length := by
  have h := (sort_pass_perm xs x).length_eq
  simpa using h

/-- After the inner loop `program[i]` holds the smallest line number of the
positions from `i` on. -/
theorem sort_pass_min : ∀ (xs : List Line) (x : Line),
    (sort_pass x xs).1.lineno ≤ x.lineno ∧
      ∀ y ∈ (sort_pass x xs).2, (sort_pass x xs).1.lineno ≤ y.lineno
  | [], x => by simp [sort_pass]
  | y :: ys, x => by
    unfold sort_pass
    by_cases h : x.lineno > y.lineno
    · rw [if_pos h]
      obtain ⟨h1, h2⟩ := sort_pass_min ys y
      dsimp only
      refine ⟨by omega, ?_⟩
      intro z hz
      rcases List.mem_cons.1 hz with rfl | hz
      · omega
      · exact h2 z hz
    · rw [if_neg h]
      obtain ⟨h1, h2⟩ := sort_pass_min ys x
      dsimp only
      refine ⟨h1, ?_⟩
      intro z hz
      rcases List.mem_cons.1 hz with rfl | hz
      · omega
      · exact h2 z hz

/-- The outer loop of `sort_program` permutes the lines. -/
theorem sort_loop_perm : ∀ (n : Nat) (p : List Line), (sort_loop n p).Perm p
  | 0, p => by simp [sort_loop]
  | n + 1, [] => by simp [sort_loop]
  | n + 1, x :: xs => by
    simp only [sort_loop]
    exact ((sort_loop_perm n _).cons _).trans (sort_pass_perm xs x)

/-- After the outer loop has visited every position the line numbers ascend. -/
theorem sort_loop_sorted : ∀ (n : Nat) (p : List Line), p.length ≤ n →
    (sort_loop n p).Pairwise fun (a b : Line) => a.lineno ≤ b.lineno
  | 0, p, h => by
    have : p = [] := List.length_eq_zero.1 (by omega)
    subst this
    simp [sort_loop]
  | n + 1, [], _ => by simp [sort_loop]
  | n + 1, x :: xs, h => by
    simp only [sort_loop]
    refine List.Pairwise.cons ?_ (sort_loop_sorted n _ ?_)
    · intro b hb
      exact (sort_pass_min xs x).2 b ((sort_loop_perm n _).mem_iff.1 hb)
    · rw [sort_pass_length]
      simpa using h

/-- Source `sort_program` permutes the lines. -/
theorem sort_program_perm (p : List Line) : (sort_program p).Perm p := sort_loop_perm _ p

/-- Ascending line numbers in terms of the list of line numbers. -/
theorem ascending_iff (p : List Line) :
    Ascending p ↔ (p.map Line.lineno).Pairwise (· < ·) := by
  unfold Ascending
  rw [List.pairwise_map]

/-- The line numbers of an ascending store are pairwise different. -/
theorem Ascending.nodup {p : List Line} (h : Ascending p) : (p.map Line.lineno).Nodup := by
  rw [ascending_iff] at h
  exact h.imp (fun hab => ne_of_lt hab)

/-- After `sort_program` a store with pairwise different line numbers is
strictly ascending. -/
theorem sort_program_ascending (p : List Line) (h : (p.map Line.lineno).Nodup) :
    Ascending (sort_program p) := by
  have hs := sort_loop_sorted p.length p (le_refl _)
  have hn : ((sort_program p).map Line.lineno).Nodup :=
    ((sort_program_perm p).map Line.lineno).nodup_iff.2 h
  unfold List.Nodup at hn
  rw [List.pairwise_map] at hn
  exact (hs.and hn).imp (fun hab => lt_of_le_of_ne hab.1 hab.2)

/-! ## Program store: lookup -/

/-- Source `find_index_by_lineno` returns -1 exactly when no line has the number. -/
theorem find_index_from_none (ln : Int) : ∀ (ls : List Line) (i : Nat),
    find_index_from ln ls i = none ↔ ∀ l ∈ ls, l.lineno ≠ ln
  | [], i => by simp [find_index_from]
  | l :: ls, i => by
    unfold find_index_from
    by_cases h : l.lineno = ln
    · simp [h]
    · simp [h, find_index_from_none ln ls (i + 1)]

/-- The index returned by `find_index_by_lineno` is that of the first line with
the number. -/
theorem find_index_from_some (ln : Int) : ∀ (ls : List Line) (i k : Nat),
    find_index_from ln ls i = some k →
    i ≤ k ∧ (∃ l, ls[k - i]? = some l ∧ l.lineno = ln) ∧
      ∀ j, j < k - i → ∀ l, ls[j]? = some l → l.lineno ≠ ln
  | [], i, k, h => by simp [find_index_from] at h
  | l :: ls, i, k, h => by
    unfold find_index_from at h
    by_cases hl : l.lineno = ln
    · rw [if_pos hl] at h
      have hk : k = i := by simpa using h.symm
      subst hk
      refine ⟨le_refl _, ⟨l, by simp, hl⟩, ?_⟩
      intro j hj
      omega
    · rw [if_neg hl] at h
      obtain ⟨h1, ⟨l1, h2, h3⟩, h4⟩ := find_index_from_some ln ls (i + 1) k h
      have hki : k - i = (k - (i + 1)) + 1 := by omega
      refine ⟨by omega, ⟨l1, by rw [hki]; simpa using h2, h3⟩, ?_⟩
      intro j hj l2 hl2
      cases j with
      | zero =>
        simp at hl2
        subst hl2
        exact hl
      | succ j =>
        simp at hl2
        exact h4 j (by omega) l2 hl2

/-- Specification of `find_index_by_lineno` for a found line. -/
theorem find_index_by_lineno_some {p : List Line} {ln : Int} {k : Nat}
    (h : find_index_by_lineno p ln = some k) :
    (∃ l, p[k]? = some l ∧ l.lineno = ln) ∧ ∀ j, j < k → ∀ l, p[j]? = some l → l.lineno ≠ ln := by
  have := find_index_from_some ln p 0 k h
  simpa using this.2

/-- Specification of `find_index_by_lineno` for a missing line. -/
theorem find_index_by_lineno_none (p : List Line) (ln : Int) :
    find_index_by_lineno p ln = none ↔ ∀ l ∈ p, l.lineno ≠ ln :=
  find_index_from_none ln p 0

/-- Replacing a text changes no line number. -/
theorem set_text_lineno : ∀ (ls : List Line) (i : Nat) (t : List Char),
    (set_text ls i t).map Line.lineno = ls.map Line.lineno
  | [], _, _ => rfl
  | l :: ls, 0, t => rfl
  | l :: ls, i + 1, t => by simp [set_text, set_text_lineno ls i t]

/-- Replacing a text keeps the number of lines. -/
theorem set_text_length (ls : List Line) (i : Nat) (t : List Char) :
    (set_text ls i t).length = ls.length := by
  have := congrArg List.length (set_text_lineno ls i t)
  simpa using this

/-- The lookup depends on the line numbers only. -/
theorem find_index_from_congr (ln : Int) : ∀ (ls ms : List Line) (i : Nat),
    ls.map Line.lineno = ms.map Line.lineno →
    find_index_from ln ls i = find_index_from ln ms i
  | [], [], _, _ => rfl
  | [], _ :: _, _, h => by simp at h
  | _ :: _, [], _, h => by simp at h
  | l :: ls, m :: ms, i, h => by
    simp only [List.map_cons, List.cons.injEq] at h
    unfold find_index_from
    rw [h.1, find_index_from_congr ln ls ms (i + 1) h.2]

/-- After the replacement the line at the found index has the new text, and the
lines with another number are the same. -/
theorem set_text_found (ln : Int) (t : List Char) : ∀ (ls : List Line) (i k : Nat),
    find_index_from ln ls i = some k →
    (set_text ls (k - i) t)[k - i]? = some ⟨ln, t⟩ ∧
      ∀ l : Line, l.lineno ≠ ln → (l ∈ set_text ls (k - i) t ↔ l ∈ ls)
  | [], i, k, h => by simp [find_index_from] at h
  | l :: ls, i, k, h => by
    unfold find_index_from at h
    by_cases hl : l.lineno = ln
    · rw [if_pos hl] at h
      have hk : k = i := by simpa using h.symm
      subst hk
      simp only [Nat.sub_self, set_text]
      refine ⟨by simp [hl], ?_⟩
      intro m hm
      simp only [List.mem_cons]
      constructor
      · rintro (h1 | h1)
        · exact absurd (by rw [h1]; exact hl) hm
        · exact Or.inr h1
      · rintro (h1 | h1)
        · exact absurd (by rw [h1]; exact hl) hm
        · exact Or.inr h1
    · rw [if_neg hl] at h
      have hik := (find_index_from_some ln ls (i + 1) k h).1
      obtain ⟨h1, h2⟩ := set_text_found ln t ls (i + 1) k h
      have hki : k - i = (k - (i + 1)) + 1 := by omega
      rw [hki]
      simp only [set_text]
      refine ⟨by simpa using h1, ?_⟩
      intro m hm
      simp only [List.mem_cons, h2 m hm]

/-- In a store with pairwise different line numbers, removing the found line
removes every line with the number and keeps the others in their order. -/
theorem eraseIdx_found (ln : Int) : ∀ (ls : List Line) (i k : Nat),
    (ls.map Line.lineno).Nodup → find_index_from ln ls i = some k →
    ls.eraseIdx (k - i) = ls.filter fun l => decide (l.lineno ≠ ln)
  | [], i, k, _, h => by simp [find_index_from] at h
  | l :: ls, i, k, hn, h => by
    unfold find_index_from at h
    simp only [List.map_cons, List.nodup_cons, List.mem_map, not_exists, not_and] at hn
    by_cases hl : l.lineno = ln
    · rw [if_pos hl] at h
      have hk : k = i := by simpa using h.symm
      subst hk
      simp only [Nat.sub_self, List.eraseIdx_cons_zero]
      rw [List.filter_cons_of_neg (by simp [hl])]
      symm
      rw [List.filter_eq_self]
      intro a ha
      have := hn.1 a ha
      simp only [decide_eq_true_eq]
      intro hh
      exact this (by rw [hh, hl])
    · rw [if_neg hl] at h
      have hik := (find_index_from_some ln ls (i + 1) k h).1
      have ih := eraseIdx_found ln ls (i + 1) k hn.2 h
      have hki : k - i = (k - (i + 1)) + 1 := by omega
      rw [hki, List.eraseIdx_cons_succ, ih, List.filter_cons_of_pos (by simp [hl])]

/-- In a store with pairwise different line numbers `delete_line` removes
exactly the lines with the number. -/
theorem delete_line_filter (p : List Line) (ln : Int) (h : (p.map Line.lineno).Nodup) :
    delete_line p ln = p.filter fun l => decide (l.lineno ≠ ln) := by
  unfold delete_line
  cases hf : find_index_by_lineno p ln with
  | none =>
    simp only
    symm
    rw [List.filter_eq_self]
    intro a ha
    simpa using (find_index_by_lineno_none p ln).1 hf a ha
  | some idx =>
    simp only
    have := eraseIdx_found ln p 0 idx h hf
    simpa using this

/-! ## Program store: invariant -/

/-- One call of `insert_or_replace_line` keeps the store ascending and within
its capacity. -/
theorem insert_invariant (p : List Line) (ln : Int) (t : List Char)
    (h : Ascending p) (hlen : p.length ≤ MAX_LINES) :
    Ascending (insert_or_replace_line p ln t).1 ∧
      (insert_or_replace_line p ln t).1.length ≤ MAX_LINES := by
  unfold insert_or_replace_line
  cases hf : find_index_by_lineno p ln with
  | some idx =>
    simp only
    refine ⟨?_, by rw [set_text_length]; exact hlen⟩
    rw [ascending_iff, set_text_lineno, ← ascending_iff]
    exact h
  | none =>
    simp only
    by_cases hc : MAX_LINES ≤ p.length
    · rw [if_pos hc]
      exact ⟨h, hlen⟩
    · rw [if_neg hc]
      refine ⟨sort_program_ascending _ ?_, ?_⟩
      · rw [List.map_append, List.nodup_append]
        refine ⟨h.nodup, by simp, ?_⟩
        intro a ha hb
        simp only [List.map_cons, List.map_nil, List.mem_singleton] at hb
        obtain ⟨l, hl, rfl⟩ := List.mem_map.1 ha
        exact (find_index_by_lineno_none p ln).1 hf l hl hb
      · rw [(sort_program_perm _).length_eq]
        simp only [List.length_append, List.length_singleton]
        omega

/-- One call of `delete_line` keeps the store ascending and within its capacity. -/
theorem delete_invariant (p : List Line) (ln : Int)
    (h : Ascending p) (hlen : p.length ≤ MAX_LINES) :
    Ascending (delete_line p ln) ∧ (delete_line p ln).length ≤ MAX_LINES := by
  rw [delete_line_filter p ln h.nodup]
  refine ⟨List.Pairwise.sublist (List.filter_sublist _) h, ?_⟩
  exact le_trans (List.length_filter_le _ _) hlen

/-- The invariant of the store after a sequence of calls from any store that
satisfies it. -/
theorem foldl_invariant : ∀ (ops : List StoreOp) (p : List Line),
    Ascending p → p.length ≤ MAX_LINES →
    Ascending (ops.foldl StoreOp.apply p) ∧ (ops.foldl StoreOp.apply p).length ≤ MAX_LINES
  | [], p, h, hl => ⟨h, hl⟩
  | op :: ops, p, h, hl => by
    simp only [List.foldl_cons]
    cases op with
    | insert ln t =>
      obtain ⟨h1, h2⟩ := insert_invariant p ln t h hl
      exact foldl_invariant ops _ h1 h2
    | delete ln =>
      obtain ⟨h1, h2⟩ := delete_invariant p ln h hl
      exact foldl_invariant ops _ h1 h2

/-! ## Program store: the claims -/

/-- C13: after every sequence of calls of `insert_or_replace_line` and
`delete_line` from the empty store the lines are strictly ascending by line
number, so no line number occurs twice, and there are at most `MAX_LINES` = 1000
of them; inserting a line number that is not stored into a store that holds 1000
lines or more leaves the store as it is and writes `Program full`. -/
theorem store_invariant :
    (∀ ops : List StoreOp,
      Ascending (store_after ops) ∧ ((store_after ops).map Line.lineno).Nodup ∧
      (store_after ops).length ≤ MAX_LINES) ∧
    MAX_LINES = 1000 ∧
    (∀ (p : List Line) (ln : Int) (t : List Char),
      find_index_by_lineno p ln = none → MAX_LINES ≤ p.length →
      insert_or_replace_line p ln t = (p, true)) := by
  refine ⟨?_, rfl, ?_⟩
  · intro ops
    have h := foldl_invariant ops [] List.Pairwise.nil (Nat.zero_le _)
    exact ⟨h.1, h.1.nodup, h.2⟩
  · intro p ln t hf hc
    unfold insert_or_replace_line
    rw [hf]
    simp only
    rw [if_pos hc]

/-- Witness of C13: a store of 1000 lines refuses the new line number 5. -/
theorem store_invariant_witness :
    find_index_by_lineno fullStore 5 = none ∧ MAX_LINES ≤ fullStore.length ∧
    insert_or_replace_line fullStore 5 ['E', 'N', 'D'] = (fullStore, true) ∧
    store_after [.insert 30 ['c'], .insert 10 ['a'], .insert 20 ['b'], .delete 10,
      .insert 30 ['d']] = [⟨20, ['b']⟩, ⟨30, ['d']⟩] :=
  ⟨by decide!, by decide!,
    store_invariant.2.2 fullStore 5 ['E', 'N', 'D'] (by decide!) (by decide!), by decide⟩

/-- C14: the store is a finite map from line numbers to texts.  For an ascending
store that is below its capacity or already holds the number, after
`insert_or_replace_line` the lookup of the number finds a line with the new text,
the number of lines has grown by one if the number was absent and is the same if
it was present, and the lines with another number are the same; after
`delete_line` the lookup of the number finds nothing and the other lines are
there with their texts and in their order; deleting an absent number changes
nothing. -/
theorem store_finite_map :
    (∀ (p : List Line) (ln : Int) (t : List Char), Ascending p →
      (p.length < MAX_LINES ∨ find_index_by_lineno p ln ≠ none) →
      (∃ i, find_index_by_lineno (insert_or_replace_line p ln t).1 ln = some i ∧
        (insert_or_replace_line p ln t).1[i]? = some ⟨ln, t⟩) ∧
      (find_index_by_lineno p ln = none →
        (insert_or_replace_line p ln t).1.length = p.length + 1) ∧
      (find_index_by_lineno p ln ≠ none →
        (insert_or_replace_line p ln t).1.length = p.length) ∧
      (∀ l : Line, l.lineno ≠ ln → (l ∈ (insert_or_replace_line p ln t).1 ↔ l ∈ p)) ∧
      Ascending (insert_or_replace_line p ln t).1) ∧
    (∀ (p : List Line) (ln : Int), Ascending p →
      find_index_by_lineno (delete_line p ln) ln = none ∧
      delete_line p ln = p.filter (fun l => decide (l.lineno ≠ ln)) ∧
      (∀ l : Line, l.lineno ≠ ln → (l ∈ delete_line p ln ↔ l ∈ p)) ∧
      Ascending (delete_line p ln)) ∧
    (∀ (p : List Line) (ln : Int), find_index_by_lineno p ln = none →
      delete_line p ln = p) := by
  refine ⟨?_, ?_, ?_⟩
  · intro p ln t hasc hcap
    have hA : Ascending (insert_or_replace_line p ln t).1 := by
      unfold insert_or_replace_line
      cases hf : find_index_by_lineno p ln with
      | some idx =>
        simp only
        rw [ascending_iff, set_text_lineno, ← ascending_iff]
        exact hasc
      | none =>
        simp only
        by_cases hc : MAX_LINES ≤ p.length
        · rw [if_pos hc]; exact hasc
        · rw [if_neg hc]
          refine sort_program_ascending _ ?_
          rw [List.map_append, List.nodup_append]
          refine ⟨hasc.nodup, by simp, ?_⟩
          intro a ha hb
          simp only [List.map_cons, List.map_nil, List.mem_singleton] at hb
          obtain ⟨l, hl, rfl⟩ := List.mem_map.1 ha
          exact (find_index_by_lineno_none p ln).1 hf l hl hb
    refine ⟨?_, ?_, ?_, ?_, hA⟩
    · unfold insert_or_replace_line
      cases hf : find_index_by_lineno p ln with
      | some idx =>
        simp only
        have h1 := set_text_found ln t p 0 idx hf
        refine ⟨idx, ?_, by simpa using h1.1⟩
        unfold find_index_by_lineno at hf ⊢
        rw [find_index_from_congr ln _ p 0 (set_text_lineno p idx t)]
        exact hf
      | none =>
        simp only
        have hc : ¬ MAX_LINES ≤ p.length := by
          rcases hcap with h | h
          · omega
          · exact absurd hf h
        rw [if_neg hc]
        have hperm := sort_program_perm (p ++ [⟨ln, t⟩])
        have hmem : (⟨ln, t⟩ : Line) ∈ sort_program (p ++ [⟨ln, t⟩]) :=
          hperm.mem_iff.2 (by simp)
        cases hq : find_index_by_lineno (sort_program (p ++ [⟨ln, t⟩])) ln with
        | none =>
          exact absurd rfl ((find_index_by_lineno_none _ ln).1 hq _ hmem)
        | some i =>
          refine ⟨i, rfl, ?_⟩
          obtain ⟨⟨l, hl, hln⟩, -⟩ := find_index_by_lineno_some hq
          rw [hl]
          have hlm : l ∈ p ++ [⟨ln, t⟩] := hperm.mem_iff.1 (List.getElem?_mem hl)
          rcases List.mem_append.1 hlm with h | h
          · exact absurd hln ((find_index_by_lineno_none p ln).1 hf l h)
          · rw [List.mem_singleton.1 h]
    · intro hf
      unfold insert_or_replace_line
      rw [hf]
      simp only
      have hc : ¬ MAX_LINES ≤ p.length := by
        rcases hcap with h | h
        · omega
        · exact absurd hf h
      rw [if_neg hc, (sort_program_perm _).length_eq]
      simp
    · intro hf
      unfold insert_or_replace_line
      cases hq : find_index_by_lineno p ln with
      | none => exact absurd hq hf
      | some idx =>
        simp only
        exact set_text_length p idx t
    · intro l hl
      unfold insert_or_replace_line
      cases hf : find_index_by_lineno p ln with
      | some idx =>
        simp only
        have h1 := (set_text_found ln t p 0 idx hf).2 l hl
        simpa using h1
      | none =>
        simp only
        by_cases hc : MAX_LINES ≤ p.length
        · rw [if_pos hc]
        · rw [if_neg hc, (sort_program_perm _).mem_iff]
          simp only [List.mem_append, List.mem_singleton]
          constructor
          · rintro (h | h)
            · exact h
            · exact absurd (by rw [h]) hl
          · exact Or.inl
  · intro p ln hasc
    have hfl := delete_line_filter p ln hasc.nodup
    refine ⟨?_, hfl, ?_, ?_⟩
    · rw [find_index_by_lineno_none, hfl]
      intro l hl
      simpa using (List.mem_filter.1 hl).2
    · intro l hl
      rw [hfl, List.mem_filter]
      simp [hl]
    · rw [hfl]
      exact List.Pairwise.sublist (List.filter_sublist _) hasc
  · intro p ln hf
    unfold delete_line
    rw [hf]

/-- Witness of C14: replacing and deleting line 20 of a store of three lines. -/
theorem store_finite_map_witness :
    Ascending (mkProgram [(10, "A=1"), (20, "PRINT A"), (30, "END")]) ∧
    (insert_or_replace_line (mkProgram [(10, "A=1"), (20, "PRINT A"), (30, "END")]) 20
      "PRINT 2".toList).1 = mkProgram [(10, "A=1"), (20, "PRINT 2"), (30, "END")] ∧
    (insert_or_replace_line (mkProgram [(10, "A=1"), (20, "PRINT A"), (30, "END")]) 15
      "A=2".toList).1 = mkProgram [(10, "A=1"), (15, "A=2"), (20, "PRINT A"), (30, "END")] ∧
    delete_line (mkProgram [(10, "A=1"), (20, "PRINT A"), (30, "END")]) 20 =
      mkProgram [(10, "A=1"), (30, "END")] ∧
    find_index_by_lineno
      (delete_line (mkProgram [(10, "A=1"), (20, "PRINT A"), (30, "END")]) 20) 20 = none ∧
    (∃ i, find_index_by_lineno (insert_or_replace_line
        (mkProgram [(10, "A=1"), (20, "PRINT A"), (30, "END")]) 15 "A=2".toList).1 15 = some i ∧
      (insert_or_replace_line (mkProgram [(10, "A=1"), (20, "PRINT A"), (30, "END")]) 15
        "A=2".toList).1[i]? = some ⟨15, "A=2".toList⟩) :=
  ⟨by decide, by decide, by decide, by decide,
    (store_finite_map.2.1 (mkProgram [(10, "A=1"), (20, "PRINT A"), (30, "END")]) 20
      (by decide)).1,
    (store_finite_map.1 (mkProgram [(10, "A=1"), (20, "PRINT A"), (30, "END")]) 15
      "A=2".toList (by decide) (Or.inl (by decide))).1⟩

/-! ## Dispatch of `run_statement`: the other keywords -/

/-- A character whose upper-case form is a letter is a letter. -/
theorem toupper_alpha {b c : Char} (h : toupper b = c) (hc : isalpha c = true) :
    isalpha b = true := by
  unfold toupper at h
  by_cases hl : (decide (97 ≤ b.toNat) && decide (b.toNat ≤ 122)) = true
  · simp only [Bool.and_eq_true, decide_eq_true_eq] at hl
    simp only [isalpha, Bool.or_eq_true, Bool.and_eq_true, decide_eq_true_eq]
    exact Or.inr hl
  · rw [if_neg hl] at h
    rw [h]
    exact hc

/-- A text that starts with a keyword of two letters or more has the second
letter of the keyword, in either case, at position 1. -/
theorem strncasecmp_eq_second {s kw : List Char} {x y : Char}
    (h : strncasecmp_eq s (x :: y :: kw) = true) : toupper (at_ s 1) = y := by
  unfold strncasecmp_eq at h
  match s, h with
  | a :: b :: t, h =>
    simp only [List.length_cons, List.take_succ_cons, List.map_cons, beq_iff_eq,
      List.cons.injEq] at h
    simp only [at_, List.drop_succ_cons, List.drop_zero, peek, List.headD_cons]
    exact h.2.1
  | [], h => simp at h
  | [_], h => simp at h

theorem strncasecmp_eq_two {s : List Char} {x y : Char}
    (h : strncasecmp_eq s [x, y] = true) :
    ∃ a b t, s = a :: b :: t ∧ toupper a = x ∧ toupper b = y := by
  unfold strncasecmp_eq at h
  match s, h with
  | a :: b :: t, h =>
    simp only [List.length_cons, List.length_nil, List.take_succ_cons, List.take_zero,
      List.map_cons, List.map_nil, beq_iff_eq, List.cons.injEq, and_true] at h
    exact ⟨a, b, t, rfl, h.1, h.2⟩
  | [], h => simp at h
  | [_], h => simp at h

/-- A text whose second character is not a letter passes none of the keyword
tests of `run_statement`. -/
theorem not_keyword {s : List Char} (h : isalpha (at_ s 1) = false) :
    isLetText s = false ∧ isDimText s = false ∧ isForText s = false ∧
    isPrintText s = false ∧ isGotoText s = false ∧ isIfText s = false ∧
    isEndText s = false ∧ isNextText s = false := by
  have key : ∀ (x y : Char) (kw : List Char), isalpha y = true →
      strncasecmp_eq s (x :: y :: kw) = false := by
    intro x y kw hy
    cases hk : strncasecmp_eq s (x :: y :: kw) with
    | false => rfl
    | true =>
      have := toupper_alpha (strncasecmp_eq_second hk) hy
      rw [h] at this
      cases this
  refine ⟨?_, ?_, ?_, ?_, ?_, ?_, ?_, ?_⟩
  · simp [isLetText, key 'L' 'E' ['T'] (by decide)]
  · simp [isDimText, key 'D' 'I' ['M'] (by decide)]
  · simp [isForText, key 'F' 'O' ['R'] (by decide)]
  · simp [isPrintText, key 'P' 'R' ['I', 'N', 'T'] (by decide)]
  · simp [isGotoText, key 'G' 'O' ['T', 'O'] (by decide)]
  · simp [isIfText, key 'I' 'F' [] (by decide)]
  · simp [isEndText, key 'E' 'N' ['D'] (by decide)]
  · simp [isNextText, key 'N' 'E' ['X', 'T'] (by decide)]

/-- A statement whose second character is not a letter is executed by the
bare-assignment branch. -/
theorem run_statement_assign {V : Type} (A : Arith V) (program : List Line) (pc : Nat)
    (text : List Char) (next : Nat) (st : State V)
    (h : isalpha (at_ (skip_spaces text) 1) = false) :
    run_statement A program pc text next st =
      stmt_assign A st next text (skip_spaces text) := by
  obtain ⟨h1, h2, h3, h4, h5, h6, h7, h8⟩ := not_keyword h
  unfold run_statement
  simp only [h1, h2, h3, h4, h5, h6, h7, h8, Bool.false_eq_true, if_false]

/-- A statement that passes the LET test is executed by the LET branch. -/
theorem run_statement_let {V : Type} (A : Arith V) (program : List Line) (pc : Nat)
    (text : List Char) (next : Nat) (st : State V)
    (h : isLetText (skip_spaces text) = true) :
    run_statement A program pc text next st =
      stmt_let A st next ((skip_spaces text).drop 3) := by
  unfold run_statement
  simp only [h, if_true]

/-- A statement that passes the DIM test is executed by the DIM branch. -/
theorem run_statement_dim {V : Type} (A : Arith V) (program : List Line) (pc : Nat)
    (text : List Char) (next : Nat) (st : State V)
    (h : isDimText (skip_spaces text) = true) :
    run_statement A program pc text next st =
      stmt_dim A st next ((skip_spaces text).drop 3) := by
  have h' := h
  simp only [isDimText, Bool.and_eq_true] at h'
  obtain ⟨a, b, c, t, hs, ha, hb, hc⟩ := strncasecmp_eq_three h'.1
  unfold run_statement
  simp only [h, if_true]
  rw [hs]
  simp [isLetText, strncasecmp_eq, ha, hb, hc]

/-- A statement that passes the GOTO test is executed by the GOTO branch. -/
theorem run_statement_goto {V : Type} (A : Arith V) (program : List Line) (pc : Nat)
    (text : List Char) (next : Nat) (st : State V)
    (h : isGotoText (skip_spaces text) = true) :
    run_statement A program pc text next st =
      stmt_goto program st next ((skip_spaces text).drop 4) := by
  have h' := h
  simp only [isGotoText, Bool.and_eq_true] at h'
  obtain ⟨a, b, c, d, t, hs, ha, hb, hc, hd⟩ := strncasecmp_eq_four h'.1
  unfold run_statement
  simp only [h, if_true]
  rw [hs]
  simp [isLetText, isDimText, isPrintText, isForText, strncasecmp_eq, ha, hb, hc, hd]

/-- A statement that passes the IF test is executed by the IF branch. -/
theorem run_statement_if {V : Type} (A : Arith V) (program : List Line) (pc : Nat)
    (text : List Char) (next : Nat) (st : State V)
    (h : isIfText (skip_spaces text) = true) :
    run_statement A program pc text next st =
      stmt_if A program st next ((skip_spaces text).drop 2) := by
  have h' := h
  simp only [isIfText, Bool.and_eq_true] at h'
  obtain ⟨a, b, t, hs, ha, hb⟩ := strncasecmp_eq_two h'.1
  unfold run_statement
  simp only [h, if_true]
  rw [hs]
  cases t with
  | nil => simp [isLetText, isDimText, isPrintText, isForText, isGotoText, strncasecmp_eq]
  | cons c t =>
    cases t with
    | nil => simp [isLetText, isDimText, isPrintText, isForText, isGotoText, strncasecmp_eq, ha, hb]
    | cons d t =>
      simp [isLetText, isDimText, isPrintText, isForText, isGotoText, strncasecmp_eq, ha, hb]

/-- The run loop stops with a failure at a statement that returns -1. -/
theorem run_loop_fail {V : Type} (A : Arith V) (program : List Line) (n pc : Nat)
    (st : State V) (line : Line) (hl : program[pc]? = some line)
    (hr : (run_statement A program pc line.text (pc + 1) st).rc = -1) :
    run_loop A program (n + 1) pc st =
      (Halt.failed, (run_statement A program pc line.text (pc + 1) st).st) := by
  unfold run_loop
  rw [hl]
  simp only [hr]
  rfl

/-- The run loop goes on behind a statement that returns 1 or 2. -/
theorem run_loop_next {V : Type} (A : Arith V) (program : List Line) (n pc : Nat)
    (st : State V) (line : Line) (hl : program[pc]? = some line)
    (h0 : (run_statement A program pc line.text (pc + 1) st).rc ≠ 0)
    (h1 : (run_statement A program pc line.text (pc + 1) st).rc ≠ -1) :
    run_loop A program (n + 1) pc st =
      run_loop A program n (run_statement A program pc line.text (pc + 1) st).next_index
        (run_statement A program pc line.text (pc + 1) st).st := by
  conv => lhs; unfold run_loop
  rw [hl]
  simp only [h0, h1, if_false]

/-! ## GOTO -/

/-- C `atoi` skips the white space itself. -/
theorem atoi_skip (s : List Char) : atoi (skip_spaces s) = atoi s := by
  unfold atoi
  rw [skip_spaces_idem]

/-- An integer in the range of `int` is its own conversion to `int`. -/
theorem to_int_small {z : Int} (h1 : -2147483648 ≤ z) (h2 : z ≤ 2147483647) :
    to_int z = z := by
  unfold to_int
  omega

/-- A value of type `int` lies between `INT_MIN` and `INT_MAX`. -/
theorem to_int_range (z : Int) : -2147483648 ≤ to_int z ∧ to_int z ≤ 2147483647 := by
  unfold to_int
  omega

/-- An integer in the range of `long` is not changed by `strtol`. -/
theorem clamp_long_small {z : Int} (h1 : -9223372036854775808 ≤ z)
    (h2 : z ≤ 9223372036854775807) : clamp_long z = z := by
  unfold clamp_long
  rw [if_neg (by omega), if_neg (by omega)]

/-- The result of C `atoi` is an `int`. -/
theorem atoi_range (s : List Char) : -2147483648 ≤ atoi s ∧ atoi s ≤ 2147483647 := by
  unfold atoi
  exact to_int_range _

/-- C `atoi` on white space, a non-empty run of digits and a rest that does not
start with a digit: the number written, converted to `int`. -/
theorem atoi_digits {ws ds rest : List Char} (hws : Blank ws) (hne : ds ≠ [])
    (hd : ∀ c ∈ ds, isdigit c = true) (hr : isdigit (peek rest) = false) :
    atoi (ws ++ (ds ++ rest)) = to_int (clamp_long (decVal ds : Int)) := by
  obtain ⟨c, t, rfl⟩ := List.exists_cons_of_ne_nil hne
  have hc : isdigit c = true := hd c (List.mem_cons_self _ _)
  obtain ⟨hsp, -, hplus, hminus, -⟩ := isdigit_facts (Or.inl hc)
  have hs : skip_spaces (ws ++ (c :: t ++ rest)) = c :: t ++ rest := by
    rw [List.cons_append]
    exact skip_spaces_tok hws hsp
  have htw := (takeWhile_digits hd hr).1
  unfold atoi
  rw [hs]
  have hp : peek (c :: t ++ rest) = c := rfl
  simp only [hp, hminus, hplus, or_self, if_false, decide_False, Bool.false_eq_true, htw]

/-- C `atoi` on the decimal text of a natural number: the number converted to
`int`. -/
theorem atoi_natText_int {ws rest : List Char} (n : Nat) (hws : Blank ws)
    (hr : isdigit (peek rest) = false) :
    atoi (ws ++ (natText n ++ rest)) = to_int (clamp_long (n : Int)) := by
  obtain ⟨h1, h2, h3⟩ := natText_spec n
  rw [atoi_digits hws h1 h2 hr, h3]

/-- C `atoi` on the decimal text of a natural number up to `INT_MAX`. -/
theorem atoi_natText {ws rest : List Char} (n : Nat) (hws : Blank ws)
    (hr : isdigit (peek rest) = false) (hn : n ≤ 2147483647) :
    atoi (ws ++ (natText n ++ rest)) = (n : Int) := by
  rw [atoi_natText_int n hws hr, clamp_long_small (by omega) (by omega),
    to_int_small (by omega) (by omega)]

/-- In an ascending store the lookup finds the index of the line with the number. -/
theorem find_index_ascending {program : List Line} (h : Ascending program) (ln : Int)
    (idx : Nat) :
    find_index_by_lineno program ln = some idx ↔
      ∃ l, program[idx]? = some l ∧ l.lineno = ln := by
  constructor
  · intro hf
    exact (find_index_by_lineno_some hf).1
  · rintro ⟨l, hl, hln⟩
    cases hf : find_index_by_lineno program ln with
    | none =>
      exact absurd hln ((find_index_by_lineno_none program ln).1 hf l (List.getElem?_mem hl))
    | some k =>
      obtain ⟨⟨l1, hl1, hln1⟩, hfirst⟩ := find_index_by_lineno_some hf
      rcases Nat.lt_trichotomy k idx with hlt | heq | hgt
      · exfalso
        have hk : k < program.length := by
          rcases List.getElem?_eq_some.1 hl1 with ⟨hk, -⟩
          exact hk
        have hi : idx < program.length := by
          rcases List.getElem?_eq_some.1 hl with ⟨hi, -⟩
          exact hi
        have hp := List.pairwise_iff_getElem.1 h k idx hk hi hlt
        have e1 : program[k] = l1 := by
          rcases List.getElem?_eq_some.1 hl1 with ⟨_, e⟩
          exact e
        have e2 : program[idx] = l := by
          rcases List.getElem?_eq_some.1 hl with ⟨_, e⟩
          exact e
        rw [e1, e2, hln, hln1] at hp
        exact lt_irrefl _ hp
      · rw [heq]
      · exact absurd hln (hfirst idx hgt l hl)

/-- C18 (amended to line numbers in the range of `int`): a statement that passes
the GOTO test reads its target with `atoi`; if a stored line has that number the
statement returns a jump to the index the lookup finds and changes nothing in
the state; if no stored line has the number it writes a message, returns -1, and
the run loop stops there.  The text `GOTO n` passes the test, and `atoi` reads
the `int` that `n` converts to, which is `n` itself up to `INT_MAX` = 2147483647.
So for `n` up to `INT_MAX` and an ascending store: if a line has the number `n`
the statement jumps to the index of that line, and if no line has the number `n`
it fails and the run stops.  The program `10 GOTO 999` fails without output. -/
theorem goto_statement :
    (∀ (V : Type) (A : Arith V) (program : List Line) (pc : Nat) (text : List Char)
      (next : Nat) (st : State V), isGotoText (skip_spaces text) = true →
      (∀ idx, find_index_by_lineno program (atoi ((skip_spaces text).drop 4)) = some idx →
        run_statement A program pc text next st = ⟨2, idx, st⟩) ∧
      (find_index_by_lineno program (atoi ((skip_spaces text).drop 4)) = none →
        run_statement A program pc text next st =
          ⟨-1, next, st.log [Diag.gotoNotFound (atoi ((skip_spaces text).drop 4))]⟩ ∧
        ∀ (line : Line) (fuel : Nat), program[pc]? = some line → line.text = text →
          run_loop A program (fuel + 1) pc st =
            (Halt.failed, st.log [Diag.gotoNotFound (atoi ((skip_spaces text).drop 4))]))) ∧
    (∀ (ws0 ws : List Char) (n : Nat) (rest : List Char), Blank ws0 → Blank ws → ws ≠ [] →
      isdigit (peek rest) = false →
      isGotoText (skip_spaces (ws0 ++ 'G' :: 'O' :: 'T' :: 'O' :: (ws ++ (natText n ++ rest)))) =
        true ∧
      atoi ((skip_spaces
        (ws0 ++ 'G' :: 'O' :: 'T' :: 'O' :: (ws ++ (natText n ++ rest)))).drop 4) =
          to_int (clamp_long (n : Int)) ∧
      (n ≤ 2147483647 →
        atoi ((skip_spaces
          (ws0 ++ 'G' :: 'O' :: 'T' :: 'O' :: (ws ++ (natText n ++ rest)))).drop 4) =
            (n : Int))) ∧
    (∀ (V : Type) (A : Arith V) (program : List Line) (pc next : Nat) (st : State V)
      (ws0 ws : List Char) (n : Nat) (rest : List Char), Blank ws0 → Blank ws → ws ≠ [] →
      isdigit (peek rest) = false → n ≤ 2147483647 → Ascending program →
      (∀ (idx : Nat) (l : Line), program[idx]? = some l → l.lineno = (n : Int) →
        run_statement A program pc
            (ws0 ++ 'G' :: 'O' :: 'T' :: 'O' :: (ws ++ (natText n ++ rest))) next st =
          ⟨2, idx, st⟩) ∧
      ((∀ l ∈ program, l.lineno ≠ (n : Int)) →
        run_statement A program pc
            (ws0 ++ 'G' :: 'O' :: 'T' :: 'O' :: (ws ++ (natText n ++ rest))) next st =
          ⟨-1, next, st.log [Diag.gotoNotFound (n : Int)]⟩ ∧
        ∀ (line : Line) (fuel : Nat), program[pc]? = some line →
          line.text = ws0 ++ 'G' :: 'O' :: 'T' :: 'O' :: (ws ++ (natText n ++ rest)) →
          run_loop A program (fuel + 1) pc st =
            (Halt.failed, st.log [Diag.gotoNotFound (n : Int)]))) ∧
    (∀ s : List Char, -2147483648 ≤ atoi s ∧ atoi s ≤ 2147483647) ∧
    (∀ (program : List Line) (ln : Int) (idx : Nat), Ascending program →
      (find_index_by_lineno program ln = some idx ↔
        ∃ l, program[idx]? = some l ∧ l.lineno = ln)) ∧
    (∀ (program : List Line) (ln : Int),
      find_index_by_lineno program ln = none ↔ ∀ l ∈ program, l.lineno ≠ ln) ∧
    (∀ fuel : Nat,
      (run_program exact (mkProgram [(10, "GOTO 999")]) (fuel + 1) stZero).1 = Halt.failed ∧
      (run_program exact (mkProgram [(10, "GOTO 999")]) (fuel + 1) stZero).2.out = [] ∧
      (run_program exact (mkProgram [(10, "GOTO 999")]) (fuel + 1) stZero).2.err =
        [Diag.gotoNotFound 999]) := by
  have hgen : ∀ (V : Type) (A : Arith V) (program : List Line) (pc : Nat) (text : List Char)
      (next : Nat) (st : State V), isGotoText (skip_spaces text) = true →
      (∀ idx, find_index_by_lineno program (atoi ((skip_spaces text).drop 4)) = some idx →
        run_statement A program pc text next st = ⟨2, idx, st⟩) ∧
      (find_index_by_lineno program (atoi ((skip_spaces text).drop 4)) = none →
        run_statement A program pc text next st =
          ⟨-1, next, st.log [Diag.gotoNotFound (atoi ((skip_spaces text).drop 4))]⟩ ∧
        ∀ (line : Line) (fuel : Nat), program[pc]? = some line → line.text = text →
          run_loop A program (fuel + 1) pc st =
            (Halt.failed, st.log [Diag.gotoNotFound (atoi ((skip_spaces text).drop 4))])) := by
    intro V A program pc text next st hg
    have hrun : ∀ nx, run_statement A program pc text nx st =
        stmt_goto program st nx ((skip_spaces text).drop 4) :=
      fun nx => run_statement_goto A program pc text nx st hg
    constructor
    · intro idx hf
      rw [hrun]
      unfold stmt_goto
      simp only [atoi_skip, hf]
    · intro hf
      have h1 : ∀ nx, run_statement A program pc text nx st =
          ⟨-1, nx, st.log [Diag.gotoNotFound (atoi ((skip_spaces text).drop 4))]⟩ := by
        intro nx
        rw [hrun]
        unfold stmt_goto
        simp only [atoi_skip, hf]
      refine ⟨h1 next, ?_⟩
      intro line fuel hl ht
      have h2 := h1 (pc + 1)
      rw [← ht] at h2
      rw [run_loop_fail A program fuel pc st line hl (by rw [h2]), h2, ht]
  have htext : ∀ (ws0 ws : List Char) (n : Nat) (rest : List Char), Blank ws0 → Blank ws →
      ws ≠ [] → isdigit (peek rest) = false →
      isGotoText (skip_spaces (ws0 ++ 'G' :: 'O' :: 'T' :: 'O' :: (ws ++ (natText n ++ rest)))) =
        true ∧
      atoi ((skip_spaces
        (ws0 ++ 'G' :: 'O' :: 'T' :: 'O' :: (ws ++ (natText n ++ rest)))).drop 4) =
          to_int (clamp_long (n : Int)) ∧
      (n ≤ 2147483647 →
        atoi ((skip_spaces
          (ws0 ++ 'G' :: 'O' :: 'T' :: 'O' :: (ws ++ (natText n ++ rest)))).drop 4) =
            (n : Int)) := by
    intro ws0 ws n rest h0 hws hne hr
    have hs : skip_spaces (ws0 ++ 'G' :: 'O' :: 'T' :: 'O' :: (ws ++ (natText n ++ rest))) =
        'G' :: 'O' :: 'T' :: 'O' :: (ws ++ (natText n ++ rest)) :=
      skip_spaces_tok h0 (by decide)
    rw [hs]
    refine ⟨?_, ?_, ?_⟩
    · obtain ⟨c, t, rfl⟩ := List.exists_cons_of_ne_nil hne
      have hc : isspace c = true := hws c (List.mem_cons_self _ _)
      simp [isGotoText, strncasecmp_eq, at_, peek, hc]
      decide
    · simp only [List.drop_succ_cons, List.drop_zero]
      exact atoi_natText_int n hws hr
    · intro hn
      simp only [List.drop_succ_cons, List.drop_zero]
      exact atoi_natText n hws hr hn
  refine ⟨hgen, htext, ?_, atoi_range, ?_, ?_, ?_⟩
  · intro V A program pc next st ws0 ws n rest h0 hws hne hr hn hasc
    obtain ⟨hg, -, hat⟩ := htext ws0 ws n rest h0 hws hne hr
    have hat := hat hn
    obtain ⟨hjump, hfail⟩ := hgen V A program pc
      (ws0 ++ 'G' :: 'O' :: 'T' :: 'O' :: (ws ++ (natText n ++ rest))) next st hg
    rw [hat] at hjump hfail
    constructor
    · intro idx l hl hln
      exact hjump idx ((find_index_ascending hasc _ idx).2 ⟨l, hl, hln⟩)
    · intro hno
      exact hfail ((find_index_by_lineno_none program _).2 hno)
  · intro program ln idx h
    exact find_index_ascending h ln idx
  · intro program ln
    exact find_index_by_lineno_none program ln
  · intro fuel
    have h1 : (run_program exact (mkProgram [(10, "GOTO 999")]) 1 stZero).1 ≠ Halt.running := by
      decide
    rw [run_program_mono exact _ 1 (fuel + 1) stZero (by omega) h1]
    decide

/-- Counterexample to C18 as stated: no line of the program `10 GOTO 4294967326`,
`20 PRINT 1`, `30 END` has the number 4294967326, yet the GOTO statement does not
fail: `atoi` returns the `int` 30 (4294967326 = 2 ^ 32 + 30), the statement jumps
to the index of line 30 and the run ends at END without a message. -/
theorem goto_statement_counterexample :
    (∀ l ∈ mkProgram [(10, "GOTO 4294967326"), (20, "PRINT 1"), (30, "END")],
      l.lineno ≠ 4294967326) ∧
    atoi "4294967326".toList = 30 ∧
    (run_statement exact (mkProgram [(10, "GOTO 4294967326"), (20, "PRINT 1"), (30, "END")])
      0 "GOTO 4294967326".toList 1 stZero).rc = 2 ∧
    (run_statement exact (mkProgram [(10, "GOTO 4294967326"), (20, "PRINT 1"), (30, "END")])
      0 "GOTO 4294967326".toList 1 stZero).next_index = 2 ∧
    (run_program exact (mkProgram [(10, "GOTO 4294967326"), (20, "PRINT 1"), (30, "END")])
      10 stZero).1 = Halt.ended ∧
    (run_program exact (mkProgram [(10, "GOTO 4294967326"), (20, "PRINT 1"), (30, "END")])
      10 stZero).2.out = [] ∧
    (run_program exact (mkProgram [(10, "GOTO 4294967326"), (20, "PRINT 1"), (30, "END")])
      10 stZero).2.err = [] := by
  decide

/-- Witness of C18: `GOTO 30` in a program of three lines jumps to index 2. -/
theorem goto_statement_witness :
    isGotoText (skip_spaces "GOTO 30".toList) = true ∧
    find_index_by_lineno (mkProgram [(10, "GOTO 30"), (20, "PRINT 1"), (30, "END")])
      (atoi ((skip_spaces "GOTO 30".toList).drop 4)) = some 2 ∧
    run_statement exact (mkProgram [(10, "GOTO 30"), (20, "PRINT 1"), (30, "END")]) 0
      "GOTO 30".toList 1 stZero = ⟨2, 2, stZero⟩ :=
  ⟨by decide, by decide,
    ((goto_statement.1 ℚ exact (mkProgram [(10, "GOTO 30"), (20, "PRINT 1"), (30, "END")]) 0
      "GOTO 30".toList 1 stZero (by decide)).1 2 (by decide))⟩

/-! ## IF -/

/-- Writing no message leaves the state as it is. -/
theorem State.log_nil {V : Type} (st : State V) : st.log [] = st := by
  cases st
  simp [State.log]

/-- Source `eval_condition` skips the white space itself. -/
theorem eval_condition_skip {V : Type} (A : Arith V) (st : State V) (s : List Char) :
    eval_condition A st (skip_spaces s) = eval_condition A st s := by
  unfold eval_condition
  rw [skip_spaces_idem]

/-- White space in front of a condition does not matter. -/
theorem eval_condition_blank {V : Type} (A : Arith V) (st : State V) {ws : List Char}
    (s : List Char) (h : Blank ws) :
    eval_condition A st (ws ++ s) = eval_condition A st s := by
  rw [← eval_condition_skip, skip_spaces_append h, eval_condition_skip]

/-- Source `eval_condition` on the text of a condition `e1 op e2`. -/
theorem eval_condition_rel {V : Type} (A : Arith V) (st : State V) (e1 : Expr)
    (ws : List Char) (op : RelOp) (e2 : Expr) (rest : List Char)
    (h1 : e1.WF) (hws : Blank ws) (h2 : e2.WF) (hr : FollowE rest) :
    eval_condition A st (condText e1 ws op e2 ++ rest) =
      (op.holds A (e1.eval A st) (e2.eval A st), skip_spaces rest, []) := by
  cases op with
  | le =>
    simpa [condText, RelOp.render, RelOp.holds] using
      eval_condition_le A st e1 e2 ws rest h1 h2 hws hr
  | ge =>
    simpa [condText, RelOp.render, RelOp.holds] using
      eval_condition_ge A st e1 e2 ws rest h1 h2 hws hr
  | ne =>
    simpa [condText, RelOp.render, RelOp.holds] using
      eval_condition_ne A st e1 e2 ws rest h1 h2 hws hr
  | lt =>
    simpa [condText, RelOp.render, RelOp.holds] using
      eval_condition_lt A st e1 e2 ws rest h1 h2 hws hr
  | gt =>
    simpa [condText, RelOp.render, RelOp.holds] using
      eval_condition_gt A st e1 e2 ws rest h1 h2 hws hr
  | eq =>
    simpa [condText, RelOp.render, RelOp.holds] using
      eval_condition_eq A st e1 e2 ws rest h1 h2 hws hr

/-- What may follow the condition of an IF statement: white space and THEN. -/
theorem followE_then {ws : List Char} (t : List Char) (h : Blank ws) :
    FollowE (ws ++ 'T' :: t) :=
  followE_tok t h (by decide) (by decide) (by decide)

/-- The IF branch when THEN follows the condition. -/
theorem stmt_if_then {V : Type} (A : Arith V) (program : List Line) (st : State V)
    (next : Nat) (s0 : List Char) (b : Bool) (r : List Char) (d : List Diag) (t : List Char)
    (hc : eval_condition A st s0 = (b, r, d))
    (ht : skip_spaces r = 'T' :: 'H' :: 'E' :: 'N' :: t) :
    stmt_if A program st next s0 =
      if b then
        match find_index_by_lineno program (atoi t) with
        | none => ⟨-1, next, (st.log d).log [Diag.thenNotFound (atoi t)]⟩
        | some idx => ⟨2, idx, st.log d⟩
      else ⟨1, next, st.log d⟩ := by
  unfold stmt_if
  simp only [eval_condition_skip, hc, ht, atoi_skip]
  have hk : strncasecmp_eq ('T' :: 'H' :: 'E' :: 'N' :: t) ['T', 'H', 'E', 'N'] = true := by
    simp only [strncasecmp_eq, List.length_cons, List.length_nil, List.take_succ_cons,
      List.take_zero, List.map_cons, List.map_nil]
    decide
  simp only [hk, if_true, List.drop_succ_cons, List.drop_zero]

/-- The IF branch when THEN does not follow the condition. -/
theorem stmt_if_no_then {V : Type} (A : Arith V) (program : List Line) (st : State V)
    (next : Nat) (s0 : List Char)
    (ht : strncasecmp_eq (skip_spaces (eval_condition A st s0).2.1) ['T', 'H', 'E', 'N'] =
      false) :
    stmt_if A program st next s0 = ⟨1, next, st.log (eval_condition A st s0).2.2⟩ := by
  unfold stmt_if
  simp only [eval_condition_skip, ht, Bool.false_eq_true, if_false]

/-- The text of an IF statement passes the IF test, and the IF branch gets the
text behind the keyword. -/
theorem isIfText_ifText (ws1 cond ws2 ws3 : List Char) (n : Nat) (rest : List Char)
    (h1 : Blank ws1) (hne : ws1 ≠ []) :
    skip_spaces (ifText ws1 cond ws2 ws3 n rest) = ifText ws1 cond ws2 ws3 n rest ∧
      isIfText (ifText ws1 cond ws2 ws3 n rest) = true := by
  obtain ⟨c, t, rfl⟩ := List.exists_cons_of_ne_nil hne
  have hc : isspace c = true := h1 c (List.mem_cons_self _ _)
  refine ⟨skip_spaces_of_not_space (by show isspace 'I' = false; decide), ?_⟩
  simp [ifText, isIfText, strncasecmp_eq, at_, peek, hc]
  decide

/-- An IF statement whose condition has the value `b` and is followed by THEN and
a line number. -/
theorem run_if_cond {V : Type} (A : Arith V) (program : List Line) (pc next : Nat)
    (st : State V) (ws1 cond ws2 ws3 : List Char) (n : Nat) (rest : List Char) (b : Bool)
    (h1 : Blank ws1) (hne : ws1 ≠ []) (h2 : Blank ws2) (h3 : Blank ws3)
    (hr : isdigit (peek rest) = false) (hn : n ≤ 2147483647)
    (hc : eval_condition A st (cond ++ (ws2 ++ 'T' :: 'H' :: 'E' :: 'N' :: (ws3 ++
      (natText n ++ rest)))) =
        (b, skip_spaces (ws2 ++ 'T' :: 'H' :: 'E' :: 'N' :: (ws3 ++ (natText n ++ rest))), [])) :
    run_statement A program pc (ifText ws1 cond ws2 ws3 n rest) next st =
      if b then
        match find_index_by_lineno program (n : Int) with
        | none => ⟨-1, next, st.log [Diag.thenNotFound (n : Int)]⟩
        | some idx => ⟨2, idx, st⟩
      else ⟨1, next, st⟩ := by
  obtain ⟨hs, hi⟩ := isIfText_ifText ws1 cond ws2 ws3 n rest h1 hne
  rw [run_statement_if A program pc _ next st (by rw [hs]; exact hi), hs]
  have hdrop : (ifText ws1 cond ws2 ws3 n rest).drop 2 =
      ws1 ++ (cond ++ (ws2 ++ 'T' :: 'H' :: 'E' :: 'N' :: (ws3 ++ (natText n ++ rest)))) := rfl
  have hsk : skip_spaces (ws2 ++ 'T' :: 'H' :: 'E' :: 'N' :: (ws3 ++ (natText n ++ rest))) =
      'T' :: 'H' :: 'E' :: 'N' :: (ws3 ++ (natText n ++ rest)) :=
    skip_spaces_tok h2 (by decide)
  have hc' : eval_condition A st ((ifText ws1 cond ws2 ws3 n rest).drop 2) =
      (b, 'T' :: 'H' :: 'E' :: 'N' :: (ws3 ++ (natText n ++ rest)), []) := by
    rw [hdrop, eval_condition_blank A st _ h1, hc, hsk]
  rw [stmt_if_then A program st next _ b _ [] (ws3 ++ (natText n ++ rest)) hc'
    (skip_spaces_of_not_space (by show isspace 'T' = false; decide))]
  rw [atoi_natText n h3 hr hn, State.log_nil]

/-- An IF statement whose condition is written with `==`: the second `=` is left
under the cursor, THEN is not found there, and the statement returns 1 without
a jump, whatever the values and whatever follows. -/
theorem run_if_eqeq {V : Type} (A : Arith V) (program : List Line) (pc next : Nat)
    (st : State V) (ws1 : List Char) (e1 : Expr) (ws t : List Char)
    (h1 : Blank ws1) (hne : ws1 ≠ []) (he1 : e1.WF) (hws : Blank ws) :
    run_statement A program pc ('I' :: 'F' :: (ws1 ++ (e1.render ++ (ws ++ '=' :: '=' :: t))))
      next st = ⟨1, next, st⟩ := by
  obtain ⟨c, u, rfl⟩ := List.exists_cons_of_ne_nil hne
  have hc : isspace c = true := h1 c (List.mem_cons_self _ _)
  have hs : skip_spaces ('I' :: 'F' :: (c :: u ++ (e1.render ++ (ws ++ '=' :: '=' :: t)))) =
      'I' :: 'F' :: (c :: u ++ (e1.render ++ (ws ++ '=' :: '=' :: t))) :=
    skip_spaces_of_not_space (by show isspace 'I' = false; decide)
  have hi : isIfText ('I' :: 'F' :: (c :: u ++ (e1.render ++ (ws ++ '=' :: '=' :: t)))) =
      true := by
    simp [isIfText, strncasecmp_eq, at_, peek, hc]
    decide
  rw [run_statement_if A program pc _ next st (by rw [hs]; exact hi), hs]
  have hdrop : ('I' :: 'F' :: (c :: u ++ (e1.render ++ (ws ++ '=' :: '=' :: t)))).drop 2 =
      c :: u ++ (e1.render ++ (ws ++ '=' :: '=' :: t)) := rfl
  have hcond : eval_condition A st (c :: u ++ (e1.render ++ (ws ++ '=' :: '=' :: t))) =
      (A.eq (e1.eval A st) (A.ofRat 0), '=' :: t, []) := by
    rw [eval_condition_blank A st _ h1, eval_condition_eqeq A st e1 ws t he1 hws]
  have hk : strncasecmp_eq (skip_spaces ('=' :: t)) ['T', 'H', 'E', 'N'] = false := by
    rw [skip_spaces_of_not_space (by show isspace '=' = false; decide)]
    simp only [strncasecmp_eq, List.length_cons, List.length_nil, List.take_succ_cons,
      List.map_cons]
    rw [beq_eq_false_iff_ne]
    intro h
    injection h with h1 _
    exact absurd h1 (by decide)
  rw [hdrop, stmt_if_no_then A program st next _ (by rw [hcond]; exact hk), hcond,
    State.log_nil]

/-- A literal behind one space is a well-formed expression. -/
theorem exprLitSp_wf (ds : List Char) (h : ds ≠ []) (hd : ∀ c ∈ ds, isdigit c = true) :
    (exprLitSp ds).WF := by
  simp [exprLitSp, Expr.WF, Term.WF, TermRest.WF, ExprRest.WF, Factor.WF, NumLit.WF, Blank]
  exact ⟨by decide, hd, h⟩

/-- C19 (the code departs from it for `==`): for a statement `IF e1 op e2 THEN n`
with `op` one of `<=`, `>=`, `<>`,
`<`, `>`, `=` (and for `IF e1 THEN n`, whose condition is `e1 != 0`) and a line
number `n` up to `INT_MAX` = 2147483647: when the condition is true the statement
returns a jump to the index of line `n` and changes nothing, and it returns -1
(with a message, and the run loop stops) exactly when no line has the number
`n`; when the condition is false it returns 1 with the next index and the state
unchanged, whether or not a line `n` exists.  A condition written with `==` is
not read to its end: the statement returns 1 and never jumps, whatever the
operands.  For every statement that passes the IF test and in which THEN does
not follow the condition, the statement returns 1 with the next index unchanged
and only the messages of the condition are written. -/
theorem if_statement :
    (∀ (V : Type) (A : Arith V) (program : List Line) (pc next : Nat) (st : State V)
      (ws1 : List Char) (e1 : Expr) (ws : List Char) (op : RelOp) (e2 : Expr)
      (ws2 ws3 : List Char) (n : Nat) (rest : List Char),
      Blank ws1 → ws1 ≠ [] → e1.WF → Blank ws → e2.WF → Blank ws2 → Blank ws3 →
      isdigit (peek rest) = false → n ≤ 2147483647 →
      (op.holds A (e1.eval A st) (e2.eval A st) = true →
        (∀ idx, find_index_by_lineno program (n : Int) = some idx →
          run_statement A program pc (ifText ws1 (condText e1 ws op e2) ws2 ws3 n rest) next st =
            ⟨2, idx, st⟩) ∧
        (find_index_by_lineno program (n : Int) = none →
          run_statement A program pc (ifText ws1 (condText e1 ws op e2) ws2 ws3 n rest) next st =
            ⟨-1, next, st.log [Diag.thenNotFound (n : Int)]⟩) ∧
        ((run_statement A program pc (ifText ws1 (condText e1 ws op e2) ws2 ws3 n rest)
            next st).rc = -1 ↔ find_index_by_lineno program (n : Int) = none)) ∧
      (op.holds A (e1.eval A st) (e2.eval A st) = false →
        run_statement A program pc (ifText ws1 (condText e1 ws op e2) ws2 ws3 n rest) next st =
          ⟨1, next, st⟩)) ∧
    (∀ (V : Type) (A : Arith V) (program : List Line) (pc next : Nat) (st : State V)
      (ws1 : List Char) (e1 : Expr) (ws2 ws3 : List Char) (n : Nat) (rest : List Char),
      Blank ws1 → ws1 ≠ [] → e1.WF → Blank ws2 → Blank ws3 → isdigit (peek rest) = false →
      n ≤ 2147483647 →
      (A.ne (e1.eval A st) (A.ofRat 0) = true →
        (∀ idx, find_index_by_lineno program (n : Int) = some idx →
          run_statement A program pc (ifText ws1 e1.render ws2 ws3 n rest) next st =
            ⟨2, idx, st⟩) ∧
        (find_index_by_lineno program (n : Int) = none →
          run_statement A program pc (ifText ws1 e1.render ws2 ws3 n rest) next st =
            ⟨-1, next, st.log [Diag.thenNotFound (n : Int)]⟩) ∧
        ((run_statement A program pc (ifText ws1 e1.render ws2 ws3 n rest) next st).rc = -1 ↔
          find_index_by_lineno program (n : Int) = none)) ∧
      (A.ne (e1.eval A st) (A.ofRat 0) = false →
        run_statement A program pc (ifText ws1 e1.render ws2 ws3 n rest) next st =
          ⟨1, next, st⟩)) ∧
    (∀ (V : Type) (A : Arith V) (program : List Line) (pc next : Nat) (st : State V)
      (ws1 : List Char) (e1 : Expr) (ws t : List Char),
      Blank ws1 → ws1 ≠ [] → e1.WF → Blank ws →
      run_statement A program pc
          ('I' :: 'F' :: (ws1 ++ (e1.render ++ (ws ++ '=' :: '=' :: t)))) next st =
        ⟨1, next, st⟩) ∧
    (∀ (V : Type) (A : Arith V) (program : List Line) (pc : Nat) (text : List Char)
      (next : Nat) (st : State V), isIfText (skip_spaces text) = true →
      strncasecmp_eq (skip_spaces (eval_condition A st ((skip_spaces text).drop 2)).2.1)
        ['T', 'H', 'E', 'N'] = false →
      run_statement A program pc text next st =
        ⟨1, next, st.log (eval_condition A st ((skip_spaces text).drop 2)).2.2⟩) ∧
    (∀ (V : Type) (A : Arith V) (program : List Line) (pc : Nat) (line : Line) (fuel : Nat)
      (st : State V), program[pc]? = some line →
      (run_statement A program pc line.text (pc + 1) st).rc = -1 →
      (run_loop A program (fuel + 1) pc st).1 = Halt.failed) ∧
    ((run_program exact
        (mkProgram [(10, "IF 2 < 1 THEN 999"), (20, "PRINT 5"), (30, "END")]) 10 stZero).1 =
        Halt.ended ∧
      (run_program exact
        (mkProgram [(10, "IF 2 < 1 THEN 999"), (20, "PRINT 5"), (30, "END")]) 10 stZero).2.out =
        [Out.num 5] ∧
      (run_program exact
        (mkProgram [(10, "IF 2 < 1 THEN 999"), (20, "PRINT 5"), (30, "END")]) 10 stZero).2.err =
        []) ∧
    ((run_program exact
        (mkProgram [(10, "IF 1 < 2 THEN 999"), (20, "PRINT 5"), (30, "END")]) 10 stZero).1 =
        Halt.failed ∧
      (run_program exact
        (mkProgram [(10, "IF 1 < 2 THEN 999"), (20, "PRINT 5"), (30, "END")]) 10 stZero).2.out =
        [] ∧
      (run_program exact
        (mkProgram [(10, "IF 1 < 2 THEN 999"), (20, "PRINT 5"), (30, "END")]) 10 stZero).2.err =
        [Diag.thenNotFound 999]) ∧
    ((run_program exact
        (mkProgram [(10, "IF 1 < 2 GOTO 30"), (20, "PRINT 5"), (30, "END")]) 10 stZero).1 =
        Halt.ended ∧
      (run_program exact
        (mkProgram [(10, "IF 1 < 2 GOTO 30"), (20, "PRINT 5"), (30, "END")]) 10 stZero).2.out =
        [Out.num 5] ∧
      (run_program exact
        (mkProgram [(10, "IF 1 < 2 GOTO 30"), (20, "PRINT 5"), (30, "END")]) 10 stZero).2.err =
        []) := by
  refine ⟨?_, ?_, ?_, ?_, ?_, ?_, ?_, ?_⟩
  · intro V A program pc next st ws1 e1 ws op e2 ws2 ws3 n rest h1 hne he1 hws he2 h2 h3 hr hn
    have hc := eval_condition_rel A st e1 ws op e2
      (ws2 ++ 'T' :: 'H' :: 'E' :: 'N' :: (ws3 ++ (natText n ++ rest))) he1 hws he2
      (followE_then _ h2)
    have hrun := fun nx => run_if_cond A program pc nx st ws1 (condText e1 ws op e2) ws2 ws3 n
      rest _ h1 hne h2 h3 hr hn hc
    constructor
    · intro hb
      refine ⟨?_, ?_, ?_⟩
      · intro idx hf
        rw [hrun, hb, if_pos rfl, hf]
      · intro hf
        rw [hrun, hb, if_pos rfl, hf]
      · rw [hrun, hb, if_pos rfl]
        cases hf : find_index_by_lineno program (n : Int) with
        | none => simp
        | some idx => simp
    · intro hb
      rw [hrun, hb]
      rfl
  · intro V A program pc next st ws1 e1 ws2 ws3 n rest h1 hne he1 h2 h3 hr hn
    have hsk : skip_spaces (ws2 ++ 'T' :: 'H' :: 'E' :: 'N' :: (ws3 ++ (natText n ++ rest))) =
        'T' :: 'H' :: 'E' :: 'N' :: (ws3 ++ (natText n ++ rest)) :=
      skip_spaces_tok h2 (by decide)
    have hc := eval_condition_bare A st e1
      (ws2 ++ 'T' :: 'H' :: 'E' :: 'N' :: (ws3 ++ (natText n ++ rest))) he1
      (followE_then _ h2) (by rw [hsk]; simp [peek]) (by rw [hsk]; simp [peek])
      (by rw [hsk]; simp [peek])
    have hrun := fun nx => run_if_cond A program pc nx st ws1 e1.render ws2 ws3 n
      rest _ h1 hne h2 h3 hr hn hc
    constructor
    · intro hb
      refine ⟨?_, ?_, ?_⟩
      · intro idx hf
        rw [hrun, hb, if_pos rfl, hf]
      · intro hf
        rw [hrun, hb, if_pos rfl, hf]
      · rw [hrun, hb, if_pos rfl]
        cases hf : find_index_by_lineno program (n : Int) with
        | none => simp
        | some idx => simp
    · intro hb
      rw [hrun, hb]
      rfl
  · intro V A program pc next st ws1 e1 ws t h1 hne he1 hws
    exact run_if_eqeq A program pc next st ws1 e1 ws t h1 hne he1 hws
  · intro V A program pc text next st hi ht
    rw [run_statement_if A program pc text next st hi]
    exact stmt_if_no_then A program st next _ ht
  · intro V A program pc line fuel st hl hr
    rw [run_loop_fail A program fuel pc st line hl hr]
  · decide!
  · decide!
  · decide!

/-- Failing input of C19: in `10 IF 0 == 0 THEN 30`, `20 PRINT 5`, `30 END` the
condition is true (`eval_condition` returns true, and 0 equals 0), line 30
exists, and yet the statement does not jump: it returns 1 and the run prints 5.
With one `=` the same program jumps to END and prints nothing.  A target beyond
`INT_MAX` is reduced by `atoi`: `IF 1 < 2 THEN 4294967326` jumps to line 30. -/
theorem if_statement_counterexample :
    (eval_condition exact stZero "0 == 0 THEN 30".toList).1 = true ∧
    (eval_condition exact stZero "0 == 0 THEN 30".toList).2.1 = "= 0 THEN 30".toList ∧
    find_index_by_lineno (mkProgram [(10, "IF 0 == 0 THEN 30"), (20, "PRINT 5"), (30, "END")])
      30 = some 2 ∧
    (run_statement exact (mkProgram [(10, "IF 0 == 0 THEN 30"), (20, "PRINT 5"), (30, "END")])
      0 "IF 0 == 0 THEN 30".toList 1 stZero).rc = 1 ∧
    (run_statement exact (mkProgram [(10, "IF 0 == 0 THEN 30"), (20, "PRINT 5"), (30, "END")])
      0 "IF 0 == 0 THEN 30".toList 1 stZero).next_index = 1 ∧
    (run_program exact (mkProgram [(10, "IF 0 == 0 THEN 30"), (20, "PRINT 5"), (30, "END")])
      10 stZero).1 = Halt.ended ∧
    (run_program exact (mkProgram [(10, "IF 0 == 0 THEN 30"), (20, "PRINT 5"), (30, "END")])
      10 stZero).2.out = [Out.num 5] ∧
    (run_program exact (mkProgram [(10, "IF 0 = 0 THEN 30"), (20, "PRINT 5"), (30, "END")])
      10 stZero).2.out = [] ∧
    (∀ l ∈ mkProgram [(10, "IF 1 < 2 THEN 4294967326"), (20, "PRINT 5"), (30, "END")],
      l.lineno ≠ 4294967326) ∧
    (run_program exact
      (mkProgram [(10, "IF 1 < 2 THEN 4294967326"), (20, "PRINT 5"), (30, "END")])
      10 stZero).1 = Halt.ended ∧
    (run_program exact
      (mkProgram [(10, "IF 1 < 2 THEN 4294967326"), (20, "PRINT 5"), (30, "END")])
      10 stZero).2.out = [] ∧
    (run_program exact
      (mkProgram [(10, "IF 1 < 2 THEN 4294967326"), (20, "PRINT 5"), (30, "END")])
      10 stZero).2.err = [] := by
  decide!

/-- Witness of C19: `IF 1 < 2 THEN 30` in a program of three lines. -/
theorem if_statement_witness :
    Blank [' '] ∧ [' '] ≠ [] ∧ (exprLit ['1']).WF ∧ (exprLitSp ['2']).WF ∧
    isdigit (peek []) = false ∧
    ifText [' '] (condText (exprLit ['1']) [' '] .lt (exprLitSp ['2'])) [' '] [' '] 30 [] =
      "IF 1 < 2 THEN 30".toList ∧
    RelOp.holds exact .lt ((exprLit ['1']).eval exact stZero)
      ((exprLitSp ['2']).eval exact stZero) = true ∧
    find_index_by_lineno (mkProgram [(10, "IF 1 < 2 THEN 30"), (20, "PRINT 5"), (30, "END")])
      ((30 : Nat) : Int) = some 2 ∧
    run_statement exact (mkProgram [(10, "IF 1 < 2 THEN 30"), (20, "PRINT 5"), (30, "END")]) 0
      (ifText [' '] (condText (exprLit ['1']) [' '] .lt (exprLitSp ['2'])) [' '] [' '] 30 [])
      1 stZero = ⟨2, 2, stZero⟩ :=
  ⟨by decide, by decide, exprLit_wf _ (by decide) (by decide),
    exprLitSp_wf _ (by decide) (by decide), by decide, by decide, by decide!, by decide,
    ((if_statement.1 ℚ exact
      (mkProgram [(10, "IF 1 < 2 THEN 30"), (20, "PRINT 5"), (30, "END")]) 0 1 stZero
      [' '] (exprLit ['1']) [' '] .lt (exprLitSp ['2']) [' '] [' '] 30 [] (by decide)
      (by decide) (exprLit_wf _ (by decide) (by decide)) (by decide)
      (exprLitSp_wf _ (by decide) (by decide)) (by decide) (by decide)
      (by decide) (by decide)).1 (by decide!)).1 2 (by decide)⟩

/-! ## Array assignment -/

/-- Source `parse_var_name` on a letter followed by white space and `(`. -/
theorem parse_var_name_paren {letter : Char} {ws1 : List Char} (t : List Char)
    (hl : isalpha letter = true) (hws1 : Blank ws1) :
    parse_var_name (letter :: (ws1 ++ '(' :: t)) =
      some (slot letter none, ws1 ++ '(' :: t) := by
  have hd : ∀ d ∈ (none : Option Char), isdigit d = true := by intro d hd; cases hd
  have := parse_var_name_render (ws1 ++ '(' :: t) hl hd (by
    cases ws1 with
    | nil => simp only [List.nil_append, peek, List.headD_cons]; decide
    | cons a u =>
      have ha : isspace a = true := hws1 a (List.mem_cons_self _ _)
      simp only [List.cons_append, peek, List.headD_cons]
      simp only [isspace, isdigit, Bool.or_eq_true, Bool.and_eq_true, beq_iff_eq,
        decide_eq_true_eq, Bool.and_eq_false_iff, decide_eq_false_iff_not] at ha ⊢
      omega)
  simpa using this

/-- The character behind a letter that is followed by white space and `(` is not
a letter. -/
theorem not_alpha_paren {ws1 : List Char} (t : List Char) (hws1 : Blank ws1) :
    isalpha (peek (ws1 ++ '(' :: t)) = false := by
  cases ws1 with
  | nil => simp only [List.nil_append, peek, List.headD_cons]; decide
  | cons a u =>
    have ha : isspace a = true := hws1 a (List.mem_cons_self _ _)
    simp only [List.cons_append, peek, List.headD_cons]
    simp only [isspace, isalpha, Bool.or_eq_true, Bool.and_eq_true, beq_iff_eq,
      decide_eq_true_eq, Bool.or_eq_false_iff, Bool.and_eq_false_iff,
      decide_eq_false_iff_not] at ha ⊢
    omega

/-- The index and value expressions of an array assignment, as the two branches
read them. -/
theorem array_assign_exprs {V : Type} (A : Arith V) (st : State V) (e1 : Expr)
    (ws2 ws3 : List Char) (e2 : Expr) (rest : List Char) (he1 : e1.WF) (h2 : Blank ws2)
    (_h3 : Blank ws3) (he2 : e2.WF) (hr : FollowE rest) :
    parse_expr A st (e1.render ++ (ws2 ++ ')' :: (ws3 ++ '=' :: (e2.render ++ rest)))) =
        (e1.eval A st, ')' :: (ws3 ++ '=' :: (e2.render ++ rest)), []) ∧
      parse_expr A st (e2.render ++ rest) = (e2.eval A st, skip_spaces rest, []) := by
  refine ⟨?_, parse_expr_render A st e2 rest he2 hr⟩
  rw [parse_expr_render A st e1 _ he1 (followE_close _ h2), skip_spaces_tok h2 (by decide)]

/-- The LET branch on the text of an array assignment. -/
theorem stmt_let_array {V : Type} (A : Arith V) (st : State V) (next : Nat)
    (ws0 : List Char) (letter : Char) (ws1 : List Char) (e1 : Expr) (ws2 ws3 : List Char)
    (e2 : Expr) (rest : List Char) (h0 : Blank ws0) (hl : isalpha letter = true)
    (h1 : Blank ws1) (he1 : e1.WF) (h2 : Blank ws2) (h3 : Blank ws3) (he2 : e2.WF)
    (hr : FollowE rest) :
    stmt_let A st next (ws0 ++ arrayAssignText letter ws1 e1 ws2 ws3 e2 rest) =
      array_store st next (slot letter none) (A.toInt (e1.eval A st)) (e2.eval A st) := by
  obtain ⟨hsp, -⟩ := isalpha_facts hl
  obtain ⟨hp1, hp2⟩ := array_assign_exprs A st e1 ws2 ws3 e2 rest he1 h2 h3 he2 hr
  have hlt : ¬ 26 ≤ slot letter none := by
    have := slot_letter_lt hl
    omega
  have hs : skip_spaces (ws0 ++ arrayAssignText letter ws1 e1 ws2 ws3 e2 rest) =
      arrayAssignText letter ws1 e1 ws2 ws3 e2 rest := skip_spaces_tok h0 hsp
  unfold stmt_let
  rw [hs]
  unfold arrayAssignText
  simp only [peek, List.headD_cons, hl, if_true, parse_var_name_paren _ hl h1,
    skip_spaces_tok h1 (by decide : isspace '(' = false), hlt, if_false,
    List.drop_succ_cons, List.drop_zero, hp1]
  have e1' : skip_spaces (')' :: (ws3 ++ '=' :: (e2.render ++ rest))) =
      ')' :: (ws3 ++ '=' :: (e2.render ++ rest)) :=
    skip_spaces_of_not_space (by show isspace ')' = false; decide)
  have e2' : eat ')' (')' :: (ws3 ++ '=' :: (e2.render ++ rest))) =
      ws3 ++ '=' :: (e2.render ++ rest) := by
    simp [eat, peek]
  have e3' : eat '=' ('=' :: (e2.render ++ rest)) = e2.render ++ rest := by
    simp [eat, peek]
  rw [e1', e2', skip_spaces_tok h3 (by decide : isspace '=' = false), e3', hp2]
  simp only [List.append_nil, State.log_nil]

/-- The bare-assignment branch on the text of an array assignment. -/
theorem stmt_assign_array {V : Type} (A : Arith V) (st : State V) (next : Nat)
    (text : List Char) (letter : Char) (ws1 : List Char) (e1 : Expr) (ws2 ws3 : List Char)
    (e2 : Expr) (rest : List Char) (hl : isalpha letter = true)
    (h1 : Blank ws1) (he1 : e1.WF) (h2 : Blank ws2) (h3 : Blank ws3) (he2 : e2.WF)
    (hr : FollowE rest) :
    stmt_assign A st next text (arrayAssignText letter ws1 e1 ws2 ws3 e2 rest) =
      array_store st next (slot letter none) (A.toInt (e1.eval A st)) (e2.eval A st) := by
  obtain ⟨hp1, hp2⟩ := array_assign_exprs A st e1 ws2 ws3 e2 rest he1 h2 h3 he2 hr
  have hlt : ¬ 26 ≤ slot letter none := by
    have := slot_letter_lt hl
    omega
  unfold stmt_assign
  unfold arrayAssignText
  simp only [peek, List.headD_cons, hl, if_true, parse_var_name_paren _ hl h1,
    skip_spaces_tok h1 (by decide : isspace '(' = false), hlt, if_false,
    List.drop_succ_cons, List.drop_zero, hp1]
  have e2' : eat ')' (')' :: (ws3 ++ '=' :: (e2.render ++ rest))) =
      ws3 ++ '=' :: (e2.render ++ rest) := by
    simp [eat, peek]
  rw [e2', skip_spaces_tok h3 (by decide : isspace '=' = false)]
  simp only [List.headD_cons, if_true, List.drop_succ_cons, List.drop_zero, hp2,
    List.append_nil, State.log_nil]

/-- The text of a LET statement passes the LET test, and the LET branch gets the
text behind the keyword. -/
theorem isLetText_letText (ws ws0 body : List Char) (h : Blank ws) (h0 : Blank ws0)
    (hne : ws0 ≠ []) :
    skip_spaces (ws ++ letText ws0 body) = letText ws0 body ∧
      isLetText (letText ws0 body) = true ∧ (letText ws0 body).drop 3 = ws0 ++ body := by
  obtain ⟨c, t, rfl⟩ := List.exists_cons_of_ne_nil hne
  have hc : isspace c = true := h0 c (List.mem_cons_self _ _)
  refine ⟨skip_spaces_tok h (by decide), ?_, rfl⟩
  simp [letText, isLetText, strncasecmp_eq, at_, peek, hc]
  decide

/-- A statement `LET L(e1) = e2` does the array assignment. -/
theorem run_let_array {V : Type} (A : Arith V) (program : List Line) (pc next : Nat)
    (st : State V) (ws ws0 : List Char) (letter : Char) (ws1 : List Char) (e1 : Expr)
    (ws2 ws3 : List Char) (e2 : Expr) (rest : List Char) (h : Blank ws) (h0 : Blank ws0)
    (hne : ws0 ≠ []) (hl : isalpha letter = true)
    (h1 : Blank ws1) (he1 : e1.WF) (h2 : Blank ws2) (h3 : Blank ws3) (he2 : e2.WF)
    (hr : FollowE rest) :
    run_statement A program pc
        (ws ++ letText ws0 (arrayAssignText letter ws1 e1 ws2 ws3 e2 rest)) next st =
      array_store st next (slot letter none) (A.toInt (e1.eval A st)) (e2.eval A st) := by
  obtain ⟨hs, hi, hd⟩ := isLetText_letText ws ws0
    (arrayAssignText letter ws1 e1 ws2 ws3 e2 rest) h h0 hne
  rw [run_statement_let A program pc _ next st (by rw [hs]; exact hi), hs, hd]
  exact stmt_let_array A st next ws0 letter ws1 e1 ws2 ws3 e2 rest h0 hl h1 he1 h2 h3 he2 hr

/-- A statement `L(e1) = e2` without keyword does the array assignment. -/
theorem run_bare_array {V : Type} (A : Arith V) (program : List Line) (pc next : Nat)
    (st : State V) (ws : List Char) (letter : Char) (ws1 : List Char) (e1 : Expr)
    (ws2 ws3 : List Char) (e2 : Expr) (rest : List Char) (h : Blank ws)
    (hl : isalpha letter = true)
    (h1 : Blank ws1) (he1 : e1.WF) (h2 : Blank ws2) (h3 : Blank ws3) (he2 : e2.WF)
    (hr : FollowE rest) :
    run_statement A program pc (ws ++ arrayAssignText letter ws1 e1 ws2 ws3 e2 rest) next st =
      array_store st next (slot letter none) (A.toInt (e1.eval A st)) (e2.eval A st) := by
  obtain ⟨hsp, -⟩ := isalpha_facts hl
  have hs : skip_spaces (ws ++ arrayAssignText letter ws1 e1 ws2 ws3 e2 rest) =
      arrayAssignText letter ws1 e1 ws2 ws3 e2 rest := skip_spaces_tok h hsp
  have ha : isalpha (at_ (skip_spaces
      (ws ++ arrayAssignText letter ws1 e1 ws2 ws3 e2 rest)) 1) = false := by
    rw [hs]
    exact not_alpha_paren _ h1
  rw [run_statement_assign A program pc _ next st ha, hs]
  exact stmt_assign_array A st next _ letter ws1 e1 ws2 ws3 e2 rest hl h1 he1 h2 h3 he2 hr

/-- When the array assignment fails. -/
theorem array_store_fail {V : Type} (st : State V) (next id : Nat) (idx : Int) (val : V) :
    (array_store st next id idx val).rc = -1 ↔
      (st.arrays id = none ∨
        ∃ arr, st.arrays id = some arr ∧ (idx < 0 ∨ (arr.length : Int) ≤ idx)) := by
  unfold array_store
  cases h : st.arrays id with
  | none => simp
  | some arr =>
    simp only []
    by_cases hc : idx < 0 ∨ (arr.length : Int) ≤ idx
    · rw [if_pos hc]
      simp [hc]
    · rw [if_neg hc]
      simp [hc]

/-- A failed array assignment changes nothing but `stderr`. -/
theorem array_store_fail_state {V : Type} (st : State V) (next id : Nat) (idx : Int) (val : V)
    (h : (array_store st next id idx val).rc = -1) :
    (array_store st next id idx val).st.vars = st.vars ∧
    (array_store st next id idx val).st.arrays = st.arrays ∧
    (array_store st next id idx val).st.for_stack = st.for_stack ∧
    (array_store st next id idx val).st.out = st.out := by
  unfold array_store at h ⊢
  cases ha : st.arrays id with
  | none => exact ⟨rfl, rfl, rfl, rfl⟩
  | some arr =>
    rw [ha] at h
    simp only [] at h ⊢
    by_cases hc : idx < 0 ∨ (arr.length : Int) ≤ idx
    · rw [if_pos hc]
      exact ⟨rfl, rfl, rfl, rfl⟩
    · rw [if_neg hc] at h
      simp at h

/-- A successful array assignment. -/
theorem array_store_ok {V : Type} (st : State V) (next id : Nat) (idx : Int) (val : V)
    (arr : List V) (ha : st.arrays id = some arr) (h0 : 0 ≤ idx)
    (h1 : idx < (arr.length : Int)) :
    array_store st next id idx val = ⟨1, next, st.setArray id (arr.set idx.toNat val)⟩ := by
  unfold array_store
  rw [ha]
  simp only []
  rw [if_neg (by omega)]

/-! ## DIM, and names with a digit in front of a subscript -/

/-- Source `parse_var_name` on a letter and a digit. -/
theorem parse_var_name_digit {letter digit : Char} (t : List Char)
    (hl : isalpha letter = true) (hd : isdigit digit = true) :
    parse_var_name (letter :: digit :: t) = some (slot letter (some digit), t) ∧
      26 ≤ slot letter (some digit) := by
  refine ⟨by simp [parse_var_name, peek, hl, hd, slot], ?_⟩
  simp only [slot]
  omega

/-- The LET branch on a name with a digit followed by `(`. -/
theorem stmt_let_digit {V : Type} (A : Arith V) (st : State V) (next : Nat)
    (ws0 : List Char) (letter digit : Char) (ws1 t : List Char) (h0 : Blank ws0)
    (hl : isalpha letter = true) (hd : isdigit digit = true) (h1 : Blank ws1) :
    stmt_let A st next (ws0 ++ letter :: digit :: (ws1 ++ '(' :: t)) =
      ⟨-1, next, st.log [Diag.arraysOnlyAZ]⟩ := by
  obtain ⟨hsp, -⟩ := isalpha_facts hl
  obtain ⟨hv, h26⟩ := parse_var_name_digit (ws1 ++ '(' :: t) hl hd
  unfold stmt_let
  rw [skip_spaces_tok h0 hsp]
  simp only [peek, List.headD_cons, hl, if_true, hv,
    skip_spaces_tok h1 (by decide : isspace '(' = false), h26]

/-- The bare-assignment branch on a name with a digit followed by `(`. -/
theorem stmt_assign_digit {V : Type} (A : Arith V) (st : State V) (next : Nat)
    (text : List Char) (letter digit : Char) (ws1 t : List Char)
    (hl : isalpha letter = true) (hd : isdigit digit = true) (h1 : Blank ws1) :
    stmt_assign A st next text (letter :: digit :: (ws1 ++ '(' :: t)) =
      ⟨-1, next, st.log [Diag.arraysOnlyAZ]⟩ := by
  obtain ⟨hv, h26⟩ := parse_var_name_digit (ws1 ++ '(' :: t) hl hd
  unfold stmt_assign
  simp only [peek, List.headD_cons, hl, if_true, hv,
    skip_spaces_tok h1 (by decide : isspace '(' = false), h26]

/-- One pass of the DIM loop over a name with a digit: `Syntax error in DIM`. -/
theorem dim_loopF_digit {V : Type} (A : Arith V) (next n : Nat) (st : State V)
    (letter digit : Char) (t : List Char)
    (hl : isalpha letter = true) (hd : isdigit digit = true) :
    dim_loopF A next (n + 1) (letter :: digit :: t) st =
      some ⟨-1, next, st.log [Diag.syntaxDim]⟩ := by
  obtain ⟨hsp, -, -, -, hp⟩ := isdigit_facts (Or.inl hd)
  have hs : skip_spaces (digit :: t) = digit :: t :=
    skip_spaces_of_not_space (by show isspace digit = false; exact hsp)
  rw [dim_loopF]
  simp only [peek, List.headD_cons, hl, Bool.not_true, Bool.false_eq_true, if_false,
    List.drop_succ_cons, List.drop_zero, hs, ne_eq, hp, not_false_eq_true, if_true]

/-- One pass of the DIM loop over a well-formed entry followed by `x`: the array
of the letter is replaced, and the loop goes on behind a comma. -/
theorem dim_loopF_entry {V : Type} (A : Arith V) (next n : Nat) (st : State V)
    (d : DimEntry) (x : List Char) (hd : d.WF) :
    dim_loopF A next (n + 1) (d.render ++ x) st =
      if peek (skip_spaces x) = ',' then
        dim_loopF A next n (skip_spaces ((skip_spaces x).drop 1))
          (st.setArrayPtr (slot d.letter none) (dimArray A (d.e.eval A st)))
      else some ⟨1, next, st.setArrayPtr (slot d.letter none) (dimArray A (d.e.eval A st))⟩ := by
  obtain ⟨hl, h1, he, h2, h3⟩ := hd
  have hp : parse_expr A st (d.e.render ++ (d.ws2 ++ ')' :: (d.ws3 ++ x))) =
      (d.e.eval A st, ')' :: (d.ws3 ++ x), []) := by
    rw [parse_expr_render A st d.e _ he (followE_close _ h2), skip_spaces_tok h2 (by decide)]
  have hr : d.render ++ x =
      d.letter :: (d.ws1 ++ '(' :: (d.e.render ++ (d.ws2 ++ ')' :: (d.ws3 ++ x)))) := by
    simp [DimEntry.render]
  have e2' : eat ')' (')' :: (d.ws3 ++ x)) = d.ws3 ++ x := by
    simp [eat, peek]
  rw [hr, dim_loopF]
  simp only [peek, List.headD_cons, hl, Bool.not_true, Bool.false_eq_true, if_false,
    List.drop_succ_cons, List.drop_zero, skip_spaces_tok h1 (by decide : isspace '(' = false),
    ne_eq, not_true_eq_false, hp, e2', skip_spaces_append h3, State.log_nil]
  rfl

/-- The text of DIM entries in front of a name starts with a letter. -/
theorem dimEntries_head (ws : List Char) (ds : List DimEntry) (letter : Char)
    (t : List Char) (hds : ∀ d ∈ ds, d.WF) (hl : isalpha letter = true) :
    ∃ c u, dimEntries ws ds (letter :: t) = c :: u ∧ isalpha c = true := by
  cases ds with
  | nil => exact ⟨letter, t, rfl, hl⟩
  | cons d ds =>
    exact ⟨d.letter, _, rfl, (hds d (List.mem_cons_self _ _)).1⟩

/-- The DIM loop over well-formed entries in front of a name with a digit returns
the error code. -/
theorem dim_loopF_entries {V : Type} (A : Arith V) (next : Nat) (ws : List Char)
    (letter digit : Char) (t : List Char) (hws : Blank ws)
    (hl : isalpha letter = true) (hd : isdigit digit = true) :
    ∀ (ds : List DimEntry) (n : Nat) (st : State V), (∀ d ∈ ds, d.WF) → ds.length < n →
      ∃ st1, dim_loopF A next n (dimEntries ws ds (letter :: digit :: t)) st =
        some ⟨-1, next, st1⟩
  | [], n, st, _, hn => by
    obtain ⟨n, rfl⟩ : ∃ k, n = k + 1 := ⟨n - 1, by simp at hn; omega⟩
    exact ⟨_, dim_loopF_digit A next n st letter digit t hl hd⟩
  | d :: ds, n, st, hds, hn => by
    obtain ⟨n, rfl⟩ : ∃ k, n = k + 1 := ⟨n - 1, by simp at hn; omega⟩
    have hn1 : ds.length < n := by simp at hn; omega
    have hds1 : ∀ e ∈ ds, e.WF := fun e he => hds e (List.mem_cons_of_mem _ he)
    obtain ⟨c, u, hcu, hc⟩ := dimEntries_head ws ds letter (digit :: t) hds1 hl
    obtain ⟨hsp, -⟩ := isalpha_facts hc
    have hsk : skip_spaces (ws ++ dimEntries ws ds (letter :: digit :: t)) =
        dimEntries ws ds (letter :: digit :: t) := by
      rw [hcu]
      exact skip_spaces_tok hws hsp
    have hcomma : skip_spaces (',' :: (ws ++ dimEntries ws ds (letter :: digit :: t))) =
        ',' :: (ws ++ dimEntries ws ds (letter :: digit :: t)) :=
      skip_spaces_of_not_space (by show isspace ',' = false; decide)
    simp only [dimEntries]
    rw [dim_loopF_entry A next n st d _ (hds d (List.mem_cons_self _ _)), hcomma]
    simp only [peek, List.headD_cons, if_true, List.drop_succ_cons, List.drop_zero, hsk]
    exact dim_loopF_entries A next ws letter digit t hws hl hd ds n _ hds1 hn1

/-- The text of DIM entries has at least one character for each entry. -/
theorem dimEntries_length (ws : List Char) (tail : List Char) :
    ∀ ds : List DimEntry, ds.length ≤ (dimEntries ws ds tail).length
  | [] => by simp
  | d :: ds => by
    have := dimEntries_length ws tail ds
    simp [dimEntries, DimEntry.render]
    omega

/-- The text of a DIM statement passes the DIM test, and the DIM branch gets the
text behind the keyword. -/
theorem isDimText_dimText (ws ws0 body : List Char) (h : Blank ws) (h0 : Blank ws0)
    (hne : ws0 ≠ []) :
    skip_spaces (ws ++ dimText ws0 body) = dimText ws0 body ∧
      isDimText (dimText ws0 body) = true ∧ (dimText ws0 body).drop 3 = ws0 ++ body := by
  obtain ⟨c, t, rfl⟩ := List.exists_cons_of_ne_nil hne
  have hc : isspace c = true := h0 c (List.mem_cons_self _ _)
  refine ⟨skip_spaces_tok h (by decide), ?_, rfl⟩
  simp [dimText, isDimText, strncasecmp_eq, at_, peek, hc]
  decide

/-- A DIM statement with a name with a digit as an entry returns the error code. -/
theorem run_dim_digit {V : Type} (A : Arith V) (program : List Line) (pc next : Nat)
    (st : State V) (ws ws0 wsd : List Char) (ds : List DimEntry) (letter digit : Char)
    (t : List Char) (h : Blank ws) (h0 : Blank ws0) (hne : ws0 ≠ []) (hwsd : Blank wsd)
    (hds : ∀ d ∈ ds, d.WF) (hl : isalpha letter = true) (hd : isdigit digit = true) :
    (run_statement A program pc
      (ws ++ dimText ws0 (dimEntries wsd ds (letter :: digit :: t))) next st).rc = -1 := by
  obtain ⟨hs, hi, hdrop⟩ := isDimText_dimText ws ws0
    (dimEntries wsd ds (letter :: digit :: t)) h h0 hne
  rw [run_statement_dim A program pc _ next st (by rw [hs]; exact hi), hs, hdrop]
  obtain ⟨c, u, hcu, hc⟩ := dimEntries_head wsd ds letter (digit :: t) hds hl
  obtain ⟨hsp, -⟩ := isalpha_facts hc
  have hsk : skip_spaces (ws0 ++ dimEntries wsd ds (letter :: digit :: t)) =
      dimEntries wsd ds (letter :: digit :: t) := by
    rw [hcu]
    exact skip_spaces_tok h0 hsp
  unfold stmt_dim
  rw [hsk]
  obtain ⟨st1, h1⟩ := dim_loopF_entries A next wsd letter digit t hwsd hl hd ds
    ((dimEntries wsd ds (letter :: digit :: t)).length + 1) st hds
    (by have := dimEntries_length wsd (letter :: digit :: t) ds; omega)
  simp only [h1, Option.getD_some]

/-- Source `parse_factor` on a name with a digit followed by `(`: a message, the
value 0, and the cursor in front of the parenthesis. -/
theorem parse_factor_digit {V : Type} (A : Arith V) (st : State V) (ws : List Char)
    (letter digit : Char) (ws1 t : List Char) (hws : Blank ws) (hl : isalpha letter = true)
    (hd : isdigit digit = true) (h1 : Blank ws1) :
    parse_factor A st (ws ++ letter :: digit :: (ws1 ++ '(' :: t)) =
      (A.ofRat 0, '(' :: t, [Diag.arraysOnlyAZ]) := by
  obtain ⟨hsp, -, h3, h4, h5, -, -⟩ := isalpha_facts hl
  obtain ⟨hv, h26⟩ := parse_var_name_digit (ws1 ++ '(' :: t) hl hd
  have hF : parse_factorF A st (0 + 1) (ws ++ letter :: digit :: (ws1 ++ '(' :: t)) =
      some (A.ofRat 0, '(' :: t, [Diag.arraysOnlyAZ]) := by
    rw [parse_factorF]
    simp only [skip_spaces_tok hws hsp, peek, List.headD_cons, h3, h4, h5, or_self, if_false,
      hl, if_true, hv, skip_spaces_tok h1 (by decide : isspace '(' = false), h26]
  exact parse_factor_of_F A st hF

/-! ## DIM, then LET, then an array read -/

/-- A DIM statement with one well-formed entry replaces the array of the letter. -/
theorem run_dim_single {V : Type} (A : Arith V) (program : List Line) (pc next : Nat)
    (st : State V) (ws ws0 : List Char) (d : DimEntry) (h : Blank ws) (h0 : Blank ws0)
    (hne : ws0 ≠ []) (hd : d.WF) :
    run_statement A program pc (ws ++ dimText ws0 d.render) next st =
      ⟨1, next, st.setArrayPtr (slot d.letter none) (dimArray A (d.e.eval A st))⟩ := by
  obtain ⟨hs, hi, hdrop⟩ := isDimText_dimText ws ws0 d.render h h0 hne
  rw [run_statement_dim A program pc _ next st (by rw [hs]; exact hi), hs, hdrop]
  obtain ⟨hsp, -⟩ := isalpha_facts hd.1
  have hsk : skip_spaces (ws0 ++ d.render) = d.render := by
    unfold DimEntry.render
    exact skip_spaces_tok h0 hsp
  unfold stmt_dim
  rw [hsk]
  have hstep := dim_loopF_entry A next d.render.length st d [] hd
  rw [List.append_nil] at hstep
  have hp : skip_spaces ([] : List Char) = [] := rfl
  rw [hp, if_neg (by decide)] at hstep
  simp only [hstep, Option.getD_some]

/-- The array pointer a DIM entry leaves: for a bound below `INT_MAX` and a
successful allocation an array of one cell more than the bound, at least one,
with all cells 0; `NULL` when the allocation fails, as it does for the bound
`INT_MAX`, where the count `size + 1` wraps to `INT_MIN`. -/
theorem dimArray_spec {V : Type} (A : Arith V) (v : V) :
    (A.toInt v < 2147483647 → A.alloc ((max (A.toInt v) 0).toNat + 1) = true →
      dimArray A v = some (List.replicate ((max (A.toInt v) 0).toNat + 1) (A.ofRat 0))) ∧
    (A.toInt v < 2147483647 → A.alloc ((max (A.toInt v) 0).toNat + 1) = false →
      dimArray A v = none) ∧
    (A.toInt v = 2147483647 → dimArray A v = none) := by
  have hcount : A.toInt v < 2147483647 →
      to_int ((if A.toInt v < 0 then 0 else A.toInt v) + 1) =
        (((max (A.toInt v) 0).toNat + 1 : Nat) : Int) := by
    intro hlt
    by_cases hn : A.toInt v < 0
    · rw [if_pos hn, max_eq_right (by omega), to_int_small (by omega) (by omega)]
      rfl
    · rw [if_neg hn, max_eq_left (by omega), to_int_small (by omega) (by omega)]
      omega
  unfold dimArray calloc
  refine ⟨?_, ?_, ?_⟩
  · intro hlt ha
    rw [hcount hlt, if_neg (by omega), Int.toNat_ofNat, ha]
    rfl
  · intro hlt ha
    rw [hcount hlt, if_neg (by omega), Int.toNat_ofNat, ha]
    rfl
  · intro he
    rw [he]
    rfl

/-- An array read after a successful array assignment: the assigned cell holds
the value, every other index reads as before. -/
theorem array_read_store {V : Type} (A : Arith V) (st : State V) (next id : Nat)
    (idx : Int) (val : V) (arr : List V) (ha : st.arrays id = some arr) (h0 : 0 ≤ idx)
    (h1 : idx < (arr.length : Int)) (iv : V) :
    (A.toInt iv = idx →
      array_read A (array_store st next id idx val).st id iv = (val, [])) ∧
    (A.toInt iv ≠ idx →
      array_read A (array_store st next id idx val).st id iv = array_read A st id iv) := by
  rw [array_store_ok st next id idx val arr ha h0 h1]
  have hlt : idx.toNat < arr.length := by omega
  have hset : (st.setArray id (arr.set idx.toNat val)).arrays id =
      some (arr.set idx.toNat val) := by
    simp [State.setArray]
  constructor
  · intro hi
    unfold array_read
    rw [hi, if_neg (by omega), hset]
    simp only [List.length_set]
    rw [if_neg (by omega)]
    simp [List.getD_eq_getElem?_getD, hlt]
  · intro hi
    unfold array_read
    by_cases hneg : A.toInt iv < 0
    · rw [if_pos hneg, if_pos hneg]
    · rw [if_neg hneg, if_neg hneg, hset, ha]
      simp only [List.length_set]
      by_cases hlen : (arr.length : Int) ≤ A.toInt iv
      · rw [if_pos hlen, if_pos hlen]
      · rw [if_neg hlen, if_neg hlen]
        have hne : idx.toNat ≠ (A.toInt iv).toNat := by omega
        simp [List.getD_eq_getElem?_getD, List.getElem?_set, hne]

/-- Source `parse_factor` on the array read `L(e)` followed by `rest`. -/
theorem parse_factor_read {V : Type} (A : Arith V) (st : State V) (ws : List Char)
    (letter : Char) (ws1 : List Char) (e : Expr) (ws2 rest : List Char) (h : Blank ws)
    (hl : isalpha letter = true) (h1 : Blank ws1) (he : e.WF) (h2 : Blank ws2) :
    parse_factor A st (ws ++ letter :: (ws1 ++ '(' :: (e.render ++ (ws2 ++ ')' :: rest)))) =
      ((array_read A st (slot letter none) (e.eval A st)).1, rest,
        (array_read A st (slot letter none) (e.eval A st)).2) := by
  rw [parse_factor_array A st ws letter ws1 _ h hl h1,
    parse_expr_render A st e _ he (followE_close _ h2), skip_spaces_tok h2 (by decide)]
  have hk : skip_spaces (')' :: rest) = ')' :: rest :=
    skip_spaces_of_not_space (by show isspace ')' = false; decide)
  simp [hk, eat, peek]

/-- C17 (amended to bounds below `INT_MAX`, where the count `n + 1` is an `int`,
and to a successful allocation): a statement `DIM L(e)` whose bound `n`, the
truncated value of `e`, is below 2147483647 and whose allocation succeeds gives
the letter an array of max(n, 0) + 1 cells that are all 0; the array replaces
any array the letter had, and the arrays of the other letters stay.  When the
allocation fails, as it does for the bound 2147483647, where the count wraps,
the letter is left without an array.  After a successful `LET L(i) = v` (index
inside the array) a read `L(e)` whose index is `i` yields `v` without a message,
and a read with any other index yields what it yielded before.  The program
`10 DIM A(3)`, `20 LET A(2)=5`, `30 PRINT A(2)`, `40 END` prints 5. -/
theorem dim_let_read :
    (∀ (V : Type) (A : Arith V) (program : List Line) (pc next : Nat) (st : State V)
      (ws ws0 : List Char) (d : DimEntry), Blank ws → Blank ws0 → ws0 ≠ [] → d.WF →
      A.toInt (d.e.eval A st) < 2147483647 →
      A.alloc ((max (A.toInt (d.e.eval A st)) 0).toNat + 1) = true →
      run_statement A program pc (ws ++ dimText ws0 d.render) next st =
        ⟨1, next, st.setArray (slot d.letter none)
          (List.replicate ((max (A.toInt (d.e.eval A st)) 0).toNat + 1) (A.ofRat 0))⟩ ∧
      (run_statement A program pc (ws ++ dimText ws0 d.render) next st).st.arrays
          (slot d.letter none) =
        some (List.replicate ((max (A.toInt (d.e.eval A st)) 0).toNat + 1) (A.ofRat 0)) ∧
      (∀ j, j ≠ slot d.letter none →
        (run_statement A program pc (ws ++ dimText ws0 d.render) next st).st.arrays j =
          st.arrays j) ∧
      (List.replicate ((max (A.toInt (d.e.eval A st)) 0).toNat + 1) (A.ofRat 0)).length =
        (max (A.toInt (d.e.eval A st)) 0).toNat + 1 ∧
      (∀ c ∈ List.replicate ((max (A.toInt (d.e.eval A st)) 0).toNat + 1) (A.ofRat 0),
        c = A.ofRat 0)) ∧
    (∀ (V : Type) (A : Arith V) (program : List Line) (pc next : Nat) (st : State V)
      (ws ws0 : List Char) (d : DimEntry), Blank ws → Blank ws0 → ws0 ≠ [] → d.WF →
      (A.toInt (d.e.eval A st) = 2147483647 ∨
        (A.toInt (d.e.eval A st) < 2147483647 ∧
          A.alloc ((max (A.toInt (d.e.eval A st)) 0).toNat + 1) = false)) →
      (run_statement A program pc (ws ++ dimText ws0 d.render) next st).rc = 1 ∧
      (run_statement A program pc (ws ++ dimText ws0 d.render) next st).st.arrays
          (slot d.letter none) = none ∧
      (∀ j, j ≠ slot d.letter none →
        (run_statement A program pc (ws ++ dimText ws0 d.render) next st).st.arrays j =
          st.arrays j)) ∧
    (∀ (V : Type) (A : Arith V) (program : List Line) (pc next : Nat) (st : State V)
      (ws ws0 : List Char) (letter : Char) (ws1 : List Char) (e1 : Expr)
      (ws2 ws3 : List Char) (e2 : Expr) (rest : List Char) (arr : List V),
      Blank ws → Blank ws0 → ws0 ≠ [] → isalpha letter = true → Blank ws1 → e1.WF →
      Blank ws2 → Blank ws3 → e2.WF → FollowE rest →
      st.arrays (slot letter none) = some arr → 0 ≤ A.toInt (e1.eval A st) →
      A.toInt (e1.eval A st) < (arr.length : Int) →
      (run_statement A program pc
        (ws ++ letText ws0 (arrayAssignText letter ws1 e1 ws2 ws3 e2 rest)) next st).rc = 1 ∧
      ∀ (wr wr1 : List Char) (e : Expr) (wr2 tail : List Char),
        Blank wr → Blank wr1 → e.WF → Blank wr2 →
        (A.toInt (e.eval A (run_statement A program pc
            (ws ++ letText ws0 (arrayAssignText letter ws1 e1 ws2 ws3 e2 rest)) next st).st) =
            A.toInt (e1.eval A st) →
          parse_factor A (run_statement A program pc
              (ws ++ letText ws0 (arrayAssignText letter ws1 e1 ws2 ws3 e2 rest)) next st).st
              (wr ++ letter :: (wr1 ++ '(' :: (e.render ++ (wr2 ++ ')' :: tail)))) =
            (e2.eval A st, tail, [])) ∧
        (A.toInt (e.eval A (run_statement A program pc
            (ws ++ letText ws0 (arrayAssignText letter ws1 e1 ws2 ws3 e2 rest)) next st).st) ≠
            A.toInt (e1.eval A st) →
          parse_factor A (run_statement A program pc
              (ws ++ letText ws0 (arrayAssignText letter ws1 e1 ws2 ws3 e2 rest)) next st).st
              (wr ++ letter :: (wr1 ++ '(' :: (e.render ++ (wr2 ++ ')' :: tail)))) =
            ((array_read A st (slot letter none) (e.eval A (run_statement A program pc
                (ws ++ letText ws0 (arrayAssignText letter ws1 e1 ws2 ws3 e2 rest))
                next st).st)).1, tail,
              (array_read A st (slot letter none) (e.eval A (run_statement A program pc
                (ws ++ letText ws0 (arrayAssignText letter ws1 e1 ws2 ws3 e2 rest))
                next st).st)).2))) ∧
    ((run_program exact
        (mkProgram [(10, "DIM A(3)"), (20, "LET A(2)=5"), (30, "PRINT A(2)"), (40, "END")])
        10 stZero).1 = Halt.ended ∧
      (run_program exact
        (mkProgram [(10, "DIM A(3)"), (20, "LET A(2)=5"), (30, "PRINT A(2)"), (40, "END")])
        10 stZero).2.out = [Out.num 5] ∧
      (run_program exact
        (mkProgram [(10, "DIM A(3)"), (20, "LET A(2)=5"), (30, "PRINT A(2)"), (40, "END")])
        10 stZero).2.err = [] ∧
      (run_program exact
        (mkProgram [(10, "DIM A(3)"), (20, "LET A(2)=5"), (30, "PRINT A(2)"), (40, "END")])
        10 stZero).2.arrays 0 = some [0, 0, 5, 0]) := by
  refine ⟨?_, ?_, ?_, ?_⟩
  · intro V A program pc next st ws ws0 d h h0 hne hd hlt ha
    have hrun : run_statement A program pc (ws ++ dimText ws0 d.render) next st =
        ⟨1, next, st.setArray (slot d.letter none)
          (List.replicate ((max (A.toInt (d.e.eval A st)) 0).toNat + 1) (A.ofRat 0))⟩ := by
      rw [run_dim_single A program pc next st ws ws0 d h h0 hne hd,
        (dimArray_spec A _).1 hlt ha]
      rfl
    rw [hrun]
    refine ⟨rfl, ?_, ?_, List.length_replicate _ _, fun c hc => (List.mem_replicate.1 hc).2⟩
    · simp [State.setArray]
    · intro j hj
      simp [State.setArray, hj]
  · intro V A program pc next st ws ws0 d h h0 hne hd hcase
    have hnone : dimArray A (d.e.eval A st) = none := by
      rcases hcase with heq | ⟨hlt, ha⟩
      · exact (dimArray_spec A _).2.2 heq
      · exact (dimArray_spec A _).2.1 hlt ha
    rw [run_dim_single A program pc next st ws ws0 d h h0 hne hd, hnone]
    refine ⟨rfl, ?_, ?_⟩
    · simp [State.setArrayPtr]
    · intro j hj
      simp [State.setArrayPtr, hj]
  · intro V A program pc next st ws ws0 letter ws1 e1 ws2 ws3 e2 rest arr h h0 hne hl h1 he1 h2
      h3 he2 hr ha hi0 hi1
    have hrun := run_let_array A program pc next st ws ws0 letter ws1 e1 ws2 ws3 e2 rest h h0
      hne hl h1 he1 h2 h3 he2 hr
    rw [hrun]
    refine ⟨by rw [array_store_ok st next _ _ _ arr ha hi0 hi1], ?_⟩
    intro wr wr1 e wr2 tail hwr hwr1 he hwr2
    have hrd := array_read_store A st next (slot letter none) (A.toInt (e1.eval A st))
      (e2.eval A st) arr ha hi0 hi1
    constructor
    · intro hidx
      rw [parse_factor_read A _ wr letter wr1 e wr2 tail hwr hl hwr1 he hwr2,
        (hrd _).1 hidx]
    · intro hidx
      rw [parse_factor_read A _ wr letter wr1 e wr2 tail hwr hl hwr1 he hwr2,
        (hrd _).2 hidx]
  · decide!

/-- Counterexample to C17 as stated: after `10 DIM A(2147483647)` the letter A
has no array, not one of 2147483648 cells: the count 2147483647 + 1 is not an
`int`, the allocation fails, and `20 PRINT A(0)` reports that A is not DIM'd. -/
theorem dim_let_read_counterexample :
    exact.toInt ((exprLit "2147483647".toList).eval exact stZero) = 2147483647 ∧
    to_int (2147483647 + 1) = -2147483648 ∧
    (run_statement exact [] 0 "DIM A(2147483647)".toList 1 stZero).rc = 1 ∧
    (run_statement exact [] 0 "DIM A(2147483647)".toList 1 stZero).st.arrays 0 = none ∧
    (run_program exact
      (mkProgram [(10, "DIM A(2147483647)"), (20, "PRINT A(0)"), (30, "END")])
      10 stZero).1 = Halt.ended ∧
    (run_program exact
      (mkProgram [(10, "DIM A(2147483647)"), (20, "PRINT A(0)"), (30, "END")])
      10 stZero).2.out = [Out.num 0] ∧
    (run_program exact
      (mkProgram [(10, "DIM A(2147483647)"), (20, "PRINT A(0)"), (30, "END")])
      10 stZero).2.err = [Diag.notDimd 0] ∧
    (run_program exact
      (mkProgram [(10, "DIM A(2147483646)"), (20, "PRINT 1"), (30, "END")])
      1 stZero).2.arrays 0 ≠ none := by
  refine ⟨by decide!, by decide, by decide!, by decide!, by decide!, by decide!, by decide!, ?_⟩
  have hd : (⟨'A', [], exprLit "2147483646".toList, [], []⟩ : DimEntry).WF :=
    ⟨by decide, by decide, exprLit_wf _ (by decide) (by decide), by decide, by decide⟩
  have hr := run_dim_single exact
    (mkProgram [(10, "DIM A(2147483646)"), (20, "PRINT 1"), (30, "END")]) 0 1
    (reset exact stZero) [] [' '] ⟨'A', [], exprLit "2147483646".toList, [], []⟩
    (by decide) (by decide) (by decide) hd
  have ht : ([] : List Char) ++ dimText [' ']
      (⟨'A', [], exprLit "2147483646".toList, [], []⟩ : DimEntry).render =
        "DIM A(2147483646)".toList := by decide
  rw [ht, (dimArray_spec exact _).1 (by decide!) rfl] at hr
  have hl : (mkProgram [(10, "DIM A(2147483646)"), (20, "PRINT 1"), (30, "END")])[0]? =
      some ⟨10, "DIM A(2147483646)".toList⟩ := rfl
  unfold run_program
  rw [if_neg (by decide), run_loop_step exact _ 0 0 _ _ _ _ _ hl hr (by decide) (by decide),
    run_loop_zero exact _ 1 _ _ rfl]
  have h65 : (toupper 'A').toNat - 65 = 0 := by decide
  simp [State.setArrayPtr, slot, h65]

/-- Witness of C17: `DIM A(3)` in the state `stZero`. -/
theorem dim_let_read_witness :
    (⟨'A', [], exprLit ['3'], [], []⟩ : DimEntry).WF ∧
    exact.toInt ((exprLit ['3']).eval exact stZero) < 2147483647 ∧
    exact.alloc ((max (exact.toInt ((exprLit ['3']).eval exact stZero)) 0).toNat + 1) = true ∧
    [] ++ dimText [' '] (⟨'A', [], exprLit ['3'], [], []⟩ : DimEntry).render =
      "DIM A(3)".toList ∧
    List.replicate ((max (exact.toInt ((exprLit ['3']).eval exact stZero)) 0).toNat + 1)
      (exact.ofRat 0) = [0, 0, 0, 0] ∧
    run_statement exact [] 0
      ([] ++ dimText [' '] (⟨'A', [], exprLit ['3'], [], []⟩ : DimEntry).render) 1 stZero =
      ⟨1, 1, stZero.setArray (slot 'A' none)
        (List.replicate ((max (exact.toInt ((exprLit ['3']).eval exact stZero)) 0).toNat + 1)
          (exact.ofRat 0))⟩ :=
  ⟨⟨by decide, by decide, exprLit_wf _ (by decide) (by decide), by decide, by decide⟩,
    by decide!, rfl, by decide, by decide!,
    (dim_let_read.1 ℚ exact [] 0 1 stZero [] [' '] ⟨'A', [], exprLit ['3'], [], []⟩
      (by decide) (by decide) (by decide)
      ⟨by decide, by decide, exprLit_wf _ (by decide) (by decide), by decide,
        by decide⟩ (by decide!) rfl).1⟩

/-! ## Depth of the FOR stack -/

/-- A statement changes the depth of the FOR stack by at most one, only a FOR
statement executed below the maximum depth increases it. -/
theorem run_statement_depth {V : Type} (A : Arith V) (program : List Line) (pc : Nat)
    (text : List Char) (next : Nat) (st : State V) :
    (run_statement A program pc text next st).st.for_sp ≤ st.for_sp + 1 ∧
    st.for_sp ≤ (run_statement A program pc text next st).st.for_sp + 1 ∧
    (st.for_sp < (run_statement A program pc text next st).st.for_sp →
      isForText (skip_spaces text) = true ∧ st.for_sp < MAX_FOR_DEPTH) := by
  rcases run_statement_stack A program pc text next st with h | ⟨f, h⟩ | ⟨hd, hf, -, hlt, h⟩
  · simp only [State.for_sp, h]
    omega
  · simp only [State.for_sp, h, List.length_cons]
    omega
  · simp only [State.for_sp, h, List.length_cons]
    exact ⟨le_refl _, by omega, fun _ => ⟨hf, hlt⟩⟩

/-- A statement keeps the depth of the FOR stack within the maximum. -/
theorem run_statement_depth_le {V : Type} (A : Arith V) (program : List Line) (pc : Nat)
    (text : List Char) (next : Nat) (st : State V) (h : st.for_sp ≤ MAX_FOR_DEPTH) :
    (run_statement A program pc text next st).st.for_sp ≤ MAX_FOR_DEPTH := by
  obtain ⟨h1, -, h3⟩ := run_statement_depth A program pc text next st
  by_cases hlt : st.for_sp < (run_statement A program pc text next st).st.for_sp
  · have := (h3 hlt).2
    omega
  · omega

/-- The run loop keeps the depth of the FOR stack within the maximum. -/
theorem run_loop_depth {V : Type} (A : Arith V) (program : List Line) :
    ∀ (n pc : Nat) (st : State V), st.for_sp ≤ MAX_FOR_DEPTH →
      (run_loop A program n pc st).2.for_sp ≤ MAX_FOR_DEPTH := by
  intro n
  induction n with
  | zero =>
    intro pc st hinv
    unfold run_loop
    cases program[pc]? <;> exact hinv
  | succ n ih =>
    intro pc st hinv
    unfold run_loop
    cases hl : program[pc]? with
    | none => exact hinv
    | some line =>
      have hs := run_statement_depth_le A program pc line.text (pc + 1) st hinv
      simp only []
      split_ifs
      · exact hs
      · exact hs
      · exact ih _ _ hs

/-- C20: in every state that `run_program` reaches the depth of the FOR stack is
at most `MAX_FOR_DEPTH` = 256 (and at least 0, being a length): the reset empties
the stack, each statement changes the depth by at most one, a statement that
increases it is a FOR statement executed at a depth below 256, and a FOR
statement that would push onto a stack of 256 frames returns -1 with the message
`FOR stack overflow` and pushes nothing. -/
theorem for_stack_depth :
    (∀ (V : Type) (A : Arith V) (program : List Line) (fuel : Nat) (st : State V),
      0 ≤ (run_program A program fuel st).2.for_sp ∧
      (run_program A program fuel st).2.for_sp ≤ MAX_FOR_DEPTH) ∧
    MAX_FOR_DEPTH = 256 ∧
    (∀ (V : Type) (A : Arith V) (program : List Line) (fuel pc : Nat) (st : State V),
      st.for_sp ≤ MAX_FOR_DEPTH →
      (run_loop A program fuel pc st).2.for_sp ≤ MAX_FOR_DEPTH) ∧
    (∀ (V : Type) (A : Arith V) (program : List Line) (pc : Nat) (text : List Char)
      (next : Nat) (st : State V),
      (run_statement A program pc text next st).st.for_sp ≤ st.for_sp + 1 ∧
      st.for_sp ≤ (run_statement A program pc text next st).st.for_sp + 1 ∧
      (st.for_sp < (run_statement A program pc text next st).st.for_sp →
        isForText (skip_spaces text) = true ∧ st.for_sp < MAX_FOR_DEPTH)) ∧
    (∀ (V : Type) (A : Arith V) (program : List Line) (pc : Nat) (text : List Char)
      (next : Nat) (st : State V) (h : ForHead V),
      isForText (skip_spaces text) = true →
      for_header A st ((skip_spaces text).drop 3) = .ok h →
      ((A.gt h.step (A.ofRat 0) && A.gt h.start h.end_) ||
        (A.lt h.step (A.ofRat 0) && A.lt h.start h.end_)) = false →
      MAX_FOR_DEPTH ≤ st.for_sp →
      (run_statement A program pc text next st).rc = -1 ∧
      (run_statement A program pc text next st).st.for_stack = st.for_stack ∧
      (run_statement A program pc text next st).st.err =
        st.err ++ h.diag ++ [Diag.forStackOverflow]) ∧
    ((run_program exact progDeep 256 stZero).2.for_sp = 256 ∧
      (run_program exact progDeep 257 stZero).1 = Halt.failed ∧
      (run_program exact progDeep 257 stZero).2.for_sp = 256 ∧
      (run_program exact progDeep 257 stZero).2.err = [Diag.forStackOverflow]) := by
  refine ⟨?_, rfl, ?_, ?_, ?_, ?_⟩
  · intro V A program fuel st
    refine ⟨Nat.zero_le _, ?_⟩
    unfold run_program
    by_cases hp : program.length = 0
    · rw [if_pos hp]
      exact Nat.zero_le _
    · rw [if_neg hp]
      exact run_loop_depth A program fuel 0 _ (Nat.zero_le _)
  · intro V A program fuel pc st h
    exact run_loop_depth A program fuel pc st h
  · intro V A program pc text next st
    exact run_statement_depth A program pc text next st
  · intro V A program pc text next st h hf hh hrun hfull
    rw [run_statement_for A program pc text next st hf]
    exact stmt_for_full A program pc st next _ h hh hfull hrun
  · decide!

/-- Witness of C20: `FOR I=1 TO 3` in the state `stZero` takes the depth from 0
to 1. -/
theorem for_stack_depth_witness :
    stZero.for_sp ≤ MAX_FOR_DEPTH ∧
    stZero.for_sp < (run_statement exact [] 0 "FOR I=1 TO 3".toList 1 stZero).st.for_sp ∧
    (isForText (skip_spaces "FOR I=1 TO 3".toList) = true ∧ stZero.for_sp < MAX_FOR_DEPTH) ∧
    (run_loop exact (mkProgram [(10, "FOR I=1 TO 3")]) 5 0 stZero).2.for_sp ≤ MAX_FOR_DEPTH :=
  ⟨by decide, by decide!,
    (for_stack_depth.2.2.2.1 ℚ exact [] 0 "FOR I=1 TO 3".toList 1 stZero).2.2 (by decide!),
    for_stack_depth.2.2.1 ℚ exact (mkProgram [(10, "FOR I=1 TO 3")]) 5 0 stZero (by decide)⟩

/-! ## The parser reads only the 286 scalars and the 26 arrays -/

theorem parse_congr_aux {V : Type} (A : Arith V) (s1 s2 : State V) (h : SameStore s1 s2) :
    ∀ n,
    (∀ s, parse_factorF A s1 n s = parse_factorF A s2 n s) ∧
    (∀ v s d, parse_term_loopF A s1 n v s d = parse_term_loopF A s2 n v s d) ∧
    (∀ s, parse_termF A s1 n s = parse_termF A s2 n s) ∧
    (∀ v s d, parse_expr_loopF A s1 n v s d = parse_expr_loopF A s2 n v s d) ∧
    (∀ s, parse_exprF A s1 n s = parse_exprF A s2 n s) := by
  intro n
  induction n with
  | zero =>
    refine ⟨?_, ?_, ?_, ?_, ?_⟩
    · intro s; simp only [parse_factorF]
    · intro v s d; simp only [parse_term_loopF]
    · intro s; simp only [parse_termF]
    · intro v s d; simp only [parse_expr_loopF]
    · intro s; simp only [parse_exprF]
  | succ n ih =>
    obtain ⟨ihF, ihTL, ihT, ihEL, ihE⟩ := ih
    refine ⟨?_, ?_, ?_, ?_, ?_⟩
    · intro s
      simp only [parse_factorF, ihF, ihE]
      by_cases h1 : peek (skip_spaces s) = '+' ∨ peek (skip_spaces s) = '-'
      · rw [if_pos h1, if_pos h1]
      · rw [if_neg h1, if_neg h1]
        by_cases h2 : peek (skip_spaces s) = '('
        · rw [if_pos h2, if_pos h2]
        · rw [if_neg h2, if_neg h2]
          by_cases h3 : isalpha (peek (skip_spaces s)) = true
          · rw [if_pos h3, if_pos h3]
            cases hv : parse_var_name (skip_spaces s) with
            | none => rfl
            | some q =>
              obtain ⟨v, r⟩ := q
              have hlt := parse_var_name_lt hv
              simp only []
              by_cases h4 : peek (skip_spaces r) = '('
              · rw [if_pos h4, if_pos h4]
                by_cases h5 : 26 ≤ v
                · rw [if_pos h5, if_pos h5]
                · rw [if_neg h5, if_neg h5, h.2 v (by omega)]
              · rw [if_neg h4, if_neg h4, h.1 v hlt]
          · rw [if_neg h3, if_neg h3]
    · intro v s d
      simp only [parse_term_loopF, ihF, ihTL]
    · intro s
      simp only [parse_termF, ihF, ihTL]
    · intro v s d
      simp only [parse_expr_loopF, ihT, ihEL]
    · intro s
      simp only [parse_exprF, ihT, ihEL]

/-- Source `parse_expr` gives the same result in two states with the same store. -/
theorem parse_expr_congr {V : Type} (A : Arith V) {s1 s2 : State V} (h : SameStore s1 s2)
    (s : List Char) : parse_expr A s1 s = parse_expr A s2 s := by
  unfold parse_expr
  rw [(parse_congr_aux A s1 s2 h _).2.2.2.2]

/-- Source `eval_condition` gives the same result in two states with the same
store. -/
theorem eval_condition_congr {V : Type} (A : Arith V) {s1 s2 : State V}
    (h : SameStore s1 s2) (s : List Char) :
    eval_condition A s1 s = eval_condition A s2 s := by
  unfold eval_condition
  simp only [parse_expr_congr A h]

/-- The header of a FOR statement is read the same in two states with the same
store. -/
theorem for_header_congr {V : Type} (A : Arith V) {s1 s2 : State V} (h : SameStore s1 s2)
    (s : List Char) : for_header A s1 s = for_header A s2 s := by
  unfold for_header for_limit for_step
  simp only [parse_expr_congr A h]

/-! ## Statements cannot tell agreeing states apart -/

theorem Sim.log {V : Type} {o1 o2 : List (Out V)} {e1 e2 : List Diag} {s1 s2 : State V}
    (h : Sim o1 o2 e1 e2 s1 s2) (d : List Diag) : Sim o1 o2 e1 e2 (s1.log d) (s2.log d) := by
  obtain ⟨e, ha, hb⟩ := h.err
  refine ⟨h.store, h.stack, h.frames, h.out, ⟨e ++ d, ?_, ?_⟩⟩
  · simp [State.log, ha]
  · simp [State.log, hb]

theorem Sim.setVar {V : Type} {o1 o2 : List (Out V)} {e1 e2 : List Diag} {s1 s2 : State V}
    (h : Sim o1 o2 e1 e2 s1 s2) (i : Nat) (v : V) :
    Sim o1 o2 e1 e2 (s1.setVar i v) (s2.setVar i v) := by
  refine ⟨⟨?_, h.store.2⟩, h.stack, h.frames, h.out, h.err⟩
  intro j hj
  simp only [State.setVar]
  by_cases hji : j = i
  · rw [if_pos hji, if_pos hji]
  · rw [if_neg hji, if_neg hji]
    exact h.store.1 j hj

theorem Sim.setArray {V : Type} {o1 o2 : List (Out V)} {e1 e2 : List Diag} {s1 s2 : State V}
    (h : Sim o1 o2 e1 e2 s1 s2) (i : Nat) (a : List V) :
    Sim o1 o2 e1 e2 (s1.setArray i a) (s2.setArray i a) := by
  refine ⟨⟨h.store.1, ?_⟩, h.stack, h.frames, h.out, h.err⟩
  intro j hj
  simp only [State.setArray]
  by_cases hji : j = i
  · rw [if_pos hji, if_pos hji]
  · rw [if_neg hji, if_neg hji]
    exact h.store.2 j hj

theorem Sim.setArrayPtr {V : Type} {o1 o2 : List (Out V)} {e1 e2 : List Diag}
    {s1 s2 : State V} (h : Sim o1 o2 e1 e2 s1 s2) (i : Nat) (p : Option (List V)) :
    Sim o1 o2 e1 e2 (s1.setArrayPtr i p) (s2.setArrayPtr i p) := by
  refine ⟨⟨h.store.1, ?_⟩, h.stack, h.frames, h.out, h.err⟩
  intro j hj
  simp only [State.setArrayPtr]
  by_cases hji : j = i
  · rw [if_pos hji, if_pos hji]
  · rw [if_neg hji, if_neg hji]
    exact h.store.2 j hj

theorem Sim.print {V : Type} {o1 o2 : List (Out V)} {e1 e2 : List Diag} {s1 s2 : State V}
    (h : Sim o1 o2 e1 e2 s1 s2) (x : Out V) :
    Sim o1 o2 e1 e2 { s1 with out := s1.out ++ [x] } { s2 with out := s2.out ++ [x] } := by
  obtain ⟨o, ha, hb⟩ := h.out
  refine ⟨h.store, h.stack, h.frames, ⟨o ++ [x], ?_, ?_⟩, h.err⟩
  · simp [ha]
  · simp [hb]

theorem Sim.push {V : Type} {o1 o2 : List (Out V)} {e1 e2 : List Diag} {s1 s2 : State V}
    (h : Sim o1 o2 e1 e2 s1 s2) (f : ForFrame V) (hf : f.var < NUM_VARS) :
    Sim o1 o2 e1 e2 { s1 with for_stack := f :: s1.for_stack }
      { s2 with for_stack := f :: s2.for_stack } := by
  refine ⟨h.store, ?_, ?_, h.out, h.err⟩
  · show f :: s1.for_stack = f :: s2.for_stack
    rw [h.stack]
  · intro g hg
    rcases List.mem_cons.1 hg with rfl | hg
    · exact hf
    · exact h.frames g hg

theorem Sim.pop {V : Type} {o1 o2 : List (Out V)} {e1 e2 : List Diag} {s1 s2 : State V}
    (h : Sim o1 o2 e1 e2 s1 s2) (f : ForFrame V) (below : List (ForFrame V))
    (hs : s1.for_stack = f :: below) :
    Sim o1 o2 e1 e2 { s1 with for_stack := below } { s2 with for_stack := below } := by
  refine ⟨h.store, rfl, ?_, h.out, h.err⟩
  intro g hg
  exact h.frames g (by rw [hs]; exact List.mem_cons_of_mem _ hg)

/-- The array assignment in two agreeing states. -/
theorem array_store_sim {V : Type} {o1 o2 : List (Out V)} {e1 e2 : List Diag}
    {s1 s2 : State V} (h : Sim o1 o2 e1 e2 s1 s2) (next id : Nat) (idx : Int) (val : V)
    (hid : id < 26) :
    SimRes o1 o2 e1 e2 (array_store s1 next id idx val) (array_store s2 next id idx val) := by
  unfold array_store
  rw [h.store.2 id hid]
  cases s2.arrays id with
  | none => exact ⟨rfl, rfl, h.log _⟩
  | some arr =>
    simp only []
    by_cases hc : idx < 0 ∨ (arr.length : Int) ≤ idx
    · rw [if_pos hc, if_pos hc]
      exact ⟨rfl, rfl, h.log _⟩
    · rw [if_neg hc, if_neg hc]
      exact ⟨rfl, rfl, h.setArray _ _⟩

/-- The LET branch in two agreeing states. -/
theorem stmt_let_sim {V : Type} (A : Arith V) {o1 o2 : List (Out V)} {e1 e2 : List Diag}
    {s1 s2 : State V} (h : Sim o1 o2 e1 e2 s1 s2) (next : Nat) (s0 : List Char) :
    SimRes o1 o2 e1 e2 (stmt_let A s1 next s0) (stmt_let A s2 next s0) := by
  unfold stmt_let
  simp only [parse_expr_congr A h.store]
  by_cases h1 : isalpha (peek (skip_spaces s0)) = true
  · rw [if_pos h1, if_pos h1]
    cases hv : parse_var_name (skip_spaces s0) with
    | none => exact ⟨rfl, rfl, h⟩
    | some q =>
      obtain ⟨v, r⟩ := q
      simp only []
      by_cases h2 : peek (skip_spaces r) = '('
      · rw [if_pos h2, if_pos h2]
        by_cases h3 : 26 ≤ v
        · rw [if_pos h3, if_pos h3]
          exact ⟨rfl, rfl, h.log _⟩
        · rw [if_neg h3, if_neg h3]
          exact array_store_sim (h.log _) next v _ _ (by omega)
      · rw [if_neg h2, if_neg h2]
        exact ⟨rfl, rfl, (h.log _).setVar _ _⟩
  · rw [if_neg h1, if_neg h1]
    exact ⟨rfl, rfl, h⟩

/-- The bare-assignment branch in two agreeing states. -/
theorem stmt_assign_sim {V : Type} (A : Arith V) {o1 o2 : List (Out V)} {e1 e2 : List Diag}
    {s1 s2 : State V} (h : Sim o1 o2 e1 e2 s1 s2) (next : Nat) (text s : List Char) :
    SimRes o1 o2 e1 e2 (stmt_assign A s1 next text s) (stmt_assign A s2 next text s) := by
  unfold stmt_assign
  simp only [parse_expr_congr A h.store]
  by_cases h1 : isalpha (peek s) = true
  · rw [if_pos h1, if_pos h1]
    cases hv : parse_var_name s with
    | none => exact ⟨rfl, rfl, h⟩
    | some q =>
      obtain ⟨v, r⟩ := q
      simp only []
      by_cases h2 : peek (skip_spaces r) = '('
      · rw [if_pos h2, if_pos h2]
        by_cases h3 : 26 ≤ v
        · rw [if_pos h3, if_pos h3]
          exact ⟨rfl, rfl, h.log _⟩
        · rw [if_neg h3, if_neg h3]
          split_ifs
          · exact array_store_sim (h.log _) next v _ _ (by omega)
          · exact ⟨rfl, rfl, h.log _⟩
      · rw [if_neg h2, if_neg h2]
        split_ifs
        · exact ⟨rfl, rfl, (h.log _).setVar _ _⟩
        · exact ⟨rfl, rfl, h.log _⟩
  · rw [if_neg h1, if_neg h1]
    exact ⟨rfl, rfl, h.log _⟩

/-- The DIM loop in two agreeing states. -/
theorem dim_loopF_sim {V : Type} (A : Arith V) (o1 o2 : List (Out V)) (e1 e2 : List Diag)
    (next : Nat) : ∀ (n : Nat) (s : List Char) (s1 s2 : State V), Sim o1 o2 e1 e2 s1 s2 →
      (dim_loopF A next n s s1 = none ∧ dim_loopF A next n s s2 = none) ∨
      ∃ r1 r2, dim_loopF A next n s s1 = some r1 ∧ dim_loopF A next n s s2 = some r2 ∧
        SimRes o1 o2 e1 e2 r1 r2 := by
  intro n
  induction n with
  | zero =>
    intro s s1 s2 _
    exact Or.inl ⟨rfl, rfl⟩
  | succ n ih =>
    intro s s1 s2 h
    rw [dim_loopF, dim_loopF]
    simp only [parse_expr_congr A h.store]
    by_cases h1 : (!isalpha (peek s)) = true
    · rw [if_pos h1, if_pos h1]
      exact Or.inr ⟨_, _, rfl, rfl, rfl, rfl, h⟩
    · rw [if_neg h1, if_neg h1]
      by_cases h2 : peek (skip_spaces (s.drop 1)) ≠ '('
      · rw [if_pos h2, if_pos h2]
        exact Or.inr ⟨_, _, rfl, rfl, rfl, rfl, h.log _⟩
      · rw [if_neg h2, if_neg h2]
        by_cases h3 : peek (skip_spaces
            (eat ')' (parse_expr A s2 ((skip_spaces (s.drop 1)).drop 1)).2.1)) = ','
        · rw [if_pos h3, if_pos h3]
          exact ih _ _ _ ((h.log _).setArrayPtr _ _)
        · rw [if_neg h3, if_neg h3]
          exact Or.inr ⟨_, _, rfl, rfl, rfl, rfl, (h.log _).setArrayPtr _ _⟩

/-- The DIM branch in two agreeing states. -/
theorem stmt_dim_sim {V : Type} (A : Arith V) {o1 o2 : List (Out V)} {e1 e2 : List Diag}
    {s1 s2 : State V} (h : Sim o1 o2 e1 e2 s1 s2) (next : Nat) (s0 : List Char) :
    SimRes o1 o2 e1 e2 (stmt_dim A s1 next s0) (stmt_dim A s2 next s0) := by
  unfold stmt_dim
  simp only []
  rcases dim_loopF_sim A o1 o2 e1 e2 next ((skip_spaces s0).length + 1) (skip_spaces s0)
    s1 s2 h with ⟨ha, hb⟩ | ⟨r1, r2, ha, hb, hr⟩
  · rw [ha, hb]
    exact ⟨rfl, rfl, h⟩
  · rw [ha, hb]
    exact hr

/-- The variable of a FOR header is one of the 286 scalars. -/
theorem for_header_var_lt {V : Type} (A : Arith V) (st : State V) (s0 : List Char)
    (hd : ForHead V) (hh : for_header A st s0 = .ok hd) : hd.var_index < NUM_VARS := by
  unfold for_header at hh
  simp only [] at hh
  by_cases h1 : (!isalpha (peek (skip_spaces s0))) = true
  · rw [if_pos h1] at hh
    cases hh
  · rw [if_neg h1] at hh
    cases hv : parse_var_name (skip_spaces s0) with
    | none =>
      rw [hv] at hh
      cases hh
    | some q =>
      obtain ⟨v, r⟩ := q
      rw [hv] at hh
      simp only [] at hh
      unfold for_limit at hh
      split_ifs at hh
      have := ForParse.ok.inj hh
      rw [← this]
      exact parse_var_name_lt hv

/-- The FOR branch in two agreeing states. -/
theorem stmt_for_sim {V : Type} (A : Arith V) (program : List Line) (pc : Nat)
    {o1 o2 : List (Out V)} {e1 e2 : List Diag}
    {s1 s2 : State V} (h : Sim o1 o2 e1 e2 s1 s2) (next : Nat) (s0 : List Char) :
    SimRes o1 o2 e1 e2 (stmt_for A program pc s1 next s0) (stmt_for A program pc s2 next s0) := by
  unfold stmt_for
  rw [for_header_congr A h.store]
  cases hh : for_header A s2 s0 with
  | error d => exact ⟨rfl, rfl, h.log _⟩
  | ok hd =>
    have hlt := for_header_var_lt A s2 s0 hd hh
    have hsim := (h.log hd.diag).setVar hd.var_index hd.start
    have hsp : ((s1.log hd.diag).setVar hd.var_index hd.start).for_sp =
        ((s2.log hd.diag).setVar hd.var_index hd.start).for_sp := by
      show s1.for_stack.length = s2.for_stack.length
      rw [h.stack]
    simp only []
    split_ifs with c1 c2 c3 c4
    · cases find_matching_next program (pc + 1) with
      | none => exact ⟨rfl, rfl, hsim.log _⟩
      | some k => exact ⟨rfl, rfl, hsim⟩
    · exact ⟨rfl, rfl, hsim.log _⟩
    · exact absurd (hsp ▸ c2) c3
    · exact absurd (hsp.symm ▸ c4) c2
    · exact ⟨rfl, rfl, hsim.push _ hlt⟩

/-- The PRINT branch in two agreeing states. -/
theorem stmt_print_sim {V : Type} (A : Arith V) {o1 o2 : List (Out V)} {e1 e2 : List Diag}
    {s1 s2 : State V} (h : Sim o1 o2 e1 e2 s1 s2) (next : Nat) (s0 : List Char) :
    SimRes o1 o2 e1 e2 (stmt_print A s1 next s0) (stmt_print A s2 next s0) := by
  unfold stmt_print
  simp only [parse_expr_congr A h.store]
  split_ifs
  · exact ⟨rfl, rfl, h.print _⟩
  · exact ⟨rfl, rfl, (h.log _).print _⟩

/-- The GOTO branch in two agreeing states. -/
theorem stmt_goto_sim {V : Type} (program : List Line) {o1 o2 : List (Out V)}
    {e1 e2 : List Diag} {s1 s2 : State V} (h : Sim o1 o2 e1 e2 s1 s2) (next : Nat)
    (s0 : List Char) :
    SimRes o1 o2 e1 e2 (stmt_goto program s1 next s0) (stmt_goto program s2 next s0) := by
  unfold stmt_goto
  simp only []
  cases find_index_by_lineno program (atoi (skip_spaces s0)) with
  | none => exact ⟨rfl, rfl, h.log _⟩
  | some idx => exact ⟨rfl, rfl, h⟩

/-- The IF branch in two agreeing states. -/
theorem stmt_if_sim {V : Type} (A : Arith V) (program : List Line) {o1 o2 : List (Out V)}
    {e1 e2 : List Diag} {s1 s2 : State V} (h : Sim o1 o2 e1 e2 s1 s2) (next : Nat)
    (s0 : List Char) :
    SimRes o1 o2 e1 e2 (stmt_if A program s1 next s0) (stmt_if A program s2 next s0) := by
  unfold stmt_if
  simp only [eval_condition_congr A h.store]
  split_ifs
  · cases find_index_by_lineno program
        (atoi (skip_spaces ((skip_spaces (eval_condition A s2 (skip_spaces s0)).2.1).drop 4))) with
    | none => exact ⟨rfl, rfl, (h.log _).log _⟩
    | some idx => exact ⟨rfl, rfl, h.log _⟩
  · exact ⟨rfl, rfl, h.log _⟩
  · exact ⟨rfl, rfl, h.log _⟩

/-- The NEXT branch in two agreeing states. -/
theorem stmt_next_sim {V : Type} (A : Arith V) {o1 o2 : List (Out V)} {e1 e2 : List Diag}
    {s1 s2 : State V} (h : Sim o1 o2 e1 e2 s1 s2) (next : Nat) (s0 : List Char) :
    SimRes o1 o2 e1 e2 (stmt_next A s1 next s0) (stmt_next A s2 next s0) := by
  unfold stmt_next
  have hst := h.stack
  cases hs1 : s1.for_stack with
  | nil =>
    rw [hs1] at hst
    rw [← hst]
    exact ⟨rfl, rfl, h.log _⟩
  | cons f below =>
    rw [hs1] at hst
    rw [← hst]
    have hf : f.var < NUM_VARS := h.frames f (by rw [hs1]; exact List.mem_cons_self _ _)
    simp only []
    rw [h.store.1 f.var hf]
    split_ifs
    · exact ⟨rfl, rfl, h.log _⟩
    · exact ⟨rfl, rfl, h.setVar _ _⟩
    · exact ⟨rfl, rfl, (h.setVar _ _).pop f below hs1⟩

/-- Source `run_statement` in two agreeing states. -/
theorem run_statement_sim {V : Type} (A : Arith V) (program : List Line) (pc : Nat)
    (text : List Char) (next : Nat) {o1 o2 : List (Out V)} {e1 e2 : List Diag}
    {s1 s2 : State V} (h : Sim o1 o2 e1 e2 s1 s2) :
    SimRes o1 o2 e1 e2 (run_statement A program pc text next s1)
      (run_statement A program pc text next s2) := by
  unfold run_statement
  simp only []
  split_ifs
  · exact stmt_let_sim A h next _
  · exact stmt_dim_sim A h next _
  · exact stmt_for_sim A program pc h next _
  · exact stmt_print_sim A h next _
  · exact stmt_goto_sim program h next _
  · exact stmt_if_sim A program h next _
  · exact ⟨rfl, rfl, h⟩
  · exact stmt_next_sim A h next _
  · exact stmt_assign_sim A h next text _

/-- The run loop in two agreeing states. -/
theorem run_loop_sim {V : Type} (A : Arith V) (program : List Line) (o1 o2 : List (Out V))
    (e1 e2 : List Diag) : ∀ (n pc : Nat) (s1 s2 : State V), Sim o1 o2 e1 e2 s1 s2 →
      (run_loop A program n pc s1).1 = (run_loop A program n pc s2).1 ∧
      Sim o1 o2 e1 e2 (run_loop A program n pc s1).2 (run_loop A program n pc s2).2 := by
  intro n
  induction n with
  | zero =>
    intro pc s1 s2 h
    unfold run_loop
    cases program[pc]? <;> exact ⟨rfl, h⟩
  | succ n ih =>
    intro pc s1 s2 h
    unfold run_loop
    cases hl : program[pc]? with
    | none => exact ⟨rfl, h⟩
    | some line =>
      obtain ⟨hrc, hnx, hst⟩ := run_statement_sim A program pc line.text (pc + 1) h
      simp only []
      rw [hrc, hnx]
      split_ifs
      · exact ⟨rfl, hst⟩
      · exact ⟨rfl, hst⟩
      · exact ih _ _ _ hst

/-- After the reset two states agree, whatever they were. -/
theorem reset_sim {V : Type} (A : Arith V) (s1 s2 : State V) :
    Sim s1.out s2.out s1.err s2.err (reset A s1) (reset A s2) := by
  refine ⟨⟨?_, ?_⟩, rfl, ?_, ⟨[], by simp [reset], by simp [reset]⟩,
    ⟨[], by simp [reset], by simp [reset]⟩⟩
  · intro i hi
    simp [reset, hi]
  · intro i hi
    simp [reset, hi]
  · intro f hf
    simp [reset] at hf

/-- Source `run_program` from two states. -/
theorem run_program_sim {V : Type} (A : Arith V) (program : List Line) (fuel : Nat)
    (s1 s2 : State V) :
    (run_program A program fuel s1).1 = (run_program A program fuel s2).1 ∧
    Sim s1.out s2.out s1.err s2.err (run_program A program fuel s1).2
      (run_program A program fuel s2).2 := by
  unfold run_program
  by_cases hp : program.length = 0
  · rw [if_pos hp, if_pos hp]
    exact ⟨rfl, reset_sim A s1 s2⟩
  · rw [if_neg hp, if_neg hp]
    exact run_loop_sim A program _ _ _ _ fuel 0 _ _ (reset_sim A s1 s2)

/-- C15: for every program, every bound on the number of executed statements and
every two initial states, `run_program` halts in the same way and writes the same
lines to `stdout` (and the same messages to `stderr`) behind what each state had
written before, because it first sets the 286 scalars to 0, removes the 26 arrays
and empties the FOR stack.  Hence a second run of the same program, started in
the state the first run left, writes the same lines again and halts in the same
way. -/
theorem run_program_deterministic :
    (∀ (V : Type) (A : Arith V) (program : List Line) (fuel : Nat) (st1 st2 : State V),
      (run_program A program fuel st1).1 = (run_program A program fuel st2).1 ∧
      (∃ o, (run_program A program fuel st1).2.out = st1.out ++ o ∧
        (run_program A program fuel st2).2.out = st2.out ++ o) ∧
      (∃ e, (run_program A program fuel st1).2.err = st1.err ++ e ∧
        (run_program A program fuel st2).2.err = st2.err ++ e)) ∧
    (∀ (V : Type) (A : Arith V) (st : State V),
      (∀ i, i < NUM_VARS → (reset A st).vars i = A.ofRat 0) ∧
      (∀ i, i < 26 → (reset A st).arrays i = none) ∧
      (reset A st).for_stack = [] ∧ (reset A st).out = st.out ∧ (reset A st).err = st.err) ∧
    NUM_VARS = 286 ∧
    (∀ (V : Type) (A : Arith V) (program : List Line) (fuel : Nat) (st : State V),
      (run_program A program fuel (run_program A program fuel st).2).1 =
        (run_program A program fuel st).1 ∧
      ∃ o, (run_program A program fuel st).2.out = st.out ++ o ∧
        (run_program A program fuel (run_program A program fuel st).2).2.out =
          (st.out ++ o) ++ o) := by
  refine ⟨?_, ?_, rfl, ?_⟩
  · intro V A program fuel st1 st2
    obtain ⟨h1, h2⟩ := run_program_sim A program fuel st1 st2
    exact ⟨h1, h2.out, h2.err⟩
  · intro V A st
    refine ⟨?_, ?_, rfl, rfl, rfl⟩
    · intro i hi
      simp [reset, hi]
    · intro i hi
      simp [reset, hi]
  · intro V A program fuel st
    obtain ⟨h1, h2⟩ := run_program_sim A program fuel (run_program A program fuel st).2 st
    obtain ⟨o, ha, hb⟩ := h2.out
    refine ⟨h1, o, hb, ?_⟩
    rw [ha, hb]

/-- Witness of C15: the counting program from the states `stLoop` and `stZero`. -/
theorem run_program_deterministic_witness :
    (run_program exact (progCount 1 3) 8 stLoop).1 =
      (run_program exact (progCount 1 3) 8 stZero).1 ∧
    (∃ o, (run_program exact (progCount 1 3) 8 stLoop).2.out = stLoop.out ++ o ∧
      (run_program exact (progCount 1 3) 8 stZero).2.out = stZero.out ++ o) ∧
    (reset exact stLoop).vars 8 = exact.ofRat 0 ∧
    (run_program exact (progCount 1 3) 8 stLoop).2.out = [Out.num 1, Out.num 2, Out.num 3] :=
  ⟨(run_program_deterministic.1 ℚ exact (progCount 1 3) 8 stLoop stZero).1,
    (run_program_deterministic.1 ℚ exact (progCount 1 3) 8 stLoop stZero).2.1,
    (run_program_deterministic.2.1 ℚ exact stLoop).1 8 (by decide), by decide!⟩

/-! ## The assignment without keyword and LET -/

/-- The loop of `parse_expr` leaves the cursor on a character that is not white
space. -/
theorem parse_expr_loopF_cursor {V : Type} (A : Arith V) (st : State V) :
    ∀ (n : Nat) (v : V) (s : List Char) (d : List Diag) (r : V × List Char × List Diag),
      parse_expr_loopF A st n v s d = some r → isspace (peek r.2.1) = false := by
  intro n
  induction n with
  | zero =>
    intro v s d r h
    simp only [parse_expr_loopF] at h
    cases h
  | succ n ih =>
    intro v s d r h
    simp only [parse_expr_loopF] at h
    by_cases h1 : peek (skip_spaces s) = '+'
    · rw [if_pos h1] at h
      generalize hp : parse_termF A st n ((skip_spaces s).drop 1) = o at h
      cases o with
      | none => cases h
      | some p => exact ih _ _ _ _ h
    · rw [if_neg h1] at h
      by_cases h2 : peek (skip_spaces s) = '-'
      · rw [if_pos h2] at h
        generalize hp : parse_termF A st n ((skip_spaces s).drop 1) = o at h
        cases o with
        | none => cases h
        | some p => exact ih _ _ _ _ h
      · rw [if_neg h2] at h
        cases h
        exact isspace_peek_skip_spaces s

/-- Source `parse_expr` leaves the cursor behind the white space that follows the
expression. -/
theorem parse_expr_cursor {V : Type} (A : Arith V) (st : State V) (s : List Char) :
    skip_spaces (parse_expr A st s).2.1 = (parse_expr A st s).2.1 := by
  apply skip_spaces_of_not_space
  have h := parse_exprF_budget A st s
  have hb : budget s = (4 * s.length + 3) + 1 := rfl
  rw [hb] at h
  simp only [parse_exprF] at h
  generalize hp : parse_termF A st (4 * s.length + 3) s = o at h
  cases o with
  | none => cases h
  | some p => exact parse_expr_loopF_cursor A st _ _ _ _ _ h

/-- The character behind white space and a token that is not a digit is not a
digit. -/
theorem not_digit_tok {ws : List Char} {c : Char} (t : List Char) (hws : Blank ws)
    (hc : isdigit c = false) : isdigit (peek (ws ++ c :: t)) = false := by
  cases ws with
  | nil => simpa [peek] using hc
  | cons a u =>
    have ha : isspace a = true := hws a (List.mem_cons_self _ _)
    simp only [List.cons_append, peek, List.headD_cons]
    simp only [isspace, isdigit, Bool.or_eq_true, Bool.and_eq_true, beq_iff_eq,
      decide_eq_true_eq, Bool.and_eq_false_iff, decide_eq_false_iff_not] at ha ⊢
    omega

/-- The character behind white space and a token that is not a letter is not a
letter. -/
theorem not_alpha_tok {ws : List Char} {c : Char} (t : List Char) (hws : Blank ws)
    (hc : isalpha c = false) : isalpha (peek (ws ++ c :: t)) = false := by
  cases ws with
  | nil => simpa [peek] using hc
  | cons a u =>
    have ha : isspace a = true := hws a (List.mem_cons_self _ _)
    simp only [List.cons_append, peek, List.headD_cons]
    simp only [isspace, isalpha, Bool.or_eq_true, Bool.and_eq_true, beq_iff_eq,
      decide_eq_true_eq, Bool.or_eq_false_iff, Bool.and_eq_false_iff,
      decide_eq_false_iff_not] at ha ⊢
    omega

/-- Source `parse_var_name` on a name followed by white space and `=`. -/
theorem parse_var_name_eq {letter : Char} {digit : Option Char} {ws1 : List Char}
    (rest : List Char) (hl : isalpha letter = true) (hd : ∀ d ∈ digit, isdigit d = true)
    (h1 : Blank ws1) :
    parse_var_name (letter :: (digit.toList ++ (ws1 ++ '=' :: rest))) =
      some (slot letter digit, ws1 ++ '=' :: rest) := by
  have := parse_var_name_render (ws1 ++ '=' :: rest) hl hd (not_digit_tok _ h1 (by decide))
  simpa using this

/-- The second character of a name followed by white space and `=` is not a
letter. -/
theorem name_second_not_alpha {letter : Char} {digit : Option Char} {ws1 : List Char}
    (rest : List Char) (hd : ∀ d ∈ digit, isdigit d = true) (h1 : Blank ws1) :
    isalpha (at_ (letter :: (digit.toList ++ (ws1 ++ '=' :: rest))) 1) = false := by
  cases digit with
  | none => exact not_alpha_tok _ h1 (by decide)
  | some d => exact (isdigit_facts (Or.inl (hd d rfl))).2.1

/-- The bare-assignment branch on `name = ...`: the variable gets the value that
`parse_expr` reads behind the `=`. -/
theorem stmt_assign_scalar {V : Type} (A : Arith V) (st : State V) (next : Nat)
    (text : List Char) (letter : Char) (digit : Option Char) (ws1 rest : List Char)
    (hl : isalpha letter = true) (hd : ∀ d ∈ digit, isdigit d = true) (h1 : Blank ws1) :
    stmt_assign A st next text (letter :: (digit.toList ++ (ws1 ++ '=' :: rest))) =
      ⟨1, next, (st.log (parse_expr A st rest).2.2).setVar (slot letter digit)
        (parse_expr A st rest).1⟩ := by
  unfold stmt_assign
  simp only [peek, List.headD_cons, hl, if_true, parse_var_name_eq rest hl hd h1,
    skip_spaces_tok h1 (by decide : isspace '=' = false), List.drop_succ_cons, List.drop_zero]
  rw [if_neg (by decide)]

/-- The LET branch on `name = ...`: the same assignment. -/
theorem stmt_let_scalar {V : Type} (A : Arith V) (st : State V) (next : Nat)
    (ws0 : List Char) (letter : Char) (digit : Option Char) (ws1 rest : List Char)
    (h0 : Blank ws0) (hl : isalpha letter = true) (hd : ∀ d ∈ digit, isdigit d = true)
    (h1 : Blank ws1) :
    stmt_let A st next (ws0 ++ letter :: (digit.toList ++ (ws1 ++ '=' :: rest))) =
      ⟨1, next, (st.log (parse_expr A st rest).2.2).setVar (slot letter digit)
        (parse_expr A st rest).1⟩ := by
  obtain ⟨hsp, -⟩ := isalpha_facts hl
  unfold stmt_let
  rw [skip_spaces_tok h0 hsp]
  have he : eat '=' ('=' :: rest) = rest := by simp [eat, peek]
  simp only [peek, List.headD_cons, hl, if_true, parse_var_name_eq rest hl hd h1,
    skip_spaces_tok h1 (by decide : isspace '=' = false)]
  rw [if_neg (by decide), he]

/-- The bare-assignment branch on `L( ...` when `=` follows the index expression
and the optional `)`: the array assignment with what `parse_expr` reads. -/
theorem stmt_assign_array_gen {V : Type} (A : Arith V) (st : State V) (next : Nat)
    (text : List Char) (letter : Char) (ws1 u : List Char)
    (hl : isalpha letter = true) (h1 : Blank ws1)
    (hq : peek (skip_spaces (eat ')' (parse_expr A st u).2.1)) = '=') :
    stmt_assign A st next text (letter :: (ws1 ++ '(' :: u)) =
      array_store
        (st.log ((parse_expr A st u).2.2 ++
          (parse_expr A st ((skip_spaces (eat ')' (parse_expr A st u).2.1)).drop 1)).2.2))
        next (slot letter none) (A.toInt (parse_expr A st u).1)
        (parse_expr A st ((skip_spaces (eat ')' (parse_expr A st u).2.1)).drop 1)).1 := by
  have hlt : ¬ 26 ≤ slot letter none := by
    have := slot_letter_lt hl
    omega
  unfold stmt_assign
  simp only [peek, List.headD_cons, hl, if_true, parse_var_name_paren _ hl h1,
    skip_spaces_tok h1 (by decide : isspace '(' = false), hlt, if_false,
    List.drop_succ_cons, List.drop_zero]
  exact if_pos hq

/-- The LET branch on `L( ...` when `=` follows the index expression and the
optional `)`: the same array assignment. -/
theorem stmt_let_array_gen {V : Type} (A : Arith V) (st : State V) (next : Nat)
    (ws0 : List Char) (letter : Char) (ws1 u : List Char) (h0 : Blank ws0)
    (hl : isalpha letter = true) (h1 : Blank ws1)
    (hq : peek (skip_spaces (eat ')' (parse_expr A st u).2.1)) = '=') :
    stmt_let A st next (ws0 ++ letter :: (ws1 ++ '(' :: u)) =
      array_store
        (st.log ((parse_expr A st u).2.2 ++
          (parse_expr A st ((skip_spaces (eat ')' (parse_expr A st u).2.1)).drop 1)).2.2))
        next (slot letter none) (A.toInt (parse_expr A st u).1)
        (parse_expr A st ((skip_spaces (eat ')' (parse_expr A st u).2.1)).drop 1)).1 := by
  obtain ⟨hsp, -⟩ := isalpha_facts hl
  have hlt : ¬ 26 ≤ slot letter none := by
    have := slot_letter_lt hl
    omega
  have he : eat '=' (skip_spaces (eat ')' (parse_expr A st u).2.1)) =
      (skip_spaces (eat ')' (parse_expr A st u).2.1)).drop 1 := by
    unfold eat at hq ⊢
    rw [if_pos hq]
  unfold stmt_let
  rw [skip_spaces_tok h0 hsp]
  simp only [peek, List.headD_cons, hl, if_true, parse_var_name_paren _ hl h1,
    skip_spaces_tok h1 (by decide : isspace '(' = false), hlt, if_false,
    List.drop_succ_cons, List.drop_zero, parse_expr_cursor, he]

/-! ## Reads of a name with a digit and a subscript; array assignments on every text -/

/-- Source `parse_expr` on a name with a digit followed by `(`: the message, the
value 0, and the cursor left in front of the parenthesis. -/
theorem parse_expr_digit {V : Type} (A : Arith V) (st : State V) (ws : List Char)
    (letter digit : Char) (ws1 t : List Char) (hws : Blank ws) (hl : isalpha letter = true)
    (hd : isdigit digit = true) (h1 : Blank ws1) :
    parse_expr A st (ws ++ letter :: digit :: (ws1 ++ '(' :: t)) =
      (A.ofRat 0, '(' :: t, [Diag.arraysOnlyAZ]) := by
  obtain ⟨hsp, -, h3, h4, h5, -, -⟩ := isalpha_facts hl
  obtain ⟨hv, h26⟩ := parse_var_name_digit (ws1 ++ '(' :: t) hl hd
  have hsk : skip_spaces ('(' :: t) = '(' :: t :=
    skip_spaces_of_not_space (by show isspace '(' = false; decide)
  have hF : parse_factorF A st 1 (ws ++ letter :: digit :: (ws1 ++ '(' :: t)) =
      some (A.ofRat 0, '(' :: t, [Diag.arraysOnlyAZ]) := by
    rw [parse_factorF]
    simp only [skip_spaces_tok hws hsp, peek, List.headD_cons, h3, h4, h5, or_self, if_false,
      hl, if_true, hv, skip_spaces_tok h1 (by decide : isspace '(' = false), h26]
  have hT : parse_termF A st 2 (ws ++ letter :: digit :: (ws1 ++ '(' :: t)) =
      some (A.ofRat 0, '(' :: t, [Diag.arraysOnlyAZ]) := by
    simp only [parse_termF, hF, parse_term_loopF, hsk, peek, List.headD_cons]
    rw [if_neg (by decide), if_neg (by decide)]
  have hE : parse_exprF A st 3 (ws ++ letter :: digit :: (ws1 ++ '(' :: t)) =
      some (A.ofRat 0, '(' :: t, [Diag.arraysOnlyAZ]) := by
    simp only [parse_exprF, hT, parse_expr_loopF, hsk, peek, List.headD_cons]
    rw [if_neg (by decide), if_neg (by decide)]
  exact parse_expr_of_F A st hE

/-- The statement `PRINT` of a name with a digit followed by `(`: the read does
not fail; the message is written, 0 is printed and the statement returns 1. -/
theorem run_print_digit {V : Type} (A : Arith V) (program : List Line) (pc next : Nat)
    (st : State V) (ws : List Char) (letter digit : Char) (ws1 t : List Char)
    (hws : Blank ws) (hl : isalpha letter = true) (hd : isdigit digit = true)
    (h1 : Blank ws1) :
    run_statement A program pc
        ('P' :: 'R' :: 'I' :: 'N' :: 'T' :: ' ' :: (ws ++ letter :: digit :: (ws1 ++ '(' :: t)))
        next st =
      ⟨1, next, { st.log [Diag.arraysOnlyAZ] with out := st.out ++ [Out.num (A.ofRat 0)] }⟩ := by
  obtain ⟨hsp, -⟩ := isalpha_facts hl
  have hs : skip_spaces ('P' :: 'R' :: 'I' :: 'N' :: 'T' :: ' ' ::
      (ws ++ letter :: digit :: (ws1 ++ '(' :: t))) =
      'P' :: 'R' :: 'I' :: 'N' :: 'T' :: ' ' :: (ws ++ letter :: digit :: (ws1 ++ '(' :: t)) :=
    skip_spaces_of_not_space (by show isspace 'P' = false; decide)
  have e1 : isLetText ('P' :: 'R' :: 'I' :: 'N' :: 'T' :: ' ' ::
      (ws ++ letter :: digit :: (ws1 ++ '(' :: t))) = false := by
    simp [isLetText, strncasecmp_eq]
    intro h
    exact absurd h (by decide)
  have e2 : isDimText ('P' :: 'R' :: 'I' :: 'N' :: 'T' :: ' ' ::
      (ws ++ letter :: digit :: (ws1 ++ '(' :: t))) = false := by
    simp [isDimText, strncasecmp_eq]
    intro h
    exact absurd h (by decide)
  have e3 : isForText ('P' :: 'R' :: 'I' :: 'N' :: 'T' :: ' ' ::
      (ws ++ letter :: digit :: (ws1 ++ '(' :: t))) = false := by
    simp [isForText, strncasecmp_eq]
    intro h
    exact absurd h (by decide)
  have e4 : isPrintText ('P' :: 'R' :: 'I' :: 'N' :: 'T' :: ' ' ::
      (ws ++ letter :: digit :: (ws1 ++ '(' :: t))) = true := by
    simp [isPrintText, strncasecmp_eq, at_, peek]
    decide
  have hblank : Blank (' ' :: ws) := by
    intro c hc
    rcases List.mem_cons.1 hc with rfl | hc
    · decide
    · exact hws c hc
  have hsk2 : skip_spaces (' ' :: (ws ++ letter :: digit :: (ws1 ++ '(' :: t))) =
      letter :: digit :: (ws1 ++ '(' :: t) := by
    have : skip_spaces ((' ' :: ws) ++ letter :: digit :: (ws1 ++ '(' :: t)) =
        letter :: digit :: (ws1 ++ '(' :: t) := skip_spaces_tok hblank hsp
    simpa using this
  have hq : ¬ (letter = Char.ofNat 34 ∨ letter = Char.ofNat 39) := by
    rintro (rfl | rfl) <;> exact absurd hl (by decide)
  have hp := parse_expr_digit A st [] letter digit ws1 t (by intro c hc; cases hc) hl hd h1
  rw [List.nil_append] at hp
  unfold run_statement
  simp only [hs, e1, e2, e3, e4, if_true, Bool.false_eq_true, if_false, List.drop_succ_cons,
    List.drop_zero]
  unfold stmt_print
  simp only [hsk2, peek, List.headD_cons, hq, if_false, hp]

/-- The statement `FOR` whose start expression is a name with a digit followed
by `(`: the read leaves the cursor in front of the parenthesis, TO is not found
there, and the statement returns -1. -/
theorem run_for_digit {V : Type} (A : Arith V) (program : List Line) (pc next : Nat)
    (st : State V) (ws0 : List Char) (name : Char) (nd : Option Char) (wsn ws : List Char)
    (letter digit : Char) (ws1 t : List Char)
    (h0 : Blank ws0) (hne : ws0 ≠ []) (hn : isalpha name = true)
    (hnd : ∀ d ∈ nd, isdigit d = true) (hwsn : Blank wsn) (hws : Blank ws)
    (hl : isalpha letter = true) (hd : isdigit digit = true) (h1 : Blank ws1) :
    run_statement A program pc
        ('F' :: 'O' :: 'R' :: (ws0 ++ name :: (nd.toList ++ (wsn ++ '=' ::
          (ws ++ letter :: digit :: (ws1 ++ '(' :: t)))))) next st =
      ⟨-1, next, st.log [Diag.arraysOnlyAZ, Diag.missingTo]⟩ := by
  obtain ⟨a, u, rfl⟩ := List.exists_cons_of_ne_nil hne
  have ha : isspace a = true := h0 a (List.mem_cons_self _ _)
  obtain ⟨hsp, -⟩ := isalpha_facts hn
  have hs : skip_spaces ('F' :: 'O' :: 'R' :: (a :: u ++ name :: (nd.toList ++ (wsn ++ '=' ::
      (ws ++ letter :: digit :: (ws1 ++ '(' :: t)))))) =
      'F' :: 'O' :: 'R' :: (a :: u ++ name :: (nd.toList ++ (wsn ++ '=' ::
        (ws ++ letter :: digit :: (ws1 ++ '(' :: t))))) :=
    skip_spaces_of_not_space (by show isspace 'F' = false; decide)
  have hF : isForText ('F' :: 'O' :: 'R' :: (a :: u ++ name :: (nd.toList ++ (wsn ++ '=' ::
      (ws ++ letter :: digit :: (ws1 ++ '(' :: t)))))) = true := by
    simp [isForText, strncasecmp_eq, toupper, at_, peek, ha]
  rw [run_statement_for A program pc _ next st (by rw [hs]; exact hF), hs]
  have hv := parse_var_name_eq (ws ++ letter :: digit :: (ws1 ++ '(' :: t)) hn hnd hwsn
  have hx : eat '=' (skip_spaces (wsn ++ '=' :: (ws ++ letter :: digit :: (ws1 ++ '(' :: t)))) =
      ws ++ letter :: digit :: (ws1 ++ '(' :: t) := by
    rw [skip_spaces_tok hwsn (by decide : isspace '=' = false)]
    simp [eat, peek]
  have hp := parse_expr_digit A st ws letter digit ws1 t hws hl hd h1
  have hsk : skip_spaces ('(' :: t) = '(' :: t :=
    skip_spaces_of_not_space (by show isspace '(' = false; decide)
  have hto : strncasecmp_eq ('(' :: t) ['T', 'O'] = false := by
    simp only [strncasecmp_eq, List.length_cons, List.length_nil, List.take_succ_cons,
      List.map_cons]
    rw [beq_eq_false_iff_ne]
    intro h
    injection h with h1 _
    exact absurd h1 (by decide)
  have hh : for_header A st (a :: u ++ name :: (nd.toList ++ (wsn ++ '=' ::
      (ws ++ letter :: digit :: (ws1 ++ '(' :: t))))) =
      .error [Diag.arraysOnlyAZ, Diag.missingTo] := by
    unfold for_header
    rw [skip_spaces_tok h0 hsp]
    simp only [peek, List.headD_cons, hn, Bool.not_true, Bool.false_eq_true, if_false, hv, hx,
      hp, hsk]
    unfold for_limit
    simp only [hto, Bool.not_false, if_true]
    rfl
  unfold stmt_for
  simp only [List.drop_succ_cons, List.drop_zero, hh]

/-- The LET branch on `L( ...` for every text behind the parenthesis: the array
assignment with the index that `parse_expr` reads there and the value that
`parse_expr` reads behind the optional `)` and the optional `=`. -/
theorem stmt_let_array_all {V : Type} (A : Arith V) (st : State V) (next : Nat)
    (ws0 : List Char) (letter : Char) (ws1 u : List Char) (h0 : Blank ws0)
    (hl : isalpha letter = true) (h1 : Blank ws1) :
    stmt_let A st next (ws0 ++ letter :: (ws1 ++ '(' :: u)) =
      array_store
        (st.log ((parse_expr A st u).2.2 ++
          (parse_expr A st (eat '=' (skip_spaces (eat ')' (parse_expr A st u).2.1)))).2.2))
        next (slot letter none) (A.toInt (parse_expr A st u).1)
        (parse_expr A st (eat '=' (skip_spaces (eat ')' (parse_expr A st u).2.1)))).1 := by
  obtain ⟨hsp, -⟩ := isalpha_facts hl
  have hlt : ¬ 26 ≤ slot letter none := by
    have := slot_letter_lt hl
    omega
  unfold stmt_let
  rw [skip_spaces_tok h0 hsp]
  simp only [peek, List.headD_cons, hl, if_true, parse_var_name_paren _ hl h1,
    skip_spaces_tok h1 (by decide : isspace '(' = false), hlt, if_false,
    List.drop_succ_cons, List.drop_zero, parse_expr_cursor]

/-- The bare-assignment branch on `L( ...` for every text behind the
parenthesis: the array assignment when `=` is under the cursor behind the index
expression and the optional `)`, and `Unknown statement` otherwise. -/
theorem stmt_assign_array_all {V : Type} (A : Arith V) (st : State V) (next : Nat)
    (text : List Char) (letter : Char) (ws1 u : List Char)
    (hl : isalpha letter = true) (h1 : Blank ws1) :
    stmt_assign A st next text (letter :: (ws1 ++ '(' :: u)) =
      if peek (skip_spaces (eat ')' (parse_expr A st u).2.1)) = '=' then
        array_store
          (st.log ((parse_expr A st u).2.2 ++
            (parse_expr A st ((skip_spaces (eat ')' (parse_expr A st u).2.1)).drop 1)).2.2))
          next (slot letter none) (A.toInt (parse_expr A st u).1)
          (parse_expr A st ((skip_spaces (eat ')' (parse_expr A st u).2.1)).drop 1)).1
      else ⟨-1, next, st.log ((parse_expr A st u).2.2 ++ [Diag.unknownStatement text])⟩ := by
  have hlt : ¬ 26 ≤ slot letter none := by
    have := slot_letter_lt hl
    omega
  unfold stmt_assign
  simp only [peek, List.headD_cons, hl, if_true, parse_var_name_paren _ hl h1,
    skip_spaces_tok h1 (by decide : isspace '(' = false), hlt, if_false,
    List.drop_succ_cons, List.drop_zero]

/-- White space followed by white space is white space. -/
theorem blank_append {ws0 ws : List Char} (h0 : Blank ws0) (h : Blank ws) :
    Blank (ws0 ++ ws) := by
  intro c hc
  rcases List.mem_append.1 hc with hc | hc
  · exact h0 c hc
  · exact h c hc

/-- A statement `LET` followed by white space and `body` is executed by the LET
branch on the white space and `body`. -/
theorem run_let_body {V : Type} (A : Arith V) (program : List Line) (pc next : Nat)
    (st : State V) (ws0 body : List Char) (h0 : Blank ws0) (hne : ws0 ≠ []) :
    run_statement A program pc (letText ws0 body) next st =
      stmt_let A st next (ws0 ++ body) := by
  have hnil : Blank ([] : List Char) := by intro c hc; cases hc
  obtain ⟨hs, hi, hd⟩ := isLetText_letText [] ws0 body hnil h0 hne
  rw [List.nil_append] at hs
  rw [run_statement_let A program pc _ next st (by rw [hs]; exact hi), hs, hd]

/-- A statement that starts with a letter followed by a character that is not a
letter is executed by the bare-assignment branch. -/
theorem run_bare_body {V : Type} (A : Arith V) (program : List Line) (pc next : Nat)
    (st : State V) (ws : List Char) (letter : Char) (x : List Char) (h : Blank ws)
    (hl : isalpha letter = true) (hx : isalpha (at_ (letter :: x) 1) = false) :
    run_statement A program pc (ws ++ letter :: x) next st =
      stmt_assign A st next (ws ++ letter :: x) (letter :: x) := by
  obtain ⟨hsp, -⟩ := isalpha_facts hl
  have hs : skip_spaces (ws ++ letter :: x) = letter :: x := skip_spaces_tok h hsp
  rw [run_statement_assign A program pc _ next st (by rw [hs]; exact hx), hs]

/-! ## Assignment without keyword and LET -/

/-- C21 (the code departs from it where `=` is not found behind the index, as in
`A(B1(0)) = 5`): how the assignment without keyword compares with LET.  For a
text `t`
of the form `name = ...` (a letter with an optional digit, white space, `=`,
then any text) executing `t` and executing `LET`, white space and `t` give the
same result: the variable is set to the value read behind `=`.  For a text of
the form `L( ...` the LET statement is the array assignment with the index read
behind the parenthesis and the value read behind the optional `)` and the
optional `=`; when `=` is under the cursor behind the index and the optional `)`
the statement without keyword gives the same result (the cell is written, or -1
with the state unchanged), and when it is not, the statement without keyword is
an unknown statement (-1) whatever LET does.  In particular `L(e1) = e2` with
expressions of the grammar gives the same result in both forms, and so does a
name with a digit in front of `(`, which gives -1.  Without the `=` the two
differ: `A 5` is an unknown statement, `LET A 5` assigns. -/
theorem bare_assignment_mirrors_let :
    (∀ (V : Type) (A : Arith V) (program : List Line) (pc next : Nat) (st : State V)
      (ws ws0 : List Char) (letter : Char) (digit : Option Char) (ws1 rest : List Char),
      Blank ws → Blank ws0 → ws0 ≠ [] → isalpha letter = true →
      (∀ d ∈ digit, isdigit d = true) → Blank ws1 →
      run_statement A program pc
          (ws ++ letter :: (digit.toList ++ (ws1 ++ '=' :: rest))) next st =
        ⟨1, next, (st.log (parse_expr A st rest).2.2).setVar (slot letter digit)
          (parse_expr A st rest).1⟩ ∧
      run_statement A program pc
          (letText ws0 (ws ++ letter :: (digit.toList ++ (ws1 ++ '=' :: rest)))) next st =
        run_statement A program pc
          (ws ++ letter :: (digit.toList ++ (ws1 ++ '=' :: rest))) next st) ∧
    (∀ (V : Type) (A : Arith V) (program : List Line) (pc next : Nat) (st : State V)
      (ws ws0 : List Char) (letter : Char) (ws1 u : List Char),
      Blank ws → Blank ws0 → ws0 ≠ [] → isalpha letter = true → Blank ws1 →
      run_statement A program pc (letText ws0 (ws ++ letter :: (ws1 ++ '(' :: u))) next st =
        array_store
          (st.log ((parse_expr A st u).2.2 ++
            (parse_expr A st (eat '=' (skip_spaces (eat ')' (parse_expr A st u).2.1)))).2.2))
          next (slot letter none) (A.toInt (parse_expr A st u).1)
          (parse_expr A st (eat '=' (skip_spaces (eat ')' (parse_expr A st u).2.1)))).1 ∧
      (peek (skip_spaces (eat ')' (parse_expr A st u).2.1)) = '=' →
        run_statement A program pc (ws ++ letter :: (ws1 ++ '(' :: u)) next st =
          run_statement A program pc (letText ws0 (ws ++ letter :: (ws1 ++ '(' :: u)))
            next st) ∧
      (peek (skip_spaces (eat ')' (parse_expr A st u).2.1)) ≠ '=' →
        run_statement A program pc (ws ++ letter :: (ws1 ++ '(' :: u)) next st =
          ⟨-1, next, st.log ((parse_expr A st u).2.2 ++
            [Diag.unknownStatement (ws ++ letter :: (ws1 ++ '(' :: u))])⟩)) ∧
    (∀ (V : Type) (A : Arith V) (program : List Line) (pc next : Nat) (st : State V)
      (ws ws0 : List Char) (letter : Char) (ws1 : List Char) (e1 : Expr)
      (ws2 ws3 : List Char) (e2 : Expr) (rest : List Char),
      Blank ws → Blank ws0 → ws0 ≠ [] → isalpha letter = true → Blank ws1 → e1.WF →
      Blank ws2 → Blank ws3 → e2.WF → FollowE rest →
      run_statement A program pc
          (ws ++ arrayAssignText letter ws1 e1 ws2 ws3 e2 rest) next st =
        array_store st next (slot letter none) (A.toInt (e1.eval A st)) (e2.eval A st) ∧
      run_statement A program pc
          (letText ws0 (ws ++ arrayAssignText letter ws1 e1 ws2 ws3 e2 rest)) next st =
        run_statement A program pc
          (ws ++ arrayAssignText letter ws1 e1 ws2 ws3 e2 rest) next st) ∧
    (∀ (V : Type) (A : Arith V) (program : List Line) (pc next : Nat) (st : State V)
      (ws ws0 : List Char) (letter digit : Char) (ws1 u : List Char),
      Blank ws → Blank ws0 → ws0 ≠ [] → isalpha letter = true → isdigit digit = true →
      Blank ws1 →
      run_statement A program pc (ws ++ letter :: digit :: (ws1 ++ '(' :: u)) next st =
        ⟨-1, next, st.log [Diag.arraysOnlyAZ]⟩ ∧
      run_statement A program pc
          (letText ws0 (ws ++ letter :: digit :: (ws1 ++ '(' :: u))) next st =
        run_statement A program pc (ws ++ letter :: digit :: (ws1 ++ '(' :: u)) next st) ∧
    ((run_statement exact [] 0 "A 5".toList 1 stZero).rc = -1 ∧
      (run_statement exact [] 0 "LET A 5".toList 1 stZero).rc = 1 ∧
      (run_statement exact [] 0 "LET A 5".toList 1 stZero).st.vars 0 = 5) ∧
    ((run_program exact (mkProgram [(10, "A=5"), (20, "PRINT A"), (30, "END")])
        10 stZero).2.out = [Out.num 5] ∧
      (run_program exact (mkProgram [(10, "LET A=5"), (20, "PRINT A"), (30, "END")])
        10 stZero).2.out = [Out.num 5]) := by
  refine ⟨?_, ?_, ?_, ?_, ?_, ?_⟩
  · intro V A program pc next st ws ws0 letter digit ws1 rest h h0 hne hl hd h1
    have hb : run_statement A program pc
        (ws ++ letter :: (digit.toList ++ (ws1 ++ '=' :: rest))) next st =
        ⟨1, next, (st.log (parse_expr A st rest).2.2).setVar (slot letter digit)
          (parse_expr A st rest).1⟩ := by
      rw [run_bare_body A program pc next st ws letter _ h hl
        (name_second_not_alpha rest hd h1)]
      exact stmt_assign_scalar A st next _ letter digit ws1 rest hl hd h1
    refine ⟨hb, ?_⟩
    rw [hb, run_let_body A program pc next st ws0 _ h0 hne, ← List.append_assoc]
    exact stmt_let_scalar A st next (ws0 ++ ws) letter digit ws1 rest (blank_append h0 h)
      hl hd h1
  · intro V A program pc next st ws ws0 letter ws1 u h h0 hne hl h1
    have hlet : run_statement A program pc (letText ws0 (ws ++ letter :: (ws1 ++ '(' :: u)))
        next st =
        array_store
          (st.log ((parse_expr A st u).2.2 ++
            (parse_expr A st (eat '=' (skip_spaces (eat ')' (parse_expr A st u).2.1)))).2.2))
          next (slot letter none) (A.toInt (parse_expr A st u).1)
          (parse_expr A st (eat '=' (skip_spaces (eat ')' (parse_expr A st u).2.1)))).1 := by
      rw [run_let_body A program pc next st ws0 _ h0 hne, ← List.append_assoc]
      exact stmt_let_array_all A st next (ws0 ++ ws) letter ws1 u (blank_append h0 h) hl h1
    have hbare := stmt_assign_array_all A st next (ws ++ letter :: (ws1 ++ '(' :: u)) letter
      ws1 u hl h1
    rw [← run_bare_body A program pc next st ws letter _ h hl (not_alpha_paren _ h1)] at hbare
    refine ⟨hlet, ?_, ?_⟩
    · intro hq
      have he : eat '=' (skip_spaces (eat ')' (parse_expr A st u).2.1)) =
          (skip_spaces (eat ')' (parse_expr A st u).2.1)).drop 1 := by
        unfold eat at hq ⊢
        rw [if_pos hq]
      rw [hlet, hbare, if_pos hq, he]
    · intro hq
      rw [hbare, if_neg hq]
  · intro V A program pc next st ws ws0 letter ws1 e1 ws2 ws3 e2 rest h h0 hne hl h1 he1 h2 h3
      he2 hr
    have hb := run_bare_array A program pc next st ws letter ws1 e1 ws2 ws3 e2 rest h hl h1
      he1 h2 h3 he2 hr
    refine ⟨hb, ?_⟩
    rw [hb, run_let_body A program pc next st ws0 _ h0 hne, ← List.append_assoc]
    exact stmt_let_array A st next (ws0 ++ ws) letter ws1 e1 ws2 ws3 e2 rest
      (blank_append h0 h) hl h1 he1 h2 h3 he2 hr
  · intro V A program pc next st ws ws0 letter digit ws1 u h h0 hne hl hd h1
    have hb : run_statement A program pc (ws ++ letter :: digit :: (ws1 ++ '(' :: u)) next st =
        ⟨-1, next, st.log [Diag.arraysOnlyAZ]⟩ := by
      have hx : isalpha (at_ (letter :: digit :: (ws1 ++ '(' :: u)) 1) = false :=
        (isdigit_facts (Or.inl hd)).2.1
      rw [run_bare_body A program pc next st ws letter _ h hl hx]
      exact stmt_assign_digit A st next _ letter digit ws1 u hl hd h1
    refine ⟨hb, ?_⟩
    rw [hb, run_let_body A program pc next st ws0 _ h0 hne, ← List.append_assoc]
    exact stmt_let_digit A st next (ws0 ++ ws) letter digit ws1 u (blank_append h0 h) hl hd h1
  · decide!
  · decide!

/-- Failing input of C21: on the text `A(B1(0)) = 5`, in a state where A has four
cells, the statement without keyword returns -1 (`Unknown statement`) and the
statement `LET A(B1(0)) = 5` returns 1: after `10 DIM A(3)` and `20 LET A(0)=7`
the program with LET goes on and prints 0, the program without LET stops. -/
theorem bare_assignment_mirrors_let_counterexample :
    (run_statement exact [] 0 "A(B1(0)) = 5".toList 1 stDimA).rc = -1 ∧
    (run_statement exact [] 0 "LET A(B1(0)) = 5".toList 1 stDimA).rc = 1 ∧
    peek (skip_spaces (eat ')' (parse_expr exact stDimA "B1(0)) = 5".toList).2.1)) = '(' ∧
    (run_program exact
      (mkProgram [(10, "DIM A(3)"), (20, "LET A(0)=7"), (30, "A(B1(0)) = 5"),
        (40, "PRINT A(0)"), (50, "END")]) 10 stZero).1 = Halt.failed ∧
    (run_program exact
      (mkProgram [(10, "DIM A(3)"), (20, "LET A(0)=7"), (30, "A(B1(0)) = 5"),
        (40, "PRINT A(0)"), (50, "END")]) 10 stZero).2.out = [] ∧
    (run_program exact
      (mkProgram [(10, "DIM A(3)"), (20, "LET A(0)=7"), (30, "LET A(B1(0)) = 5"),
        (40, "PRINT A(0)"), (50, "END")]) 10 stZero).1 = Halt.ended ∧
    (run_program exact
      (mkProgram [(10, "DIM A(3)"), (20, "LET A(0)=7"), (30, "LET A(B1(0)) = 5"),
        (40, "PRINT A(0)"), (50, "END")]) 10 stZero).2.out = [Out.num 0] := by
  decide!

/-- Witness of C21: `A1 = 5` and `LET A1 = 5`, and `A(2)=5` and `LET A(2)=5`. -/
theorem bare_assignment_mirrors_let_witness :
    [] ++ 'A' :: ((some '1').toList ++ ([' '] ++ '=' :: " 5".toList)) = "A1 = 5".toList ∧
    letText [' '] ([] ++ 'A' :: ((some '1').toList ++ ([' '] ++ '=' :: " 5".toList))) =
      "LET A1 = 5".toList ∧
    run_statement exact [] 0
        (letText [' '] ([] ++ 'A' :: ((some '1').toList ++ ([' '] ++ '=' :: " 5".toList))))
        1 stZero =
      run_statement exact [] 0
        ([] ++ 'A' :: ((some '1').toList ++ ([' '] ++ '=' :: " 5".toList))) 1 stZero ∧
    (run_statement exact [] 0 "A1 = 5".toList 1 stZero).st.vars 27 = 5 ∧
    peek (skip_spaces (eat ')' (parse_expr exact stDimA "2)=5".toList).2.1)) = '=' ∧
    run_statement exact [] 0 (letText [' '] ([] ++ 'A' :: ([] ++ '(' :: "2)=5".toList)))
        1 stDimA =
      run_statement exact [] 0 ([] ++ 'A' :: ([] ++ '(' :: "2)=5".toList)) 1 stDimA ∧
    (run_statement exact [] 0 "A(2)=5".toList 1 stDimA).st.arrays 0 = some [0, 0, 5, 0] :=
  ⟨by decide, by decide,
    (bare_assignment_mirrors_let.1 ℚ exact [] 0 1 stZero [] [' '] 'A' (some '1') [' ']
      " 5".toList (by decide) (by decide) (by decide) (by decide) (by decide) (by decide)).2,
    by decide!, by decide!,
    ((bare_assignment_mirrors_let.2.1 ℚ exact [] 0 1 stDimA [] [' '] 'A' [] "2)=5".toList
      (by decide) (by decide) (by decide) (by decide) (by decide)).2.1 (by decide!)).symm,
    by decide!⟩

/-! ## Array assignment -/

/-- C11 (the code departs from it where the index expression reads a name with a
digit and a subscript, as in `A(B1(0)) = 5`): a statement `LET L(e1) = e2` and a
statement `L(e1) = e2` without keyword, with expressions of the grammar, do the
same array assignment with the
truncated value of `e1` as index and the value of `e2`.  For every text behind
`L(` the LET statement is the array assignment with the index that `parse_expr`
reads there and the value that `parse_expr` reads behind the optional `)` and
the optional `=`, and the statement without keyword is that assignment when `=`
is under the cursor there and `Unknown statement` otherwise.  The assignment
returns -1, on which the run loop stops, exactly when the letter has no array or
the index is negative or not below the size; then variables, arrays, FOR stack
and output are unchanged.  Otherwise it returns 1 and the array of the letter is
the old one with the cell at the index set to the value: that cell holds the
value, every other cell, every other array and every variable is unchanged.
After `10 DIM A(3)` the statement `20 LET A(9)=5` stops the run with an
out-of-bounds message. -/
theorem array_assign_fail_hard :
    (∀ (V : Type) (A : Arith V) (program : List Line) (pc next : Nat) (st : State V)
      (ws ws0 : List Char) (letter : Char) (ws1 : List Char) (e1 : Expr)
      (ws2 ws3 : List Char) (e2 : Expr) (rest : List Char),
      Blank ws → Blank ws0 → ws0 ≠ [] → isalpha letter = true → Blank ws1 → e1.WF →
      Blank ws2 → Blank ws3 → e2.WF → FollowE rest →
      run_statement A program pc
          (ws ++ letText ws0 (arrayAssignText letter ws1 e1 ws2 ws3 e2 rest)) next st =
        array_store st next (slot letter none) (A.toInt (e1.eval A st)) (e2.eval A st) ∧
      run_statement A program pc
          (ws ++ arrayAssignText letter ws1 e1 ws2 ws3 e2 rest) next st =
        array_store st next (slot letter none) (A.toInt (e1.eval A st)) (e2.eval A st)) ∧
    (∀ (V : Type) (A : Arith V) (program : List Line) (pc next : Nat) (st : State V)
      (ws ws0 : List Char) (letter : Char) (ws1 u : List Char),
      Blank ws → Blank ws0 → ws0 ≠ [] → isalpha letter = true → Blank ws1 →
      run_statement A program pc (ws ++ letText ws0 (letter :: (ws1 ++ '(' :: u))) next st =
        array_store
          (st.log ((parse_expr A st u).2.2 ++
            (parse_expr A st (eat '=' (skip_spaces (eat ')' (parse_expr A st u).2.1)))).2.2))
          next (slot letter none) (A.toInt (parse_expr A st u).1)
          (parse_expr A st (eat '=' (skip_spaces (eat ')' (parse_expr A st u).2.1)))).1 ∧
      run_statement A program pc (ws ++ letter :: (ws1 ++ '(' :: u)) next st =
        if peek (skip_spaces (eat ')' (parse_expr A st u).2.1)) = '=' then
          array_store
            (st.log ((parse_expr A st u).2.2 ++
              (parse_expr A st ((skip_spaces (eat ')' (parse_expr A st u).2.1)).drop 1)).2.2))
            next (slot letter none) (A.toInt (parse_expr A st u).1)
            (parse_expr A st ((skip_spaces (eat ')' (parse_expr A st u).2.1)).drop 1)).1
        else
          ⟨-1, next, st.log ((parse_expr A st u).2.2 ++
            [Diag.unknownStatement (ws ++ letter :: (ws1 ++ '(' :: u))])⟩) ∧
    (∀ (V : Type) (st : State V) (next id : Nat) (idx : Int) (val : V),
      ((array_store st next id idx val).rc = -1 ↔
        (st.arrays id = none ∨
          ∃ arr, st.arrays id = some arr ∧ (idx < 0 ∨ (arr.length : Int) ≤ idx))) ∧
      ((array_store st next id idx val).rc = -1 →
        (array_store st next id idx val).st.vars = st.vars ∧
        (array_store st next id idx val).st.arrays = st.arrays ∧
        (array_store st next id idx val).st.for_stack = st.for_stack ∧
        (array_store st next id idx val).st.out = st.out) ∧
      (∀ arr, st.arrays id = some arr → 0 ≤ idx → idx < (arr.length : Int) →
        (array_store st next id idx val).rc = 1 ∧
        (array_store st next id idx val).next_index = next ∧
        (array_store st next id idx val).st.arrays id = some (arr.set idx.toNat val) ∧
        (arr.set idx.toNat val).length = arr.length ∧
        (arr.set idx.toNat val)[idx.toNat]? = some val ∧
        (∀ k, k ≠ idx.toNat → (arr.set idx.toNat val)[k]? = arr[k]?) ∧
        (∀ j, j ≠ id → (array_store st next id idx val).st.arrays j = st.arrays j) ∧
        (array_store st next id idx val).st.vars = st.vars ∧
        (array_store st next id idx val).st.for_stack = st.for_stack ∧
        (array_store st next id idx val).st.out = st.out ∧
        (array_store st next id idx val).st.err = st.err)) ∧
    (∀ (V : Type) (A : Arith V) (program : List Line) (pc : Nat) (line : Line) (fuel : Nat)
      (st : State V), program[pc]? = some line →
      (run_statement A program pc line.text (pc + 1) st).rc = -1 →
      run_loop A program (fuel + 1) pc st =
        (Halt.failed, (run_statement A program pc line.text (pc + 1) st).st)) ∧
    ((run_program exact
        (mkProgram [(10, "DIM A(3)"), (20, "LET A(9)=5"), (30, "PRINT 1"), (40, "END")])
        10 stZero).1 = Halt.failed ∧
      (run_program exact
        (mkProgram [(10, "DIM A(3)"), (20, "LET A(9)=5"), (30, "PRINT 1"), (40, "END")])
        10 stZero).2.out = [] ∧
      (run_program exact
        (mkProgram [(10, "DIM A(3)"), (20, "LET A(9)=5"), (30, "PRINT 1"), (40, "END")])
        10 stZero).2.err = [Diag.outOfBounds 0 9] ∧
      (run_program exact
        (mkProgram [(10, "DIM A(3)"), (20, "LET A(9)=5"), (30, "PRINT 1"), (40, "END")])
        10 stZero).2.arrays 0 = some [0, 0, 0, 0]) ∧
    ((run_program exact (mkProgram [(10, "B(0)=5"), (20, "PRINT 1"), (30, "END")])
        10 stZero).1 = Halt.failed ∧
      (run_program exact (mkProgram [(10, "B(0)=5"), (20, "PRINT 1"), (30, "END")])
        10 stZero).2.out = [] ∧
      (run_program exact (mkProgram [(10, "B(0)=5"), (20, "PRINT 1"), (30, "END")])
        10 stZero).2.err = [Diag.notDimd 1]) := by
  refine ⟨?_, ?_, ?_, ?_, ?_, ?_⟩
  · intro V A program pc next st ws ws0 letter ws1 e1 ws2 ws3 e2 rest h h0 hne hl h1 he1 h2 h3
      he2 hr
    exact ⟨run_let_array A program pc next st ws ws0 letter ws1 e1 ws2 ws3 e2 rest h h0 hne hl
        h1 he1 h2 h3 he2 hr,
      run_bare_array A program pc next st ws letter ws1 e1 ws2 ws3 e2 rest h hl h1 he1 h2 h3
        he2 hr⟩
  · intro V A program pc next st ws ws0 letter ws1 u h h0 hne hl h1
    constructor
    · obtain ⟨hs, hi, hdrop⟩ := isLetText_letText ws ws0 (letter :: (ws1 ++ '(' :: u)) h h0 hne
      rw [run_statement_let A program pc _ next st (by rw [hs]; exact hi), hs, hdrop]
      exact stmt_let_array_all A st next ws0 letter ws1 u h0 hl h1
    · rw [run_bare_body A program pc next st ws letter _ h hl (not_alpha_paren _ h1)]
      exact stmt_assign_array_all A st next _ letter ws1 u hl h1
  · intro V st next id idx val
    refine ⟨array_store_fail st next id idx val, array_store_fail_state st next id idx val, ?_⟩
    intro arr ha h0 h1
    have hlt : idx.toNat < arr.length := by omega
    rw [array_store_ok st next id idx val arr ha h0 h1]
    refine ⟨rfl, rfl, ?_, ?_, ?_, ?_, ?_, rfl, rfl, rfl, rfl⟩
    · simp [State.setArray]
    · simp
    · simp [hlt]
    · intro k hk
      simp [List.getElem?_set, Ne.symm hk]
    · intro j hj
      simp [State.setArray, hj]
  · intro V A program pc line fuel st hl hr
    exact run_loop_fail A program fuel pc st line hl hr
  · decide!
  · decide!

/-- Failing input of C11: after `10 DIM A(3)` and `20 LET A(0)=7` the statement
`30 LET A(B1(0)) = 5`, whose index is in range, neither stores 5 nor fails: the
read `B1(0)` leaves the cursor in front of its subscript, `=` is not found, the
value is read from `(0)`, and A(0) becomes 0; `PRINT A(0)` prints 0.  The same
statement without LET fails with `Unknown statement` although the array exists
and the index is in range. -/
theorem array_assign_fail_hard_counterexample :
    ((run_program exact
        (mkProgram [(10, "DIM A(3)"), (20, "LET A(0)=7"), (30, "LET A(B1(0)) = 5"),
          (40, "PRINT A(0)"), (50, "END")]) 10 stZero).1 = Halt.ended ∧
      (run_program exact
        (mkProgram [(10, "DIM A(3)"), (20, "LET A(0)=7"), (30, "LET A(B1(0)) = 5"),
          (40, "PRINT A(0)"), (50, "END")]) 10 stZero).2.out = [Out.num 0] ∧
      (run_program exact
        (mkProgram [(10, "DIM A(3)"), (20, "LET A(0)=7"), (30, "LET A(B1(0)) = 5"),
          (40, "PRINT A(0)"), (50, "END")]) 10 stZero).2.err = [Diag.arraysOnlyAZ] ∧
      (run_program exact
        (mkProgram [(10, "DIM A(3)"), (20, "LET A(0)=7"), (30, "LET A(B1(0)) = 5"),
          (40, "PRINT A(0)"), (50, "END")]) 10 stZero).2.arrays 0 = some [0, 0, 0, 0]) ∧
    ((run_program exact
        (mkProgram [(10, "DIM A(3)"), (20, "LET A(0)=7"), (30, "A(B1(0)) = 5"),
          (40, "PRINT A(0)"), (50, "END")]) 10 stZero).1 = Halt.failed ∧
      (run_program exact
        (mkProgram [(10, "DIM A(3)"), (20, "LET A(0)=7"), (30, "A(B1(0)) = 5"),
          (40, "PRINT A(0)"), (50, "END")]) 10 stZero).2.out = [] ∧
      (run_program exact
        (mkProgram [(10, "DIM A(3)"), (20, "LET A(0)=7"), (30, "A(B1(0)) = 5"),
          (40, "PRINT A(0)"), (50, "END")]) 10 stZero).2.err =
        [Diag.arraysOnlyAZ, Diag.unknownStatement "A(B1(0)) = 5".toList] ∧
      (run_program exact
        (mkProgram [(10, "DIM A(3)"), (20, "LET A(0)=7"), (30, "A(B1(0)) = 5"),
          (40, "PRINT A(0)"), (50, "END")]) 10 stZero).2.arrays 0 = some [7, 0, 0, 0]) ∧
    (run_program exact
      (mkProgram [(10, "DIM A(3)"), (20, "LET A(0)=7"), (30, "LET A(0) = 5"),
        (40, "PRINT A(0)"), (50, "END")]) 10 stZero).2.out = [Out.num 5] := by
  refine ⟨by decide!, by decide!, by decide!⟩

/-- Witness of C11: `LET A(2)=5` in a state where A has four cells. -/
theorem array_assign_fail_hard_witness :
    (exprLit ['2']).WF ∧ (exprLit ['5']).WF ∧
    [] ++ letText [' '] (arrayAssignText 'A' [] (exprLit ['2']) [] [] (exprLit ['5']) []) =
      "LET A(2)=5".toList ∧
    run_statement exact [] 0
      ([] ++ letText [' '] (arrayAssignText 'A' [] (exprLit ['2']) [] [] (exprLit ['5']) []))
      1 stDimA =
      array_store stDimA 1 (slot 'A' none) (exact.toInt ((exprLit ['2']).eval exact stDimA))
        ((exprLit ['5']).eval exact stDimA) ∧
    (array_store stDimA 1 (slot 'A' none) (exact.toInt ((exprLit ['2']).eval exact stDimA))
        ((exprLit ['5']).eval exact stDimA)).st.arrays 0 = some [0, 0, 5, 0] :=
  ⟨exprLit_wf _ (by decide) (by decide), exprLit_wf _ (by decide) (by decide), by decide,
    (array_assign_fail_hard.1 ℚ exact [] 0 1 stDimA [] [' '] 'A' [] (exprLit ['2']) [] []
      (exprLit ['5']) [] (by decide) (by decide) (by decide) (by decide) (by decide)
      (exprLit_wf _ (by decide) (by decide)) (by decide) (by decide)
      (exprLit_wf _ (by decide) (by decide)) followE_nil).1,
    by decide!⟩

/-! ## Names with a digit in front of a subscript -/

/-- C12 (the code departs from it for array reads): a name with a digit followed
by `(` makes the statement return -1, on
which the run loop stops, when it is the target of LET or of an assignment
without keyword (message `arrays only supported for A-Z`) and when it is an
entry of a DIM statement, the first or one behind well-formed entries (message
`Syntax error in DIM`).  As an array read inside an expression it does not:
`parse_factor` writes the message and returns 0 before the parenthesis is
consumed, so that `parse_expr` returns 0 with the cursor in front of the
subscript and the statement goes on from there.  A PRINT statement of such a
read prints 0 and returns 1; a FOR statement with such a read as start value
does not find TO and returns -1. -/
theorem digit_subscript :
    (∀ (V : Type) (A : Arith V) (program : List Line) (pc next : Nat) (st : State V)
      (ws ws0 : List Char) (letter digit : Char) (ws1 t : List Char),
      Blank ws → Blank ws0 → ws0 ≠ [] → isalpha letter = true → isdigit digit = true →
      Blank ws1 →
      run_statement A program pc (ws ++ letText ws0 (letter :: digit :: (ws1 ++ '(' :: t)))
          next st = ⟨-1, next, st.log [Diag.arraysOnlyAZ]⟩ ∧
      run_statement A program pc (ws ++ letter :: digit :: (ws1 ++ '(' :: t)) next st =
        ⟨-1, next, st.log [Diag.arraysOnlyAZ]⟩) ∧
    (∀ (V : Type) (A : Arith V) (program : List Line) (pc next : Nat) (st : State V)
      (ws ws0 wsd : List Char) (ds : List DimEntry) (letter digit : Char) (t : List Char),
      Blank ws → Blank ws0 → ws0 ≠ [] → Blank wsd → (∀ d ∈ ds, d.WF) →
      isalpha letter = true → isdigit digit = true →
      (run_statement A program pc
        (ws ++ dimText ws0 (dimEntries wsd ds (letter :: digit :: t))) next st).rc = -1) ∧
    (∀ (V : Type) (A : Arith V) (program : List Line) (pc : Nat) (line : Line) (fuel : Nat)
      (st : State V), program[pc]? = some line →
      (run_statement A program pc line.text (pc + 1) st).rc = -1 →
      run_loop A program (fuel + 1) pc st =
        (Halt.failed, (run_statement A program pc line.text (pc + 1) st).st)) ∧
    (∀ (V : Type) (A : Arith V) (st : State V) (ws : List Char) (letter digit : Char)
      (ws1 t : List Char), Blank ws → isalpha letter = true → isdigit digit = true →
      Blank ws1 →
      parse_factor A st (ws ++ letter :: digit :: (ws1 ++ '(' :: t)) =
        (A.ofRat 0, '(' :: t, [Diag.arraysOnlyAZ])) ∧
    (∀ (V : Type) (A : Arith V) (st : State V) (ws : List Char) (letter digit : Char)
      (ws1 t : List Char), Blank ws → isalpha letter = true → isdigit digit = true →
      Blank ws1 →
      parse_expr A st (ws ++ letter :: digit :: (ws1 ++ '(' :: t)) =
        (A.ofRat 0, '(' :: t, [Diag.arraysOnlyAZ])) ∧
    (∀ (V : Type) (A : Arith V) (program : List Line) (pc next : Nat) (st : State V)
      (ws : List Char) (letter digit : Char) (ws1 t : List Char),
      Blank ws → isalpha letter = true → isdigit digit = true → Blank ws1 →
      run_statement A program pc
          ('P' :: 'R' :: 'I' :: 'N' :: 'T' :: ' ' ::
            (ws ++ letter :: digit :: (ws1 ++ '(' :: t))) next st =
        ⟨1, next,
          { st.log [Diag.arraysOnlyAZ] with out := st.out ++ [Out.num (A.ofRat 0)] }⟩) ∧
    (∀ (V : Type) (A : Arith V) (program : List Line) (pc next : Nat) (st : State V)
      (ws0 : List Char) (name : Char) (nd : Option Char) (wsn ws : List Char)
      (letter digit : Char) (ws1 t : List Char),
      Blank ws0 → ws0 ≠ [] → isalpha name = true → (∀ d ∈ nd, isdigit d = true) →
      Blank wsn → Blank ws → isalpha letter = true → isdigit digit = true → Blank ws1 →
      run_statement A program pc
          ('F' :: 'O' :: 'R' :: (ws0 ++ name :: (nd.toList ++ (wsn ++ '=' ::
            (ws ++ letter :: digit :: (ws1 ++ '(' :: t)))))) next st =
        ⟨-1, next, st.log [Diag.arraysOnlyAZ, Diag.missingTo]⟩) ∧
    ((run_program exact (mkProgram [(10, "DIM B(2), A1(3)"), (20, "PRINT 7"), (30, "END")])
        10 stZero).1 = Halt.failed ∧
      (run_program exact (mkProgram [(10, "DIM B(2), A1(3)"), (20, "PRINT 7"), (30, "END")])
        10 stZero).2.out = [] ∧
      (run_program exact (mkProgram [(10, "DIM B(2), A1(3)"), (20, "PRINT 7"), (30, "END")])
        10 stZero).2.err = [Diag.syntaxDim]) := by
  refine ⟨?_, ?_, ?_, ?_, ?_, ?_, ?_, ?_⟩
  · intro V A program pc next st ws ws0 letter digit ws1 t h h0 hne hl hd h1
    constructor
    · obtain ⟨hs, hi, hdrop⟩ := isLetText_letText ws ws0
        (letter :: digit :: (ws1 ++ '(' :: t)) h h0 hne
      rw [run_statement_let A program pc _ next st (by rw [hs]; exact hi), hs, hdrop]
      exact stmt_let_digit A st next ws0 letter digit ws1 t h0 hl hd h1
    · obtain ⟨hsp, -⟩ := isalpha_facts hl
      obtain ⟨-, hna, -⟩ := isdigit_facts (Or.inl hd)
      have hs : skip_spaces (ws ++ letter :: digit :: (ws1 ++ '(' :: t)) =
          letter :: digit :: (ws1 ++ '(' :: t) := skip_spaces_tok h hsp
      have ha : isalpha (at_ (skip_spaces (ws ++ letter :: digit :: (ws1 ++ '(' :: t))) 1) =
          false := by
        rw [hs]
        exact hna
      rw [run_statement_assign A program pc _ next st ha, hs]
      exact stmt_assign_digit A st next _ letter digit ws1 t hl hd h1
  · intro V A program pc next st ws ws0 wsd ds letter digit t h h0 hne hwsd hds hl hd
    exact run_dim_digit A program pc next st ws ws0 wsd ds letter digit t h h0 hne hwsd hds hl hd
  · intro V A program pc line fuel st hl hr
    exact run_loop_fail A program fuel pc st line hl hr
  · intro V A st ws letter digit ws1 t hws hl hd h1
    exact parse_factor_digit A st ws letter digit ws1 t hws hl hd h1
  · intro V A st ws letter digit ws1 t hws hl hd h1
    exact parse_expr_digit A st ws letter digit ws1 t hws hl hd h1
  · intro V A program pc next st ws letter digit ws1 t hws hl hd h1
    exact run_print_digit A program pc next st ws letter digit ws1 t hws hl hd h1
  · intro V A program pc next st ws0 name nd wsn ws letter digit ws1 t h0 hne hn hnd hwsn hws
      hl hd h1
    exact run_for_digit A program pc next st ws0 name nd wsn ws letter digit ws1 t h0 hne hn
      hnd hwsn hws hl hd h1
  · decide!

/-- Failing input of C12: the array read `A1(2)` in `10 PRINT A1(2)` does not
fail: the statement returns 1, prints 0, and the program goes on to print 7 and
ends at END.  What follows the read is parsed from the subscript on: the program
`10 FOR I=A1(2) TO 5` stops at the FOR statement with `missing TO`, and after
`10 DIM B(1)` the statement `20 LET B(0)=A1(2)+5` stores 0, not 5, because the
`+5` behind the subscript is never read. -/
theorem digit_subscript_counterexample :
    (run_statement exact [] 0 "PRINT A1(2)".toList 1 stZero).rc = 1 ∧
    (run_program exact (mkProgram [(10, "PRINT A1(2)"), (20, "PRINT 7"), (30, "END")])
      10 stZero).1 = Halt.ended ∧
    (run_program exact (mkProgram [(10, "PRINT A1(2)"), (20, "PRINT 7"), (30, "END")])
      10 stZero).2.out = [Out.num 0, Out.num 7] ∧
    (run_program exact (mkProgram [(10, "PRINT A1(2)"), (20, "PRINT 7"), (30, "END")])
      10 stZero).2.err = [Diag.arraysOnlyAZ] ∧
    (run_program exact
      (mkProgram [(10, "FOR I=A1(2) TO 5"), (20, "PRINT I"), (30, "NEXT I"), (40, "END")])
      30 stZero).1 = Halt.failed ∧
    (run_program exact
      (mkProgram [(10, "FOR I=A1(2) TO 5"), (20, "PRINT I"), (30, "NEXT I"), (40, "END")])
      30 stZero).2.out = [] ∧
    (run_program exact
      (mkProgram [(10, "FOR I=A1(2) TO 5"), (20, "PRINT I"), (30, "NEXT I"), (40, "END")])
      30 stZero).2.err = [Diag.arraysOnlyAZ, Diag.missingTo] ∧
    (run_program exact
      (mkProgram [(10, "DIM B(1)"), (20, "LET B(0)=A1(2)+5"), (30, "PRINT B(0)"), (40, "END")])
      30 stZero).1 = Halt.ended ∧
    (run_program exact
      (mkProgram [(10, "DIM B(1)"), (20, "LET B(0)=A1(2)+5"), (30, "PRINT B(0)"), (40, "END")])
      30 stZero).2.out = [Out.num 0] := by
  decide!

/-- Witness of C12: `LET A1(2)=5` and `A1(2)=5`. -/
theorem digit_subscript_witness :
    [] ++ letText [' '] ('A' :: '1' :: ([] ++ '(' :: "2)=5".toList)) = "LET A1(2)=5".toList ∧
    [] ++ 'A' :: '1' :: ([] ++ '(' :: "2)=5".toList) = "A1(2)=5".toList ∧
    run_statement exact [] 0
      ([] ++ letText [' '] ('A' :: '1' :: ([] ++ '(' :: "2)=5".toList))) 1 stZero =
        ⟨-1, 1, stZero.log [Diag.arraysOnlyAZ]⟩ ∧
    run_statement exact [] 0 ([] ++ 'A' :: '1' :: ([] ++ '(' :: "2)=5".toList)) 1 stZero =
      ⟨-1, 1, stZero.log [Diag.arraysOnlyAZ]⟩ :=
  ⟨by decide, by decide,
    digit_subscript.1 ℚ exact [] 0 1 stZero [] [' '] 'A' '1' [] "2)=5".toList (by decide)
      (by decide) (by decide) (by decide) (by decide) (by decide)⟩

end TinyBasic
